import Mathlib

/-!
# CinniCoin secure messaging (`src/emessage.cpp`): bucket store, proof of work, anti-entropy

A shallow embedding of the bucket store, the proof-of-work gate, the `smsg*` protocol
handlers, the bucket management pass of `ThreadSecureMsg`, `SecureMsgEncrypt` and
`SecureMsgDecrypt`, and `SecureMsgAddAddress` of `emessage.cpp`, and theorems about them.

Conventions of the embedding.

* A byte buffer (`unsigned char*` with its length, `std::vector<unsigned char>`) is a
  `List Nat`; every byte the code itself writes is reduced `% 256`.
* `int64_t` values are `Int`, `uint32_t` values are `Nat`.  Signed overflow is undefined in
  C++, so the model coincides with the code wherever `now + SMSG_TIME_LEEWAY` and
  `now - SMSG_RETENTION` are representable; `%` on `int64_t` is truncated division
  (`Int.tmod`).
* `GetTime()` is an explicit argument `now`; one call of a handler reads one clock value.
* `std::set<SecMsgToken>` is a list kept in ascending token order, `std::map<int64_t, _>` an
  association list kept in ascending key order.
* The directory `smsgStore/` is an association list from the bucket start `b` to the bytes of
  `<b>_01.dat`.
* OpenSSL's HMAC-SHA256 is a parameter `hmac key data`, `none` when any of the
  `HMAC_*` calls fails.
-/

namespace CinniCoin

/-! ## Constants -/

/-- The deployment constants of `emessage.h`, which is not among the sources: they are
taken as parameters (all are unsigned in the code that uses them). -/
structure SmsgConsts where
  SMSG_BUCKET_LEN : Nat
  SMSG_RETENTION : Nat
  SMSG_TIME_LEEWAY : Nat
  SMSG_MAX_MSG_WORST : Nat
deriving DecidableEq, Repr

/-- Modelled from the spec: the length of the envelope header, the sum of the field widths
`hash[4] | version[1] | timestamp[8] | iv[16] | cpkR[33] | destHash[20] | mac[32] |
nonse[4] | nPayload[4]` of the `SecureMessage` struct, which is declared in `emessage.h`. -/
def SMSG_HDR_LEN : Nat := 122

/-! ## Bytes and the header layout -/

/-- The `k` low bytes of `v`, least significant first (`memcpy` from an integer on a
little-endian machine). -/
def leBytes : Nat → Nat → List Nat
  | 0, _ => []
  | k + 1, v => (v % 256) :: leBytes k (v / 256)

/-- The value of a little-endian byte string (`memcpy` into an unsigned integer). -/
def leValue : List Nat → Nat
  | [] => 0
  | b :: bs => b + 256 * leValue bs

/-- Bytes of a `uint32_t`. -/
def encodeU32 (v : Nat) : List Nat := leBytes 4 v

/-- Read a `uint32_t` from the first 4 bytes of a buffer. -/
def decodeU32 (bs : List Nat) : Nat := leValue (bs.take 4)

/-- Bytes of an `int64_t` (two's complement). -/
def encodeI64 (v : Int) : List Nat := leBytes 8 (v % 18446744073709551616).toNat

/-- Read an `int64_t` from the first 8 bytes of a buffer. -/
def decodeI64 (bs : List Nat) : Int :=
  let n := leValue (bs.take 8)
  if n < 9223372036854775808 then (n : Int) else (n : Int) - 18446744073709551616

/-- Modelled from the spec: `psmsg->hash`, bytes 0..4 of the header (struct layout of
`emessage.h`). -/
def hdrHash (pHeader : List Nat) : List Nat := pHeader.take 4

/-- Modelled from the spec: `psmsg->version`, byte 4 of the header. -/
def hdrVersion (pHeader : List Nat) : Nat := pHeader.getD 4 0

/-- Modelled from the spec: `psmsg->timestamp`, bytes 5..13 of the header. -/
def hdrTimestamp (pHeader : List Nat) : Int := decodeI64 (pHeader.drop 5)

/-- Modelled from the spec: `psmsg->nonse`, bytes 114..118 of the header. -/
def hdrNonse (pHeader : List Nat) : List Nat := (pHeader.drop 114).take 4

/-- Modelled from the spec: `psmsg->nPayload`, bytes 118..122 of the header. -/
def hdrNPayload (pHeader : List Nat) : Nat := decodeU32 (pHeader.drop 118)

/-- The header after `memcpy(&psmsg->nonse[0], &nonse, 4)`. -/
def setNonse (pHeader : List Nat) (nonse : Nat) : List Nat :=
  pHeader.take 114 ++ encodeU32 nonse ++ pHeader.drop 118

/-- The header after `memcpy(psmsg->hash, sha256Hash, 4)`. -/
def setHdrHash (pHeader sha256Hash : List Nat) : List Nat :=
  sha256Hash.take 4 ++ pHeader.drop 4

/-! ## Proof of work (`SecureMsgValidate`, `SecureMsgSetHash`) -/

/-- C's `a || b` on integers: 1 when either operand is non-zero, else 0. -/
def cLogicalOr (a b : Nat) : Nat := if a ≠ 0 ∨ b ≠ 0 then 1 else 0

/-- The mask `((1<<0) || (1<<1) || (1<<2))` exactly as written in the source. -/
def powMask : Nat := cLogicalOr (cLogicalOr (1 <<< 0) (1 <<< 1)) (1 <<< 2)

/-- The acceptance test of both `SecureMsgSetHash` and `SecureMsgValidate`:
`sha256Hash[31] == 0 && sha256Hash[30] == 0 && (~(sha256Hash[29]) & mask)`.
The mask lies within the low byte, where `~x` of a byte `x` is `255 - x`. -/
def powAccept (sha256Hash : List Nat) : Bool :=
  sha256Hash.getD 31 0 == 0 && sha256Hash.getD 30 0 == 0 &&
    ((255 - sha256Hash.getD 29 0) &&& powMask) != 0

/-- The HMAC key `civ`: the 4 bytes of `nonse` copied 8 times. -/
def powKey (nonse : Nat) : List Nat := (List.replicate 8 (encodeU32 nonse)).flatten

/-- The HMAC input: `pHeader+4` for `SMSG_HDR_LEN-4` bytes, then the `nPayload` bytes at
`pPayload` twice. -/
def powData (pHeader pPayload : List Nat) (nPayload : Nat) : List Nat :=
  (pHeader.drop 4).take (SMSG_HDR_LEN - 4) ++ pPayload.take nPayload ++ pPayload.take nPayload

/-- The digest of one HMAC run, `none` when a call fails or `nBytes != 32`. -/
def powDigest (hmac : List Nat → List Nat → Option (List Nat)) (nonse : Nat)
    (pHeader pPayload : List Nat) (nPayload : Nat) : Option (List Nat) :=
  match hmac (powKey nonse) (powData pHeader pPayload nPayload) with
  | none => none
  | some h => if h.length = 32 then some h else none

/-- Code `SecureMsgValidate(pHeader, pPayload, nPayload)`; `pPayload` is the memory the
pointer addresses, of which the code reads `nPayload` bytes.  Returns 0 success, 1 error,
2 invalid hash, 3 checksum mismatch, 4 invalid version, 5 payload too large. -/
def SecureMsgValidate (C : SmsgConsts) (hmac : List Nat → List Nat → Option (List Nat))
    (pHeader pPayload : List Nat) (nPayload : Nat) : Nat :=
  if hdrVersion pHeader ≠ 1 then 4
  else if nPayload > C.SMSG_MAX_MSG_WORST then 5
  else
    match powDigest hmac (decodeU32 (hdrNonse pHeader)) pHeader pPayload nPayload with
    | none => 1
    | some sha256Hash =>
      let rv := if powAccept sha256Hash then 0 else 2
      if sha256Hash.take 4 ≠ hdrHash pHeader then 3 else rv

/-- The loop of `SecureMsgSetHash` from counter value `nonse` on, with the shutdown flag
clear: the header as the loop leaves it, and the digest when one was accepted. -/
def setHashLoop (hmac : List Nat → List Nat → Option (List Nat)) (pPayload : List Nat)
    (nPayload : Nat) (pHeader : List Nat) (nonse : Nat) : Option (List Nat) × List Nat :=
  match powDigest hmac nonse (setNonse pHeader nonse) pPayload nPayload with
  | none => (none, setNonse pHeader nonse)
  | some sha256Hash =>
    if powAccept sha256Hash then (some sha256Hash, setNonse pHeader nonse)
    else if nonse ≥ 4294967295 then (none, setNonse pHeader nonse)
    else setHashLoop hmac pPayload nPayload (setNonse pHeader nonse) (nonse + 1)
termination_by 4294967295 - nonse
decreasing_by omega

/-- Code `SecureMsgSetHash(pHeader, pPayload, nPayload)`: the return value (0 success,
1 error, 2 stopped by shutdown) and the header as the call leaves it.  `fShutdown` is the
value of the global flag during the call. -/
def SecureMsgSetHash (hmac : List Nat → List Nat → Option (List Nat)) (fShutdown : Bool)
    (pHeader pPayload : List Nat) (nPayload : Nat) : Nat × List Nat :=
  if fShutdown then (2, pHeader)
  else
    match setHashLoop hmac pPayload nPayload pHeader 0 with
    | (none, hdr) => (1, hdr)
    | (some sha256Hash, hdr) => (0, setHdrHash hdr sha256Hash)

/-! ## XXH32 -/

/-- Reduction to 32 bits. -/
def u32 (x : Nat) : Nat := x % 4294967296

/-- Modelled from the spec: the XXH32 prime constants (`xxhash/xxhash.c` is not among the
sources; the bucket digest is "XXH32 with seed 1"). -/
def PRIME32_1 : Nat := 2654435761

/-- Modelled from the spec: second XXH32 prime. -/
def PRIME32_2 : Nat := 2246822519

/-- Modelled from the spec: third XXH32 prime. -/
def PRIME32_3 : Nat := 3266489917

/-- Modelled from the spec: fourth XXH32 prime. -/
def PRIME32_4 : Nat := 668265263

/-- Modelled from the spec: fifth XXH32 prime. -/
def PRIME32_5 : Nat := 374761393

/-- Rotate a 32-bit value left by `r` bits. -/
def rotl32 (x r : Nat) : Nat := u32 ((x <<< r) ||| (x >>> (32 - r)))

/-- Little-endian 32-bit read of four bytes. -/
def read32 (a b c d : Nat) : Nat := a + 256 * b + 65536 * c + 16777216 * d

/-- Modelled from the spec: one XXH32 lane round. -/
def xxhRound (acc input : Nat) : Nat :=
  u32 (rotl32 (u32 (acc + input * PRIME32_2)) 13 * PRIME32_1)

/-- Modelled from the spec: XXH32 consumes the input in 16-byte stripes over four lanes;
returns the lanes and the unconsumed tail. -/
def xxhStripes : List Nat → Nat × Nat × Nat × Nat → (Nat × Nat × Nat × Nat) × List Nat
  | a0 :: a1 :: a2 :: a3 :: b0 :: b1 :: b2 :: b3 :: c0 :: c1 :: c2 :: c3 ::
      d0 :: d1 :: d2 :: d3 :: rest, (v1, v2, v3, v4) =>
    xxhStripes rest (xxhRound v1 (read32 a0 a1 a2 a3), xxhRound v2 (read32 b0 b1 b2 b3),
      xxhRound v3 (read32 c0 c1 c2 c3), xxhRound v4 (read32 d0 d1 d2 d3))
  | rest, v => (v, rest)

/-- Modelled from the spec: XXH32 tail, byte by byte. -/
def xxhTailBytes : List Nat → Nat → Nat
  | [], h => h
  | b :: rest, h => xxhTailBytes rest (u32 (rotl32 (u32 (h + b * PRIME32_5)) 11 * PRIME32_1))

/-- Modelled from the spec: XXH32 tail, 4 bytes at a time, then single bytes. -/
def xxhTail : List Nat → Nat → Nat
  | a :: b :: c :: d :: rest, h =>
    xxhTail rest (u32 (rotl32 (u32 (h + read32 a b c d * PRIME32_3)) 17 * PRIME32_4))
  | rest, h => xxhTailBytes rest h

/-- Modelled from the spec: XXH32 final mix. -/
def xxhAvalanche (h : Nat) : Nat :=
  let h1 := h ^^^ (h >>> 15)
  let h2 := u32 (h1 * PRIME32_2)
  let h3 := h2 ^^^ (h2 >>> 13)
  let h4 := u32 (h3 * PRIME32_3)
  h4 ^^^ (h4 >>> 16)

/-- Modelled from the spec: XXH32 of a byte string (`XXH32_init(seed)`, any sequence of
`XXH32_update` calls whose inputs concatenate to `input`, then `XXH32_digest`). -/
def XXH32 (seed : Nat) (input : List Nat) : Nat :=
  let acc :=
    if input.length ≥ 16 then
      let r := xxhStripes input (u32 (seed + PRIME32_1 + PRIME32_2), u32 (seed + PRIME32_2),
        u32 seed, u32 (seed + 4294967296 - PRIME32_1))
      (u32 (rotl32 r.1.1 1 + rotl32 r.1.2.1 7 + rotl32 r.1.2.2.1 12 + rotl32 r.1.2.2.2 18), r.2)
    else (u32 (seed + PRIME32_5), input)
  xxhAvalanche (xxhTail acc.2 (u32 (acc.1 + input.length)))

/-! ## Tokens and buckets -/

/-- Class `SecMsgToken`: `timestamp`, the 8-byte `sample`, and the file `offset`. -/
structure SecMsgToken where
  timestamp : Int
  sample : List Nat
  offset : Nat
deriving DecidableEq, Repr

/-- Byte-wise comparison `memcmp(a, b, 8) < 0` of two samples. -/
def sampleLt : List Nat → List Nat → Bool
  | [], [] => false
  | [], _ :: _ => true
  | _ :: _, [] => false
  | a :: as, b :: bs => decide (a < b) || (a == b && sampleLt as bs)

/-- Modelled from the spec: `SecMsgToken::operator<` (declared in `emessage.h`), the
lexicographic order by `(timestamp, sample)`; `offset` takes no part. -/
def tokenLt (x y : SecMsgToken) : Bool :=
  if x.timestamp = y.timestamp then sampleLt x.sample y.sample
  else decide (x.timestamp < y.timestamp)

/-- Modelled from the spec: the sample the `SecMsgToken(ts, p, np, o)` constructor takes
(declared in `emessage.h`): the first 8 bytes of the payload; a payload of fewer than 8
bytes has an all-zero sample, so that a sample always has 8 bytes. -/
def tokenSample (pPayload : List Nat) (nPayload : Nat) : List Nat :=
  if nPayload < 8 then List.replicate 8 0 else pPayload.take 8

/-- Lookup `std::set<SecMsgToken>::find`: the element equivalent to `t` under the order. -/
def setFind : List SecMsgToken → SecMsgToken → Option SecMsgToken
  | [], _ => none
  | x :: xs, t => if !tokenLt x t && !tokenLt t x then some x else setFind xs t

/-- Insertion `std::set<SecMsgToken>::insert`: in order, a no-op when an equivalent
element is present. -/
def setInsert : List SecMsgToken → SecMsgToken → List SecMsgToken
  | [], t => [t]
  | x :: xs, t =>
    if tokenLt t x then t :: x :: xs
    else if tokenLt x t then x :: setInsert xs t
    else x :: xs

/-- Class `SecMsgBucket`.  Modelled from the spec: a bucket made by `smsgSets[key]` is
empty and unlocked with zero `timeChanged` and `hash` (constructor in `emessage.h`). -/
structure SecMsgBucket where
  timeChanged : Int := 0
  hash : Nat := 0
  nLockCount : Nat := 0
  nLockPeerId : Nat := 0
  setTokens : List SecMsgToken := []
deriving DecidableEq, Repr

/-- The bytes fed to XXH32 by `hashBucket`: the samples in set order. -/
def bucketSamples (setTokens : List SecMsgToken) : List Nat :=
  (setTokens.map (fun t => t.sample)).flatten

/-- Code `SecMsgBucket::hashBucket()`. -/
def SecMsgBucket.hashBucket (now : Int) (b : SecMsgBucket) : SecMsgBucket :=
  { b with timeChanged := now, hash := XXH32 1 (bucketSamples b.setTokens) }

/-! ## The bucket map and the bucket files -/

/-- Lookup `std::map::find`. -/
def mapFind {β : Type} : List (Int × β) → Int → Option β
  | [], _ => none
  | (k, v) :: rest, key => if k = key then some v else mapFind rest key

/-- Assignment to the entry of `key`, inserted in key order when absent. -/
def mapPut {β : Type} : List (Int × β) → Int → β → List (Int × β)
  | [], key, v => [(key, v)]
  | (k, w) :: rest, key, v =>
    if key < k then (key, v) :: (k, w) :: rest
    else if k = key then (k, v) :: rest
    else (k, w) :: mapPut rest key v

/-- The map after evaluating `smsgSets[key]`: a fresh bucket is created when absent. -/
def mapTouch (m : List (Int × SecMsgBucket)) (key : Int) : List (Int × SecMsgBucket) :=
  match mapFind m key with
  | some _ => m
  | none => mapPut m key {}

/-- The bucket `smsgSets[key]` refers to. -/
def mapAt (m : List (Int × SecMsgBucket)) (key : Int) : SecMsgBucket :=
  (mapFind m key).getD {}

/-- The global `smsgSets` and the files of `smsgStore/` (`files` maps `b` to the bytes of
`<b>_01.dat`). -/
structure SmsgState where
  smsgSets : List (Int × SecMsgBucket) := []
  files : List (Int × List Nat) := []
deriving DecidableEq, Repr

/-- The outcome of the file operations of one `SecureMsgStore` call: all succeed, `fopen`
fails, or an `fwrite` comes up short after `written` bytes of the record. -/
inductive IoOutcome where
  | ok
  | openFails
  | writeFails (written : Nat)
deriving DecidableEq, Repr

/-- The bucket start `timestamp - (timestamp % SMSG_BUCKET_LEN)`, with C's `%`. -/
def bucketOf (C : SmsgConsts) (timestamp : Int) : Int :=
  timestamp - Int.tmod timestamp (C.SMSG_BUCKET_LEN : Int)

/-- The time test of `SecureMsgStore`: true when the timestamp is rejected. -/
def storeTimeRejected (C : SmsgConsts) (now timestamp : Int) : Bool :=
  decide (timestamp > now + (C.SMSG_TIME_LEEWAY : Int)) ||
    decide (timestamp < now - (C.SMSG_RETENTION : Int))

/-- Code `SecureMsgStore(pHeader, pPayload, nPayload, fUpdateBucket)`: the return value
(0 success, 1 failure) and the state the call leaves.  Both pointers are valid (the null
test is not modelled), and neither is the creation of the directory `smsgStore/`, which
is not a bucket file.  `fopen(.., "ab")` positions at the end of the file, so `ftell`
gives its length. -/
def SecureMsgStore (C : SmsgConsts) (now : Int) (io : IoOutcome) (s : SmsgState)
    (pHeader pPayload : List Nat) (nPayload : Nat) (fUpdateBucket : Bool) : Nat × SmsgState :=
  let timestamp := hdrTimestamp pHeader
  if storeTimeRejected C now timestamp then (1, s)
  else
    let bucket := bucketOf C timestamp
    let token : SecMsgToken := ⟨timestamp, tokenSample pPayload nPayload, 0⟩
    let sets := mapTouch s.smsgSets bucket
    match setFind (mapAt sets bucket).setTokens token with
    | some _ => (1, { s with smsgSets := sets })
    | none =>
      let old := (mapFind s.files bucket).getD []
      let record := pHeader.take SMSG_HDR_LEN ++ pPayload.take nPayload
      match io with
      | IoOutcome.openFails => (1, { s with smsgSets := sets })
      | IoOutcome.writeFails written =>
        (1, { smsgSets := sets,
              files := mapPut s.files bucket (old ++ record.take (min written (record.length - 1))) })
      | IoOutcome.ok =>
        let bkt := mapAt sets bucket
        let bkt1 := { bkt with setTokens := setInsert bkt.setTokens { token with offset := old.length } }
        let bkt2 := if fUpdateBucket then bkt1.hashBucket now else bkt1
        (0, { smsgSets := mapPut sets bucket bkt2, files := mapPut s.files bucket (old ++ record) })

/-- Code `SecureMsgRetrieve(token, vchData)`: `some vchData` when it returns 0, `none`
when it returns 1 (no file, or the file ends before the header or the payload does; a
read of an existing file fails in no other way). -/
def SecureMsgRetrieve (C : SmsgConsts) (files : List (Int × List Nat)) (token : SecMsgToken) :
    Option (List Nat) :=
  match mapFind files (bucketOf C token.timestamp) with
  | none => none
  | some content =>
    let atOfs := content.drop token.offset
    if atOfs.length < SMSG_HDR_LEN then none
    else
      let smsg := atOfs.take SMSG_HDR_LEN
      let body := atOfs.drop SMSG_HDR_LEN
      if body.length < hdrNPayload smsg then none
      else some (smsg ++ body.take (hdrNPayload smsg))

/-- The record loop of `SecureMsgBuildBucketSet` over one open file, from file position
`ofs` on; `fuel` bounds the number of iterations (every iteration advances by at least
`SMSG_HDR_LEN` bytes, so the length of the file is enough). -/
def scanBucketFile (content : List Nat) : Nat → Nat → List SecMsgToken → List SecMsgToken
  | 0, _, tokenSet => tokenSet
  | fuel + 1, ofs, tokenSet =>
    let atOfs := content.drop ofs
    if atOfs.length < SMSG_HDR_LEN then tokenSet
    else
      let smsg := atOfs.take SMSG_HDR_LEN
      let nPayload := hdrNPayload smsg
      if nPayload < 8 then scanBucketFile content fuel (ofs + SMSG_HDR_LEN) tokenSet
      else
        let body := atOfs.drop SMSG_HDR_LEN
        if body.length < 8 then tokenSet
        else
          scanBucketFile content fuel (ofs + SMSG_HDR_LEN + nPayload)
            (setInsert tokenSet ⟨hdrTimestamp smsg, body.take 8, ofs⟩)

/-- One directory entry of `SecureMsgBuildBucketSet`, a file `<fileTime>_01.dat` with its
bytes: an expired file is removed, any other is scanned into `smsgSets[fileTime]`, which
is then hashed. -/
def buildBucketStep (C : SmsgConsts) (now : Int) (s : SmsgState) (entry : Int × List Nat) :
    SmsgState :=
  if entry.1 < now - (C.SMSG_RETENTION : Int) then
    { s with files := s.files.filter (fun f => f.1 ≠ entry.1) }
  else
    let sets := mapTouch s.smsgSets entry.1
    let bkt := mapAt sets entry.1
    let bkt1 := { bkt with
      setTokens := scanBucketFile entry.2 (entry.2.length + 1) 0 bkt.setTokens }
    { s with smsgSets := mapPut sets entry.1 (bkt1.hashBucket now) }

/-- Code `SecureMsgBuildBucketSet()`: one pass over the directory entries. -/
def SecureMsgBuildBucketSet (C : SmsgConsts) (now : Int) (s : SmsgState) : SmsgState :=
  s.files.foldl (buildBucketStep C now) s

/-! ## `SecureMsgReceive`: an `smsgMsg` bunch -/

/-- What one `SecureMsgReceive` call leaves: its return value, the state, the sum of the
`Misbehaving` scores raised, and whether the call read past the end of `vchData` (from
where on the behaviour of the code is undefined and the model stops). -/
structure ReceiveResult where
  rv : Nat
  state : SmsgState
  misbehaving : Nat
  overread : Bool
deriving DecidableEq, Repr

/-- The `size_t` difference `vchData.size() - n` (64-bit, wrapping). -/
def sizeMinus (size n : Nat) : Nat := (size + 18446744073709551616 - n) % 18446744073709551616

/-- The envelope loop of `SecureMsgReceive`: `count` iterations remain, `i` is the loop
counter, `n` the read position.  Returns the state, the score, and the overread flag.
`SecureMsgScanMessage` (the inbox matcher) touches neither `smsgSets` nor the bucket
files and its result is ignored, so it is left out. -/
def receiveLoop (C : SmsgConsts) (hmac : List Nat → List Nat → Option (List Nat)) (now : Int)
    (io : Nat → IoOutcome) (vchData : List Nat) :
    Nat → Nat → Nat → SmsgState → Nat → SmsgState × Nat × Bool
  | 0, _, _, s, score => (s, score, false)
  | count + 1, i, n, s, score =>
    if sizeMinus vchData.length n < SMSG_HDR_LEN then (s, score, false)
    else
      let pHeader := (vchData.drop n).take SMSG_HDR_LEN
      let pPayload := vchData.drop (n + SMSG_HDR_LEN)
      let nPayload := hdrNPayload pHeader
      if vchData.length < n + SMSG_HDR_LEN then (s, score, true)
      else if hdrVersion pHeader = 1 ∧ nPayload ≤ C.SMSG_MAX_MSG_WORST ∧
          pPayload.length < nPayload then (s, score, true)
      else
        let rv := SecureMsgValidate C hmac pHeader pPayload nPayload
        if rv ≠ 0 then
          receiveLoop C hmac now io vchData count (i + 1) n s
            (score + (if rv = 2 then 10 else 1))
        else
          let r := SecureMsgStore C now (io i) s pHeader pPayload nPayload false
          if r.1 ≠ 0 then (r.2, score, false)
          else
            receiveLoop C hmac now io vchData count (i + 1)
              (u32 (n + SMSG_HDR_LEN + nPayload)) r.2 score

/-- Code `SecureMsgReceive(pfrom, vchData)`. -/
def SecureMsgReceive (C : SmsgConsts) (hmac : List Nat → List Nat → Option (List Nat))
    (now : Int) (io : Nat → IoOutcome) (s : SmsgState) (vchData : List Nat) : ReceiveResult :=
  if vchData.length < 12 then ⟨1, s, 0, false⟩
  else
    let nBunch := decodeU32 vchData
    let bktTime := decodeI64 (vchData.drop 4)
    if bktTime > now + (C.SMSG_TIME_LEEWAY : Int) then ⟨1, s, 0, false⟩
    else if bktTime < now - (C.SMSG_RETENTION : Int) then ⟨1, s, 0, false⟩
    else if nBunch = 0 ∨ nBunch > 500 then
      match mapFind s.smsgSets bktTime with
      | some bkt =>
        ⟨1, { s with smsgSets := mapPut s.smsgSets bktTime { bkt with nLockCount := 0 } }, 1,
          false⟩
      | none => ⟨1, s, 1, false⟩
    else
      let r := receiveLoop C hmac now io vchData nBunch 0 12 s 0
      if r.2.2 then ⟨1, r.1, r.2.1, true⟩
      else
        match mapFind r.1.smsgSets bktTime with
        | none => ⟨1, r.1, r.2.1, false⟩
        | some bkt =>
          let bkt1 := { bkt with nLockCount := 0, nLockPeerId := 0 }
          ⟨0, { r.1 with smsgSets := mapPut r.1.smsgSets bktTime (bkt1.hashBucket now) },
            r.2.1, false⟩

/-! ## `SecureMsgReceiveData`: the protocol handler -/

/-- The `smsg*` commands (`strCommand`). -/
inductive SmsgCommand where
  | smsgInv | smsgShow | smsgHave | smsgWant | smsgMsg | smsgMatch
  | smsgPing | smsgPong | smsgDisabled | smsgIgnore | other
deriving DecidableEq, Repr

/-- The per-peer record `pfrom->smsgData`. -/
structure SmsgPeer where
  nPeerId : Nat := 0
  fEnabled : Bool := false
  lastSeen : Int := 0
  lastMatched : Int := 0
  ignoreUntil : Int := 0
  nWakeCounter : Nat := 0
deriving DecidableEq, Repr

/-- What one `SecureMsgReceiveData` call leaves: the return value, the state, the peer
record, the `PushMessage` calls to `pfrom` in order, the sum of the `Misbehaving` scores,
and whether the call read past the end of the received payload. -/
structure HandlerResult where
  ret : Bool
  state : SmsgState
  peer : SmsgPeer
  sent : List (SmsgCommand × List Nat)
  misbehaving : Nat
  overread : Bool
deriving DecidableEq, Repr

/-- The `n` consecutive `width`-byte entries a handler loop reads from `buf`, the first at
`start` (the loop pointer advances by `width` per iteration). -/
def wireEntries (buf : List Nat) (start width n : Nat) : List (List Nat) :=
  (List.range n).map (fun i => (buf.drop (start + width * i)).take width)

/-- The running values of the bucket loop of the `smsgInv` handler. -/
structure InvAcc where
  smsgSets : List (Int × SecMsgBucket)
  vchDataOut : List Nat
  nShowBuckets : Nat
  nLocked : Nat
  misbehaving : Nat
deriving DecidableEq, Repr

/-- One iteration of the bucket loop of the `smsgInv` handler on the 16 bytes at `p`. -/
def invStep (C : SmsgConsts) (now : Int) (acc : InvAcc) (p : List Nat) : InvAcc :=
  let time := decodeI64 p
  let ncontent := decodeU32 (p.drop 8)
  let hash := decodeU32 (p.drop 12)
  if time < now - (C.SMSG_RETENTION : Int) then
    if time < now - (C.SMSG_RETENTION : Int) - (C.SMSG_TIME_LEEWAY : Int) then
      { acc with misbehaving := acc.misbehaving + 1 }
    else acc
  else if time > now + (C.SMSG_TIME_LEEWAY : Int) then
    { acc with misbehaving := acc.misbehaving + 1 }
  else if ncontent < 1 then acc
  else
    let sets := mapTouch acc.smsgSets time
    let bkt := mapAt sets time
    if bkt.nLockCount > 0 then { acc with smsgSets := sets, nLocked := acc.nLocked + 1 }
    else if bkt.setTokens.length < ncontent ∨
        (bkt.setTokens.length = ncontent ∧ bkt.hash ≠ hash) then
      { acc with smsgSets := sets, vchDataOut := acc.vchDataOut ++ encodeI64 time,
                 nShowBuckets := acc.nShowBuckets + 1 }
    else { acc with smsgSets := sets }

/-- The `smsgInv` branch of `SecureMsgReceiveData`. -/
def handleSmsgInv (C : SmsgConsts) (now : Int) (s : SmsgState) (pfrom : SmsgPeer)
    (vchData : List Nat) : HandlerResult :=
  if vchData.length < 4 then ⟨false, s, pfrom, [], 1, false⟩
  else if now < pfrom.ignoreUntil then ⟨false, s, pfrom, [], 0, false⟩
  else
    let nInvBuckets := decodeU32 vchData
    if nInvBuckets > u32 (C.SMSG_RETENTION / C.SMSG_BUCKET_LEN + 1) then
      ⟨false, s, pfrom, [], 1, false⟩
    else if vchData.length < u32 (4 + nInvBuckets * 16) then ⟨false, s, pfrom, [], 1, false⟩
    else if vchData.length < 4 + nInvBuckets * 16 then ⟨false, s, pfrom, [], 0, true⟩
    else
      let acc := (wireEntries vchData 4 16 nInvBuckets).foldl (invStep C now)
        (⟨s.smsgSets, [0, 0, 0, 0], 0, 0, 0⟩ : InvAcc)
      let vchDataOut := encodeU32 acc.nShowBuckets ++ acc.vchDataOut.drop 4
      let s1 := { s with smsgSets := acc.smsgSets }
      if vchDataOut.length > 4 then
        ⟨true, s1, pfrom, [(SmsgCommand.smsgShow, vchDataOut)], acc.misbehaving, false⟩
      else if acc.nLocked < 1 then
        ⟨true, s1, pfrom, [(SmsgCommand.smsgMatch, encodeI64 now)], acc.misbehaving, false⟩
      else ⟨true, s1, pfrom, [], acc.misbehaving, false⟩

/-- The token part of an `smsgHave` message: 16 bytes for every token, in set order. -/
def haveTokens (tokenSet : List SecMsgToken) : List Nat :=
  (tokenSet.map (fun t => encodeI64 t.timestamp ++ t.sample.take 8)).flatten

/-- The bucket loop of the `smsgShow` handler: `count` iterations remain, `pIn` is the
read position.  Returns the `smsgHave` messages pushed and the overread flag. -/
def showLoop (smsgSets : List (Int × SecMsgBucket)) (vchData : List Nat) :
    Nat → Nat → List (SmsgCommand × List Nat) → List (SmsgCommand × List Nat) × Bool
  | 0, _, sent => (sent, false)
  | count + 1, pIn, sent =>
    if vchData.length < pIn + 8 then (sent, true)
    else
      let time := decodeI64 (vchData.drop pIn)
      match mapFind smsgSets time with
      | none => showLoop smsgSets vchData count (pIn + 8) sent
      | some bkt =>
        showLoop smsgSets vchData count (pIn + 8)
          (sent ++ [(SmsgCommand.smsgHave, encodeI64 time ++ haveTokens bkt.setTokens)])

/-- The `smsgShow` branch of `SecureMsgReceiveData`. -/
def handleSmsgShow (s : SmsgState) (pfrom : SmsgPeer) (vchData : List Nat) : HandlerResult :=
  if vchData.length < 4 then ⟨false, s, pfrom, [], 0, false⟩
  else
    let nBuckets := decodeU32 vchData
    if vchData.length < u32 (4 + nBuckets * 8) then ⟨false, s, pfrom, [], 0, false⟩
    else
      let r := showLoop s.smsgSets vchData nBuckets 4 []
      ⟨true, s, pfrom, r.1, 0, r.2⟩

/-- The token the `smsgHave` and `smsgWant` loops read from the 16 bytes at `p`. -/
def wireToken (p : List Nat) : SecMsgToken := ⟨decodeI64 p, (p.drop 8).take 8, 0⟩

/-- One iteration of the token loop of the `smsgHave` handler on the 16 bytes at `p`: a
token this node does not hold is appended to `vchDataOut`. -/
def haveStep (tokenSet : List SecMsgToken) (vchDataOut p : List Nat) : List Nat :=
  match setFind tokenSet (wireToken p) with
  | none => vchDataOut ++ p
  | some _ => vchDataOut

/-- The `smsgHave` branch of `SecureMsgReceiveData`. -/
def handleSmsgHave (C : SmsgConsts) (now : Int) (s : SmsgState) (pfrom : SmsgPeer)
    (vchData : List Nat) : HandlerResult :=
  if vchData.length < 8 then ⟨false, s, pfrom, [], 0, false⟩
  else
    let n := (vchData.length - 8) / 16
    let time := decodeI64 vchData
    if time < now - (C.SMSG_RETENTION : Int) then ⟨false, s, pfrom, [], 0, false⟩
    else if time > now + (C.SMSG_TIME_LEEWAY : Int) then ⟨false, s, pfrom, [], 1, false⟩
    else
      let sets := mapTouch s.smsgSets time
      let bkt := mapAt sets time
      if bkt.nLockCount > 0 then ⟨false, { s with smsgSets := sets }, pfrom, [], 0, false⟩
      else
        let vchDataOut := (wireEntries vchData 8 16 n).foldl (haveStep bkt.setTokens)
          (vchData.take 8)
        if vchDataOut.length > 8 then
          let bkt1 := { bkt with nLockCount := 3, nLockPeerId := pfrom.nPeerId }
          ⟨true, { s with smsgSets := mapPut sets time bkt1 }, pfrom,
            [(SmsgCommand.smsgWant, vchDataOut)], 0, false⟩
        else ⟨true, { s with smsgSets := sets }, pfrom, [], 0, false⟩

/-- The token loop of the `smsgWant` handler over the 16-byte entries still to visit:
`nBunch` and `vchBunch` as the loop leaves them. -/
def wantLoop (C : SmsgConsts) (files : List (Int × List Nat)) (tokenSet : List SecMsgToken) :
    List (List Nat) → Nat → List Nat → Nat × List Nat
  | [], nBunch, vchBunch => (nBunch, vchBunch)
  | p :: rest, nBunch, vchBunch =>
    match setFind tokenSet (wireToken p) with
    | none => wantLoop C files tokenSet rest nBunch vchBunch
    | some it =>
      let r : Nat × List Nat :=
        match SecureMsgRetrieve C files { wireToken p with offset := it.offset } with
        | some vchOne => (nBunch + 1, vchBunch ++ vchOne)
        | none => (nBunch, vchBunch)
      if r.1 ≥ 500 ∨ r.2.length ≥ 96000 then r
      else wantLoop C files tokenSet rest r.1 r.2

/-- The `smsgWant` branch of `SecureMsgReceiveData`. -/
def handleSmsgWant (C : SmsgConsts) (s : SmsgState) (pfrom : SmsgPeer) (vchData : List Nat) :
    HandlerResult :=
  if vchData.length < 8 then ⟨false, s, pfrom, [], 0, false⟩
  else
    let n := (vchData.length - 8) / 16
    let time := decodeI64 vchData
    match mapFind s.smsgSets time with
    | none => ⟨false, s, pfrom, [], 0, false⟩
    | some bkt =>
      let r := wantLoop C s.files bkt.setTokens (wireEntries vchData 8 16 n) 0
        (List.replicate 12 0)
      if r.1 > 0 then
        ⟨true, s, pfrom,
          [(SmsgCommand.smsgMsg, encodeU32 r.1 ++ encodeI64 time ++ r.2.drop 12)], 0, false⟩
      else ⟨true, s, pfrom, [], 0, false⟩

/-- Code `SecureMsgReceiveData(pfrom, strCommand, vRecv)`; `vchData` is the byte vector
read from `vRecv`, `io` the file outcomes of the stores of an `smsgMsg`. -/
def SecureMsgReceiveData (C : SmsgConsts) (hmac : List Nat → List Nat → Option (List Nat))
    (now : Int) (io : Nat → IoOutcome) (s : SmsgState) (pfrom : SmsgPeer)
    (strCommand : SmsgCommand) (vchData : List Nat) : HandlerResult :=
  match strCommand with
  | SmsgCommand.smsgInv => handleSmsgInv C now s pfrom vchData
  | SmsgCommand.smsgShow => handleSmsgShow s pfrom vchData
  | SmsgCommand.smsgHave => handleSmsgHave C now s pfrom vchData
  | SmsgCommand.smsgWant => handleSmsgWant C s pfrom vchData
  | SmsgCommand.smsgMsg =>
    let r := SecureMsgReceive C hmac now io s vchData
    ⟨true, r.state, pfrom, [], r.misbehaving, r.overread⟩
  | SmsgCommand.smsgMatch =>
    if vchData.length < 8 then ⟨false, s, pfrom, [], 1, false⟩
    else
      let time := decodeI64 vchData
      let time1 := if time > now + (C.SMSG_TIME_LEEWAY : Int) then now else time
      ⟨true, s, { pfrom with lastMatched := time1 }, [], 0, false⟩
  | SmsgCommand.smsgPing => ⟨true, s, pfrom, [(SmsgCommand.smsgPong, [])], 0, false⟩
  | SmsgCommand.smsgPong => ⟨true, s, { pfrom with fEnabled := true }, [], 0, false⟩
  | SmsgCommand.smsgDisabled => ⟨true, s, { pfrom with fEnabled := false }, [], 0, false⟩
  | SmsgCommand.smsgIgnore =>
    if vchData.length < 8 then ⟨false, s, pfrom, [], 1, false⟩
    else ⟨true, s, { pfrom with ignoreUntil := decodeI64 vchData }, [], 0, false⟩
  | SmsgCommand.other => ⟨true, s, pfrom, [], 0, false⟩

/-! ## Example data, sequences of calls, and the invariants used in the proofs -/

/-- Example constants: 60-minute buckets, 48 hours of retention, 60 seconds of leeway, and
a payload bound of 24000 bytes. -/
def exConsts : SmsgConsts := ⟨3600, 172800, 60, 24000⟩

/-- An HMAC stand-in whose digest is 32 zero bytes (it passes the acceptance test). -/
def hmacZero : List Nat → List Nat → Option (List Nat) := fun _ _ => some (List.replicate 32 0)

/-- An HMAC stand-in whose digest is 32 bytes of 255 (it fails the acceptance test). -/
def hmacOnes : List Nat → List Nat → Option (List Nat) := fun _ _ => some (List.replicate 32 255)

/-- A header: `hash`, `version`, `timestamp`, 101 bytes of `iv`, `cpkR`, `destHash` and
`mac` (all zero), a zero `nonse`, and `nPayload`. -/
def exHeader (hash : List Nat) (version : Nat) (timestamp : Int) (nPayload : Nat) : List Nat :=
  hash ++ [version] ++ encodeI64 timestamp ++ List.replicate 101 0 ++ encodeU32 0 ++
    encodeU32 nPayload

/-- An 8-byte payload. -/
def exPayload : List Nat := [1, 2, 3, 4, 5, 6, 7, 8]

/-- A version-1 header with timestamp 1000000 announcing the 8-byte payload. -/
def exHdr : List Nat := exHeader [0, 0, 0, 0] 1 1000000 8

/-- The state after storing `exHdr` with `exPayload` into the empty state at time 1000000. -/
def exState1 : SmsgState :=
  (SecureMsgStore exConsts 1000000 IoOutcome.ok {} exHdr exPayload 8 true).2

/-- A sequence of `SecureMsgStore` calls: the arguments and the environment of each. -/
structure StoreCall where
  now : Int
  io : IoOutcome
  pHeader : List Nat
  pPayload : List Nat
  nPayload : Nat
  fUpdateBucket : Bool
deriving DecidableEq, Repr

/-- The state after a sequence of `SecureMsgStore` calls. -/
def runStores (C : SmsgConsts) (s : SmsgState) (calls : List StoreCall) : SmsgState :=
  calls.foldl
    (fun st c => (SecureMsgStore C c.now c.io st c.pHeader c.pPayload c.nPayload c.fUpdateBucket).2)
    s

/-- Whether every call of a sequence of `SecureMsgStore` calls returns 0. -/
def storesSucceed (C : SmsgConsts) : SmsgState → List StoreCall → Bool
  | _, [] => true
  | s, c :: cs =>
    (SecureMsgStore C c.now c.io s c.pHeader c.pPayload c.nPayload c.fUpdateBucket).1 == 0 &&
      storesSucceed C
        (SecureMsgStore C c.now c.io s c.pHeader c.pPayload c.nPayload c.fUpdateBucket).2 cs

/-- A store call as the callers in `emessage.cpp` make it: a header of `SMSG_HDR_LEN`
bytes whose `nPayload` field is the length of the payload passed, which is `nPayload`. -/
def storeCallFormed (c : StoreCall) : Bool :=
  c.pHeader.length == SMSG_HDR_LEN && c.nPayload == c.pPayload.length &&
    hdrNPayload c.pHeader == c.pPayload.length

/-- The bytes of a list of records `(header, payload)` laid out one after the other. -/
def recordsBytes (recs : List (List Nat × List Nat)) : List Nat :=
  (recs.map (fun r => r.1 ++ r.2)).flatten

/-- The token set built by inserting, in file order, the token of every record of a file
whose first record starts at offset `ofs`. -/
def recordsTokens : List (List Nat × List Nat) → Nat → List SecMsgToken → List SecMsgToken
  | [], _, acc => acc
  | r :: rs, ofs, acc =>
    recordsTokens rs (ofs + (r.1 ++ r.2).length)
      (setInsert acc ⟨hdrTimestamp r.1, tokenSample r.2 r.2.length, ofs⟩)

/-- Keys in ascending order (the order of a `std::map`). -/
def KeysAscending {β : Type} (m : List (Int × β)) : Prop :=
  (m.map Prod.fst).Pairwise (fun a b => a < b)

/-- A record as `SecureMsgBuildBucketSet` expects it: a whole header announcing its
payload, which has at least 8 bytes. -/
def RecordFormed (r : List Nat × List Nat) : Prop :=
  r.1.length = SMSG_HDR_LEN ∧ hdrNPayload r.1 = r.2.length ∧ 8 ≤ r.2.length

/-- Every bucket file is a sequence of whole records, and the token set of its bucket is
the one obtained by inserting the records' tokens in file order. -/
def FilesIndexed (s : SmsgState) : Prop :=
  KeysAscending s.files ∧
  ∀ b, ∃ recs : List (List Nat × List Nat), (∀ r ∈ recs, RecordFormed r) ∧
    (mapFind s.files b).getD [] = recordsBytes recs ∧
    (mapAt s.smsgSets b).setTokens = recordsTokens recs 0 []

/-- Every token sits in the bucket `SecureMsgStore` computes for its timestamp, and its
timestamp satisfies `P`. -/
def TokensPlaced (C : SmsgConsts) (P : Int → Prop) (s : SmsgState) : Prop :=
  ∀ b bkt, mapFind s.smsgSets b = some bkt → ∀ t ∈ bkt.setTokens,
    b = bucketOf C t.timestamp ∧ P t.timestamp

/-- The part of a token that the order and set membership look at. -/
def tokenKey (t : SecMsgToken) : Int × List Nat := (t.timestamp, t.sample)

/-- The token order on keys. -/
def keyLt (a b : Int × List Nat) : Prop := tokenLt ⟨a.1, a.2, 0⟩ ⟨b.1, b.2, 0⟩ = true

/-- The token set after inserting the tokens of a list one by one into an empty set. -/
def insertAll (xs : List SecMsgToken) : List SecMsgToken := xs.foldl setInsert []

/-- Two 8-byte samples. -/
def exSampleA : List Nat := [1, 0, 0, 0, 0, 0, 0, 0]

/-- The second example sample. -/
def exSampleB : List Nat := [2, 0, 0, 0, 0, 0, 0, 0]

/-- The example state with its bucket 997200 locked (lock count 3) for the peer with id 1. -/
def exLocked : SmsgState :=
  { exState1 with
    smsgSets := mapPut exState1.smsgSets 997200
      { mapAt exState1.smsgSets 997200 with nLockCount := 3, nLockPeerId := 1 } }

/-- An `smsgWant` payload asking for the token of the example envelope in bucket 997200. -/
def exWant : List Nat := encodeI64 997200 ++ encodeI64 1000000 ++ exPayload

/-! ## One reconciliation exchange between two nodes -/

/-- Whether a value is an `int64_t`. -/
def isI64 (v : Int) : Bool :=
  decide (-9223372036854775808 ≤ v) && decide (v < 9223372036854775808)

/-- The messages of a list handled by one node one after the other: the state and the
peer record the node is left with, and everything it pushed in reply. -/
def deliverAll (C : SmsgConsts) (hmac : List Nat → List Nat → Option (List Nat)) (now : Int)
    (io : Nat → IoOutcome) :
    SmsgState → SmsgPeer → List (SmsgCommand × List Nat) →
      SmsgState × SmsgPeer × List (SmsgCommand × List Nat)
  | s, p, [] => (s, p, [])
  | s, p, m :: rest =>
    let r := SecureMsgReceiveData C hmac now io s p m.1 m.2
    let r2 := deliverAll C hmac now io r.state r.peer rest
    (r2.1, r2.2.1, r.sent ++ r2.2.2)

/-- The 16 bytes `SecureMsgSendData` writes into an `smsgInv` for a bucket: the bucket
start, the number of messages and the hash. -/
def invEntry (b : Int) (bkt : SecMsgBucket) : List Nat :=
  encodeI64 b ++ encodeU32 (u32 bkt.setTokens.length) ++ encodeU32 bkt.hash

/-- One exchange smsgInv -> smsgShow -> smsgHave -> smsgWant -> smsgMsg about bucket `b`:
node A (state `sA`) advertises `b` to node B (state `sB`) and every reply is delivered to
the other node.  `pA` is B's record of A, `pB` is A's record of B; B's clock reads
`nowInv`, `nowHave` and `nowMsg` when it handles the three messages it receives.  The
result is B's final state. -/
def reconcile (C : SmsgConsts) (hmac : List Nat → List Nat → Option (List Nat))
    (nowA nowInv nowHave nowMsg : Int) (io : Nat → IoOutcome) (sA sB : SmsgState)
    (pA pB : SmsgPeer) (b : Int) : SmsgState :=
  let inv := encodeU32 1 ++ invEntry b (mapAt sA.smsgSets b)
  let r1 := SecureMsgReceiveData C hmac nowInv io sB pA SmsgCommand.smsgInv inv
  let r2 := deliverAll C hmac nowA io sA pB r1.sent
  let r3 := deliverAll C hmac nowHave io r1.state r1.peer r2.2.2
  let r4 := deliverAll C hmac nowA io r2.1 r2.2.1 r3.2.2
  let r5 := deliverAll C hmac nowMsg io r3.1 r3.2.1 r4.2.2
  r5.1

/-- The envelope bytes `SecureMsgRetrieve` reads for a token (empty when it fails). -/
def retrieved (C : SmsgConsts) (files : List (Int × List Nat)) (t : SecMsgToken) : List Nat :=
  (SecureMsgRetrieve C files t).getD []

/-- A token of bucket `b` with its envelope in the store: `SecureMsgRetrieve` succeeds and
reads an envelope with the token's timestamp and sample, the timestamp is an `int64_t`
that maps to `b`, the envelope validates, and its timestamp passes the time check of
`SecureMsgStore` at clock value `now`. -/
def tokenServed (C : SmsgConsts) (hmac : List Nat → List Nat → Option (List Nat)) (now : Int)
    (b : Int) (files : List (Int × List Nat)) (t : SecMsgToken) : Bool :=
  (SecureMsgRetrieve C files t).isSome &&
  decide (hdrTimestamp ((retrieved C files t).take SMSG_HDR_LEN) = t.timestamp) &&
  decide (tokenSample ((retrieved C files t).drop SMSG_HDR_LEN)
    ((retrieved C files t).drop SMSG_HDR_LEN).length = t.sample) &&
  decide (bucketOf C t.timestamp = b) &&
  isI64 t.timestamp &&
  decide (SecureMsgValidate C hmac ((retrieved C files t).take SMSG_HDR_LEN)
    ((retrieved C files t).drop SMSG_HDR_LEN)
    ((retrieved C files t).drop SMSG_HDR_LEN).length = 0) &&
  !storeTimeRejected C now t.timestamp

/-- The tokens of `tokensA` that the set `tokensB` lacks, in the order of `tokensA`. -/
def missingTokens (tokensA tokensB : List SecMsgToken) : List SecMsgToken :=
  tokensA.filter (fun t => (setFind tokensB t).isNone)

/-- The 16 bytes of a token in an `smsgHave` or `smsgWant` message. -/
def tokenWire (t : SecMsgToken) : List Nat := encodeI64 t.timestamp ++ t.sample.take 8

/-- The example state of a node that stored a second envelope (timestamp 1000001) into
bucket 997200 after the example envelope. -/
def exStateA : SmsgState :=
  runStores exConsts {}
    [⟨1000000, IoOutcome.ok, exHdr, exPayload, 8, true⟩,
     ⟨1000001, IoOutcome.ok, exHeader [0, 0, 0, 0] 1 1000001 8, [9, 9, 9, 9, 9, 9, 9, 9], 8, true⟩]

/-! ## Example data for the acceptance test -/

/-- A 32-byte digest whose bytes 30 and 31 are zero and whose byte 29 is 1: bit 0 of byte
29 is set, bits 1 and 2 are clear. -/
def exDigestBit0 : List Nat := List.replicate 29 0 ++ [1, 0, 0]

/-- An HMAC stand-in whose digest is `exDigestBit0`. -/
def hmacBit0 : List Nat → List Nat → Option (List Nat) := fun _ _ => some exDigestBit0

/-! ## Statement vocabulary for the `smsgHave`, `smsgInv` and `smsgWant` handlers -/

/-- The 16-byte tokens an `smsgHave` or `smsgWant` payload carries after its bucket
start, in received order. -/
def haveEntries (vchData : List Nat) : List (List Nat) :=
  wireEntries vchData 8 16 ((vchData.length - 8) / 16)

/-- The received tokens that a token set lacks, in received order. -/
def absentEntries (tokenSet : List SecMsgToken) (entries : List (List Nat)) :
    List (List Nat) :=
  entries.filter (fun p => (setFind tokenSet (wireToken p)).isNone)

/-- An advertised bucket (a 16-byte `smsgInv` entry: start, count, hash) whose start lies
in [now - SMSG_RETENTION, now + SMSG_TIME_LEEWAY] and whose count is not zero. -/
def invEligible (C : SmsgConsts) (now : Int) (p : List Nat) : Bool :=
  decide (now - (C.SMSG_RETENTION : Int) ≤ decodeI64 p) &&
    decide (decodeI64 p ≤ now + (C.SMSG_TIME_LEEWAY : Int)) &&
    decide (0 < decodeU32 (p.drop 8))

/-- An advertised bucket this node asks to see: eligible, unlocked here, and either
holding fewer tokens here than advertised, or as many with a different hash. -/
def invListed (C : SmsgConsts) (now : Int) (smsgSets : List (Int × SecMsgBucket))
    (p : List Nat) : Bool :=
  invEligible C now p && decide ((mapAt smsgSets (decodeI64 p)).nLockCount = 0) &&
    (decide ((mapAt smsgSets (decodeI64 p)).setTokens.length < decodeU32 (p.drop 8)) ||
      (decide ((mapAt smsgSets (decodeI64 p)).setTokens.length = decodeU32 (p.drop 8)) &&
        decide ((mapAt smsgSets (decodeI64 p)).hash ≠ decodeU32 (p.drop 12))))

/-- An advertised bucket skipped because it is locked here: eligible and locked. -/
def invSkippedLocked (C : SmsgConsts) (now : Int) (smsgSets : List (Int × SecMsgBucket))
    (p : List Nat) : Bool :=
  invEligible C now p && decide (0 < (mapAt smsgSets (decodeI64 p)).nLockCount)

/-- An `smsgInv` payload advertising three buckets: 997200 with two messages, 1000800 with
one message, and the long expired bucket 3600 with three messages. -/
def exInv : List Nat :=
  encodeU32 3 ++ (encodeI64 997200 ++ encodeU32 2 ++ encodeU32 0) ++
    (encodeI64 1000800 ++ encodeU32 1 ++ encodeU32 5) ++
    (encodeI64 3600 ++ encodeU32 3 ++ encodeU32 0)

/-! ## Example data: a bucket with four large envelopes -/

/-- A 24000-byte payload (all zero). -/
def exBigPayload : List Nat := List.replicate 24000 0

/-- A version-1 header with timestamp `1000000 + k` announcing a 24000-byte payload. -/
def exBigHdr (k : Nat) : List Nat := exHeader [0, 0, 0, 0] 1 (1000000 + (k : Int)) 24000

/-- Four `SecureMsgStore` calls at time 1000010, each with the payload `P` and one of the
headers `exBigHdr 0 .. exBigHdr 3`. -/
def bigCalls (P : List Nat) : List StoreCall :=
  [⟨1000010, IoOutcome.ok, exBigHdr 0, P, 24000, true⟩,
   ⟨1000010, IoOutcome.ok, exBigHdr 1, P, 24000, true⟩,
   ⟨1000010, IoOutcome.ok, exBigHdr 2, P, 24000, true⟩,
   ⟨1000010, IoOutcome.ok, exBigHdr 3, P, 24000, true⟩]

/-- The state the four calls of `bigCalls P` leave when started on the empty state. -/
def bigState (P : List Nat) : SmsgState := runStores exConsts {} (bigCalls P)

/-- The state of a node that stored four envelopes with 24000-byte payloads, all in bucket
997200. -/
def exBigState : SmsgState := bigState exBigPayload

/-- An `smsgWant` payload asking for the four envelopes of `exBigState`. -/
def exBigWant : List Nat :=
  encodeI64 997200 ++
    ((encodeI64 1000000 ++ List.replicate 8 0) ++ (encodeI64 1000001 ++ List.replicate 8 0) ++
     (encodeI64 1000002 ++ List.replicate 8 0) ++ (encodeI64 1000003 ++ List.replicate 8 0))

/-- The `smsgMsg` frame carrying the four envelopes for payload `P`. -/
def bigFrame (P : List Nat) : List Nat :=
  encodeU32 4 ++ encodeI64 997200 ++
    ((exBigHdr 0 ++ P) ++ ((exBigHdr 1 ++ P) ++ ((exBigHdr 2 ++ P) ++ (exBigHdr 3 ++ P))))

/-! ## Example data: bunches with a failing envelope -/

/-- An HMAC stand-in that tells envelopes apart by the low byte of the timestamp: an even
byte gives the all-zero digest (it passes the acceptance test), an odd byte the digest of
32 bytes of 255 (it fails). -/
def hmacByTime : List Nat → List Nat → Option (List Nat) :=
  fun _ data => some (List.replicate 32 (if data.getD 1 0 % 2 = 0 then 0 else 255))

/-- A version-1 header with timestamp 1000001 whose `hash` field matches the digest
`hmacByTime` gives it, so that validation fails on the proof of work alone. -/
def exBadPowHdr : List Nat := exHeader [255, 255, 255, 255] 1 1000001 8

/-- A bunch announcing two envelopes for bucket 997200: one with an invalid proof of
work, then the valid example envelope. -/
def exBunchBadFirst : List Nat :=
  encodeU32 2 ++ encodeI64 997200 ++ (exBadPowHdr ++ exPayload) ++ (exHdr ++ exPayload)

/-- A second valid envelope header (timestamp 1000002) for the 8-byte payload. -/
def exHdr2 : List Nat := exHeader [0, 0, 0, 0] 1 1000002 8

/-- A bunch announcing two envelopes for bucket 997200: the example envelope, then a
second valid one. -/
def exBunchDupFirst : List Nat :=
  encodeU32 2 ++ encodeI64 997200 ++ (exHdr ++ exPayload) ++ (exHdr2 ++ [9, 9, 9, 9, 9, 9, 9, 9])

/-- The `SecureMsgStore` calls the envelope loop of `SecureMsgReceive` makes for a list of
envelopes `(header, payload)` when none fails: one per envelope, in order, without hashing
the bucket; `i` is the loop counter at the first. -/
def bunchCalls (now : Int) (io : Nat → IoOutcome) : Nat → List (List Nat × List Nat) →
    List StoreCall
  | _, [] => []
  | i, e :: es => ⟨now, io i, e.1, e.2, e.2.length, false⟩ :: bunchCalls now io (i + 1) es

/-- An envelope as it travels in a bunch: a header of `SMSG_HDR_LEN` bytes whose
`nPayload` field is the length of the payload that follows it. -/
def envFormed (e : List Nat × List Nat) : Bool :=
  e.1.length == SMSG_HDR_LEN && hdrNPayload e.1 == e.2.length

/-! ## `ThreadSecureMsg`: the bucket management pass -/

/-- The search through `vNodes` at a lock timeout: the first node whose `nPeerId` is
`nPeerId` gets `ignoreUntil` and is pushed an `smsgIgnore`; the search stops there.
Returns the nodes and the position of the node that was told, if any. -/
def ignorePeer (nPeerId : Nat) (ignoreUntil : Int) : List SmsgPeer → List SmsgPeer × Option Nat
  | [] => ([], none)
  | pnode :: rest =>
    if pnode.nPeerId ≠ nPeerId then
      ((pnode :: (ignorePeer nPeerId ignoreUntil rest).1),
        (ignorePeer nPeerId ignoreUntil rest).2.map (fun i => i + 1))
    else ({ pnode with ignoreUntil := ignoreUntil } :: rest, some 0)

/-- What one pass of the bucket loop of `ThreadSecureMsg` leaves: the state, the connected
nodes, and the `PushMessage` calls in order, each with the position in `vNodes` of the
node it went to. -/
structure GcResult where
  state : SmsgState
  vNodes : List SmsgPeer
  sent : List (Nat × SmsgCommand × List Nat)
deriving DecidableEq, Repr

/-- The bucket loop of `ThreadSecureMsg` over the buckets still to visit, in map order.
`cutoffTime` is `now - SMSG_RETENTION`; `rmOk k` tells whether `fs::remove` of the file of
bucket `k` succeeds (when it throws, the file stays and the bucket is erased all the same).
`SMSG_TIME_IGNORE` is a constant of `emessage.h`, taken as a parameter.  The clock is read
once per pass: the second reading at a lock timeout is taken to give the same second. -/
def gcBuckets (C : SmsgConsts) (SMSG_TIME_IGNORE : Nat) (now : Int) (rmOk : Int → Bool) :
    List (Int × SecMsgBucket) → List (Int × List Nat) → List SmsgPeer → GcResult
  | [], files, vNodes => ⟨⟨[], files⟩, vNodes, []⟩
  | (key, bkt) :: rest, files, vNodes =>
    if key < now - (C.SMSG_RETENTION : Int) then
      gcBuckets C SMSG_TIME_IGNORE now rmOk rest
        (if rmOk key then files.filter (fun f => f.1 ≠ key) else files) vNodes
    else if bkt.nLockCount > 0 then
      if bkt.nLockCount - 1 = 0 then
        let ignoreUntil := now + (SMSG_TIME_IGNORE : Int)
        let found := ignorePeer bkt.nLockPeerId ignoreUntil vNodes
        let r := gcBuckets C SMSG_TIME_IGNORE now rmOk rest files found.1
        ⟨⟨(key, { bkt with nLockCount := 0, nLockPeerId := 0 }) :: r.state.smsgSets,
            r.state.files⟩,
          r.vNodes,
          (match found.2 with
            | some i => [(i, SmsgCommand.smsgIgnore, encodeI64 ignoreUntil)]
            | none => []) ++ r.sent⟩
      else
        let r := gcBuckets C SMSG_TIME_IGNORE now rmOk rest files vNodes
        ⟨⟨(key, { bkt with nLockCount := bkt.nLockCount - 1 }) :: r.state.smsgSets,
            r.state.files⟩, r.vNodes, r.sent⟩
    else
      let r := gcBuckets C SMSG_TIME_IGNORE now rmOk rest files vNodes
      ⟨⟨(key, bkt) :: r.state.smsgSets, r.state.files⟩, r.vNodes, r.sent⟩

/-- One pass of `ThreadSecureMsg` (the body that runs every `SMSG_THREAD_DELAY` seconds)
at clock value `now`. -/
def gcPass (C : SmsgConsts) (SMSG_TIME_IGNORE : Nat) (now : Int) (rmOk : Int → Bool)
    (s : SmsgState) (vNodes : List SmsgPeer) : GcResult :=
  gcBuckets C SMSG_TIME_IGNORE now rmOk s.smsgSets s.files vNodes

/-- The result of the last of a sequence of passes, run one after the other at the clock
values `ticks` with nothing else happening in between. -/
def gcAfter (C : SmsgConsts) (SMSG_TIME_IGNORE : Nat) (rmOk : Int → Bool) (ticks : List Int)
    (s : SmsgState) (vNodes : List SmsgPeer) : GcResult :=
  ticks.foldl (fun r now => gcPass C SMSG_TIME_IGNORE now rmOk r.state r.vNodes)
    ⟨s, vNodes, []⟩

/-- A bucket after one pass that keeps it: the lock count ticks down, and the lock is
released when it reaches zero. -/
def gcTick (bkt : SecMsgBucket) : SecMsgBucket :=
  if bkt.nLockCount > 0 then
    if bkt.nLockCount - 1 = 0 then { bkt with nLockCount := 0, nLockPeerId := 0 }
    else { bkt with nLockCount := bkt.nLockCount - 1 }
  else bkt

/-! ## `SecureMsgEncrypt` and `SecureMsgDecrypt` -/

/-- Modelled from the spec: `SMSG_PL_HDR_LEN` (declared in `emessage.h`), the length
1 + 20 + 65 + 4 of the header of a signed inner payload. -/
def SMSG_PL_HDR_LEN : Nat := 90

/-- Modelled from the spec: the `iv` field of the header (16 bytes at offset 13). -/
def hdrIv (pHeader : List Nat) : List Nat := (pHeader.drop 13).take 16

/-- Modelled from the spec: the `cpkR` field of the header (33 bytes at offset 29). -/
def hdrCpkR (pHeader : List Nat) : List Nat := (pHeader.drop 29).take 33

/-- Modelled from the spec: the `destHash` field of the header (20 bytes at offset 62). -/
def hdrDestHash (pHeader : List Nat) : List Nat := (pHeader.drop 62).take 20

/-- Modelled from the spec: the `mac` field of the header (32 bytes at offset 82). -/
def hdrMac (pHeader : List Nat) : List Nat := (pHeader.drop 82).take 32

/-- The library functions `SecureMsgEncrypt` and `SecureMsgDecrypt` call (`base58.h`,
`key.h`, OpenSSL, LZ4), taken as parameters.  Keys, addresses and messages are byte
lists. -/
structure SmsgCrypto where
  /-- Calls `CBitcoinAddress::SetString` then `GetKeyID`: the version byte and the key id of an
  address string, `none` when either fails. -/
  addrKeyId : List Nat → Option (Nat × List Nat)
  /-- Calls `CBitcoinAddress::Set(keyID)` then `ToString`, `none` when `IsValid` fails. -/
  addrOfKeyId : List Nat → Option (List Nat)
  /-- Bytes `CKey::GetPubKey().Raw()` of a private key. -/
  pubOf : List Nat → List Nat
  /-- Test `CPubKey::IsValid`. -/
  pubIsValid : List Nat → Bool
  /-- Test `CPubKey::IsCompressed`. -/
  pubIsCompressed : List Nat → Bool
  /-- Call `CKey::SetPubKey`. -/
  setPubKey : List Nat → Bool
  /-- Call `ECDH_compute_key` of a private and a public key: the 32 bytes, `none` when the
  call does not return 32. -/
  ecdh : List Nat → List Nat → Option (List Nat)
  /-- Function `SHA512`. -/
  sha512 : List Nat → List Nat
  /-- Function `Hash` (the double SHA-256 of `util.h`). -/
  hash256 : List Nat → List Nat
  /-- Call `LZ4_compress`: the compressed bytes (none at all when it fails). -/
  lz4Compress : List Nat → List Nat
  /-- Call `LZ4_decompress_safe` with the output bound: the decompressed bytes, `none` on a
  negative result. -/
  lz4Decompress : List Nat → Nat → Option (List Nat)
  /-- The `EVP_aes_256_cbc` encryption of `SMsgCrypter::Encrypt` with key and iv, `none`
  when a call fails. -/
  aesEncrypt : List Nat → List Nat → List Nat → Option (List Nat)
  /-- The `EVP_aes_256_cbc` decryption of `SMsgCrypter::Decrypt`, `none` when a call
  fails (bad padding). -/
  aesDecrypt : List Nat → List Nat → List Nat → Option (List Nat)
  /-- HMAC-SHA256 with a key over the data, `none` when a call fails. -/
  hmac : List Nat → List Nat → Option (List Nat)
  /-- Call `CKey::SignCompact` of a hash with a private key: the 65 bytes. -/
  signCompact : List Nat → List Nat → List Nat
  /-- Calls `CKey::SetCompactSignature` then `GetPubKey`: the recovered public key, `none` when
  it is not valid. -/
  recoverCompact : List Nat → List Nat → Option (List Nat)
  /-- Function `CPubKey::GetID`. -/
  pubKeyId : List Nat → List Nat

/-- The keys a node has: the public-key database (`SecureMsgGetStoredKey`), the public
keys of its wallet (`SecureMsgGetLocalKey`) and the private keys of its wallet
(`pwalletMain->GetKey`), each by key id. -/
structure SmsgKeys where
  storedKey : List Nat → Option (List Nat)
  localKey : List Nat → Option (List Nat)
  walletKey : List Nat → Option (List Nat)

/-- The address string "anon". -/
def anonAddress : List Nat := [97, 110, 111, 110]

/-- Code `SMsgCrypter::SetKey` then `SMsgCrypter::Encrypt`: 32 bytes of key and 16 of iv
are taken. -/
def crypterEncrypt (X : SmsgCrypto) (key iv plain : List Nat) : Option (List Nat) :=
  X.aesEncrypt (key.take 32) (iv.take 16) plain

/-- Code `SMsgCrypter::SetKey` then `SMsgCrypter::Decrypt`. -/
def crypterDecrypt (X : SmsgCrypto) (key iv cipher : List Nat) : Option (List Nat) :=
  X.aesDecrypt (key.take 32) (iv.take 16) cipher

/-- The inner payload of an anonymous message: the marker 250, four unused bytes, the
length of the plain text, the message data. -/
def anonPayload (lenMsg : Nat) (msgData : List Nat) : List Nat :=
  [250] ++ [0, 0, 0, 0] ++ encodeU32 lenMsg ++ msgData

/-- The inner payload of a signed message: the address version, the key id (20 bytes),
the compact signature (65 bytes), the length of the plain text, the message data. -/
def signedPayload (version : Nat) (ckidFrom vchSignature : List Nat) (lenMsg : Nat)
    (msgData : List Nat) : List Nat :=
  [version % 256] ++ ckidFrom ++ vchSignature ++ encodeU32 lenMsg ++ msgData

/-- Code `SecureMsgEncrypt(smsg, addressFrom, addressTo, message)`: `Except.error rv` for
a non-zero return (the partly filled `smsg` is not modelled then), `Except.ok` with the
header and the payload for a return of 0.  `now` is the clock, `iv` the 16 random bytes,
`keyR` the fresh private key; `smsg` is the header passed in (its `hash` and `nonse` are
left as they are).  The allocation of `pPayload` does not fail. -/
def SecureMsgEncrypt (SMSG_MAX_MSG_BYTES : Nat) (X : SmsgCrypto) (K : SmsgKeys) (now : Int)
    (iv keyR smsg addressFrom addressTo message : List Nat) :
    Except Nat (List Nat × List Nat) :=
  if message.length > SMSG_MAX_MSG_BYTES then Except.error 2
  else
    match (if addressFrom = anonAddress then some (0, []) else X.addrKeyId addressFrom) with
    | none => Except.error 3
    | some sender =>
    match X.addrKeyId addressTo with
    | none => Except.error 4
    | some dest =>
    match (match K.storedKey dest.2 with
        | some k => some k
        | none => K.localKey dest.2) with
    | none => Except.error 5
    | some cpkDestK =>
    if X.setPubKey cpkDestK = false then Except.error 4
    else
      match X.ecdh keyR cpkDestK with
      | none => Except.error 6
      | some vchP =>
      let cpkR := X.pubOf keyR
      if X.pubIsValid cpkR = false ∨ X.pubIsCompressed cpkR = false then Except.error 1
      else
        let vchHashed := X.sha512 vchP
        let key_e := vchHashed.take 32
        let key_m := (vchHashed.drop 32).take 32
        let lenMsg := u32 message.length
        match (if lenMsg > 128 then
            (if (X.lz4Compress message).length < 1 then none else some (X.lz4Compress message))
          else some message) with
        | none => Except.error 9
        | some msgData =>
        match (if addressFrom = anonAddress then some (anonPayload lenMsg msgData)
          else
            match K.walletKey sender.2 with
            | none => none
            | some keyFrom =>
              some (signedPayload sender.1 sender.2
                (X.signCompact keyFrom (X.hash256 message)) lenMsg msgData)) with
        | none => Except.error 7
        | some vchPayload =>
        match crypterEncrypt X key_e iv vchPayload with
        | none => Except.error 11
        | some vchCiphertext =>
        match X.hmac key_m (encodeI64 now ++ List.replicate 20 0 ++ vchCiphertext) with
        | none => Except.error 10
        | some mac =>
          if mac.length ≠ 32 then Except.error 10
          else
            Except.ok
              (smsg.take 4 ++ [1] ++ encodeI64 now ++ iv.take 16 ++ cpkR.take 33 ++
                List.replicate 20 0 ++ mac ++ (smsg.drop 114).take 4 ++
                encodeU32 (u32 vchCiphertext.length),
               vchCiphertext)

/-- Class `MessageData`: the fields `SecureMsgDecrypt` writes. -/
structure MessageData where
  timestamp : Int := 0
  sFromAddress : List Nat := []
  vchMessage : List Nat := []
deriving DecidableEq, Repr

/-- What one `SecureMsgDecrypt` call leaves: the return value, `msg`, and whether the
call read past the end of the decrypted payload (from where on the behaviour of the code
is undefined and the model stops). -/
structure DecryptResult where
  rv : Nat
  msg : MessageData
  overread : Bool
deriving DecidableEq, Repr

/-- The part of `SecureMsgDecrypt` after the decryption: the inner payload `vchPayload` is
taken apart, `msg` is filled, and the signature of a signed message is checked.
`SecureMsgInsertAddress` (the public-key database) has no effect on the result and is left
out.  When decompression fails, `msg.vchMessage` is left as it was. -/
def decryptPayload (X : SmsgCrypto) (vchPayload : List Nat) (msg : MessageData) :
    DecryptResult :=
  if vchPayload.length < 1 then ⟨1, msg, true⟩
  else
    let fFromAnonymous := decide (vchPayload.getD 0 0 = 250)
    let lenHdr := if fFromAnonymous then 9 else SMSG_PL_HDR_LEN
    if vchPayload.length < lenHdr then ⟨1, msg, true⟩
    else
      let lenData := vchPayload.length - lenHdr
      let lenPlain := decodeU32 (vchPayload.drop (lenHdr - 4))
      let pMsgData := vchPayload.drop lenHdr
      let filled : Option (Option (List Nat)) :=
        if lenPlain > 128 then
          match X.lz4Decompress (pMsgData.take lenData) lenPlain with
          | none => some none
          | some d => if d.length ≠ lenPlain then some none else some (some d)
        else if lenData < lenPlain then none
        else some (some (pMsgData.take lenPlain))
      match filled with
      | none => ⟨1, msg, true⟩
      | some none => ⟨1, msg, false⟩
      | some (some plain) =>
        let msg2 := { msg with vchMessage := plain ++ [0] }
        if fFromAnonymous then ⟨0, { msg2 with sFromAddress := anonAddress }, false⟩
        else
          let ckidFrom := (vchPayload.drop 1).take 20
          match X.addrOfKeyId ckidFrom with
          | none => ⟨1, msg2, false⟩
          | some coinAddrFrom =>
            match X.recoverCompact (X.hash256 plain) ((vchPayload.drop 21).take 65) with
            | none => ⟨1, msg2, false⟩
            | some cpkFromSig =>
              if X.pubKeyId cpkFromSig ≠ ckidFrom then ⟨1, msg2, false⟩
              else ⟨0, { msg2 with sFromAddress := coinAddrFrom }, false⟩

/-- Code `SecureMsgDecrypt(fTestOnly, address, pHeader, pPayload, nPayload, msg)`.  Both
pointers are valid (the null test is not modelled) and `pPayload` holds `nPayload`
bytes.  The public key that `keyR.GetPubKey()` gives after `keyR.SetPubKey(cpkR)` is
`cpkR` itself. -/
def SecureMsgDecrypt (X : SmsgCrypto) (K : SmsgKeys) (fTestOnly : Bool)
    (address pHeader pPayload : List Nat) (nPayload : Nat) (msg : MessageData) :
    DecryptResult :=
  if hdrVersion pHeader ≠ 1 then ⟨2, msg, false⟩
  else
    match X.addrKeyId address with
    | none => ⟨3, msg, false⟩
    | some dest =>
    match K.walletKey dest.2 with
    | none => ⟨3, msg, false⟩
    | some keyDest =>
      let cpkR := hdrCpkR pHeader
      if X.pubIsValid cpkR = false then ⟨1, msg, false⟩
      else if X.setPubKey cpkR = false then ⟨1, msg, false⟩
      else if X.pubIsValid cpkR = false ∨ X.pubIsCompressed cpkR = false then ⟨1, msg, false⟩
      else
        match X.ecdh keyDest cpkR with
        | none => ⟨1, msg, false⟩
        | some vchP =>
          let vchHashedDec := X.sha512 vchP
          let key_e := vchHashedDec.take 32
          let key_m := (vchHashedDec.drop 32).take 32
          match X.hmac key_m
            ((pHeader.drop 5).take 8 ++ hdrDestHash pHeader ++ pPayload.take nPayload) with
          | none => ⟨1, msg, false⟩
          | some MAC =>
            if MAC.length ≠ 32 then ⟨1, msg, false⟩
            else if MAC ≠ hdrMac pHeader then ⟨1, msg, false⟩
            else if fTestOnly then ⟨0, msg, false⟩
            else
              match crypterDecrypt X key_e (hdrIv pHeader) (pPayload.take nPayload) with
              | none => ⟨1, msg, false⟩
              | some vchPayload =>
                decryptPayload X vchPayload { msg with timestamp := hdrTimestamp pHeader }

/-! ## Stand-ins for the library, for the examples -/

/-- Byte-wise xor of two byte strings (as long as the shorter one). -/
def xorBytes (a b : List Nat) : List Nat := List.zipWith (fun x y => x ^^^ y) a b

/-- A byte string cut or zero-padded to `n` bytes. -/
def fitBytes (n : Nat) (bs : List Nat) : List Nat := (bs ++ List.replicate n 0).take n

/-- PKCS#7 padding to whole 16-byte blocks. -/
def pkcs7Pad (p : List Nat) : List Nat :=
  p ++ List.replicate (16 - p.length % 16) (16 - p.length % 16)

/-- Removal of PKCS#7 padding, `none` when the padding is malformed. -/
def pkcs7Unpad (p : List Nat) : Option (List Nat) :=
  if 1 ≤ p.getLastD 0 ∧ p.getLastD 0 ≤ 16 ∧ p.getLastD 0 ≤ p.length ∧
      p.drop (p.length - p.getLastD 0) = List.replicate (p.getLastD 0) (p.getLastD 0) then
    some (p.take (p.length - p.getLastD 0))
  else none

/-- CBC encryption of `n` blocks with the block function `E`: every plain block is xored
with the previous cipher block (the iv for the first) and then encrypted. -/
def cbcEncryptBlocks (E : List Nat → List Nat) : Nat → List Nat → List Nat → List Nat
  | 0, _, _ => []
  | n + 1, prev, p =>
    E (xorBytes (p.take 16) prev) ++
      cbcEncryptBlocks E n (E (xorBytes (p.take 16) prev)) (p.drop 16)

/-- CBC decryption of `n` blocks with the block function `D`. -/
def cbcDecryptBlocks (D : List Nat → List Nat) : Nat → List Nat → List Nat → List Nat
  | 0, _, _ => []
  | n + 1, prev, c =>
    xorBytes (D (c.take 16)) prev ++ cbcDecryptBlocks D n (c.take 16) (c.drop 16)

/-- What `EVP_aes_256_cbc` encryption computes around a block function: PKCS#7 padding,
then the CBC chain from the iv. -/
def cbcEncrypt (E : List Nat → List Nat → List Nat) (key iv plain : List Nat) :
    Option (List Nat) :=
  some (cbcEncryptBlocks (E key) ((pkcs7Pad plain).length / 16) iv (pkcs7Pad plain))

/-- What `EVP_aes_256_cbc` decryption computes around a block function: the CBC chain
from the iv, then the removal of the padding (the final call fails when it is bad). -/
def cbcDecrypt (D : List Nat → List Nat → List Nat) (key iv cipher : List Nat) :
    Option (List Nat) :=
  if cipher.length % 16 ≠ 0 ∨ cipher.length = 0 then none
  else pkcs7Unpad (cbcDecryptBlocks (D key) (cipher.length / 16) iv cipher)

/-- A block function for the examples: xor with the first 16 bytes of the key (it is its
own inverse). -/
def toyBlock (key block : List Nat) : List Nat := xorBytes block (key.take 16)

/-- A library stand-in for the examples.  An address string is a version byte followed by
the 20 bytes of the key id (the version of a key-id address is 28); the public key of a
private key is the byte 2 followed by the key cut or padded to 32 bytes, its id the first
20 bytes of those; the ECDH secret is the xor of the private key with the other side's
public key bytes; a compact signature is the signer's public key followed by the hash;
the cipher reverses the bytes; the MAC mixes a checksum of the data into the key. -/
def toyCrypto : SmsgCrypto where
  addrKeyId s := if s.length = 21 then some (s.headD 0, s.drop 1) else none
  addrOfKeyId kid := if kid.length = 20 then some (28 :: kid) else none
  pubOf sk := 2 :: fitBytes 32 sk
  pubIsValid pk := pk.length == 33 || pk.length == 65
  pubIsCompressed pk := pk.length == 33
  setPubKey pk := pk.length == 33 || pk.length == 65
  ecdh sk pk := some (xorBytes (fitBytes 32 sk) (fitBytes 32 (pk.drop 1)))
  sha512 p := fitBytes 32 p ++ fitBytes 32 (p.map (fun b => (b + 1) % 256))
  hash256 m := fitBytes 32 m
  lz4Compress m := 1 :: m
  lz4Decompress c n := if c.length = n + 1 then some (c.drop 1) else none
  aesEncrypt _ _ p := some p.reverse
  aesDecrypt _ _ c := some c.reverse
  hmac key data :=
    some (xorBytes (fitBytes 32 key)
      (List.replicate 32 (data.foldl (fun a b => (a * 31 + b) % 256) 7)))
  signCompact sk h := (2 :: fitBytes 32 sk) ++ fitBytes 32 h
  recoverCompact h sig :=
    if sig.length = 65 ∧ sig.drop 33 = fitBytes 32 h then some (sig.take 33) else none
  pubKeyId pk := (pk.drop 1).take 20

/-- The stand-in with the cipher replaced by CBC mode around `toyBlock`. -/
def cbcCrypto : SmsgCrypto :=
  { toyCrypto with
    aesEncrypt := cbcEncrypt toyBlock
    aesDecrypt := cbcDecrypt toyBlock }

/-- The key id of the example sender A. -/
def exKidA : List Nat := List.replicate 20 17

/-- The key id of the example recipient B. -/
def exKidB : List Nat := List.replicate 20 34

/-- The address string of A. -/
def exAddrA : List Nat := 28 :: exKidA

/-- The address string of B. -/
def exAddrB : List Nat := 28 :: exKidB

/-- The keys of node A: its wallet holds A's private key, its database B's public key. -/
def exKeysA : SmsgKeys where
  storedKey kid := if kid = exKidB then some (2 :: fitBytes 32 exKidB) else none
  localKey kid := if kid = exKidA then some (2 :: fitBytes 32 exKidA) else none
  walletKey kid := if kid = exKidA then some (fitBytes 32 exKidA) else none

/-- The keys of node B: its wallet holds B's private key. -/
def exKeysB : SmsgKeys where
  storedKey _ := none
  localKey kid := if kid = exKidB then some (2 :: fitBytes 32 exKidB) else none
  walletKey kid := if kid = exKidB then some (fitBytes 32 exKidB) else none

/-- The header and payload of an `Except.ok` result (empty for an error). -/
def envelopeOf (r : Except Nat (List Nat × List Nat)) : List Nat × List Nat :=
  match r with
  | Except.ok e => e
  | Except.error _ => ([], [])

/-- The envelope A makes for B from the three bytes "hi!" at time 1000000, signed. -/
def exEnvelope : List Nat × List Nat :=
  envelopeOf (SecureMsgEncrypt 24576 toyCrypto exKeysA 1000000 (List.replicate 16 9)
    (List.replicate 32 5) (List.replicate 122 0) exAddrA exAddrB [104, 105, 33])

/-- Whether the counter value `nonse` passes the acceptance test for a header and a
payload: the digest, keyed by `nonse`, of the header carrying `nonse` in its `nonse`
field. -/
def noncePasses (hmac : List Nat → List Nat → Option (List Nat)) (pHeader pPayload : List Nat)
    (nPayload nonse : Nat) : Bool :=
  match powDigest hmac nonse (setNonse pHeader nonse) pPayload nPayload with
  | some sha256Hash => powAccept sha256Hash
  | none => false

/-- An HMAC stand-in that accepts the key of the counter value 3 alone: the digest is all
zero for the key made of the bytes 3, 0, 0, 0 and all 255 for every other key. -/
def hmacThird : List Nat → List Nat → Option (List Nat) :=
  fun key _ => some (List.replicate 32 (if key.take 4 = [3, 0, 0, 0] then 0 else 255))

/-! ## Statement vocabulary: the set of bucket keys -/

/-- Whether the bucket map has an entry for the bucket start `k`. -/
def hasBucket (smsgSets : List (Int × SecMsgBucket)) (k : Int) : Bool :=
  (mapFind smsgSets k).isSome

/-- The bucket map `new` compared with `old`: no entry is gone, every entry that was added
has a key satisfying `added`, and every bucket start has the tokens it had (none for an
entry that was added). -/
def KeysGrowBy (added : Int → Prop) (old new : List (Int × SecMsgBucket)) : Prop :=
  (∀ k, hasBucket old k = true → hasBucket new k = true) ∧
  (∀ k, hasBucket new k = true → hasBucket old k = true ∨ added k) ∧
  (∀ k, (mapAt new k).setTokens = (mapAt old k).setTokens)

/-! ## `SecureMsgAddAddress` and the public-key database -/

/-- The library functions `SecureMsgAddAddress` calls (`base58.h`, `key.h`), taken as
parameters.  Strings and keys are byte lists. -/
structure AddrLib where
  /-- Calls `CBitcoinAddress(address)` then `IsValid`. -/
  addrIsValid : List Nat → Bool
  /-- Calls `CBitcoinAddress(address)` then `GetKeyID`: the key id, `none` when it fails. -/
  addrGetKeyId : List Nat → Option (List Nat)
  /-- Calls `CBitcoinAddress(address)` then `ToString`. -/
  addrToString : List Nat → List Nat
  /-- Function `DecodeBase58`: the decoded bytes (none at all when it fails). -/
  decodeBase58 : List Nat → List Nat
  /-- Call `CKey::SetPubKey`. -/
  setPubKey : List Nat → Bool
  /-- Function `CPubKey::GetID`, the key id a public key hashes to.  The code of
  `SecureMsgAddAddress` does not call it; statements about a key that matches an address
  need it. -/
  pubKeyId : List Nat → List Nat

/-- Code `SecureMsgInsertAddress(hashKey, pubKey, addrpkdb)`: the return value (0 success,
4 already in the database, 5 error) and the database it leaves, an association list from
key ids to public keys.  `writeOk` tells whether `WritePK` succeeds. -/
def SecureMsgInsertAddress (writeOk : Bool) (addrpkdb : List (List Nat × List Nat))
    (hashKey pubKey : List Nat) : Nat × List (List Nat × List Nat) :=
  if addrpkdb.any (fun e => e.1 == hashKey) then (4, addrpkdb)
  else if writeOk = false then (5, addrpkdb)
  else (0, addrpkdb ++ [(hashKey, pubKey)])

/-- Code `SecureMsgAddAddress(address, publicKey)`: the return value (0 success, 1 address
invalid, 2 public key invalid, 3 public key does not match the address, 4 already in the
database, 5 error) and the database it leaves.  `addressT` is constructed from `address`,
as in the source; the compressed key `pubKeyT` is computed and not used. -/
def SecureMsgAddAddress (L : AddrLib) (writeOk : Bool) (addrpkdb : List (List Nat × List Nat))
    (address publicKey : List Nat) : Nat × List (List Nat × List Nat) :=
  if L.addrIsValid address = false then (1, addrpkdb)
  else
    match L.addrGetKeyId address with
    | none => (1, addrpkdb)
    | some hashKey =>
      let pubKey := L.decodeBase58 publicKey
      if L.setPubKey pubKey = false then (2, addrpkdb)
      else if L.addrToString address ≠ address then (3, addrpkdb)
      else SecureMsgInsertAddress writeOk addrpkdb hashKey pubKey

/-- A library stand-in for the examples, with the conventions of `toyCrypto`: an address
string is a version byte followed by the 20 bytes of the key id and prints as itself, a
public key is 33 or 65 bytes and is passed undecoded, its id the 20 bytes after the first. -/
def toyAddrLib : AddrLib where
  addrIsValid s := s.length == 21
  addrGetKeyId s := if s.length = 21 then some (s.drop 1) else none
  addrToString s := s
  decodeBase58 s := s
  setPubKey pk := pk.length == 33 || pk.length == 65
  pubKeyId pk := (pk.drop 1).take 20

/-- The public key of the example identity B. -/
def exPubB : List Nat := 2 :: fitBytes 32 exKidB

/-! ## Example data: a bunch whose envelope announces more payload than it carries -/

/-- A bunch announcing one envelope for bucket 997200: the example header, which declares
an 8-byte payload, followed by no payload at all. -/
def exBunchNoPayload : List Nat := encodeU32 1 ++ encodeI64 997200 ++ exHdr

/-! ## Example data: a bunch whose envelope belongs to another bucket than the one named -/

/-- A version-1 header with timestamp 1001000 (bucket 1000800) announcing the 8-byte
payload. -/
def exHdrLate : List Nat := exHeader [0, 0, 0, 0] 1 1001000 8

/-- A bunch that names bucket 997200 and carries one envelope of bucket 1000800. -/
def exBunchOtherBucket : List Nat :=
  encodeU32 1 ++ encodeI64 997200 ++ (exHdrLate ++ exPayload)

/-! ## Example data: envelopes around an inner payload of the sender's choosing -/

/-- The envelope a sender can make for the holder of the public key `cpkDestK` around an
inner payload `vchPayload` of its own choosing: the steps of `SecureMsgEncrypt` from the
ECDH secret on (key derivation, encryption, MAC over timestamp, destHash and ciphertext,
header), applied to `vchPayload` as given. -/
def craftEnvelope (X : SmsgCrypto) (now : Int) (iv keyR cpkDestK vchPayload : List Nat) :
    List Nat × List Nat :=
  let vchHashed := X.sha512 ((X.ecdh keyR cpkDestK).getD [])
  let key_e := vchHashed.take 32
  let key_m := (vchHashed.drop 32).take 32
  let vchCiphertext := (crypterEncrypt X key_e iv vchPayload).getD []
  let mac := (X.hmac key_m (encodeI64 now ++ List.replicate 20 0 ++ vchCiphertext)).getD []
  ([0, 0, 0, 0] ++ [1] ++ encodeI64 now ++ iv.take 16 ++ (X.pubOf keyR).take 33 ++
      List.replicate 20 0 ++ mac ++ [0, 0, 0, 0] ++ encodeU32 (u32 vchCiphertext.length),
    vchCiphertext)

/-- An envelope for B around the empty inner payload (one block of padding under CBC). -/
def exEnvEmptyInner : List Nat × List Nat :=
  craftEnvelope cbcCrypto 1000000 (List.replicate 16 9) (List.replicate 32 5) exPubB []

/-- An envelope for B around a 4-byte inner payload that starts with the anonymous marker
250: shorter than the 9-byte header of the anonymous form. -/
def exEnvShortAnon : List Nat × List Nat :=
  craftEnvelope cbcCrypto 1000000 (List.replicate 16 9) (List.replicate 32 5) exPubB
    [250, 0, 0, 0]

/-- An envelope for B around a 30-byte inner payload that starts with the address version
28: shorter than the `SMSG_PL_HDR_LEN` bytes of the header of the signed form. -/
def exEnvShortSigned : List Nat × List Nat :=
  craftEnvelope cbcCrypto 1000000 (List.replicate 16 9) (List.replicate 32 5) exPubB
    (28 :: List.replicate 29 0)

/-- An envelope for B around a whole 9-byte anonymous header that declares 100 bytes of
plain text and carries 2. -/
def exEnvLongClaim : List Nat × List Nat :=
  craftEnvelope cbcCrypto 1000000 (List.replicate 16 9) (List.replicate 32 5) exPubB
    ([250, 0, 0, 0, 0] ++ encodeU32 100 ++ [104, 105])

/-! ## Statement vocabulary: the tag `SecureMsgDecrypt` computes -/

/-- The example state of a node that stored the two envelopes of `exStateA`, the second one
without hashing the bucket (as `SecureMsgReceive` stores an envelope): bucket 997200 holds
both tokens under the hash of the first alone. -/
def exStateStale : SmsgState :=
  runStores exConsts {}
    [⟨1000000, IoOutcome.ok, exHdr, exPayload, 8, true⟩,
     ⟨1000001, IoOutcome.ok, exHeader [0, 0, 0, 0] 1 1000001 8, [9, 9, 9, 9, 9, 9, 9, 9], 8, false⟩]

/-! # Theorems -/

/-! ## Bytes: round trips -/

theorem leBytes_length (k v : Nat) : (leBytes k v).length = k := by
  induction k generalizing v with
  | zero => rfl
  | succ k ih => simp [leBytes, ih]

theorem leValue_leBytes (k v : Nat) : leValue (leBytes k v) = v % 256 ^ k := by
  induction k generalizing v with
  | zero => simp [leBytes, leValue, Nat.mod_one]
  | succ k ih =>
    simp only [leBytes, leValue, ih]
    rw [pow_succ, Nat.mul_comm (256 ^ k) 256, Nat.mod_mul]

theorem encodeU32_length (v : Nat) : (encodeU32 v).length = 4 := leBytes_length 4 v

theorem encodeI64_length (v : Int) : (encodeI64 v).length = 8 := leBytes_length 8 _

theorem decodeU32_encodeU32 (v : Nat) (rest : List Nat) (h : v < 4294967296) :
    decodeU32 (encodeU32 v ++ rest) = v := by
  unfold decodeU32
  rw [List.take_left' (encodeU32_length v)]
  unfold encodeU32
  rw [leValue_leBytes]
  exact Nat.mod_eq_of_lt (by norm_num; exact h)

theorem decodeI64_encodeI64 (v : Int) (rest : List Nat)
    (h1 : -9223372036854775808 ≤ v) (h2 : v < 9223372036854775808) :
    decodeI64 (encodeI64 v ++ rest) = v := by
  unfold decodeI64
  rw [List.take_left' (encodeI64_length v)]
  unfold encodeI64
  rw [leValue_leBytes]
  have hlt : (v % 18446744073709551616).toNat < 256 ^ 8 := by
    have := Int.emod_lt_of_pos v (show (0 : Int) < 18446744073709551616 by norm_num)
    have := Int.emod_nonneg v (show (18446744073709551616 : Int) ≠ 0 by norm_num)
    norm_num
    omega
  rw [Nat.mod_eq_of_lt hlt]
  simp only
  split <;> omega

theorem setNonse_length (h : List Nat) (n : Nat) (hl : 118 ≤ h.length) :
    (setNonse h n).length = h.length := by
  simp [setNonse, encodeU32_length]
  omega

theorem hdrNonse_setNonse (h : List Nat) (n : Nat) (hl : 118 ≤ h.length) :
    hdrNonse (setNonse h n) = encodeU32 n := by
  unfold hdrNonse setNonse
  have h1 : (h.take 114).length = 114 := by simp; omega
  rw [List.append_assoc, List.drop_left' h1, List.take_left' (encodeU32_length n)]

theorem hdrVersion_setNonse (h : List Nat) (n : Nat) (hl : 118 ≤ h.length) :
    hdrVersion (setNonse h n) = hdrVersion h := by
  unfold hdrVersion setNonse
  have h1 : 4 < (h.take 114).length := by simp; omega
  rw [List.append_assoc, List.getD_append _ _ _ _ h1]
  simp [List.getD_eq_getElem?_getD, List.getElem?_take]

theorem setHdrHash_drop (h d : List Nat) (hd : 4 ≤ d.length) :
    (setHdrHash h d).drop 4 = h.drop 4 := by
  unfold setHdrHash
  exact List.drop_left' (by simp; omega)

theorem hdrHash_setHdrHash (h d : List Nat) (hd : 4 ≤ d.length) :
    hdrHash (setHdrHash h d) = d.take 4 := by
  unfold hdrHash setHdrHash
  exact List.take_left' (by simp; omega)

theorem hdrVersion_eq_drop (h : List Nat) : hdrVersion h = (h.drop 4).getD 0 0 := by
  simp [hdrVersion, List.getD_eq_getElem?_getD]

theorem hdrNonse_eq_drop (h : List Nat) : hdrNonse h = ((h.drop 4).drop 110).take 4 := by
  simp [hdrNonse]

theorem powData_eq_drop (h p : List Nat) (n : Nat) :
    powData h p n = (h.drop 4).take (SMSG_HDR_LEN - 4) ++ p.take n ++ p.take n := rfl

/-- The accepted digest of the `SecureMsgSetHash` loop is the digest of the header the loop
leaves, under the nonce that header carries. -/
theorem setHashLoop_some (hmac : List Nat → List Nat → Option (List Nat))
    (pPayload : List Nat) (nPayload : Nat) (pHeader : List Nat) (nonse : Nat)
    (hl : 118 ≤ pHeader.length) (hn : nonse ≤ 4294967295) (d hdr : List Nat)
    (h : setHashLoop hmac pPayload nPayload pHeader nonse = (some d, hdr)) :
    powDigest hmac (decodeU32 (hdrNonse hdr)) hdr pPayload nPayload = some d ∧
      powAccept d = true ∧ hdrVersion hdr = hdrVersion pHeader ∧ 118 ≤ hdr.length := by
  induction pHeader, nonse using setHashLoop.induct hmac pPayload nPayload with
  | case1 pHeader nonse hnone =>
    rw [setHashLoop, hnone] at h
    simp at h
  | case2 pHeader nonse sha hsome hacc =>
    rw [setHashLoop, hsome] at h
    simp only [hacc, if_true, Prod.mk.injEq, Option.some.injEq] at h
    obtain ⟨h1, h2⟩ := h
    subst h1 h2
    refine ⟨?_, hacc, hdrVersion_setNonse _ _ hl, by rw [setNonse_length _ _ hl]; exact hl⟩
    rw [hdrNonse_setNonse _ _ hl]
    have : decodeU32 (encodeU32 nonse) = nonse := by
      have := decodeU32_encodeU32 nonse [] (by omega)
      simpa using this
    rw [this]
    exact hsome
  | case3 pHeader nonse sha hsome hacc hge =>
    rw [setHashLoop, hsome] at h
    simp [hacc, hge] at h
  | case4 pHeader nonse sha hsome hacc hge ih =>
    rw [setHashLoop, hsome] at h
    simp only [hacc, hge, if_false] at h
    have hl2 : 118 ≤ (setNonse pHeader nonse).length := by
      rw [setNonse_length _ _ hl]; exact hl
    obtain ⟨a, b, c, e⟩ := ih hl2 (by omega) h
    exact ⟨a, b, by rw [c, hdrVersion_setNonse _ _ hl], e⟩

theorem powDigest_length (hmac : List Nat → List Nat → Option (List Nat)) (n : Nat)
    (h p : List Nat) (np : Nat) (d : List Nat) (hd : powDigest hmac n h p np = some d) :
    d.length = 32 := by
  unfold powDigest at hd
  split at hd
  · simp at hd
  · split at hd
    · simp at hd; subst hd; assumption
    · simp at hd

theorem powDigest_setHdrHash (hmac : List Nat → List Nat → Option (List Nat)) (n : Nat)
    (h p d : List Nat) (np : Nat) (hd : 4 ≤ d.length) :
    powDigest hmac n (setHdrHash h d) p np = powDigest hmac n h p np := by
  unfold powDigest
  rw [powData_eq_drop, powData_eq_drop, setHdrHash_drop h d hd]

/-- C1: for every header with version 1 and every payload of at most SMSG_MAX_MSG_WORST
bytes, when `SecureMsgSetHash` returns 0 on (header, payload), `SecureMsgValidate` returns 0
on the header it leaves and the same payload. -/
theorem setHash_then_validate_ok (C : SmsgConsts)
    (hmac : List Nat → List Nat → Option (List Nat)) (fShutdown : Bool)
    (pHeader pPayload hdr : List Nat)
    (hlen : pHeader.length = SMSG_HDR_LEN)
    (hver : hdrVersion pHeader = 1)
    (hpl : pPayload.length ≤ C.SMSG_MAX_MSG_WORST)
    (hset : SecureMsgSetHash hmac fShutdown pHeader pPayload pPayload.length = (0, hdr)) :
    SecureMsgValidate C hmac hdr pPayload pPayload.length = 0 := by
  have hl : 118 ≤ pHeader.length := by rw [hlen]; decide
  unfold SecureMsgSetHash at hset
  split at hset
  · simp at hset
  · split at hset
    · simp at hset
    · rename_i d hdr1 hloop
      simp only [Prod.mk.injEq, true_and] at hset
      subst hset
      obtain ⟨hdig, hacc, hv, hl1⟩ := setHashLoop_some hmac pPayload _ pHeader 0 hl (by omega) d hdr1 hloop
      have hdl := powDigest_length _ _ _ _ _ _ hdig
      have h4 : 4 ≤ d.length := by omega
      unfold SecureMsgValidate
      have hv2 : hdrVersion (setHdrHash hdr1 d) = 1 := by
        rw [hdrVersion_eq_drop, setHdrHash_drop _ _ h4, ← hdrVersion_eq_drop, hv, hver]
      have hn2 : hdrNonse (setHdrHash hdr1 d) = hdrNonse hdr1 := by
        rw [hdrNonse_eq_drop, setHdrHash_drop _ _ h4, ← hdrNonse_eq_drop]
      rw [hn2, powDigest_setHdrHash _ _ _ _ _ _ h4, hdig]
      simp [hv2, hpl, hacc, hdrHash_setHdrHash _ _ h4]

theorem setHashLoop_accept (hmac : List Nat → List Nat → Option (List Nat))
    (pPayload : List Nat) (nPayload : Nat) (pHeader : List Nat) (nonse : Nat) (d : List Nat)
    (hd : powDigest hmac nonse (setNonse pHeader nonse) pPayload nPayload = some d)
    (ha : powAccept d = true) :
    setHashLoop hmac pPayload nPayload pHeader nonse = (some d, setNonse pHeader nonse) := by
  rw [setHashLoop, hd]
  simp [ha]

theorem setHash_example :
    SecureMsgSetHash hmacZero false (exHeader [9, 9, 9, 9] 1 0 0) [] 0 =
      (0, exHeader [0, 0, 0, 0] 1 0 0) := by
  unfold SecureMsgSetHash
  rw [setHashLoop_accept hmacZero [] 0 _ 0 (List.replicate 32 0) (by decide) (by decide)]
  decide

/-- C1 witness: a version-1 header with an empty payload, under an HMAC stand-in whose
digest is all zero. -/
theorem setHash_then_validate_ok_witness :
    SecureMsgValidate exConsts hmacZero (exHeader [0, 0, 0, 0] 1 0 0) [] 0 = 0 :=
  setHash_then_validate_ok exConsts hmacZero false (exHeader [9, 9, 9, 9] 1 0 0) []
    (exHeader [0, 0, 0, 0] 1 0 0) (by decide) (by decide) (by decide) setHash_example

/-! ## C2: the result of `SecureMsgValidate` -/

/-- C2 (as stated, refuted): with a digest that fails the acceptance test and differs from
`header.hash` in its first 4 bytes, `SecureMsgValidate` returns 3 (checksum mismatch), not
2 (invalid proof of work). -/
theorem validate_pow_fail_reports_checksum :
    hdrVersion (exHeader [0, 0, 0, 0] 1 0 0) = 1 ∧
    ([] : List Nat).length ≤ exConsts.SMSG_MAX_MSG_WORST ∧
    powDigest hmacOnes (decodeU32 (hdrNonse (exHeader [0, 0, 0, 0] 1 0 0)))
      (exHeader [0, 0, 0, 0] 1 0 0) [] 0 = some (List.replicate 32 255) ∧
    powAccept (List.replicate 32 255) = false ∧
    SecureMsgValidate exConsts hmacOnes (exHeader [0, 0, 0, 0] 1 0 0) [] 0 = 3 ∧
    SecureMsgValidate exConsts hmacOnes (exHeader [0, 0, 0, 0] 1 0 0) [] 0 ≠ 2 := by
  decide

/-- C2 (amended): for a version-1 header and a payload within the size bound whose digest
H is computed, `SecureMsgValidate` returns 3 whenever H[0..4] differs from `header.hash`,
whether or not H passes the acceptance test; otherwise it returns 0 when H passes the test
and 2 when it fails. -/
theorem validate_result (C : SmsgConsts) (hmac : List Nat → List Nat → Option (List Nat))
    (pHeader pPayload sha256Hash : List Nat)
    (hver : hdrVersion pHeader = 1)
    (hpl : pPayload.length ≤ C.SMSG_MAX_MSG_WORST)
    (hd : powDigest hmac (decodeU32 (hdrNonse pHeader)) pHeader pPayload pPayload.length =
      some sha256Hash) :
    SecureMsgValidate C hmac pHeader pPayload pPayload.length =
      if sha256Hash.take 4 ≠ hdrHash pHeader then 3
      else if powAccept sha256Hash then 0 else 2 := by
  unfold SecureMsgValidate
  rw [hd]
  simp [hver, hpl]

/-- C2 witness: a digest of 255s against a header whose `hash` is 255s: checksum equal,
acceptance test failed, result 2. -/
theorem validate_result_witness :
    SecureMsgValidate exConsts hmacOnes (exHeader [255, 255, 255, 255] 1 0 0) [] 0 = 2 :=
  (validate_result exConsts hmacOnes (exHeader [255, 255, 255, 255] 1 0 0) []
    (List.replicate 32 255) (by decide) (by decide) (by decide)).trans (by decide)

/-! ## Token order and token sets -/

theorem sampleLt_irrefl (a : List Nat) : sampleLt a a = false := by
  induction a with
  | nil => rfl
  | cons x xs ih => simp [sampleLt, ih]

theorem tokenLt_irrefl (t : SecMsgToken) : tokenLt t t = false := by
  simp [tokenLt, sampleLt_irrefl]

theorem setFind_offset (l : List SecMsgToken) (ts : Int) (smp : List Nat) (o1 o2 : Nat) :
    setFind l ⟨ts, smp, o1⟩ = setFind l ⟨ts, smp, o2⟩ := by
  induction l with
  | nil => rfl
  | cons x xs ih => simp only [setFind, tokenLt, ih]

theorem setFind_setInsert_self (l : List SecMsgToken) (t : SecMsgToken) :
    (setFind (setInsert l t) t).isSome = true := by
  induction l with
  | nil => simp [setInsert, setFind, tokenLt_irrefl]
  | cons x xs ih =>
    unfold setInsert
    by_cases h1 : tokenLt t x = true
    · simp [h1, setFind, tokenLt_irrefl]
    · by_cases h2 : tokenLt x t = true
      · simp [h1, h2, setFind, ih]
      · simp [h1, h2, setFind]

theorem mem_setInsert (l : List SecMsgToken) (t x : SecMsgToken)
    (h : x ∈ setInsert l t) : x = t ∨ x ∈ l := by
  induction l with
  | nil => simp [setInsert] at h; exact Or.inl h
  | cons y ys ih =>
    unfold setInsert at h
    split at h
    · simp at h; rcases h with h | h | h
      · exact Or.inl h
      · exact Or.inr (by simp [h])
      · exact Or.inr (by simp [h])
    · split at h
      · simp at h
        rcases h with h | h
        · exact Or.inr (by simp [h])
        · rcases ih h with h | h
          · exact Or.inl h
          · exact Or.inr (by simp [h])
      · exact Or.inr h

/-! ## The association maps -/

theorem mapFind_mapPut {β : Type} (m : List (Int × β)) (key : Int) (v : β) (k : Int) :
    mapFind (mapPut m key v) k = if key = k then some v else mapFind m k := by
  induction m with
  | nil => simp [mapPut, mapFind]
  | cons e rest ih =>
    obtain ⟨k1, w⟩ := e
    unfold mapPut
    by_cases h1 : key < k1
    · simp [h1, mapFind]
    · by_cases h2 : k1 = key
      · subst h2
        by_cases h3 : k1 = k <;> simp [h1, h3, mapFind]
      · simp only [h1, h2, if_false, mapFind, ih]
        by_cases h3 : k1 = k
        · subst h3
          have : ¬ key = k1 := fun h => h2 h.symm
          simp [this]
        · simp [h3]

theorem mapFind_mapPut_self {β : Type} (m : List (Int × β)) (key : Int) (v : β) :
    mapFind (mapPut m key v) key = some v := by
  simp [mapFind_mapPut]

theorem mapTouch_of_some (m : List (Int × SecMsgBucket)) (key : Int) (b : SecMsgBucket)
    (h : mapFind m key = some b) : mapTouch m key = m := by
  simp [mapTouch, h]

theorem mapFind_mapTouch (m : List (Int × SecMsgBucket)) (key k : Int) :
    mapFind (mapTouch m key) k =
      if key = k then some (mapAt m key) else mapFind m k := by
  unfold mapTouch mapAt
  cases h : mapFind m key with
  | none =>
    simp only [mapFind_mapPut, Option.getD_none]
  | some b =>
    simp only [Option.getD_some]
    by_cases hk : key = k
    · subst hk; simp [h]
    · simp [hk]

theorem mapAt_mapTouch (m : List (Int × SecMsgBucket)) (key : Int) :
    mapAt (mapTouch m key) key = mapAt m key := by
  simp [mapAt, mapFind_mapTouch]

theorem mapAt_mapPut_self (m : List (Int × SecMsgBucket)) (key : Int) (b : SecMsgBucket) :
    mapAt (mapPut m key b) key = b := by
  simp [mapAt, mapFind_mapPut]

theorem mapTouch_mapPut_self (m : List (Int × SecMsgBucket)) (key : Int) (b : SecMsgBucket) :
    mapTouch (mapPut m key b) key = mapPut m key b :=
  mapTouch_of_some _ _ b (mapFind_mapPut_self m key b)

theorem hashBucket_setTokens (now : Int) (b : SecMsgBucket) :
    (b.hashBucket now).setTokens = b.setTokens := rfl

/-! ## C3: storing the same envelope twice -/

/-- What a successful `SecureMsgStore` call leaves, spelled out. -/
theorem store_ok_state (C : SmsgConsts) (now : Int) (io : IoOutcome) (s s1 : SmsgState)
    (pHeader pPayload : List Nat) (nPayload : Nat) (fUpdateBucket : Bool)
    (h : SecureMsgStore C now io s pHeader pPayload nPayload fUpdateBucket = (0, s1)) :
    storeTimeRejected C now (hdrTimestamp pHeader) = false ∧
    setFind (mapAt s.smsgSets (bucketOf C (hdrTimestamp pHeader))).setTokens
      ⟨hdrTimestamp pHeader, tokenSample pPayload nPayload, 0⟩ = none ∧
    io = IoOutcome.ok ∧
    s1.files = mapPut s.files (bucketOf C (hdrTimestamp pHeader))
      ((mapFind s.files (bucketOf C (hdrTimestamp pHeader))).getD [] ++
        (pHeader.take SMSG_HDR_LEN ++ pPayload.take nPayload)) ∧
    ∃ bkt2 : SecMsgBucket,
      s1.smsgSets = mapPut (mapTouch s.smsgSets (bucketOf C (hdrTimestamp pHeader)))
        (bucketOf C (hdrTimestamp pHeader)) bkt2 ∧
      bkt2.setTokens = setInsert
        (mapAt s.smsgSets (bucketOf C (hdrTimestamp pHeader))).setTokens
        ⟨hdrTimestamp pHeader, tokenSample pPayload nPayload,
          ((mapFind s.files (bucketOf C (hdrTimestamp pHeader))).getD []).length⟩ ∧
      bkt2.nLockCount = (mapAt s.smsgSets (bucketOf C (hdrTimestamp pHeader))).nLockCount ∧
      bkt2.nLockPeerId = (mapAt s.smsgSets (bucketOf C (hdrTimestamp pHeader))).nLockPeerId ∧
      bkt2.hash = (if fUpdateBucket then XXH32 1 (bucketSamples bkt2.setTokens)
        else (mapAt s.smsgSets (bucketOf C (hdrTimestamp pHeader))).hash) ∧
      bkt2.timeChanged = (if fUpdateBucket then now
        else (mapAt s.smsgSets (bucketOf C (hdrTimestamp pHeader))).timeChanged) := by
  unfold SecureMsgStore at h
  simp only [mapAt_mapTouch] at h
  split at h
  · simp at h
  · rename_i hrej
    split at h
    · simp at h
    · rename_i hfind
      split at h
      · simp at h
      · simp at h
      · simp only [Prod.mk.injEq, true_and] at h
        subst h
        refine ⟨by simpa using hrej, hfind, rfl, rfl, ?_⟩
        cases fUpdateBucket
        · exact ⟨_, rfl, rfl, rfl, rfl, rfl, rfl⟩
        · exact ⟨_, rfl, rfl, rfl, rfl, rfl, rfl⟩

/-- C3: when a first `SecureMsgStore` call succeeds, a second call with the same header and
payload (at any clock value, with any file outcome and either `fUpdateBucket`) returns the
failure 1 and leaves the whole state - every bucket with its token set, hash, timeChanged
and lock fields, and every bucket file - as the first call left it. -/
theorem store_twice_unchanged (C : SmsgConsts) (now : Int) (io : IoOutcome) (s s1 : SmsgState)
    (pHeader pPayload : List Nat) (nPayload : Nat) (fUpdateBucket : Bool)
    (h : SecureMsgStore C now io s pHeader pPayload nPayload fUpdateBucket = (0, s1))
    (now2 : Int) (io2 : IoOutcome) (fUpdateBucket2 : Bool) :
    SecureMsgStore C now2 io2 s1 pHeader pPayload nPayload fUpdateBucket2 = (1, s1) := by
  obtain ⟨_, _, _, _, bkt2, hsets, htok, _⟩ := store_ok_state C now io s s1 _ _ _ _ h
  unfold SecureMsgStore
  simp only
  split
  · rfl
  · have hT : mapTouch s1.smsgSets (bucketOf C (hdrTimestamp pHeader)) = s1.smsgSets := by
      rw [hsets]; exact mapTouch_mapPut_self _ _ _
    have hA : mapAt s1.smsgSets (bucketOf C (hdrTimestamp pHeader)) = bkt2 := by
      rw [hsets]; exact mapAt_mapPut_self _ _ _
    rw [hT, hA, htok]
    have hs := setFind_setInsert_self
      (mapAt s.smsgSets (bucketOf C (hdrTimestamp pHeader))).setTokens
      ⟨hdrTimestamp pHeader, tokenSample pPayload nPayload,
        ((mapFind s.files (bucketOf C (hdrTimestamp pHeader))).getD []).length⟩
    rw [setFind_offset _ _ _ _ 0] at hs
    split
    · rfl
    · rename_i hnone
      rw [hnone] at hs
      simp at hs

/-- C3 witness: the example envelope stored into the empty state, then stored again a
minute later. -/
theorem store_twice_unchanged_witness :
    SecureMsgStore exConsts 1000060 IoOutcome.openFails exState1 exHdr exPayload 8 false =
      (1, exState1) :=
  store_twice_unchanged exConsts 1000000 IoOutcome.ok {} exState1 exHdr exPayload 8 true
    (by decide) 1000060 IoOutcome.openFails false

/-! ## C5: the time window of `SecureMsgStore` -/

/-- C5: `SecureMsgStore` returns the failure 1 and leaves the bucket map and the bucket
files unchanged whenever timestamp > now + SMSG_TIME_LEEWAY or timestamp < now -
SMSG_RETENTION; a timestamp equal to either boundary passes the time check, and the
envelope is then stored (return value 0) when its token is new and the file operations
succeed. -/
theorem store_time_window (C : SmsgConsts) (now : Int) (io : IoOutcome) (s : SmsgState)
    (pHeader pPayload : List Nat) (nPayload : Nat) (fUpdateBucket : Bool) :
    ((hdrTimestamp pHeader > now + (C.SMSG_TIME_LEEWAY : Int) ∨
        hdrTimestamp pHeader < now - (C.SMSG_RETENTION : Int)) →
      SecureMsgStore C now io s pHeader pPayload nPayload fUpdateBucket = (1, s)) ∧
    ((hdrTimestamp pHeader = now + (C.SMSG_TIME_LEEWAY : Int) ∨
        hdrTimestamp pHeader = now - (C.SMSG_RETENTION : Int)) →
      storeTimeRejected C now (hdrTimestamp pHeader) = false ∧
      (setFind (mapAt s.smsgSets (bucketOf C (hdrTimestamp pHeader))).setTokens
          ⟨hdrTimestamp pHeader, tokenSample pPayload nPayload, 0⟩ = none →
        (SecureMsgStore C now IoOutcome.ok s pHeader pPayload nPayload fUpdateBucket).1 = 0)) := by
  constructor
  · intro h
    unfold SecureMsgStore
    have : storeTimeRejected C now (hdrTimestamp pHeader) = true := by
      unfold storeTimeRejected
      rcases h with h | h <;> simp [h]
    simp [this]
  · intro h
    have hrej : storeTimeRejected C now (hdrTimestamp pHeader) = false := by
      unfold storeTimeRejected
      have h1 : (0 : Int) ≤ (C.SMSG_TIME_LEEWAY : Int) := Int.natCast_nonneg _
      have h2 : (0 : Int) ≤ (C.SMSG_RETENTION : Int) := Int.natCast_nonneg _
      rcases h with h | h <;> simp [h] <;> omega
    refine ⟨hrej, fun hnone => ?_⟩
    unfold SecureMsgStore
    simp only [hrej, mapAt_mapTouch, hnone]
    rfl

/-- C5 witness: at clock 1000000 a timestamp of 1000061 is rejected and the state is
untouched, while the boundary timestamp 1000060 is stored. -/
theorem store_time_window_witness :
    SecureMsgStore exConsts 1000000 IoOutcome.ok exState1
        (exHeader [0, 0, 0, 0] 1 1000061 8) exPayload 8 true = (1, exState1) ∧
    (SecureMsgStore exConsts 1000000 IoOutcome.ok exState1
        (exHeader [0, 0, 0, 0] 1 1000060 8) exPayload 8 true).1 = 0 :=
  ⟨(store_time_window exConsts 1000000 IoOutcome.ok exState1
      (exHeader [0, 0, 0, 0] 1 1000061 8) exPayload 8 true).1 (by decide),
   ((store_time_window exConsts 1000000 IoOutcome.ok exState1
      (exHeader [0, 0, 0, 0] 1 1000060 8) exPayload 8 true).2 (by decide)).2 (by decide)⟩

/-! ## C4: the bucket window -/

/-- C4 (as stated, refuted): with the clock at 0 a timestamp of -1 passes the time check
and C's `%` gives `-1 - (-1 % 3600) = 0`, so the bucket keyed 0 holds a token with
timestamp -1, below the bucket start. -/
theorem bucket_window_fails_before_epoch :
    mapFind (runStores exConsts {}
        [⟨0, IoOutcome.ok, exHeader [0, 0, 0, 0] 1 (-1) 8, exPayload, 8, false⟩]).smsgSets 0 =
      some { setTokens := [⟨-1, exPayload, 0⟩] } ∧
    ¬ ((0 : Int) ≤ (⟨-1, exPayload, 0⟩ : SecMsgToken).timestamp ∧
       (⟨-1, exPayload, 0⟩ : SecMsgToken).timestamp < 0 + (exConsts.SMSG_BUCKET_LEN : Int)) := by
  decide

theorem tokensPlaced_mapTouch (C : SmsgConsts) (P : Int → Prop) (s : SmsgState) (key : Int)
    (h : TokensPlaced C P s) (f : List (Int × List Nat)) :
    TokensPlaced C P { smsgSets := mapTouch s.smsgSets key, files := f } := by
  intro b bkt hb t ht
  simp only [mapFind_mapTouch] at hb
  split at hb
  · simp only [Option.some.injEq] at hb
    subst hb
    unfold mapAt at ht
    cases hk : mapFind s.smsgSets key with
    | none => rw [hk] at ht; simp at ht
    | some b0 =>
      rw [hk] at ht
      rename_i hkey
      subst hkey
      exact h _ _ hk t ht
  · exact h _ _ hb t ht

/-- One `SecureMsgStore` call keeps every token in the bucket of its timestamp. -/
theorem tokensPlaced_store (C : SmsgConsts) (P : Int → Prop) (now : Int) (io : IoOutcome)
    (s : SmsgState) (pHeader pPayload : List Nat) (nPayload : Nat) (fUpdateBucket : Bool)
    (hP : storeTimeRejected C now (hdrTimestamp pHeader) = false → P (hdrTimestamp pHeader))
    (h : TokensPlaced C P s) :
    TokensPlaced C P (SecureMsgStore C now io s pHeader pPayload nPayload fUpdateBucket).2 := by
  unfold SecureMsgStore
  simp only
  split
  · exact h
  · rename_i hrej
    have hrej2 : storeTimeRejected C now (hdrTimestamp pHeader) = false := by simpa using hrej
    split
    · exact tokensPlaced_mapTouch C P s _ h _
    · split
      · exact tokensPlaced_mapTouch C P s _ h _
      · exact tokensPlaced_mapTouch C P s _ h _
      · intro b bkt hb t ht
        simp only [mapFind_mapPut] at hb
        split at hb
        · rename_i hkey
          simp only [Option.some.injEq] at hb
          subst hb
          have ht2 : t ∈ setInsert
              (mapAt (mapTouch s.smsgSets (bucketOf C (hdrTimestamp pHeader)))
                (bucketOf C (hdrTimestamp pHeader))).setTokens
              ⟨hdrTimestamp pHeader, tokenSample pPayload nPayload,
                ((mapFind s.files (bucketOf C (hdrTimestamp pHeader))).getD []).length⟩ := by
            cases fUpdateBucket <;> exact ht
          rcases mem_setInsert _ _ _ ht2 with h1 | h1
          · subst h1
            exact ⟨hkey.symm, hP hrej2⟩
          · have := tokensPlaced_mapTouch C P s (bucketOf C (hdrTimestamp pHeader)) h s.files
            have hf : mapFind (mapTouch s.smsgSets (bucketOf C (hdrTimestamp pHeader)))
                (bucketOf C (hdrTimestamp pHeader)) =
                some (mapAt (mapTouch s.smsgSets (bucketOf C (hdrTimestamp pHeader)))
                  (bucketOf C (hdrTimestamp pHeader))) := by
              simp [mapFind_mapTouch, mapAt_mapTouch]
            have := this _ _ hf t h1
            rw [← hkey]
            exact this
        · exact tokensPlaced_mapTouch C P s _ h s.files _ _ hb t ht

theorem tokensPlaced_runStores (C : SmsgConsts) (P : Int → Prop) (calls : List StoreCall)
    (s : SmsgState)
    (hP : ∀ c ∈ calls, storeTimeRejected C c.now (hdrTimestamp c.pHeader) = false →
      P (hdrTimestamp c.pHeader))
    (h : TokensPlaced C P s) : TokensPlaced C P (runStores C s calls) := by
  induction calls generalizing s with
  | nil => exact h
  | cons c cs ih =>
    unfold runStores
    rw [List.foldl_cons]
    apply ih
    · intro c1 hc1
      exact hP c1 (List.mem_cons_of_mem _ hc1)
    · exact tokensPlaced_store C P _ _ _ _ _ _ _ (hP c (List.mem_cons_self _ _)) h

/-- C4 (amended): starting from an empty bucket map, after any sequence of
`SecureMsgStore` calls in which every timestamp that passes the time check is
non-negative, every token t held in the bucket keyed b has
b = timestamp - (timestamp % SMSG_BUCKET_LEN) and b <= t.timestamp < b + SMSG_BUCKET_LEN. -/
theorem bucket_window_invariant (C : SmsgConsts) (hL : 0 < C.SMSG_BUCKET_LEN)
    (calls : List StoreCall)
    (hnn : ∀ c ∈ calls, storeTimeRejected C c.now (hdrTimestamp c.pHeader) = false →
      0 ≤ hdrTimestamp c.pHeader)
    (b : Int) (bkt : SecMsgBucket) (t : SecMsgToken)
    (hb : mapFind (runStores C {} calls).smsgSets b = some bkt) (ht : t ∈ bkt.setTokens) :
    b = bucketOf C t.timestamp ∧ b ≤ t.timestamp ∧
      t.timestamp < b + (C.SMSG_BUCKET_LEN : Int) := by
  have hinv : TokensPlaced C (fun x => 0 ≤ x) {} := by
    intro b bkt hb
    simp [mapFind] at hb
  obtain ⟨h1, h2⟩ := tokensPlaced_runStores C (fun x => 0 ≤ x) calls {} hnn hinv b bkt hb t ht
  have hpos : (0 : Int) < (C.SMSG_BUCKET_LEN : Int) := by exact_mod_cast hL
  have h3 := Int.tmod_nonneg (C.SMSG_BUCKET_LEN : Int) h2
  have h4 := Int.tmod_lt_of_pos t.timestamp hpos
  refine ⟨h1, ?_, ?_⟩
  · rw [h1]; unfold bucketOf; omega
  · rw [h1]; unfold bucketOf; omega

/-- C4 witness: the example envelope (timestamp 1000000) stored at clock 1000000 sits in
the bucket keyed 997200. -/
theorem bucket_window_invariant_witness :
    (997200 : Int) = bucketOf exConsts 1000000 ∧ (997200 : Int) ≤ 1000000 ∧
      (1000000 : Int) < 997200 + (exConsts.SMSG_BUCKET_LEN : Int) :=
  bucket_window_invariant exConsts (by decide)
    [⟨1000000, IoOutcome.ok, exHdr, exPayload, 8, false⟩] (by decide) 997200
    { setTokens := [⟨1000000, exPayload, 0⟩] } ⟨1000000, exPayload, 0⟩ (by decide) (by decide)

/-! ## Token keys -/

theorem sampleLt_trichotomy (a b : List Nat) (h1 : sampleLt a b = false)
    (h2 : sampleLt b a = false) : a = b := by
  induction a generalizing b with
  | nil =>
    cases b with
    | nil => rfl
    | cons y ys => simp [sampleLt] at h1
  | cons x xs ih =>
    cases b with
    | nil => simp [sampleLt] at h2
    | cons y ys =>
      simp only [sampleLt, Bool.or_eq_false_iff, decide_eq_false_iff_not, Bool.and_eq_false_iff,
        beq_eq_false_iff_ne, ne_eq] at h1 h2
      have hxy : x = y := by omega
      subst hxy
      have e1 : sampleLt xs ys = false := by
        rcases h1.2 with h | h
        · exact absurd rfl h
        · exact h
      have e2 : sampleLt ys xs = false := by
        rcases h2.2 with h | h
        · exact absurd rfl h
        · exact h
      rw [ih ys e1 e2]

/-- Two tokens are equivalent for `std::set` exactly when they agree on timestamp and
sample. -/
theorem tokenEquiv_iff (x t : SecMsgToken) :
    (!tokenLt x t && !tokenLt t x) = true ↔
      (x.timestamp = t.timestamp ∧ x.sample = t.sample) := by
  constructor
  · intro h
    simp only [Bool.and_eq_true, Bool.not_eq_true'] at h
    obtain ⟨h1, h2⟩ := h
    unfold tokenLt at h1 h2
    by_cases hts : x.timestamp = t.timestamp
    · rw [if_pos hts] at h1
      rw [if_pos hts.symm] at h2
      exact ⟨hts, sampleLt_trichotomy _ _ h1 h2⟩
    · rw [if_neg hts] at h1
      rw [if_neg (fun h => hts h.symm)] at h2
      simp only [decide_eq_false_iff_not] at h1 h2
      omega
  · rintro ⟨h1, h2⟩
    simp [tokenLt, h1, h2, sampleLt_irrefl]

theorem setFind_key (l : List SecMsgToken) (t k : SecMsgToken)
    (h1 : t.timestamp = k.timestamp) (h2 : t.sample = k.sample) :
    setFind l t = setFind l k := by
  cases t; cases k
  simp only at h1 h2
  subst h1 h2
  exact setFind_offset _ _ _ _ _

theorem setFind_some_key (l : List SecMsgToken) (t x : SecMsgToken) (h : setFind l t = some x) :
    x ∈ l ∧ x.timestamp = t.timestamp ∧ x.sample = t.sample := by
  induction l with
  | nil => simp [setFind] at h
  | cons y ys ih =>
    unfold setFind at h
    split at h
    · rename_i heq
      simp only [Option.some.injEq] at h
      subst h
      exact ⟨List.mem_cons_self _ _, (tokenEquiv_iff _ _).1 heq⟩
    · obtain ⟨a, b⟩ := ih h
      exact ⟨List.mem_cons_of_mem _ a, b⟩

theorem setFind_none_iff (l : List SecMsgToken) (t : SecMsgToken) :
    setFind l t = none ↔
      ∀ x ∈ l, ¬ (x.timestamp = t.timestamp ∧ x.sample = t.sample) := by
  induction l with
  | nil => simp [setFind]
  | cons y ys ih =>
    unfold setFind
    by_cases heq : (!tokenLt y t && !tokenLt t y) = true
    · rw [if_pos heq]
      constructor
      · intro h; simp at h
      · intro h
        exact absurd ((tokenEquiv_iff _ _).1 heq) (h y (List.mem_cons_self _ _))
    · rw [if_neg heq, ih]
      simp only [List.mem_cons, forall_eq_or_imp]
      constructor
      · intro h
        exact ⟨fun hk => heq ((tokenEquiv_iff _ _).2 hk), h⟩
      · intro h
        exact h.2

/-- A token that was absent is the one `find` returns after its insertion. -/
theorem setFind_setInsert_new (l : List SecMsgToken) (t : SecMsgToken)
    (h : setFind l t = none) : setFind (setInsert l t) t = some t := by
  induction l with
  | nil => simp [setInsert, setFind, tokenLt_irrefl]
  | cons x xs ih =>
    unfold setFind at h
    split at h
    · simp at h
    · rename_i hne
      by_cases h1 : tokenLt t x = true
      · simp [setInsert, h1, setFind, tokenLt_irrefl]
      · by_cases h2 : tokenLt x t = true
        · have hins : setInsert (x :: xs) t = x :: setInsert xs t := by
            simp [setInsert, h1, h2]
          rw [hins, setFind, if_neg hne]
          exact ih h
        · exfalso
          apply hne
          simp [h1, h2]

/-- Inserting a token that was absent leaves every other lookup as it was. -/
theorem setFind_setInsert_other (l : List SecMsgToken) (t k tok : SecMsgToken)
    (hn : setFind l t = none) (hk : setFind l k = some tok) :
    setFind (setInsert l t) k = some tok := by
  have hdiff : ¬ (t.timestamp = k.timestamp ∧ t.sample = k.sample) := by
    intro hh
    rw [setFind_key l t k hh.1 hh.2, hk] at hn
    simp at hn
  induction l with
  | nil => simp [setFind] at hk
  | cons x xs ih =>
    unfold setFind at hn
    split at hn
    · simp at hn
    · rename_i hne
      by_cases h1 : tokenLt t x = true
      · have hins : setInsert (x :: xs) t = t :: x :: xs := by
          simp [setInsert, h1]
        rw [hins, setFind, if_neg (fun hh => hdiff ((tokenEquiv_iff _ _).1 hh))]
        exact hk
      · by_cases h2 : tokenLt x t = true
        · have hins : setInsert (x :: xs) t = x :: setInsert xs t := by
            simp [setInsert, h1, h2]
          rw [hins]
          rw [setFind] at hk ⊢
          by_cases heq : (!tokenLt x k && !tokenLt k x) = true
          · rw [if_pos heq] at hk ⊢
            exact hk
          · rw [if_neg heq] at hk ⊢
            exact ih hn hk
        · exfalso
          apply hne
          simp [h1, h2]

theorem mapAt_mapTouch_any (m : List (Int × SecMsgBucket)) (key b : Int) :
    mapAt (mapTouch m key) b = mapAt m b := by
  by_cases h : key = b
  · subst h; exact mapAt_mapTouch m key
  · simp [mapAt, mapFind_mapTouch, h]

theorem mapAt_mapPut (m : List (Int × SecMsgBucket)) (key b : Int) (v : SecMsgBucket) :
    mapAt (mapPut m key v) b = if key = b then v else mapAt m b := by
  by_cases h : key = b <;> simp [mapAt, mapFind_mapPut, h]

/-! ## C6: store, then retrieve -/

/-- Any `SecureMsgStore` call, whatever its outcome, keeps the tokens a bucket holds. -/
theorem store_keeps_token (C : SmsgConsts) (now : Int) (io : IoOutcome) (s : SmsgState)
    (pHeader pPayload : List Nat) (nPayload : Nat) (fUpdateBucket : Bool)
    (b : Int) (k tok : SecMsgToken)
    (h : setFind (mapAt s.smsgSets b).setTokens k = some tok) :
    setFind (mapAt (SecureMsgStore C now io s pHeader pPayload nPayload
      fUpdateBucket).2.smsgSets b).setTokens k = some tok := by
  unfold SecureMsgStore
  simp only
  split
  · exact h
  · split
    · simpa [mapAt_mapTouch_any] using h
    · rename_i hnone
      split
      · simpa [mapAt_mapTouch_any] using h
      · simpa [mapAt_mapTouch_any] using h
      · simp only [mapAt_mapPut, mapAt_mapTouch_any] at hnone ⊢
        split
        · rename_i hb
          subst hb
          have : setFind (setInsert (mapAt s.smsgSets (bucketOf C (hdrTimestamp pHeader))).setTokens
              ⟨hdrTimestamp pHeader, tokenSample pPayload nPayload,
                ((mapFind s.files (bucketOf C (hdrTimestamp pHeader))).getD []).length⟩) k =
              some tok := by
            apply setFind_setInsert_other _ _ _ _ _ h
            rw [setFind_offset _ _ _ _ 0]
            exact hnone
          cases fUpdateBucket <;> exact this
        · exact h

/-- Any `SecureMsgStore` call, whatever its outcome, only appends to a bucket file. -/
theorem store_keeps_file (C : SmsgConsts) (now : Int) (io : IoOutcome) (s : SmsgState)
    (pHeader pPayload : List Nat) (nPayload : Nat) (fUpdateBucket : Bool)
    (b : Int) (pre : List Nat) (h : ∃ rest, mapFind s.files b = some (pre ++ rest)) :
    ∃ rest, mapFind (SecureMsgStore C now io s pHeader pPayload nPayload
      fUpdateBucket).2.files b = some (pre ++ rest) := by
  obtain ⟨rest, hr⟩ := h
  unfold SecureMsgStore
  simp only
  split
  · exact ⟨rest, hr⟩
  · split
    · exact ⟨rest, hr⟩
    · split
      · exact ⟨rest, hr⟩
      · simp only [mapFind_mapPut]
        split
        · rename_i hb
          subst hb
          rw [hr]
          simp only [Option.getD_some, List.append_assoc]
          exact ⟨_, rfl⟩
        · exact ⟨rest, hr⟩
      · simp only [mapFind_mapPut]
        split
        · rename_i hb
          subst hb
          rw [hr]
          simp only [Option.getD_some, List.append_assoc]
          exact ⟨_, rfl⟩
        · exact ⟨rest, hr⟩

theorem runStores_keeps_token (C : SmsgConsts) (calls : List StoreCall) (s : SmsgState)
    (b : Int) (k tok : SecMsgToken)
    (h : setFind (mapAt s.smsgSets b).setTokens k = some tok) :
    setFind (mapAt (runStores C s calls).smsgSets b).setTokens k = some tok := by
  induction calls generalizing s with
  | nil => exact h
  | cons c cs ih =>
    unfold runStores
    rw [List.foldl_cons]
    exact ih _ (store_keeps_token C _ _ _ _ _ _ _ b k tok h)

theorem runStores_keeps_file (C : SmsgConsts) (calls : List StoreCall) (s : SmsgState)
    (b : Int) (pre : List Nat) (h : ∃ rest, mapFind s.files b = some (pre ++ rest)) :
    ∃ rest, mapFind (runStores C s calls).files b = some (pre ++ rest) := by
  induction calls generalizing s with
  | nil => exact h
  | cons c cs ih =>
    unfold runStores
    rw [List.foldl_cons]
    exact ih _ (store_keeps_file C _ _ _ _ _ _ _ b pre h)

/-- Code `SecureMsgRetrieve` on a file that holds the record `smsg ++ payload` at the
token's offset returns that record. -/
theorem retrieve_at (C : SmsgConsts) (files : List (Int × List Nat)) (token : SecMsgToken)
    (pre smsg payload rest : List Nat)
    (hf : mapFind files (bucketOf C token.timestamp) = some (pre ++ (smsg ++ payload) ++ rest))
    (ho : token.offset = pre.length) (hl : smsg.length = SMSG_HDR_LEN)
    (hn : hdrNPayload smsg = payload.length) :
    SecureMsgRetrieve C files token = some (smsg ++ payload) := by
  unfold SecureMsgRetrieve
  rw [hf]
  simp only
  have hd : (pre ++ (smsg ++ payload) ++ rest).drop token.offset = smsg ++ (payload ++ rest) := by
    rw [ho, List.append_assoc, List.drop_left, List.append_assoc]
  rw [hd]
  have ht : (smsg ++ (payload ++ rest)).take SMSG_HDR_LEN = smsg := by
    rw [← hl, List.take_left]
  have hdr : (smsg ++ (payload ++ rest)).drop SMSG_HDR_LEN = payload ++ rest := by
    rw [← hl, List.drop_left]
  rw [ht, hdr, hn]
  have h1 : ¬ (smsg ++ (payload ++ rest)).length < SMSG_HDR_LEN := by
    simp [hl]
  have h2 : ¬ (payload ++ rest).length < payload.length := by simp
  rw [if_neg h1, if_neg h2, List.take_left]

/-- C6: after a successful `SecureMsgStore` of (header, payload) whose header nPayload
field equals the payload length, the bucket holds the token with offset equal to the
length of the bucket file before the write, and - directly after the store as well as
after any sequence `later` of further `SecureMsgStore` calls - `SecureMsgRetrieve` with
that token returns exactly header || payload, SMSG_HDR_LEN + nPayload bytes. -/
theorem store_retrieve_roundtrip (C : SmsgConsts) (now : Int) (io : IoOutcome)
    (s s1 : SmsgState) (pHeader pPayload : List Nat) (fUpdateBucket : Bool)
    (hlen : pHeader.length = SMSG_HDR_LEN)
    (hnp : hdrNPayload pHeader = pPayload.length)
    (h : SecureMsgStore C now io s pHeader pPayload pPayload.length fUpdateBucket = (0, s1))
    (later : List StoreCall) :
    setFind (mapAt (runStores C s1 later).smsgSets (bucketOf C (hdrTimestamp pHeader))).setTokens
        ⟨hdrTimestamp pHeader, tokenSample pPayload pPayload.length, 0⟩ =
      some ⟨hdrTimestamp pHeader, tokenSample pPayload pPayload.length,
        ((mapFind s.files (bucketOf C (hdrTimestamp pHeader))).getD []).length⟩ ∧
    SecureMsgRetrieve C (runStores C s1 later).files
        ⟨hdrTimestamp pHeader, tokenSample pPayload pPayload.length,
          ((mapFind s.files (bucketOf C (hdrTimestamp pHeader))).getD []).length⟩ =
      some (pHeader ++ pPayload) ∧
    (pHeader ++ pPayload).length = SMSG_HDR_LEN + hdrNPayload pHeader := by
  obtain ⟨_, hnone, _, hfiles, bkt2, hsets, htok, _⟩ := store_ok_state C now io s s1 _ _ _ _ h
  have hrec : pHeader.take SMSG_HDR_LEN ++ pPayload.take pPayload.length = pHeader ++ pPayload := by
    rw [← hlen, List.take_length, List.take_length]
  rw [hrec] at hfiles
  refine ⟨?_, ?_, by simp [hlen, hnp]⟩
  · apply runStores_keeps_token
    rw [hsets, mapAt_mapPut_self, htok, setFind_offset _ _ _ 0 _]
    apply setFind_setInsert_new
    rw [setFind_offset _ _ _ _ 0]
    exact hnone
  · obtain ⟨rest, hr⟩ := runStores_keeps_file C later s1 (bucketOf C (hdrTimestamp pHeader))
      ((mapFind s.files (bucketOf C (hdrTimestamp pHeader))).getD [] ++ (pHeader ++ pPayload))
      ⟨[], by rw [hfiles, mapFind_mapPut_self]; simp⟩
    exact retrieve_at C _ _ _ pHeader pPayload rest hr rfl hlen hnp

/-- C6 witness: the example envelope stored into the empty state, followed by a second
envelope stored into the same bucket. -/
theorem store_retrieve_roundtrip_witness :
    SecureMsgRetrieve exConsts
        (runStores exConsts exState1
          [⟨1000001, IoOutcome.ok, exHeader [0, 0, 0, 0] 1 1000001 8, exPayload, 8, false⟩]).files
        ⟨1000000, exPayload, 0⟩ = some (exHdr ++ exPayload) :=
  (store_retrieve_roundtrip exConsts 1000000 IoOutcome.ok {} exState1 exHdr exPayload true
    (by decide) (by decide) (by decide)
    [⟨1000001, IoOutcome.ok, exHeader [0, 0, 0, 0] 1 1000001 8, exPayload, 8, false⟩]).2.1

/-! ## C7: rebuilding the index from the bucket files -/

set_option maxRecDepth 100000 in
/-- C7 (as stated, refuted): an envelope with an empty payload is stored and indexed by
`SecureMsgStore`, but `SecureMsgBuildBucketSet` skips every record with nPayload < 8: the
rebuilt bucket has no token. -/
theorem rebuild_drops_short_payload :
    storesSucceed exConsts {}
        [⟨1000000, IoOutcome.ok, exHeader [0, 0, 0, 0] 1 1000000 0, [], 0, true⟩] = true ∧
    (mapAt (runStores exConsts {}
        [⟨1000000, IoOutcome.ok, exHeader [0, 0, 0, 0] 1 1000000 0, [], 0, true⟩]).smsgSets
        997200).setTokens = [⟨1000000, [0, 0, 0, 0, 0, 0, 0, 0], 0⟩] ∧
    (mapAt (SecureMsgBuildBucketSet exConsts 1000000
        { smsgSets := [],
          files := (runStores exConsts {}
            [⟨1000000, IoOutcome.ok, exHeader [0, 0, 0, 0] 1 1000000 0, [], 0, true⟩]).files
        }).smsgSets 997200).setTokens = [] := by
  decide

theorem recordsBytes_cons (r : List Nat × List Nat) (rs : List (List Nat × List Nat)) :
    recordsBytes (r :: rs) = r.1 ++ r.2 ++ recordsBytes rs := by
  simp [recordsBytes]

theorem recordsBytes_append (rs : List (List Nat × List Nat)) (r : List Nat × List Nat) :
    recordsBytes (rs ++ [r]) = recordsBytes rs ++ (r.1 ++ r.2) := by
  simp [recordsBytes]

theorem recordsTokens_append (rs : List (List Nat × List Nat)) (r : List Nat × List Nat)
    (ofs : Nat) (acc : List SecMsgToken) :
    recordsTokens (rs ++ [r]) ofs acc =
      setInsert (recordsTokens rs ofs acc)
        ⟨hdrTimestamp r.1, tokenSample r.2 r.2.length, ofs + (recordsBytes rs).length⟩ := by
  induction rs generalizing ofs acc with
  | nil => simp [recordsTokens, recordsBytes]
  | cons x xs ih =>
    show recordsTokens (xs ++ [r]) (ofs + (x.1 ++ x.2).length) _ = _
    rw [ih]
    simp only [recordsTokens, recordsBytes_cons, List.length_append, Nat.add_assoc]

/-- The record loop of `SecureMsgBuildBucketSet`, run over whole records with payloads of
at least 8 bytes, inserts the token of every record with its offset. -/
theorem scanBucketFile_records (recs : List (List Nat × List Nat)) (pre : List Nat)
    (acc : List SecMsgToken) (fuel : Nat)
    (hok : ∀ r ∈ recs, r.1.length = SMSG_HDR_LEN ∧ hdrNPayload r.1 = r.2.length ∧
      8 ≤ r.2.length)
    (hfuel : recs.length < fuel) :
    scanBucketFile (pre ++ recordsBytes recs) fuel pre.length acc =
      recordsTokens recs pre.length acc := by
  induction recs generalizing pre acc fuel with
  | nil =>
    cases fuel with
    | zero => omega
    | succ f =>
      simp [scanBucketFile, recordsBytes, recordsTokens, SMSG_HDR_LEN]
  | cons r rs ih =>
    cases fuel with
    | zero => omega
    | succ f =>
      obtain ⟨h, p⟩ := r
      obtain ⟨hl, hn, h8⟩ := hok (h, p) (List.mem_cons_self _ _)
      simp only at hl hn h8
      have hd : (pre ++ recordsBytes ((h, p) :: rs)).drop pre.length =
          h ++ (p ++ recordsBytes rs) := by
        rw [List.drop_left, recordsBytes_cons, List.append_assoc]
      have ht : (h ++ (p ++ recordsBytes rs)).take SMSG_HDR_LEN = h := by
        rw [← hl, List.take_left]
      have hdr : (h ++ (p ++ recordsBytes rs)).drop SMSG_HDR_LEN = p ++ recordsBytes rs := by
        rw [← hl, List.drop_left]
      have h1 : ¬ (h ++ (p ++ recordsBytes rs)).length < SMSG_HDR_LEN := by simp [hl]
      have h2 : ¬ p.length < 8 := by omega
      have h3 : ¬ (p ++ recordsBytes rs).length < 8 := by simp; omega
      have h4 : (p ++ recordsBytes rs).take 8 = tokenSample p p.length := by
        unfold tokenSample
        rw [if_neg (by omega), List.take_append_of_le_length h8]
      rw [scanBucketFile]
      simp only [hd, ht, hdr, if_neg h1, if_neg h2, if_neg h3, h4, hn]
      have hpre : pre ++ recordsBytes ((h, p) :: rs) = (pre ++ (h ++ p)) ++ recordsBytes rs := by
        rw [recordsBytes_cons]; simp
      have hofs : pre.length + SMSG_HDR_LEN + p.length = (pre ++ (h ++ p)).length := by
        simp [hl]; omega
      rw [hpre, hofs, ih (pre ++ (h ++ p)) _ f
        (fun r hr => hok r (List.mem_cons_of_mem _ hr)) (by simp at hfuel; omega)]
      simp [recordsTokens, List.length_append]

theorem mapPut_keys {β : Type} (m : List (Int × β)) (key : Int) (v : β) (k : Int)
    (h : k ∈ (mapPut m key v).map Prod.fst) : k = key ∨ k ∈ m.map Prod.fst := by
  induction m with
  | nil => simp [mapPut] at h; exact Or.inl h
  | cons e rest ih =>
    obtain ⟨k1, w⟩ := e
    unfold mapPut at h
    split at h
    · simp at h ⊢
      rcases h with h | h | h
      · exact Or.inl h
      · exact Or.inr (Or.inl h)
      · exact Or.inr (Or.inr h)
    · split at h
      · simp at h ⊢
        rcases h with h | h
        · exact Or.inr (Or.inl h)
        · exact Or.inr (Or.inr h)
      · simp only [List.map_cons, List.mem_cons] at h ⊢
        rcases h with h | h
        · exact Or.inr (Or.inl h)
        · rcases ih h with h | h
          · exact Or.inl h
          · exact Or.inr (Or.inr h)

theorem mapPut_keysAscending {β : Type} (m : List (Int × β)) (key : Int) (v : β)
    (h : KeysAscending m) : KeysAscending (mapPut m key v) := by
  unfold KeysAscending at h ⊢
  induction m with
  | nil => simp [mapPut]
  | cons e rest ih =>
    obtain ⟨k1, w⟩ := e
    simp only [List.map_cons, List.pairwise_cons] at h
    unfold mapPut
    split
    · rename_i hlt
      simp only [List.map_cons, List.pairwise_cons, List.mem_cons]
      refine ⟨?_, h.1, h.2⟩
      intro a ha
      rcases ha with ha | ha
      · rw [ha]; exact hlt
      · exact lt_trans hlt (h.1 a ha)
    · split
      · simp only [List.map_cons, List.pairwise_cons]
        exact h
      · rename_i h1 h2
        simp only [List.map_cons, List.pairwise_cons]
        refine ⟨?_, ih h.2⟩
        intro a ha
        rcases mapPut_keys rest key v a ha with ha | ha
        · rw [ha]; omega
        · exact h.1 a ha

theorem mapFind_mem {β : Type} (m : List (Int × β)) (k : Int) (v : β)
    (h : mapFind m k = some v) : (k, v) ∈ m := by
  induction m with
  | nil => simp [mapFind] at h
  | cons e rest ih =>
    obtain ⟨k1, w⟩ := e
    unfold mapFind at h
    split at h
    · rename_i hk
      simp only [Option.some.injEq] at h
      subst hk h
      exact List.mem_cons_self _ _
    · exact List.mem_cons_of_mem _ (ih h)

theorem recordsBytes_length (recs : List (List Nat × List Nat))
    (hok : ∀ r ∈ recs, RecordFormed r) : recs.length ≤ (recordsBytes recs).length := by
  induction recs with
  | nil => simp
  | cons r rs ih =>
    have h1 := (hok r (List.mem_cons_self _ _)).1
    have h2 := ih (fun x hx => hok x (List.mem_cons_of_mem _ hx))
    rw [recordsBytes_cons]
    simp only [List.length_append, List.length_cons, h1, SMSG_HDR_LEN]
    omega

/-- A successful `SecureMsgStore` of a formed envelope with a payload of at least 8 bytes
keeps the bucket files in step with the token sets. -/
theorem filesIndexed_store (C : SmsgConsts) (now : Int) (io : IoOutcome) (s s1 : SmsgState)
    (pHeader pPayload : List Nat) (fUpdateBucket : Bool)
    (hform : RecordFormed (pHeader, pPayload))
    (h : SecureMsgStore C now io s pHeader pPayload pPayload.length fUpdateBucket = (0, s1))
    (hinv : FilesIndexed s) : FilesIndexed s1 := by
  obtain ⟨_, _, _, hfiles, bkt2, hsets, htok, _⟩ := store_ok_state C now io s s1 _ _ _ _ h
  obtain ⟨hl, hn, h8⟩ := hform
  simp only at hl hn h8
  have hrec : pHeader.take SMSG_HDR_LEN ++ pPayload.take pPayload.length = pHeader ++ pPayload := by
    rw [← hl, List.take_length, List.take_length]
  rw [hrec] at hfiles
  refine ⟨by rw [hfiles]; exact mapPut_keysAscending _ _ _ hinv.1, ?_⟩
  intro b
  obtain ⟨recs, hr1, hr2, hr3⟩ := hinv.2 b
  by_cases hb : bucketOf C (hdrTimestamp pHeader) = b
  · subst hb
    refine ⟨recs ++ [(pHeader, pPayload)], ?_, ?_, ?_⟩
    · intro r hr
      rcases List.mem_append.1 hr with hr | hr
      · exact hr1 r hr
      · simp only [List.mem_singleton] at hr
        subst hr
        exact ⟨hl, hn, h8⟩
    · rw [hfiles, mapFind_mapPut_self, recordsBytes_append, ← hr2]
      rfl
    · rw [hsets, mapAt_mapPut_self, htok, recordsTokens_append, ← hr3, ← hr2]
      simp
  · refine ⟨recs, hr1, ?_, ?_⟩
    · rw [hfiles, mapFind_mapPut, if_neg hb]
      exact hr2
    · rw [hsets, mapAt_mapPut, if_neg hb, mapAt_mapTouch_any]
      exact hr3

theorem filesIndexed_runStores (C : SmsgConsts) (calls : List StoreCall) (s : SmsgState)
    (hwf : ∀ c ∈ calls, storeCallFormed c = true ∧ 8 ≤ c.pPayload.length)
    (hok : storesSucceed C s calls = true) (hinv : FilesIndexed s) :
    FilesIndexed (runStores C s calls) := by
  induction calls generalizing s with
  | nil => exact hinv
  | cons c cs ih =>
    unfold runStores
    rw [List.foldl_cons]
    unfold storesSucceed at hok
    simp only [Bool.and_eq_true, beq_iff_eq] at hok
    obtain ⟨hf, h8⟩ := hwf c (List.mem_cons_self _ _)
    unfold storeCallFormed at hf
    simp only [Bool.and_eq_true, beq_iff_eq] at hf
    obtain ⟨⟨hl, hnp⟩, hn⟩ := hf
    apply ih _ (fun x hx => hwf x (List.mem_cons_of_mem _ hx)) hok.2
    have hst : SecureMsgStore C c.now c.io s c.pHeader c.pPayload c.pPayload.length
        c.fUpdateBucket = (0, (SecureMsgStore C c.now c.io s c.pHeader c.pPayload c.nPayload
          c.fUpdateBucket).2) := by
      rw [← hnp]
      exact Prod.ext hok.1 rfl
    exact filesIndexed_store C _ _ _ _ _ _ _ ⟨hl, hn, h8⟩ hst hinv

/-- Directory entries of other buckets leave the bucket `b` alone. -/
theorem build_other (C : SmsgConsts) (now : Int) (b : Int) (L : List (Int × List Nat))
    (s : SmsgState) (h : ∀ e ∈ L, e.1 ≠ b) :
    mapFind (L.foldl (buildBucketStep C now) s).smsgSets b = mapFind s.smsgSets b := by
  induction L generalizing s with
  | nil => rfl
  | cons e rest ih =>
    rw [List.foldl_cons, ih _ (fun x hx => h x (List.mem_cons_of_mem _ hx))]
    have hne := h e (List.mem_cons_self _ _)
    unfold buildBucketStep
    split
    · rfl
    · simp only [mapFind_mapPut, if_neg hne, mapFind_mapTouch]

/-- The directory entry of bucket `b` is scanned into a fresh bucket, which is hashed. -/
theorem build_entry (C : SmsgConsts) (now : Int) (b : Int) (content : List Nat)
    (L : List (Int × List Nat)) (s : SmsgState)
    (hmem : (b, content) ∈ L) (hnd : (L.map Prod.fst).Nodup)
    (hret : ¬ b < now - (C.SMSG_RETENTION : Int)) (hnone : mapFind s.smsgSets b = none) :
    mapFind (L.foldl (buildBucketStep C now) s).smsgSets b =
      some (SecMsgBucket.hashBucket now
        { setTokens := scanBucketFile content (content.length + 1) 0 [] }) := by
  induction L generalizing s with
  | nil => simp at hmem
  | cons e rest ih =>
    simp only [List.map_cons, List.nodup_cons] at hnd
    rw [List.foldl_cons]
    by_cases he : e = (b, content)
    · subst he
      rw [build_other C now b rest _ (fun x hx hxb => hnd.1 (by
        simp only [List.mem_map]
        exact ⟨x, hx, by simp [hxb]⟩))]
      unfold buildBucketStep
      simp only [if_neg hret, mapFind_mapPut_self, mapAt_mapTouch]
      simp [mapAt, hnone]
    · have hmem2 : (b, content) ∈ rest := by
        rcases List.mem_cons.1 hmem with h | h
        · exact absurd h.symm he
        · exact h
      have hne : e.1 ≠ b := by
        intro hh
        apply hnd.1
        simp only [List.mem_map]
        exact ⟨(b, content), hmem2, hh.symm⟩
      apply ih _ hmem2 hnd.2
      unfold buildBucketStep
      split
      · exact hnone
      · simp only [mapFind_mapPut, if_neg hne, mapFind_mapTouch]
        exact hnone

/-- C7 (amended): for every bucket file written by a sequence of successful
`SecureMsgStore` calls whose payloads all have at least 8 bytes (bucket still within
retention), `SecureMsgBuildBucketSet` run on an empty bucket map rebuilds for that bucket
exactly the token set the stores had built in memory - the same (timestamp, sample) pairs
with the same offsets - and sets the bucket hash to the digest of that set. -/
theorem rebuild_matches_store (C : SmsgConsts) (now : Int) (calls : List StoreCall)
    (hwf : ∀ c ∈ calls, storeCallFormed c = true ∧ 8 ≤ c.pPayload.length)
    (hok : storesSucceed C {} calls = true)
    (b : Int) (content : List Nat)
    (hfile : mapFind (runStores C {} calls).files b = some content)
    (hret : now - (C.SMSG_RETENTION : Int) ≤ b) :
    ∃ bkt, mapFind (SecureMsgBuildBucketSet C now
        { smsgSets := [], files := (runStores C {} calls).files }).smsgSets b = some bkt ∧
      bkt.setTokens = (mapAt (runStores C {} calls).smsgSets b).setTokens ∧
      bkt.hash = XXH32 1 (bucketSamples bkt.setTokens) := by
  have hinv0 : FilesIndexed {} := by
    refine ⟨by simp [KeysAscending], fun b => ⟨[], by simp, ?_, ?_⟩⟩
    · simp [mapFind, recordsBytes]
    · simp [mapAt, mapFind, recordsTokens]
  obtain ⟨hasc, hidx⟩ := filesIndexed_runStores C calls {} hwf hok hinv0
  obtain ⟨recs, hr1, hr2, hr3⟩ := hidx b
  rw [hfile] at hr2
  simp only [Option.getD_some] at hr2
  have hnd : ((runStores C {} calls).files.map Prod.fst).Nodup := by
    unfold KeysAscending at hasc
    exact hasc.imp (fun h => ne_of_lt h)
  have hscan : scanBucketFile content (content.length + 1) 0 [] = recordsTokens recs 0 [] := by
    have := scanBucketFile_records recs [] [] (content.length + 1) hr1
      (by have := recordsBytes_length recs hr1; rw [← hr2] at this; omega)
    simpa [hr2] using this
  refine ⟨_, build_entry C now b content _ _ (mapFind_mem _ _ _ hfile) hnd (by omega) rfl, ?_, ?_⟩
  · rw [hashBucket_setTokens, hscan, hr3]
  · rfl

set_option maxRecDepth 100000 in
/-- C7 witness: the example envelope (8-byte payload) stored into the empty state; the
index is rebuilt from the file at clock 1000500. -/
theorem rebuild_matches_store_witness :
    ∃ bkt, mapFind (SecureMsgBuildBucketSet exConsts 1000500
        { smsgSets := [],
          files := (runStores exConsts {}
            [⟨1000000, IoOutcome.ok, exHdr, exPayload, 8, true⟩]).files }).smsgSets 997200 =
        some bkt ∧
      bkt.setTokens = (mapAt (runStores exConsts {}
        [⟨1000000, IoOutcome.ok, exHdr, exPayload, 8, true⟩]).smsgSets 997200).setTokens ∧
      bkt.hash = XXH32 1 (bucketSamples bkt.setTokens) :=
  rebuild_matches_store exConsts 1000500 [⟨1000000, IoOutcome.ok, exHdr, exPayload, 8, true⟩]
    (by decide) (by decide) 997200 (exHdr ++ exPayload) (by decide) (by decide)

/-! ## C8: the bucket hash and the order of insertion -/

/-- C8 (as stated, refuted): two buckets with the same multiset of samples {A, B}, one
holding (1, A), (2, B) and the other (1, B), (2, A), are hashed over A || B and B || A
and get different hashes. -/
theorem hash_differs_for_same_samples :
    ((insertAll [⟨1, exSampleA, 0⟩, ⟨2, exSampleB, 0⟩]).map (fun t => t.sample)).Perm
      ((insertAll [⟨1, exSampleB, 0⟩, ⟨2, exSampleA, 0⟩]).map (fun t => t.sample)) ∧
    (SecMsgBucket.hashBucket 0
      { setTokens := insertAll [⟨1, exSampleA, 0⟩, ⟨2, exSampleB, 0⟩] }).hash ≠
    (SecMsgBucket.hashBucket 0
      { setTokens := insertAll [⟨1, exSampleB, 0⟩, ⟨2, exSampleA, 0⟩] }).hash := by
  refine ⟨?_, by decide⟩
  have e1 : (insertAll [⟨1, exSampleA, 0⟩, ⟨2, exSampleB, 0⟩]).map (fun t => t.sample) =
      [exSampleA, exSampleB] := by decide
  have e2 : (insertAll [⟨1, exSampleB, 0⟩, ⟨2, exSampleA, 0⟩]).map (fun t => t.sample) =
      [exSampleB, exSampleA] := by decide
  rw [e1, e2]
  exact List.Perm.swap _ _ _

theorem sampleLt_asymm (a b : List Nat) (h : sampleLt a b = true) : sampleLt b a = false := by
  induction a generalizing b with
  | nil =>
    cases b with
    | nil => simp [sampleLt] at h
    | cons y ys => simp [sampleLt]
  | cons x xs ih =>
    cases b with
    | nil => simp [sampleLt] at h
    | cons y ys =>
      simp only [sampleLt, Bool.or_eq_true, decide_eq_true_eq, Bool.and_eq_true,
        beq_iff_eq] at h
      simp only [sampleLt, Bool.or_eq_false_iff, decide_eq_false_iff_not, Bool.and_eq_false_iff,
        beq_eq_false_iff_ne, ne_eq]
      rcases h with h | ⟨h1, h2⟩
      · exact ⟨by omega, Or.inl (by omega)⟩
      · exact ⟨by omega, Or.inr (ih ys h2)⟩

theorem sampleLt_trans (a b c : List Nat) (h1 : sampleLt a b = true)
    (h2 : sampleLt b c = true) : sampleLt a c = true := by
  induction a generalizing b c with
  | nil =>
    cases b with
    | nil => simp [sampleLt] at h1
    | cons y ys =>
      cases c with
      | nil => simp [sampleLt] at h2
      | cons z zs => simp [sampleLt]
  | cons x xs ih =>
    cases b with
    | nil => simp [sampleLt] at h1
    | cons y ys =>
      cases c with
      | nil => simp [sampleLt] at h2
      | cons z zs =>
        simp only [sampleLt, Bool.or_eq_true, decide_eq_true_eq, Bool.and_eq_true,
          beq_iff_eq] at h1 h2 ⊢
        rcases h1 with h1 | ⟨e1, h1⟩
        · rcases h2 with h2 | ⟨e2, h2⟩
          · exact Or.inl (by omega)
          · exact Or.inl (by omega)
        · rcases h2 with h2 | ⟨e2, h2⟩
          · exact Or.inl (by omega)
          · exact Or.inr ⟨by omega, ih ys zs h1 h2⟩

theorem tokenLt_asymm (a b : SecMsgToken) (h : tokenLt a b = true) : tokenLt b a = false := by
  unfold tokenLt at h ⊢
  by_cases e : a.timestamp = b.timestamp
  · rw [if_pos e] at h
    rw [if_pos e.symm]
    exact sampleLt_asymm _ _ h
  · rw [if_neg e] at h
    rw [if_neg (fun x => e x.symm)]
    simp only [decide_eq_true_eq] at h
    simp only [decide_eq_false_iff_not]
    omega

theorem tokenLt_trans (a b c : SecMsgToken) (h1 : tokenLt a b = true)
    (h2 : tokenLt b c = true) : tokenLt a c = true := by
  unfold tokenLt at h1 h2 ⊢
  by_cases e1 : a.timestamp = b.timestamp
  · rw [if_pos e1] at h1
    by_cases e2 : b.timestamp = c.timestamp
    · rw [if_pos e2] at h2
      rw [if_pos (e1.trans e2)]
      exact sampleLt_trans _ _ _ h1 h2
    · rw [if_neg e2] at h2
      rw [if_neg (by rw [e1]; exact e2), e1]
      exact h2
  · rw [if_neg e1] at h1
    simp only [decide_eq_true_eq] at h1
    by_cases e2 : b.timestamp = c.timestamp
    · rw [if_neg (by rw [← e2]; exact e1), ← e2]
      simpa using h1
    · rw [if_neg e2] at h2
      simp only [decide_eq_true_eq] at h2
      have : ¬ a.timestamp = c.timestamp := by omega
      rw [if_neg this]
      simp only [decide_eq_true_eq]
      omega

theorem tokenLt_key (a b : SecMsgToken) :
    tokenLt a b = true ↔ keyLt (tokenKey a) (tokenKey b) := by
  simp [keyLt, tokenKey, tokenLt]

/-- Insertion keeps a token set in strictly ascending order. -/
theorem setInsert_sorted (l : List SecMsgToken) (t : SecMsgToken)
    (h : l.Pairwise (fun a b => tokenLt a b = true)) :
    (setInsert l t).Pairwise (fun a b => tokenLt a b = true) := by
  induction l with
  | nil => simp [setInsert]
  | cons x xs ih =>
    simp only [List.pairwise_cons] at h
    unfold setInsert
    split
    · rename_i hlt
      simp only [List.pairwise_cons, List.mem_cons]
      refine ⟨?_, h.1, h.2⟩
      intro a ha
      rcases ha with ha | ha
      · rw [ha]; exact hlt
      · exact tokenLt_trans _ _ _ hlt (h.1 a ha)
    · split
      · rename_i hlt
        simp only [List.pairwise_cons]
        refine ⟨?_, ih h.2⟩
        intro a ha
        rcases mem_setInsert _ _ _ ha with ha | ha
        · rw [ha]; exact hlt
        · exact h.1 a ha
      · simp only [List.pairwise_cons]
        exact h

/-- The keys of a token set after an insertion: the old keys and the new one. -/
theorem setInsert_keys (l : List SecMsgToken) (t : SecMsgToken) (k : Int × List Nat) :
    k ∈ (setInsert l t).map tokenKey ↔ k = tokenKey t ∨ k ∈ l.map tokenKey := by
  induction l with
  | nil => simp [setInsert]
  | cons x xs ih =>
    unfold setInsert
    split
    · simp
    · split
      · simp only [List.map_cons, List.mem_cons, ih]
        tauto
      · rename_i h1 h2
        have hk : tokenKey x = tokenKey t := by
          have := (tokenEquiv_iff x t).1 (by simp [h1, h2])
          exact Prod.ext this.1 this.2
        simp only [List.map_cons, List.mem_cons, hk]
        tauto

theorem insertAll_spec (xs : List SecMsgToken) (acc : List SecMsgToken)
    (h : acc.Pairwise (fun a b => tokenLt a b = true)) :
    (xs.foldl setInsert acc).Pairwise (fun a b => tokenLt a b = true) ∧
      ∀ k, k ∈ (xs.foldl setInsert acc).map tokenKey ↔
        (k ∈ acc.map tokenKey ∨ k ∈ xs.map tokenKey) := by
  induction xs generalizing acc with
  | nil => simp [h]
  | cons x rest ih =>
    rw [List.foldl_cons]
    obtain ⟨h1, h2⟩ := ih _ (setInsert_sorted acc x h)
    refine ⟨h1, fun k => ?_⟩
    rw [h2, setInsert_keys]
    simp only [List.map_cons, List.mem_cons]
    tauto

/-- Two token sets in strictly ascending order with the same keys list the same keys in
the same order. -/
theorem sorted_keys_unique (l1 l2 : List SecMsgToken)
    (h1 : l1.Pairwise (fun a b => tokenLt a b = true))
    (h2 : l2.Pairwise (fun a b => tokenLt a b = true))
    (hk : ∀ k, k ∈ l1.map tokenKey ↔ k ∈ l2.map tokenKey) :
    l1.map tokenKey = l2.map tokenKey := by
  have s1 : (l1.map tokenKey).Pairwise keyLt :=
    List.pairwise_map.2 (h1.imp (fun h => (tokenLt_key _ _).1 h))
  have s2 : (l2.map tokenKey).Pairwise keyLt :=
    List.pairwise_map.2 (h2.imp (fun h => (tokenLt_key _ _).1 h))
  have irr : ∀ a, ¬ keyLt a a := fun a h => by
    have := tokenLt_irrefl ⟨a.1, a.2, 0⟩
    unfold keyLt at h
    rw [this] at h
    exact Bool.false_ne_true h
  haveI : IsAntisymm (Int × List Nat) keyLt := ⟨fun a b hab hba => by
    unfold keyLt at hab hba
    rw [tokenLt_asymm _ _ hab] at hba
    exact absurd hba Bool.false_ne_true⟩
  have hne : ∀ {a b : Int × List Nat}, keyLt a b → a ≠ b := fun {a b} h e => by
    rw [e] at h
    exact irr b h
  have n1 : (l1.map tokenKey).Nodup := List.Pairwise.imp hne s1
  have n2 : (l2.map tokenKey).Nodup := List.Pairwise.imp hne s2
  exact List.eq_of_perm_of_sorted ((List.perm_ext_iff_of_nodup n1 n2).2 hk) s1 s2

theorem bucketSamples_keys (l : List SecMsgToken) :
    bucketSamples l = ((l.map tokenKey).map Prod.snd).flatten := by
  simp [bucketSamples, tokenKey, Function.comp_def]

/-- C8 (amended): two buckets whose token sets were built by inserting tokens with the
same (timestamp, sample) pairs, in any order and with any multiplicity and offsets, get
the same hash from `SecMsgBucket::hashBucket`. -/
theorem hashBucket_insertion_order (now1 now2 : Int) (b1 b2 : SecMsgBucket)
    (xs ys : List SecMsgToken)
    (hkeys : ∀ k, k ∈ xs.map tokenKey ↔ k ∈ ys.map tokenKey) :
    (SecMsgBucket.hashBucket now1 { b1 with setTokens := insertAll xs }).hash =
      (SecMsgBucket.hashBucket now2 { b2 with setTokens := insertAll ys }).hash := by
  obtain ⟨s1, k1⟩ := insertAll_spec xs [] List.Pairwise.nil
  obtain ⟨s2, k2⟩ := insertAll_spec ys [] List.Pairwise.nil
  have e : (insertAll xs).map tokenKey = (insertAll ys).map tokenKey := by
    apply sorted_keys_unique _ _ s1 s2
    intro k
    show k ∈ (xs.foldl setInsert []).map tokenKey ↔ k ∈ (ys.foldl setInsert []).map tokenKey
    rw [k1, k2]
    simp [hkeys]
  show XXH32 1 (bucketSamples (insertAll xs)) = XXH32 1 (bucketSamples (insertAll ys))
  rw [bucketSamples_keys, bucketSamples_keys, e]

/-- C8 witness: the tokens (1, A) and (2, B) inserted in both orders. -/
theorem hashBucket_insertion_order_witness :
    (SecMsgBucket.hashBucket 5
      { setTokens := insertAll [⟨1, exSampleA, 0⟩, ⟨2, exSampleB, 122⟩] }).hash =
    (SecMsgBucket.hashBucket 9
      { setTokens := insertAll [⟨2, exSampleB, 0⟩, ⟨1, exSampleA, 130⟩] }).hash :=
  hashBucket_insertion_order 5 9 {} {} [⟨1, exSampleA, 0⟩, ⟨2, exSampleB, 122⟩]
    [⟨2, exSampleB, 0⟩, ⟨1, exSampleA, 130⟩]
    (fun k => by simp [tokenKey]; tauto)

/-! ## C10: the bucket lock and `smsgWant` -/

set_option maxRecDepth 100000 in
/-- C10 (as stated, refuted): bucket 997200 is locked with lockCount = 3 for peer 1, yet
an `smsgWant` for it from peer 2 is answered with an `smsgMsg` carrying the envelope. -/
theorem want_answered_while_locked :
    (mapAt exLocked.smsgSets 997200).nLockCount = 3 ∧
    (mapAt exLocked.smsgSets 997200).nLockPeerId = 1 ∧
    (SecureMsgReceiveData exConsts hmacZero 1000000 (fun _ => IoOutcome.ok) exLocked
        { nPeerId := 2 } SmsgCommand.smsgWant exWant).sent =
      [(SmsgCommand.smsgMsg, encodeU32 1 ++ encodeI64 997200 ++ (exHdr ++ exPayload))] := by
  decide

/-- C10 (amended): the `smsgWant` handler does not consult the lock - its answer is the
same whatever lockCount and lockPeerId the bucket has and whichever peer sent the request;
the lock binds the requesting side: while bucket b has lockCount > 0, an `smsgHave` for b
from any peer is answered with nothing, so no further `smsgWant` for b is sent. -/
theorem lock_binds_requester_only (C : SmsgConsts)
    (hmac : List Nat → List Nat → Option (List Nat)) (now : Int) (io : Nat → IoOutcome)
    (s : SmsgState) (p q : SmsgPeer) (vchData : List Nat) :
    (∀ (bkt : SecMsgBucket) (lockCount lockPeerId : Nat),
      mapFind s.smsgSets (decodeI64 vchData) = some bkt →
      (SecureMsgReceiveData C hmac now io
        { s with
          smsgSets := mapPut s.smsgSets (decodeI64 vchData)
            { bkt with nLockCount := lockCount, nLockPeerId := lockPeerId } }
        q SmsgCommand.smsgWant vchData).sent =
      (SecureMsgReceiveData C hmac now io s p SmsgCommand.smsgWant vchData).sent) ∧
    (0 < (mapAt s.smsgSets (decodeI64 vchData)).nLockCount →
      (SecureMsgReceiveData C hmac now io s q SmsgCommand.smsgHave vchData).sent = []) := by
  constructor
  · intro bkt lc lp hb
    simp only [SecureMsgReceiveData, handleSmsgWant]
    split
    · rfl
    · simp only [mapFind_mapPut_self, hb]
      split <;> rfl
  · intro hl
    simp only [SecureMsgReceiveData, handleSmsgHave]
    split
    · rfl
    · split
      · rfl
      · split
        · rfl
        · simp only [mapAt_mapTouch]
          rw [if_pos hl]

set_option maxRecDepth 100000 in
/-- C10 witness: on the example state, the answer to the `smsgWant` is the same with the
bucket locked for peer 1 and asked by peer 2 as with the bucket unlocked; and an
`smsgHave` for the locked bucket is answered with nothing. -/
theorem lock_binds_requester_only_witness :
    (SecureMsgReceiveData exConsts hmacZero 1000000 (fun _ => IoOutcome.ok)
        { exState1 with
          smsgSets := mapPut exState1.smsgSets (decodeI64 exWant)
            { mapAt exState1.smsgSets 997200 with nLockCount := 3, nLockPeerId := 1 } }
        { nPeerId := 2 } SmsgCommand.smsgWant exWant).sent =
      (SecureMsgReceiveData exConsts hmacZero 1000000 (fun _ => IoOutcome.ok) exState1
        { nPeerId := 1 } SmsgCommand.smsgWant exWant).sent ∧
    (SecureMsgReceiveData exConsts hmacZero 1000000 (fun _ => IoOutcome.ok) exLocked
        { nPeerId := 2 } SmsgCommand.smsgHave exWant).sent = [] :=
  ⟨(lock_binds_requester_only exConsts hmacZero 1000000 (fun _ => IoOutcome.ok) exState1
      { nPeerId := 1 } { nPeerId := 2 } exWant).1 (mapAt exState1.smsgSets 997200) 3 1
      (by decide),
   (lock_binds_requester_only exConsts hmacZero 1000000 (fun _ => IoOutcome.ok) exLocked
      { nPeerId := 1 } { nPeerId := 2 } exWant).2 (by decide)⟩

/-! ## C9: one reconciliation exchange -/

theorem wireEntries_flatten (w : Nat) (L : List (List Nat)) (pre post : List Nat)
    (hw : ∀ x ∈ L, x.length = w) :
    wireEntries (pre ++ L.flatten ++ post) pre.length w L.length = L := by
  unfold wireEntries
  induction L generalizing pre with
  | nil => simp
  | cons x xs ih =>
    have hx : x.length = w := hw x (List.mem_cons_self _ _)
    rw [List.length_cons, List.range_succ_eq_map, List.map_cons, List.map_map]
    congr 1
    · simp only [Nat.mul_zero, Nat.add_zero, List.flatten_cons, List.append_assoc]
      rw [List.drop_left, ← hx, List.take_left]
    · refine Eq.trans ?_ (ih (pre ++ x) (fun y hy => hw y (List.mem_cons_of_mem _ hy)))
      apply List.map_congr_left
      intro i _
      simp only [Function.comp, List.flatten_cons, List.append_assoc, List.length_append, hx]
      congr 2
      rw [Nat.mul_succ]
      omega

theorem haveTokens_eq (T : List SecMsgToken) : haveTokens T = (T.map tokenWire).flatten := rfl

theorem tokenWire_length (t : SecMsgToken) (h : t.sample.length = 8) :
    (tokenWire t).length = 16 := by
  simp [tokenWire, encodeI64_length, h]

theorem wireToken_tokenWire (t : SecMsgToken) (h : t.sample.length = 8)
    (hi : isI64 t.timestamp = true) :
    wireToken (tokenWire t) = ⟨t.timestamp, t.sample, 0⟩ := by
  unfold isI64 at hi
  simp only [Bool.and_eq_true, decide_eq_true_eq] at hi
  unfold wireToken tokenWire
  rw [decodeI64_encodeI64 _ _ hi.1 hi.2, List.drop_left' (encodeI64_length _)]
  have : t.sample.take 8 = t.sample := by rw [← h, List.take_length]
  rw [this, this]

theorem tokenSample_length (p : List Nat) : (tokenSample p p.length).length = 8 := by
  unfold tokenSample
  split
  · simp
  · simp; omega

/-- What a successful `SecureMsgRetrieve` returns: a header of `SMSG_HDR_LEN` bytes and
the payload its `nPayload` field announces. -/
theorem retrieve_shape (C : SmsgConsts) (files : List (Int × List Nat)) (t : SecMsgToken)
    (v : List Nat) (h : SecureMsgRetrieve C files t = some v) :
    (v.take SMSG_HDR_LEN).length = SMSG_HDR_LEN ∧
      hdrNPayload (v.take SMSG_HDR_LEN) = (v.drop SMSG_HDR_LEN).length := by
  unfold SecureMsgRetrieve at h
  split at h
  · simp at h
  · rename_i content _
    simp only at h
    split at h
    · simp at h
    · rename_i h1
      split at h
      · simp at h
      · rename_i h2
        simp only [Option.some.injEq] at h
        subst h
        have hl : ((content.drop t.offset).take SMSG_HDR_LEN).length = SMSG_HDR_LEN := by
          rw [List.length_take]; omega
        rw [List.take_left' hl, List.drop_left' hl]
        refine ⟨hl, ?_⟩
        rw [List.length_take]
        omega

theorem isI64_bounds (v : Int) (h : isI64 v = true) :
    -9223372036854775808 ≤ v ∧ v < 9223372036854775808 := by
  unfold isI64 at h
  simpa using h

/-- Step 2 of the exchange: node A answers an `smsgShow` naming bucket `b` with an `smsgHave`
listing all its tokens of `b`. -/
theorem show_step (sA : SmsgState) (pB : SmsgPeer) (b : Int) (bktA : SecMsgBucket)
    (hb : isI64 b = true) (hA : mapFind sA.smsgSets b = some bktA) :
    handleSmsgShow sA pB (encodeU32 1 ++ encodeI64 b) =
      ⟨true, sA, pB, [(SmsgCommand.smsgHave, encodeI64 b ++ haveTokens bktA.setTokens)], 0,
        false⟩ := by
  obtain ⟨h1, h2⟩ := isI64_bounds b hb
  have hlen : (encodeU32 1 ++ encodeI64 b).length = 12 := by
    simp [encodeU32_length, encodeI64_length]
  have hn : decodeU32 (encodeU32 1 ++ encodeI64 b) = 1 := decodeU32_encodeU32 1 _ (by norm_num)
  have ht : decodeI64 ((encodeU32 1 ++ encodeI64 b).drop 4) = b := by
    rw [List.drop_left' (encodeU32_length 1)]
    have := decodeI64_encodeI64 b [] h1 h2
    simpa using this
  unfold handleSmsgShow
  simp only [hlen, hn]
  rw [if_neg (by norm_num), if_neg (by simp [u32])]
  simp [showLoop, hlen, ht, hA]

theorem have_fold (TB : List SecMsgToken) (T : List SecMsgToken) (acc : List Nat)
    (hT : ∀ t ∈ T, t.sample.length = 8 ∧ isI64 t.timestamp = true) :
    (T.map tokenWire).foldl (haveStep TB) acc = acc ++ haveTokens (missingTokens T TB) := by
  induction T generalizing acc with
  | nil => simp [haveTokens, missingTokens]
  | cons t ts ih =>
    obtain ⟨h8, hi⟩ := hT t (List.mem_cons_self _ _)
    rw [List.map_cons, List.foldl_cons, ih _ (fun x hx => hT x (List.mem_cons_of_mem _ hx))]
    unfold haveStep
    rw [wireToken_tokenWire t h8 hi, setFind_key TB ⟨t.timestamp, t.sample, 0⟩ t rfl rfl]
    unfold missingTokens
    cases hf : setFind TB t with
    | none =>
      simp [List.filter_cons, hf, haveTokens, tokenWire]
    | some x =>
      simp [List.filter_cons, hf]

/-- Step 3 of the exchange: node B answers the `smsgHave` with an `smsgWant` for exactly the
tokens it lacks, and locks the bucket for the sender. -/
theorem have_step (C : SmsgConsts) (now : Int) (s : SmsgState) (pA : SmsgPeer) (b : Int)
    (TA : List SecMsgToken)
    (hb : isI64 b = true)
    (hw1 : now - (C.SMSG_RETENTION : Int) ≤ b) (hw2 : b ≤ now + (C.SMSG_TIME_LEEWAY : Int))
    (hlock : (mapAt s.smsgSets b).nLockCount = 0)
    (hT : ∀ t ∈ TA, t.sample.length = 8 ∧ isI64 t.timestamp = true)
    (hM : missingTokens TA (mapAt s.smsgSets b).setTokens ≠ []) :
    handleSmsgHave C now s pA (encodeI64 b ++ haveTokens TA) =
      ⟨true,
        { s with
          smsgSets := mapPut (mapTouch s.smsgSets b) b
            { mapAt s.smsgSets b with nLockCount := 3, nLockPeerId := pA.nPeerId } },
        pA,
        [(SmsgCommand.smsgWant,
          encodeI64 b ++ haveTokens (missingTokens TA (mapAt s.smsgSets b).setTokens))],
        0, false⟩ := by
  obtain ⟨h1, h2⟩ := isI64_bounds b hb
  have hwl : ∀ x ∈ TA.map tokenWire, x.length = 16 := by
    intro x hx
    obtain ⟨t, ht, rfl⟩ := List.mem_map.1 hx
    exact tokenWire_length t (hT t ht).1
  have hlen : (encodeI64 b ++ haveTokens TA).length = 8 + 16 * TA.length := by
    rw [List.length_append, encodeI64_length, haveTokens_eq, List.length_flatten]
    have : (TA.map tokenWire).map List.length = List.replicate TA.length 16 := by
      rw [List.eq_replicate_iff]
      constructor
      · simp
      · intro x hx
        obtain ⟨y, hy, rfl⟩ := List.mem_map.1 hx
        exact hwl y hy
    rw [this]
    simp [Nat.mul_comm]
  have ht : decodeI64 (encodeI64 b ++ haveTokens TA) = b := decodeI64_encodeI64 b _ h1 h2
  have hent : wireEntries (encodeI64 b ++ haveTokens TA) 8 16 ((8 + 16 * TA.length - 8) / 16) =
      TA.map tokenWire := by
    have := wireEntries_flatten 16 (TA.map tokenWire) (encodeI64 b) [] hwl
    rw [encodeI64_length, List.length_map, List.append_nil] at this
    rw [haveTokens_eq]
    have e : (8 + 16 * TA.length - 8) / 16 = TA.length := by omega
    rw [e]
    exact this
  have htake : (encodeI64 b ++ haveTokens TA).take 8 = encodeI64 b :=
    List.take_left' (encodeI64_length b)
  unfold handleSmsgHave
  simp only [hlen, ht, hent, htake, mapAt_mapTouch]
  rw [if_neg (by omega), if_neg (by omega), if_neg (by omega), if_neg (by omega)]
  rw [have_fold _ TA _ hT]
  have hpos : (encodeI64 b ++
      haveTokens (missingTokens TA (mapAt s.smsgSets b).setTokens)).length > 8 := by
    rw [List.length_append, encodeI64_length]
    cases hm : missingTokens TA (mapAt s.smsgSets b).setTokens with
    | nil => exact absurd hm hM
    | cons t rest =>
      have htm : t ∈ TA := by
        have : t ∈ missingTokens TA (mapAt s.smsgSets b).setTokens := by
          rw [hm]; exact List.mem_cons_self _ _
        exact (List.mem_filter.1 this).1
      have := tokenWire_length t (hT t htm).1
      simp [haveTokens, List.length_append]
      have h16 : (encodeI64 t.timestamp).length = 8 := encodeI64_length _
      have h8 := (hT t htm).1
      omega
  rw [if_pos hpos]

theorem setFind_mem_sorted (l : List SecMsgToken) (t : SecMsgToken)
    (hs : l.Pairwise (fun a b => tokenLt a b = true)) (ht : t ∈ l) : setFind l t = some t := by
  induction l with
  | nil => simp at ht
  | cons x xs ih =>
    simp only [List.pairwise_cons] at hs
    rcases List.mem_cons.1 ht with h | h
    · subst h
      simp [setFind, tokenLt_irrefl]
    · have hlt := hs.1 t h
      simp only [setFind, hlt, Bool.not_true, Bool.false_and, Bool.false_eq_true, if_false]
      exact ih hs.2 h

theorem retrieved_length (C : SmsgConsts) (files : List (Int × List Nat)) (t : SecMsgToken)
    (h : (SecureMsgRetrieve C files t).isSome = true) :
    SecureMsgRetrieve C files t = some (retrieved C files t) ∧
      SMSG_HDR_LEN ≤ (retrieved C files t).length := by
  unfold retrieved
  cases hr : SecureMsgRetrieve C files t with
  | none => rw [hr] at h; simp at h
  | some v =>
    refine ⟨rfl, ?_⟩
    have := (retrieve_shape C files t v hr).1
    simp only [Option.getD_some]
    rw [List.length_take] at this
    omega

/-- The token loop of the `smsgWant` handler over wanted tokens that are all held and
retrievable, few and small enough for one bunch: every envelope is appended. -/
theorem wantLoop_all (C : SmsgConsts) (files : List (Int × List Nat)) (TA : List SecMsgToken)
    (hs : TA.Pairwise (fun a b => tokenLt a b = true))
    (M : List SecMsgToken) (nBunch : Nat) (vchBunch : List Nat)
    (hM : ∀ t ∈ M, t ∈ TA ∧ t.sample.length = 8 ∧ isI64 t.timestamp = true ∧
      (SecureMsgRetrieve C files t).isSome = true)
    (hn : nBunch + M.length ≤ 500)
    (hsz : vchBunch.length + ((M.map (retrieved C files)).flatten).length < 96012) :
    wantLoop C files TA (M.map tokenWire) nBunch vchBunch =
      (nBunch + M.length, vchBunch ++ (M.map (retrieved C files)).flatten) := by
  induction M generalizing nBunch vchBunch with
  | nil => simp [wantLoop]
  | cons t rest ih =>
    obtain ⟨hmem, h8, hi, hsome⟩ := hM t (List.mem_cons_self _ _)
    obtain ⟨hret, hrl⟩ := retrieved_length C files t hsome
    have hfind : setFind TA (wireToken (tokenWire t)) = some t := by
      rw [wireToken_tokenWire t h8 hi, setFind_key TA ⟨t.timestamp, t.sample, 0⟩ t rfl rfl]
      exact setFind_mem_sorted TA t hs hmem
    have htok : ({ wireToken (tokenWire t) with offset := t.offset } : SecMsgToken) = t := by
      rw [wireToken_tokenWire t h8 hi]
    simp only [List.map_cons, List.flatten_cons, List.length_append, List.length_cons] at hsz hn ⊢
    rw [wantLoop]
    simp only [hfind, htok, hret]
    by_cases hc : nBunch + 1 ≥ 500 ∨ (vchBunch ++ retrieved C files t).length ≥ 96000
    · rw [if_pos hc]
      cases rest with
      | nil => simp
      | cons u us =>
        exfalso
        obtain ⟨_, _, _, husome⟩ := hM u (List.mem_cons_of_mem _ (List.mem_cons_self _ _))
        have hul := (retrieved_length C files u husome).2
        simp only [List.map_cons, List.flatten_cons, List.length_append, List.length_cons,
          SMSG_HDR_LEN] at hsz hn hc hul
        omega
    · rw [if_neg hc]
      rw [ih (nBunch + 1) (vchBunch ++ retrieved C files t)
        (fun x hx => hM x (List.mem_cons_of_mem _ hx)) (by omega)
        (by simp only [List.length_append]; omega)]
      simp only [List.append_assoc, Prod.mk.injEq, and_true]
      omega

/-- Step 4 of the exchange: node A answers the `smsgWant` with one `smsgMsg` carrying the
envelope of every wanted token. -/
theorem want_step (C : SmsgConsts) (sA : SmsgState) (pB : SmsgPeer) (b : Int)
    (bktA : SecMsgBucket) (M : List SecMsgToken)
    (hb : isI64 b = true) (hA : mapFind sA.smsgSets b = some bktA)
    (hs : bktA.setTokens.Pairwise (fun a b => tokenLt a b = true))
    (hM : ∀ t ∈ M, t ∈ bktA.setTokens ∧ t.sample.length = 8 ∧ isI64 t.timestamp = true ∧
      (SecureMsgRetrieve C sA.files t).isSome = true)
    (hne : M ≠ []) (hn : M.length ≤ 500)
    (hsz : ((M.map (retrieved C sA.files)).flatten).length < 96000) :
    handleSmsgWant C sA pB (encodeI64 b ++ haveTokens M) =
      ⟨true, sA, pB,
        [(SmsgCommand.smsgMsg,
          encodeU32 M.length ++ encodeI64 b ++ (M.map (retrieved C sA.files)).flatten)],
        0, false⟩ := by
  obtain ⟨h1, h2⟩ := isI64_bounds b hb
  have hwl : ∀ x ∈ M.map tokenWire, x.length = 16 := by
    intro x hx
    obtain ⟨t, ht, rfl⟩ := List.mem_map.1 hx
    exact tokenWire_length t (hM t ht).2.1
  have hlen : (encodeI64 b ++ haveTokens M).length = 8 + 16 * M.length := by
    rw [List.length_append, encodeI64_length, haveTokens_eq, List.length_flatten]
    have : (M.map tokenWire).map List.length = List.replicate M.length 16 := by
      rw [List.eq_replicate_iff]
      constructor
      · simp
      · intro x hx
        obtain ⟨y, hy, rfl⟩ := List.mem_map.1 hx
        exact hwl y hy
    rw [this]
    simp [Nat.mul_comm]
  have ht : decodeI64 (encodeI64 b ++ haveTokens M) = b := decodeI64_encodeI64 b _ h1 h2
  have hent : wireEntries (encodeI64 b ++ haveTokens M) 8 16 ((8 + 16 * M.length - 8) / 16) =
      M.map tokenWire := by
    have := wireEntries_flatten 16 (M.map tokenWire) (encodeI64 b) [] hwl
    rw [encodeI64_length, List.length_map, List.append_nil] at this
    rw [haveTokens_eq]
    have e : (8 + 16 * M.length - 8) / 16 = M.length := by omega
    rw [e]
    exact this
  unfold handleSmsgWant
  simp only [hlen, ht, hent, hA]
  rw [if_neg (by omega)]
  rw [wantLoop_all C sA.files bktA.setTokens hs M 0 (List.replicate 12 0) hM (by omega)
    (by simp only [List.length_replicate]; omega)]
  have hpos : M.length > 0 := by
    cases M with
    | nil => exact absurd rfl hne
    | cons _ _ => simp
  simp only [Nat.zero_add]
  rw [if_pos hpos, List.drop_left' (List.length_replicate 12 0)]

theorem validate_take (C : SmsgConsts) (hmac : List Nat → List Nat → Option (List Nat))
    (h p r : List Nat) :
    SecureMsgValidate C hmac h (p ++ r) p.length = SecureMsgValidate C hmac h p p.length := by
  simp [SecureMsgValidate, powDigest, powData]

theorem store_take (C : SmsgConsts) (now : Int) (io : IoOutcome) (s : SmsgState)
    (h p r : List Nat) (u : Bool) :
    SecureMsgStore C now io s h (p ++ r) p.length u = SecureMsgStore C now io s h p p.length u := by
  have e1 : tokenSample (p ++ r) p.length = tokenSample p p.length := by
    unfold tokenSample
    split
    · rfl
    · rw [List.take_append_of_le_length (by omega)]
  have e2 : (p ++ r).take p.length = p.take p.length := by simp
  unfold SecureMsgStore
  simp only [e1, e2]

theorem store_ok_of (C : SmsgConsts) (now : Int) (s : SmsgState) (h p : List Nat) (n : Nat)
    (u : Bool) (hrej : storeTimeRejected C now (hdrTimestamp h) = false)
    (hnone : setFind (mapAt s.smsgSets (bucketOf C (hdrTimestamp h))).setTokens
      ⟨hdrTimestamp h, tokenSample p n, 0⟩ = none) :
    (SecureMsgStore C now IoOutcome.ok s h p n u).1 = 0 := by
  unfold SecureMsgStore
  simp only [hrej, mapAt_mapTouch, hnone]
  rfl

/-- What `tokenServed` says, unpacked. -/
theorem tokenServed_spec (C : SmsgConsts) (hmac : List Nat → List Nat → Option (List Nat))
    (now : Int) (b : Int) (files : List (Int × List Nat)) (t : SecMsgToken)
    (h : tokenServed C hmac now b files t = true) :
    (SecureMsgRetrieve C files t).isSome = true ∧
    hdrTimestamp ((retrieved C files t).take SMSG_HDR_LEN) = t.timestamp ∧
    tokenSample ((retrieved C files t).drop SMSG_HDR_LEN)
      ((retrieved C files t).drop SMSG_HDR_LEN).length = t.sample ∧
    bucketOf C t.timestamp = b ∧ isI64 t.timestamp = true ∧
    SecureMsgValidate C hmac ((retrieved C files t).take SMSG_HDR_LEN)
      ((retrieved C files t).drop SMSG_HDR_LEN)
      ((retrieved C files t).drop SMSG_HDR_LEN).length = 0 ∧
    storeTimeRejected C now t.timestamp = false := by
  unfold tokenServed at h
  simp only [Bool.and_eq_true, decide_eq_true_eq, Bool.not_eq_true'] at h
  obtain ⟨⟨⟨⟨⟨⟨a1, a2⟩, a3⟩, a4⟩, a5⟩, a6⟩, a7⟩ := h
  exact ⟨a1, a2, a3, a4, a5, a6, a7⟩

theorem tokenServed_sample (C : SmsgConsts) (hmac : List Nat → List Nat → Option (List Nat))
    (now : Int) (b : Int) (files : List (Int × List Nat)) (t : SecMsgToken)
    (h : tokenServed C hmac now b files t = true) : t.sample.length = 8 := by
  rw [← (tokenServed_spec C hmac now b files t h).2.2.1]
  exact tokenSample_length _

/-- The envelope loop of `SecureMsgReceive` over the envelopes of tokens that are all
served, new to the bucket and distinct: every envelope is stored. -/
theorem receiveLoop_all (C : SmsgConsts) (hmac : List Nat → List Nat → Option (List Nat))
    (now : Int) (io : Nat → IoOutcome) (files : List (Int × List Nat)) (b : Int)
    (hio : ∀ j, io j = IoOutcome.ok)
    (M : List SecMsgToken) (pre : List Nat) (s : SmsgState) (i score : Nat)
    (hM : ∀ t ∈ M, tokenServed C hmac now b files t = true)
    (hdist : (M.map tokenKey).Nodup)
    (hnew : ∀ t ∈ M, setFind (mapAt s.smsgSets b).setTokens t = none)
    (hsz : pre.length + ((M.map (retrieved C files)).flatten).length < 4294967296)
    (hsorted : (mapAt s.smsgSets b).setTokens.Pairwise (fun x y => tokenLt x y = true))
    (hex : (mapFind s.smsgSets b).isSome = true) :
    ∃ s1, receiveLoop C hmac now io (pre ++ (M.map (retrieved C files)).flatten) M.length i
        pre.length s score = (s1, score, false) ∧
      (mapAt s1.smsgSets b).setTokens.Pairwise (fun x y => tokenLt x y = true) ∧
      (mapFind s1.smsgSets b).isSome = true ∧
      ∀ k, k ∈ (mapAt s1.smsgSets b).setTokens.map tokenKey ↔
        (k ∈ (mapAt s.smsgSets b).setTokens.map tokenKey ∨ k ∈ M.map tokenKey) := by
  induction M generalizing pre s i with
  | nil =>
    exact ⟨s, by simp [receiveLoop], hsorted, hex, by simp⟩
  | cons t rest ih =>
    obtain ⟨hsome, hts, hsmp, hbk, hi64, hval, hrej⟩ :=
      tokenServed_spec C hmac now b files t (hM t (List.mem_cons_self _ _))
    obtain ⟨hret, hrl⟩ := retrieved_length C files t hsome
    obtain ⟨hhl, hnp⟩ := retrieve_shape C files t _ hret
    have henv : (retrieved C files t).take SMSG_HDR_LEN ++ (retrieved C files t).drop SMSG_HDR_LEN =
        retrieved C files t := List.take_append_drop _ _
    have henvlen : (retrieved C files t).length =
        SMSG_HDR_LEN + ((retrieved C files t).drop SMSG_HDR_LEN).length := by
      rw [List.length_drop]; omega
    simp only [List.map_cons, List.flatten_cons, List.length_append, List.length_cons] at hsz ⊢
    have hd1 : (pre ++ (retrieved C files t ++ (rest.map (retrieved C files)).flatten)).drop
        pre.length = retrieved C files t ++ (rest.map (retrieved C files)).flatten :=
      List.drop_left _ _
    have hd2 : (pre ++ (retrieved C files t ++ (rest.map (retrieved C files)).flatten)).drop
        (pre.length + SMSG_HDR_LEN) =
        (retrieved C files t).drop SMSG_HDR_LEN ++ (rest.map (retrieved C files)).flatten := by
      rw [← List.drop_drop, hd1, List.drop_append_of_le_length hrl]
    have ht1 : (retrieved C files t ++ (rest.map (retrieved C files)).flatten).take SMSG_HDR_LEN =
        (retrieved C files t).take SMSG_HDR_LEN := List.take_append_of_le_length hrl
    have hsm : sizeMinus (pre.length +
        ((retrieved C files t).length + ((rest.map (retrieved C files)).flatten).length))
        pre.length =
        (retrieved C files t).length + ((rest.map (retrieved C files)).flatten).length := by
      unfold sizeMinus
      omega
    rw [receiveLoop]
    simp only [List.length_append, hsm, hd1, hd2, ht1, hnp]
    rw [if_neg (by omega), if_neg (by omega), if_neg (by omega)]
    rw [validate_take, hval]
    simp only [ne_eq, not_true_eq_false, if_false, hio, store_take]
    have hrej2 : storeTimeRejected C now
        (hdrTimestamp ((retrieved C files t).take SMSG_HDR_LEN)) = false := by rw [hts]; exact hrej
    have hnone : setFind (mapAt s.smsgSets (bucketOf C
        (hdrTimestamp ((retrieved C files t).take SMSG_HDR_LEN)))).setTokens
        ⟨hdrTimestamp ((retrieved C files t).take SMSG_HDR_LEN),
          tokenSample ((retrieved C files t).drop SMSG_HDR_LEN)
            ((retrieved C files t).drop SMSG_HDR_LEN).length, 0⟩ = none := by
      rw [hts, hsmp, hbk, setFind_key _ ⟨t.timestamp, t.sample, 0⟩ t rfl rfl]
      exact hnew t (List.mem_cons_self _ _)
    have hok := store_ok_of C now s _ _ _ false hrej2 hnone
    rw [if_neg (by rw [hok]; simp)]
    obtain ⟨_, _, _, _, bkt2, hsets, htok, _⟩ := store_ok_state C now IoOutcome.ok s
      (SecureMsgStore C now IoOutcome.ok s ((retrieved C files t).take SMSG_HDR_LEN)
        ((retrieved C files t).drop SMSG_HDR_LEN)
        ((retrieved C files t).drop SMSG_HDR_LEN).length false).2 _ _ _ _ (Prod.ext hok rfl)
    rw [hts, hbk] at hsets
    rw [hts, hsmp, hbk] at htok
    have hA1 : mapAt (SecureMsgStore C now IoOutcome.ok s
        ((retrieved C files t).take SMSG_HDR_LEN) ((retrieved C files t).drop SMSG_HDR_LEN)
        ((retrieved C files t).drop SMSG_HDR_LEN).length false).2.smsgSets b = bkt2 := by
      rw [hsets, mapAt_mapPut_self]
    have hkey1 : ∀ k, k ∈ bkt2.setTokens.map tokenKey ↔
        (k = tokenKey t ∨ k ∈ (mapAt s.smsgSets b).setTokens.map tokenKey) := by
      intro k
      rw [htok, setInsert_keys]
      rfl
    have hu : u32 (pre.length + SMSG_HDR_LEN + ((retrieved C files t).drop SMSG_HDR_LEN).length) =
        (pre ++ retrieved C files t).length := by
      unfold u32
      rw [List.length_append, Nat.mod_eq_of_lt (by omega)]
      omega
    simp only [List.map_cons, List.nodup_cons] at hdist
    have hnew2 : ∀ x ∈ rest, setFind (mapAt (SecureMsgStore C now IoOutcome.ok s
        ((retrieved C files t).take SMSG_HDR_LEN) ((retrieved C files t).drop SMSG_HDR_LEN)
        ((retrieved C files t).drop SMSG_HDR_LEN).length false).2.smsgSets b).setTokens x =
        none := by
      intro x hx
      rw [hA1, setFind_none_iff]
      intro y hy hyk
      have hyk2 : tokenKey y = tokenKey x := Prod.ext hyk.1 hyk.2
      have hy2 : tokenKey y ∈ bkt2.setTokens.map tokenKey := List.mem_map_of_mem _ hy
      rcases (hkey1 _).1 hy2 with h | h
      · apply hdist.1
        rw [← h, hyk2]
        exact List.mem_map_of_mem _ hx
      · have hxn := (setFind_none_iff _ _).1 (hnew x (List.mem_cons_of_mem _ hx))
        obtain ⟨z, hz, hzk⟩ := List.mem_map.1 h
        apply hxn z hz
        have : tokenKey z = tokenKey x := by rw [hzk, hyk2]
        exact ⟨congrArg Prod.fst this, congrArg Prod.snd this⟩
    have hpre : pre ++ (retrieved C files t ++ (rest.map (retrieved C files)).flatten) =
        (pre ++ retrieved C files t) ++ (rest.map (retrieved C files)).flatten := by
      rw [List.append_assoc]
    rw [hu, hpre]
    obtain ⟨s1, hloop, hs1, hex1, hk1⟩ := ih (pre ++ retrieved C files t) _ (i + 1)
      (fun x hx => hM x (List.mem_cons_of_mem _ hx)) hdist.2 hnew2
      (by rw [List.length_append]; omega)
      (by rw [hA1, htok]; exact setInsert_sorted _ _ hsorted)
      (by rw [hsets, mapFind_mapPut_self]; rfl)
    refine ⟨s1, hloop, hs1, hex1, fun k => ?_⟩
    rw [hk1, hA1, hkey1]
    simp only [List.mem_cons]
    tauto

theorem xor_lt_u32 (a b : Nat) (ha : a < 4294967296) (hb : b < 4294967296) :
    a ^^^ b < 4294967296 := by
  have := @Nat.xor_lt_two_pow a b 32 (by norm_num; exact ha) (by norm_num; exact hb)
  norm_num at this
  exact this

theorem XXH32_lt (seed : Nat) (input : List Nat) : XXH32 seed input < 4294967296 := by
  unfold XXH32 xxhAvalanche
  simp only
  apply xor_lt_u32
  · exact Nat.mod_lt _ (by norm_num)
  · rw [Nat.shiftRight_eq_div_pow]
    exact lt_of_le_of_lt (Nat.div_le_self _ _) (Nat.mod_lt _ (by norm_num))

theorem invEntry_length (b : Int) (bkt : SecMsgBucket) : (invEntry b bkt).length = 16 := by
  simp [invEntry, encodeI64_length, encodeU32_length]

/-- The bucket loop of the `smsgInv` handler on an inventory of the single bucket `b`. -/
theorem inv_entries (b : Int) (bkt : SecMsgBucket) :
    wireEntries (encodeU32 1 ++ invEntry b bkt) 4 16 1 = [invEntry b bkt] := by
  have := wireEntries_flatten 16 [invEntry b bkt] (encodeU32 1) []
    (by intro x hx; rw [List.mem_singleton.1 hx]; exact invEntry_length b bkt)
  simpa [encodeU32_length] using this

/-- Step 1 of the exchange: node B, holding fewer tokens of bucket `b` than advertised (or
as many under a different hash), asks to see the bucket; holding as many under the same
hash it reports a match. -/
theorem inv_step (C : SmsgConsts) (now : Int) (s : SmsgState) (pA : SmsgPeer) (b : Int)
    (bktA : SecMsgBucket)
    (hb : isI64 b = true)
    (hcount : C.SMSG_RETENTION / C.SMSG_BUCKET_LEN + 1 < 4294967296)
    (hign : pA.ignoreUntil ≤ now)
    (hw1 : now - (C.SMSG_RETENTION : Int) ≤ b) (hw2 : b ≤ now + (C.SMSG_TIME_LEEWAY : Int))
    (hlenA : bktA.setTokens.length < 4294967296) (hneA : bktA.setTokens ≠ [])
    (hhashA : bktA.hash < 4294967296)
    (hlock : (mapAt s.smsgSets b).nLockCount = 0) :
    handleSmsgInv C now s pA (encodeU32 1 ++ invEntry b bktA) =
      ⟨true, { s with smsgSets := mapTouch s.smsgSets b }, pA,
        (if (mapAt s.smsgSets b).setTokens.length < bktA.setTokens.length ∨
            ((mapAt s.smsgSets b).setTokens.length = bktA.setTokens.length ∧
              (mapAt s.smsgSets b).hash ≠ bktA.hash)
          then [(SmsgCommand.smsgShow, encodeU32 1 ++ encodeI64 b)]
          else [(SmsgCommand.smsgMatch, encodeI64 now)]), 0, false⟩ := by
  obtain ⟨h1, h2⟩ := isI64_bounds b hb
  have hlen : (encodeU32 1 ++ invEntry b bktA).length = 20 := by
    simp [encodeU32_length, invEntry_length]
  have hn : decodeU32 (encodeU32 1 ++ invEntry b bktA) = 1 := decodeU32_encodeU32 1 _ (by norm_num)
  have ht : decodeI64 (invEntry b bktA) = b := by
    unfold invEntry
    rw [List.append_assoc]
    exact decodeI64_encodeI64 b _ h1 h2
  have hc : decodeU32 ((invEntry b bktA).drop 8) = bktA.setTokens.length := by
    unfold invEntry
    rw [List.append_assoc, List.drop_left' (encodeI64_length b),
      decodeU32_encodeU32 (u32 bktA.setTokens.length) _ (Nat.mod_lt _ (by norm_num))]
    exact Nat.mod_eq_of_lt hlenA
  have hh : decodeU32 ((invEntry b bktA).drop 12) = bktA.hash := by
    unfold invEntry
    have : (encodeI64 b ++ encodeU32 (u32 bktA.setTokens.length)).length = 12 := by
      simp [encodeI64_length, encodeU32_length]
    rw [List.drop_left' this]
    have := decodeU32_encodeU32 bktA.hash [] hhashA
    simpa using this
  have hpos : 0 < bktA.setTokens.length := by
    cases hA : bktA.setTokens with
    | nil => exact absurd hA hneA
    | cons _ _ => simp
  have hu : u32 (C.SMSG_RETENTION / C.SMSG_BUCKET_LEN + 1) =
      C.SMSG_RETENTION / C.SMSG_BUCKET_LEN + 1 := Nat.mod_eq_of_lt hcount
  have hstep : invStep C now ⟨s.smsgSets, [0, 0, 0, 0], 0, 0, 0⟩ (invEntry b bktA) =
      if (mapAt s.smsgSets b).setTokens.length < bktA.setTokens.length ∨
          ((mapAt s.smsgSets b).setTokens.length = bktA.setTokens.length ∧
            (mapAt s.smsgSets b).hash ≠ bktA.hash)
      then ⟨mapTouch s.smsgSets b, [0, 0, 0, 0] ++ encodeI64 b, 1, 0, 0⟩
      else ⟨mapTouch s.smsgSets b, [0, 0, 0, 0], 0, 0, 0⟩ := by
    unfold invStep
    simp only [ht, hc, hh, mapAt_mapTouch]
    rw [if_neg (by omega), if_neg (by omega), if_neg (by omega), if_neg (by omega)]
  unfold handleSmsgInv
  simp only [hlen, hn, inv_entries, List.foldl_cons, List.foldl_nil, hu, hstep]
  rw [if_neg (by norm_num), if_neg (by omega), if_neg (by simp), if_neg (by simp [u32]),
    if_neg (by norm_num)]
  split
  · simp [encodeU32_length, encodeI64_length]
  · simp [encodeU32_length]

/-- Step 5 of the exchange: node B stores every envelope of the `smsgMsg`, clears the lock
of bucket `b` and rehashes it. -/
theorem msg_step (C : SmsgConsts) (hmac : List Nat → List Nat → Option (List Nat))
    (now : Int) (io : Nat → IoOutcome) (files : List (Int × List Nat)) (b : Int)
    (hio : ∀ j, io j = IoOutcome.ok)
    (M : List SecMsgToken) (s : SmsgState)
    (hb : isI64 b = true)
    (hw1 : now - (C.SMSG_RETENTION : Int) ≤ b) (hw2 : b ≤ now + (C.SMSG_TIME_LEEWAY : Int))
    (hne : M ≠ []) (hn : M.length ≤ 500)
    (hM : ∀ t ∈ M, tokenServed C hmac now b files t = true)
    (hdist : (M.map tokenKey).Nodup)
    (hnew : ∀ t ∈ M, setFind (mapAt s.smsgSets b).setTokens t = none)
    (hsz : ((M.map (retrieved C files)).flatten).length < 96000)
    (hsorted : (mapAt s.smsgSets b).setTokens.Pairwise (fun x y => tokenLt x y = true))
    (hex : (mapFind s.smsgSets b).isSome = true) :
    ∃ bkt, mapFind (SecureMsgReceive C hmac now io s
        (encodeU32 M.length ++ encodeI64 b ++ (M.map (retrieved C files)).flatten)).state.smsgSets
        b = some bkt ∧
      bkt.nLockCount = 0 ∧ bkt.nLockPeerId = 0 ∧
      bkt.hash = XXH32 1 (bucketSamples bkt.setTokens) ∧
      bkt.setTokens.Pairwise (fun x y => tokenLt x y = true) ∧
      ∀ k, k ∈ bkt.setTokens.map tokenKey ↔
        (k ∈ (mapAt s.smsgSets b).setTokens.map tokenKey ∨ k ∈ M.map tokenKey) := by
  obtain ⟨h1, h2⟩ := isI64_bounds b hb
  have hpl : (encodeU32 M.length ++ encodeI64 b).length = 12 := by
    simp [encodeU32_length, encodeI64_length]
  have hlen : 12 ≤ (encodeU32 M.length ++ encodeI64 b ++
      (M.map (retrieved C files)).flatten).length := by
    rw [List.length_append, hpl]; omega
  have hnb : decodeU32 (encodeU32 M.length ++ encodeI64 b ++
      (M.map (retrieved C files)).flatten) = M.length := by
    rw [List.append_assoc]
    exact decodeU32_encodeU32 _ _ (by omega)
  have hbt : decodeI64 ((encodeU32 M.length ++ encodeI64 b ++
      (M.map (retrieved C files)).flatten).drop 4) = b := by
    rw [List.append_assoc, List.drop_left' (encodeU32_length _)]
    exact decodeI64_encodeI64 b _ h1 h2
  have hpos : 0 < M.length := by
    cases M with
    | nil => exact absurd rfl hne
    | cons _ _ => simp
  obtain ⟨s1, hloop, hs1, hex1, hk1⟩ := receiveLoop_all C hmac now io files b hio M
    (encodeU32 M.length ++ encodeI64 b) s 0 0 hM hdist hnew (by rw [hpl]; omega) hsorted hex
  rw [hpl] at hloop
  unfold SecureMsgReceive
  simp only [hnb, hbt, hloop]
  rw [if_neg (by omega), if_neg (by omega), if_neg (by omega), if_neg (by omega)]
  simp only [Bool.false_eq_true, if_false]
  cases hf : mapFind s1.smsgSets b with
  | none => rw [hf] at hex1; simp at hex1
  | some bkt =>
    have hAt : mapAt s1.smsgSets b = bkt := by simp [mapAt, hf]
    rw [hAt] at hs1 hk1
    simp only [mapFind_mapPut_self]
    exact ⟨_, rfl, rfl, rfl, rfl, hs1, hk1⟩

theorem deliverAll_one (C : SmsgConsts) (hmac : List Nat → List Nat → Option (List Nat))
    (now : Int) (io : Nat → IoOutcome) (s : SmsgState) (p : SmsgPeer)
    (m : SmsgCommand × List Nat) :
    deliverAll C hmac now io s p [m] =
      ((SecureMsgReceiveData C hmac now io s p m.1 m.2).state,
        (SecureMsgReceiveData C hmac now io s p m.1 m.2).peer,
        (SecureMsgReceiveData C hmac now io s p m.1 m.2).sent) := by
  simp [deliverAll]

theorem missing_mem (TA TB : List SecMsgToken) (t : SecMsgToken)
    (h : t ∈ missingTokens TA TB) : t ∈ TA ∧ setFind TB t = none := by
  unfold missingTokens at h
  obtain ⟨h1, h2⟩ := List.mem_filter.1 h
  exact ⟨h1, by simpa using h2⟩

/-- The keys of the tokens node B holds and of those it lacks are the keys of node A. -/
theorem missing_keys (TA TB : List SecMsgToken)
    (hsub : ∀ t ∈ TB, tokenKey t ∈ TA.map tokenKey) (k : Int × List Nat) :
    (k ∈ TB.map tokenKey ∨ k ∈ (missingTokens TA TB).map tokenKey) ↔ k ∈ TA.map tokenKey := by
  constructor
  · rintro (h | h)
    · obtain ⟨t, ht, rfl⟩ := List.mem_map.1 h
      exact hsub t ht
    · obtain ⟨t, ht, rfl⟩ := List.mem_map.1 h
      exact List.mem_map_of_mem _ (missing_mem TA TB t ht).1
  · intro h
    obtain ⟨t, ht, rfl⟩ := List.mem_map.1 h
    cases hf : setFind TB t with
    | none =>
      right
      apply List.mem_map_of_mem
      unfold missingTokens
      exact List.mem_filter.2 ⟨ht, by simp [hf]⟩
    | some x =>
      left
      obtain ⟨hx, hk1, hk2⟩ := setFind_some_key TB t x hf
      have : tokenKey x = tokenKey t := Prod.ext hk1 hk2
      rw [← this]
      exact List.mem_map_of_mem _ hx

theorem sorted_keys_nodup (l : List SecMsgToken)
    (h : l.Pairwise (fun a b => tokenLt a b = true)) : (l.map tokenKey).Nodup := by
  have s1 : (l.map tokenKey).Pairwise keyLt :=
    List.pairwise_map.2 (h.imp (fun h => (tokenLt_key _ _).1 h))
  refine List.Pairwise.imp ?_ s1
  intro a b hab e
  rw [e] at hab
  have := tokenLt_irrefl ⟨b.1, b.2, 0⟩
  unfold keyLt at hab
  rw [this] at hab
  exact Bool.false_ne_true hab

/-- A node that lacks a token of A's holds fewer tokens than A. -/
theorem missing_length (TA TB : List SecMsgToken)
    (hB : TB.Pairwise (fun a b => tokenLt a b = true))
    (hsub : ∀ t ∈ TB, tokenKey t ∈ TA.map tokenKey)
    (hne : missingTokens TA TB ≠ []) : TB.length < TA.length := by
  cases hm : missingTokens TA TB with
  | nil => exact absurd hm hne
  | cons t rest =>
    obtain ⟨htA, htB⟩ := missing_mem TA TB t (by rw [hm]; exact List.mem_cons_self _ _)
    have hsp : (TB.map tokenKey).Subperm (TA.map tokenKey) :=
      List.subperm_of_subset (sorted_keys_nodup TB hB) (by
        intro k hk
        obtain ⟨x, hx, rfl⟩ := List.mem_map.1 hk
        exact hsub x hx)
    by_contra hlt
    have hle : (TA.map tokenKey).length ≤ (TB.map tokenKey).length := by
      simp only [List.length_map]; omega
    have hperm := hsp.perm_of_length_le hle
    have : tokenKey t ∈ TB.map tokenKey := hperm.mem_iff.2 (List.mem_map_of_mem _ htA)
    obtain ⟨x, hx, hk⟩ := List.mem_map.1 this
    exact (setFind_none_iff TB t).1 htB x hx ⟨congrArg Prod.fst hk, congrArg Prod.snd hk⟩

theorem receiveData_msg_state (C : SmsgConsts)
    (hmac : List Nat → List Nat → Option (List Nat)) (now : Int) (io : Nat → IoOutcome)
    (s : SmsgState) (p : SmsgPeer) (d : List Nat) :
    (SecureMsgReceiveData C hmac now io s p SmsgCommand.smsgMsg d).state =
      (SecureMsgReceive C hmac now io s d).state := rfl

set_option maxRecDepth 1000000 in
/-- C9 (as stated, refuted): node A holds two valid envelopes in bucket 997200, inside the
retention window, and node B holds a subset of A's tokens with at most one envelope
missing; in each of five cases one exchange does not leave B as the claim says.  (1) B
holds both tokens under a stale hash (it stored the second without hashing): nothing is
missing, B asks to see the bucket, finds nothing to want, and keeps its stale hash, which
is not A's.  (2) B's bucket is locked for another peer: B skips the bucket and keeps its
one token and the lock.  (3) B is ignoring A: the inventory is dropped.  (4) B's file
cannot be opened: the store fails and B keeps its one token.  (5) A's own hash is stale: B
ends with both tokens under the digest of the token set, which is not A's hash.  (6) The
exchange runs when both envelopes are still inside B's retention window and the bucket
start 997200 no longer is: B passes over the advertised bucket and keeps its one token. -/
theorem reconcile_fails_without_side_conditions :
    (∀ t ∈ (mapAt exStateA.smsgSets 997200).setTokens,
      tokenServed exConsts hmacZero 1000102 997200 exStateA.files t = true) ∧
    (mapAt exStateA.smsgSets 997200).setTokens.length = 2 ∧
    -- (1) nothing missing, B's hash stale
    (missingTokens (mapAt exStateA.smsgSets 997200).setTokens
        (mapAt exStateStale.smsgSets 997200).setTokens = [] ∧
      (mapAt exStateStale.smsgSets 997200).setTokens.map tokenKey =
        (mapAt exStateA.smsgSets 997200).setTokens.map tokenKey ∧
      (mapAt exStateStale.smsgSets 997200).nLockCount = 0 ∧
      (mapAt (reconcile exConsts hmacZero 1000100 1000100 1000101 1000102
        (fun _ => IoOutcome.ok) exStateA exStateStale { nPeerId := 7 } { nPeerId := 8 }
        997200).smsgSets 997200).hash ≠ (mapAt exStateA.smsgSets 997200).hash) ∧
    -- (2) B's bucket locked for another peer
    ((mapAt exLocked.smsgSets 997200).setTokens.map tokenKey = [(1000000, exPayload)] ∧
      (missingTokens (mapAt exStateA.smsgSets 997200).setTokens
        (mapAt exLocked.smsgSets 997200).setTokens).length = 1 ∧
      (mapAt (reconcile exConsts hmacZero 1000100 1000100 1000101 1000102
        (fun _ => IoOutcome.ok) exStateA exLocked { nPeerId := 7 } { nPeerId := 8 }
        997200).smsgSets 997200).setTokens.length = 1 ∧
      (mapAt (reconcile exConsts hmacZero 1000100 1000100 1000101 1000102
        (fun _ => IoOutcome.ok) exStateA exLocked { nPeerId := 7 } { nPeerId := 8 }
        997200).smsgSets 997200).nLockCount = 3) ∧
    -- (3) B is ignoring A
    ((mapAt exState1.smsgSets 997200).setTokens.map tokenKey = [(1000000, exPayload)] ∧
      (mapAt exState1.smsgSets 997200).nLockCount = 0 ∧
      (mapAt (reconcile exConsts hmacZero 1000100 1000100 1000101 1000102
        (fun _ => IoOutcome.ok) exStateA exState1 { nPeerId := 7, ignoreUntil := 2000000 }
        { nPeerId := 8 } 997200).smsgSets 997200).setTokens.length = 1) ∧
    -- (4) B's file cannot be opened
    ((mapAt (reconcile exConsts hmacZero 1000100 1000100 1000101 1000102
        (fun _ => IoOutcome.openFails) exStateA exState1 { nPeerId := 7 } { nPeerId := 8 }
        997200).smsgSets 997200).setTokens.length = 1) ∧
    -- (5) A's hash stale
    ((∀ t ∈ (mapAt exStateStale.smsgSets 997200).setTokens,
        tokenServed exConsts hmacZero 1000102 997200 exStateStale.files t = true) ∧
      (mapAt (reconcile exConsts hmacZero 1000100 1000100 1000101 1000102
        (fun _ => IoOutcome.ok) exStateStale exState1 { nPeerId := 7 } { nPeerId := 8 }
        997200).smsgSets 997200).setTokens.map tokenKey =
        (mapAt exStateStale.smsgSets 997200).setTokens.map tokenKey ∧
      (mapAt (reconcile exConsts hmacZero 1000100 1000100 1000101 1000102
        (fun _ => IoOutcome.ok) exStateStale exState1 { nPeerId := 7 } { nPeerId := 8 }
        997200).smsgSets 997200).hash ≠ (mapAt exStateStale.smsgSets 997200).hash) ∧
    -- (6) the envelopes inside B's window, the bucket start outside
    ((∀ t ∈ (mapAt exStateA.smsgSets 997200).setTokens,
        tokenServed exConsts hmacZero 1170102 997200 exStateA.files t = true) ∧
      (997200 : Int) < 1170100 - (exConsts.SMSG_RETENTION : Int) ∧
      (mapAt (reconcile exConsts hmacZero 1170100 1170100 1170101 1170102
        (fun _ => IoOutcome.ok) exStateA exState1 { nPeerId := 7 } { nPeerId := 8 }
        997200).smsgSets 997200).setTokens.length = 1) := by
  refine ⟨by decide, by decide, ⟨by decide, by decide, by decide, by decide⟩,
    ⟨by decide, by decide, by decide, by decide⟩, ⟨by decide, by decide, by decide⟩,
    by decide, ⟨by decide, by decide, by decide⟩, ⟨by decide, by decide, by decide⟩⟩

/-- C9 (amended): node A holds the non-empty token set T_A of bucket b under its current
hash (the digest of T_A), every token served by an envelope in its store that validates
and passes B's time check; node B holds a subset T_B with at most 500 missing envelopes
totalling under 96000 bytes; B's bucket b is unlocked, B is not ignoring A, B's hash of b
is current in case nothing is missing, b lies in B's window
[now - SMSG_RETENTION, now + SMSG_TIME_LEEWAY] whenever B handles a message, and all of
B's file operations succeed.  Then one exchange smsgInv -> smsgShow -> smsgHave ->
smsgWant -> smsgMsg leaves B with a bucket b holding the keys of T_A, lock count 0 (and
lock peer 0 after an smsgMsg), and A's hash. -/
theorem reconcile_converges (C : SmsgConsts) (hmac : List Nat → List Nat → Option (List Nat))
    (nowA nowInv nowHave nowMsg : Int) (io : Nat → IoOutcome) (sA sB : SmsgState)
    (pA pB : SmsgPeer) (b : Int) (bktA : SecMsgBucket)
    (hio : ∀ j, io j = IoOutcome.ok)
    (hb : isI64 b = true)
    (hcount : C.SMSG_RETENTION / C.SMSG_BUCKET_LEN + 1 < 4294967296)
    (hign : pA.ignoreUntil ≤ nowInv)
    (hwInv : nowInv - (C.SMSG_RETENTION : Int) ≤ b ∧ b ≤ nowInv + (C.SMSG_TIME_LEEWAY : Int))
    (hwHave : nowHave - (C.SMSG_RETENTION : Int) ≤ b ∧ b ≤ nowHave + (C.SMSG_TIME_LEEWAY : Int))
    (hwMsg : nowMsg - (C.SMSG_RETENTION : Int) ≤ b ∧ b ≤ nowMsg + (C.SMSG_TIME_LEEWAY : Int))
    (hA : mapFind sA.smsgSets b = some bktA)
    (hAne : bktA.setTokens ≠ [])
    (hAlen : bktA.setTokens.length < 4294967296)
    (hAsorted : bktA.setTokens.Pairwise (fun x y => tokenLt x y = true))
    (hAhash : bktA.hash = XXH32 1 (bucketSamples bktA.setTokens))
    (hAserved : ∀ t ∈ bktA.setTokens, tokenServed C hmac nowMsg b sA.files t = true)
    (hBsorted : (mapAt sB.smsgSets b).setTokens.Pairwise (fun x y => tokenLt x y = true))
    (hBlock : (mapAt sB.smsgSets b).nLockCount = 0)
    (hBhash : missingTokens bktA.setTokens (mapAt sB.smsgSets b).setTokens = [] →
      (mapAt sB.smsgSets b).hash = XXH32 1 (bucketSamples (mapAt sB.smsgSets b).setTokens))
    (hsub : ∀ t ∈ (mapAt sB.smsgSets b).setTokens, tokenKey t ∈ bktA.setTokens.map tokenKey)
    (hmiss : (missingTokens bktA.setTokens (mapAt sB.smsgSets b).setTokens).length ≤ 500)
    (hbytes : (((missingTokens bktA.setTokens (mapAt sB.smsgSets b).setTokens).map
      (retrieved C sA.files)).flatten).length < 96000) :
    ∃ bktB, mapFind (reconcile C hmac nowA nowInv nowHave nowMsg io sA sB pA pB b).smsgSets b =
        some bktB ∧
      bktB.setTokens.map tokenKey = bktA.setTokens.map tokenKey ∧
      bktB.nLockCount = 0 ∧
      bktB.hash = bktA.hash ∧
      (missingTokens bktA.setTokens (mapAt sB.smsgSets b).setTokens ≠ [] →
        bktB.nLockPeerId = 0) := by
  have hAt : mapAt sA.smsgSets b = bktA := by simp [mapAt, hA]
  have hhA : bktA.hash < 4294967296 := by rw [hAhash]; exact XXH32_lt _ _
  have hT : ∀ t ∈ bktA.setTokens, t.sample.length = 8 ∧ isI64 t.timestamp = true := by
    intro t ht
    exact ⟨tokenServed_sample C hmac nowMsg b sA.files t (hAserved t ht),
      (tokenServed_spec C hmac nowMsg b sA.files t (hAserved t ht)).2.2.2.2.1⟩
  unfold reconcile
  simp only [hAt]
  have e1 : SecureMsgReceiveData C hmac nowInv io sB pA SmsgCommand.smsgInv
      (encodeU32 1 ++ invEntry b bktA) =
      handleSmsgInv C nowInv sB pA (encodeU32 1 ++ invEntry b bktA) := rfl
  rw [e1, inv_step C nowInv sB pA b bktA hb hcount hign hwInv.1 hwInv.2 hAlen hAne hhA hBlock]
  by_cases hM : missingTokens bktA.setTokens (mapAt sB.smsgSets b).setTokens = []
  · -- nothing is missing: B reports a match and the exchange ends
    have hkeys : (mapAt sB.smsgSets b).setTokens.map tokenKey = bktA.setTokens.map tokenKey := by
      apply sorted_keys_unique _ _ hBsorted hAsorted
      intro k
      have := missing_keys bktA.setTokens (mapAt sB.smsgSets b).setTokens hsub k
      rw [hM] at this
      simpa using this
    have hlen : (mapAt sB.smsgSets b).setTokens.length = bktA.setTokens.length := by
      have := congrArg List.length hkeys
      simpa using this
    have hhash : (mapAt sB.smsgSets b).hash = bktA.hash := by
      rw [hBhash hM, hAhash, bucketSamples_keys, bucketSamples_keys, hkeys]
    rw [if_neg (by rw [hlen, hhash]; simp)]
    simp only [deliverAll_one]
    have e2 : (SecureMsgReceiveData C hmac nowA io sA pB SmsgCommand.smsgMatch
        (encodeI64 nowInv)).sent = [] := by
      simp [SecureMsgReceiveData, encodeI64_length]
    simp only [e2, deliverAll]
    refine ⟨mapAt sB.smsgSets b, ?_, hkeys, hBlock, hhash, fun h => absurd hM h⟩
    simp [mapFind_mapTouch]
  · -- something is missing: the full exchange
    have hlt := missing_length bktA.setTokens (mapAt sB.smsgSets b).setTokens hBsorted hsub hM
    rw [if_pos (Or.inl hlt)]
    simp only [deliverAll_one]
    have e2 : SecureMsgReceiveData C hmac nowA io sA pB SmsgCommand.smsgShow
        (encodeU32 1 ++ encodeI64 b) = handleSmsgShow sA pB (encodeU32 1 ++ encodeI64 b) := rfl
    rw [e2, show_step sA pB b bktA hb hA]
    simp only [deliverAll_one]
    have e3 : SecureMsgReceiveData C hmac nowHave io
        { sB with smsgSets := mapTouch sB.smsgSets b } pA SmsgCommand.smsgHave
        (encodeI64 b ++ haveTokens bktA.setTokens) =
        handleSmsgHave C nowHave { sB with smsgSets := mapTouch sB.smsgSets b } pA
          (encodeI64 b ++ haveTokens bktA.setTokens) := rfl
    rw [e3, have_step C nowHave { sB with smsgSets := mapTouch sB.smsgSets b } pA b
      bktA.setTokens hb hwHave.1 hwHave.2 (by simpa [mapAt_mapTouch] using hBlock) hT
      (by simpa [mapAt_mapTouch] using hM)]
    simp only [deliverAll_one, mapAt_mapTouch]
    have hMall : ∀ t ∈ missingTokens bktA.setTokens (mapAt sB.smsgSets b).setTokens,
        t ∈ bktA.setTokens ∧ t.sample.length = 8 ∧ isI64 t.timestamp = true ∧
          (SecureMsgRetrieve C sA.files t).isSome = true := by
      intro t ht
      have hmem := (missing_mem _ _ t ht).1
      exact ⟨hmem, (hT t hmem).1, (hT t hmem).2,
        (tokenServed_spec C hmac nowMsg b sA.files t (hAserved t hmem)).1⟩
    have e4 : SecureMsgReceiveData C hmac nowA io sA pB SmsgCommand.smsgWant
        (encodeI64 b ++ haveTokens (missingTokens bktA.setTokens (mapAt sB.smsgSets b).setTokens)) =
        handleSmsgWant C sA pB
          (encodeI64 b ++ haveTokens (missingTokens bktA.setTokens (mapAt sB.smsgSets b).setTokens)) :=
      rfl
    rw [e4, want_step C sA pB b bktA _ hb hA hAsorted hMall hM hmiss hbytes]
    simp only [deliverAll_one]
    have hdist : ((missingTokens bktA.setTokens (mapAt sB.smsgSets b).setTokens).map
        tokenKey).Nodup := by
      apply (sorted_keys_nodup _ hAsorted).sublist
      exact List.Sublist.map _ (List.filter_sublist _)
    obtain ⟨bkt, hfind, hl1, hl2, hh, hs, hk⟩ := msg_step C hmac nowMsg io sA.files b hio
      (missingTokens bktA.setTokens (mapAt sB.smsgSets b).setTokens)
      { sB with
        smsgSets := mapPut (mapTouch (mapTouch sB.smsgSets b) b) b
          { mapAt sB.smsgSets b with nLockCount := 3, nLockPeerId := pA.nPeerId } }
      hb hwMsg.1 hwMsg.2 hM hmiss
      (fun t ht => hAserved t (missing_mem _ _ t ht).1) hdist
      (by
        intro t ht
        simp only [mapAt_mapPut_self]
        exact (missing_mem _ _ t ht).2)
      hbytes
      (by simp only [mapAt_mapPut_self]; exact hBsorted)
      (by simp [mapFind_mapPut_self])
    simp only [mapAt_mapPut_self] at hk
    have hkeys : bkt.setTokens.map tokenKey = bktA.setTokens.map tokenKey := by
      apply sorted_keys_unique _ _ hs hAsorted
      intro k
      rw [hk]
      exact missing_keys bktA.setTokens (mapAt sB.smsgSets b).setTokens hsub k
    refine ⟨bkt, ?_, hkeys, hl1, ?_, fun _ => hl2⟩
    · rw [receiveData_msg_state]
      dsimp only at hfind
      exact hfind
    · rw [hh, hAhash, bucketSamples_keys, bucketSamples_keys, hkeys]

set_option maxRecDepth 1000000 in
/-- C9 witness: node A holds two envelopes in bucket 997200, node B the first of them; after
one exchange B holds both keys, unlocked, under A's hash. -/
theorem reconcile_converges_witness :
    ∃ bktB, mapFind (reconcile exConsts hmacZero 1000100 1000100 1000101 1000102
        (fun _ => IoOutcome.ok) exStateA exState1 { nPeerId := 7 } { nPeerId := 8 }
        997200).smsgSets 997200 = some bktB ∧
      bktB.setTokens.map tokenKey = (mapAt exStateA.smsgSets 997200).setTokens.map tokenKey ∧
      bktB.nLockCount = 0 ∧
      bktB.hash = (mapAt exStateA.smsgSets 997200).hash ∧
      (missingTokens (mapAt exStateA.smsgSets 997200).setTokens
          (mapAt exState1.smsgSets 997200).setTokens ≠ [] →
        bktB.nLockPeerId = 0) :=
  reconcile_converges exConsts hmacZero 1000100 1000100 1000101 1000102
    (fun _ => IoOutcome.ok) exStateA exState1 { nPeerId := 7 } { nPeerId := 8 } 997200
    (mapAt exStateA.smsgSets 997200)
    (fun _ => rfl) (by decide) (by decide) (by decide) (by decide) (by decide) (by decide)
    (by decide) (by decide) (by decide) (by decide) (by decide) (by decide) (by decide)
    (by decide) (by decide) (by decide) (by decide) (by decide)

/-- The record loop of `SecureMsgBuildBucketSet` never runs out of fuel: once the fuel
covers the rest of the file, more fuel changes nothing. -/
theorem scanBucketFile_fuel (content : List Nat) (fuel ofs : Nat) (acc : List SecMsgToken)
    (h : content.length + 1 ≤ fuel + ofs) :
    scanBucketFile content (fuel + 1) ofs acc = scanBucketFile content fuel ofs acc := by
  induction fuel generalizing ofs acc with
  | zero =>
    have hlt : (content.drop ofs).length < SMSG_HDR_LEN := by
      rw [List.length_drop]; unfold SMSG_HDR_LEN; omega
    unfold scanBucketFile
    exact if_pos hlt
  | succ f ih =>
    conv_lhs => rw [scanBucketFile]
    conv_rhs => rw [scanBucketFile]
    have h122 : SMSG_HDR_LEN = 122 := rfl
    by_cases h1 : (content.drop ofs).length < SMSG_HDR_LEN
    · simp only [h1, if_true]
    · simp only [h1, if_false]
      by_cases h2 : hdrNPayload ((content.drop ofs).take SMSG_HDR_LEN) < 8
      · simp only [h2, if_true]
        exact ih _ _ (by omega)
      · simp only [h2, if_false]
        by_cases h3 : ((content.drop ofs).drop SMSG_HDR_LEN).length < 8
        · simp only [h3, if_true]
        · simp only [h3, if_false]
          exact ih _ _ (by omega)

/-! ## The acceptance test of the proof of work -/

/-- The mask of the acceptance test is 1: the three shifts are joined by `||`. -/
theorem powMask_eq : powMask = 1 := by decide

/-- What `powAccept` tests: bytes 31 and 30 are zero and bit 0 of byte 29 is clear. -/
theorem powAccept_iff (H : List Nat) (h29 : H.getD 29 0 < 256) :
    powAccept H = true ↔ H.getD 31 0 = 0 ∧ H.getD 30 0 = 0 ∧ H.getD 29 0 % 2 = 0 := by
  unfold powAccept
  rw [powMask_eq]
  simp only [Bool.and_eq_true, beq_iff_eq, bne_iff_ne, ne_eq, Nat.and_one_is_mod]
  constructor
  · rintro ⟨⟨h1, h2⟩, h3⟩
    exact ⟨h1, h2, by omega⟩
  · rintro ⟨h1, h2, h3⟩
    exact ⟨⟨h1, h2⟩, by omega⟩

/-- C20, at the failing input: the digest `exDigestBit0` has bytes 31 and 30 zero and two
of the three low bits of byte 29 clear (`(~H[29]) & 7 = 6`), yet the acceptance test as
coded rejects it, and `SecureMsgValidate` answers 2 for an envelope with that digest. -/
theorem powAccept_rejects_bit0_set :
    exDigestBit0.getD 31 0 = 0 ∧ exDigestBit0.getD 30 0 = 0 ∧
    (255 - exDigestBit0.getD 29 0) &&& 7 = 6 ∧
    powAccept exDigestBit0 = false ∧
    SecureMsgValidate exConsts hmacBit0 exHdr exPayload 8 = 2 := by
  decide

/-! ## C11: the `smsgHave` handler -/

theorem mapFind_of_locked (m : List (Int × SecMsgBucket)) (k : Int)
    (h : 0 < (mapAt m k).nLockCount) : ∃ bkt, mapFind m k = some bkt := by
  unfold mapAt at h
  cases hf : mapFind m k with
  | none => rw [hf] at h; simp at h
  | some bkt => exact ⟨bkt, rfl⟩

theorem mapTouch_of_locked (m : List (Int × SecMsgBucket)) (k : Int)
    (h : 0 < (mapAt m k).nLockCount) : mapTouch m k = m := by
  obtain ⟨bkt, hb⟩ := mapFind_of_locked m k h
  exact mapTouch_of_some m k bkt hb

theorem haveStep_foldl (T : List SecMsgToken) (entries : List (List Nat)) (acc : List Nat) :
    entries.foldl (haveStep T) acc = acc ++ (absentEntries T entries).flatten := by
  induction entries generalizing acc with
  | nil => simp [absentEntries]
  | cons p ps ih =>
    rw [List.foldl_cons, ih]
    unfold haveStep absentEntries
    cases hf : setFind T (wireToken p) with
    | none => simp [List.filter_cons, hf]
    | some x => simp [List.filter_cons, hf]

theorem wireEntries_length_of_mem (buf : List Nat) (start width n : Nat)
    (hfit : start + width * n ≤ buf.length) :
    ∀ p ∈ wireEntries buf start width n, p.length = width := by
  intro p hp
  unfold wireEntries at hp
  rw [List.mem_map] at hp
  obtain ⟨i, hi, rfl⟩ := hp
  rw [List.mem_range] at hi
  rw [List.length_take, List.length_drop]
  have : width * (i + 1) ≤ width * n := Nat.mul_le_mul_left _ hi
  rw [Nat.mul_succ] at this
  omega

theorem haveEntries_length_of_mem (vchData : List Nat) (hlen : 8 ≤ vchData.length) :
    ∀ p ∈ haveEntries vchData, p.length = 16 := by
  apply wireEntries_length_of_mem
  have := Nat.mul_div_le (vchData.length - 8) 16
  omega

theorem flatten_length_pos (L : List (List Nat)) (w : Nat) (hw : 0 < w)
    (h : ∀ p ∈ L, p.length = w) (hne : L ≠ []) : 0 < L.flatten.length := by
  cases L with
  | nil => exact absurd rfl hne
  | cons x xs =>
    have := h x (List.mem_cons_self _ _)
    simp only [List.flatten_cons, List.length_append]
    omega

/-- C11: an `smsgHave` for a bucket b inside [now - SMSG_RETENTION, now + SMSG_TIME_LEEWAY].
If b is unlocked and some received token is absent from b's token set, the handler sends
one `smsgWant` made of the 8 bytes of b followed by exactly the absent tokens in received
order, and sets lockCount = 3 and lockPeerId = the sender's id; if b is unlocked and no
received token is absent it sends nothing and the lock fields stay as they were; if b is
locked it sends nothing and changes neither the state nor the peer record. -/
theorem have_handler_spec (C : SmsgConsts) (hmac : List Nat → List Nat → Option (List Nat))
    (now : Int) (io : Nat → IoOutcome) (s : SmsgState) (pfrom : SmsgPeer) (vchData : List Nat)
    (hlen : 8 ≤ vchData.length)
    (hw1 : now - (C.SMSG_RETENTION : Int) ≤ decodeI64 vchData)
    (hw2 : decodeI64 vchData ≤ now + (C.SMSG_TIME_LEEWAY : Int)) :
    ((mapAt s.smsgSets (decodeI64 vchData)).nLockCount = 0 →
      absentEntries (mapAt s.smsgSets (decodeI64 vchData)).setTokens (haveEntries vchData) ≠ [] →
      (SecureMsgReceiveData C hmac now io s pfrom SmsgCommand.smsgHave vchData).sent =
        [(SmsgCommand.smsgWant, vchData.take 8 ++
          (absentEntries (mapAt s.smsgSets (decodeI64 vchData)).setTokens
            (haveEntries vchData)).flatten)] ∧
      (mapAt (SecureMsgReceiveData C hmac now io s pfrom SmsgCommand.smsgHave
        vchData).state.smsgSets (decodeI64 vchData)).nLockCount = 3 ∧
      (mapAt (SecureMsgReceiveData C hmac now io s pfrom SmsgCommand.smsgHave
        vchData).state.smsgSets (decodeI64 vchData)).nLockPeerId = pfrom.nPeerId) ∧
    ((mapAt s.smsgSets (decodeI64 vchData)).nLockCount = 0 →
      absentEntries (mapAt s.smsgSets (decodeI64 vchData)).setTokens (haveEntries vchData) = [] →
      (SecureMsgReceiveData C hmac now io s pfrom SmsgCommand.smsgHave vchData).sent = [] ∧
      (mapAt (SecureMsgReceiveData C hmac now io s pfrom SmsgCommand.smsgHave
        vchData).state.smsgSets (decodeI64 vchData)).nLockCount =
          (mapAt s.smsgSets (decodeI64 vchData)).nLockCount ∧
      (mapAt (SecureMsgReceiveData C hmac now io s pfrom SmsgCommand.smsgHave
        vchData).state.smsgSets (decodeI64 vchData)).nLockPeerId =
          (mapAt s.smsgSets (decodeI64 vchData)).nLockPeerId) ∧
    (0 < (mapAt s.smsgSets (decodeI64 vchData)).nLockCount →
      (SecureMsgReceiveData C hmac now io s pfrom SmsgCommand.smsgHave vchData).sent = [] ∧
      (SecureMsgReceiveData C hmac now io s pfrom SmsgCommand.smsgHave vchData).state = s ∧
      (SecureMsgReceiveData C hmac now io s pfrom SmsgCommand.smsgHave vchData).peer = pfrom) := by
  have hrd : SecureMsgReceiveData C hmac now io s pfrom SmsgCommand.smsgHave vchData =
      handleSmsgHave C now s pfrom vchData := rfl
  rw [hrd]
  have h1 : ¬ vchData.length < 8 := by omega
  have h2 : ¬ decodeI64 vchData < now - (C.SMSG_RETENTION : Int) := by omega
  have h3 : ¬ decodeI64 vchData > now + (C.SMSG_TIME_LEEWAY : Int) := by omega
  have hfold := haveStep_foldl (mapAt s.smsgSets (decodeI64 vchData)).setTokens
    (haveEntries vchData) (vchData.take 8)
  have htake : (vchData.take 8).length = 8 := by rw [List.length_take]; omega
  refine ⟨?_, ?_, ?_⟩
  · intro hl hne
    have hl2 : ¬ (mapAt s.smsgSets (decodeI64 vchData)).nLockCount > 0 := by omega
    have hpos : 0 < (absentEntries (mapAt s.smsgSets (decodeI64 vchData)).setTokens
        (haveEntries vchData)).flatten.length :=
      flatten_length_pos _ 16 (by decide)
        (fun p hp => haveEntries_length_of_mem vchData hlen p (List.mem_of_mem_filter hp)) hne
    have hgt : (List.foldl (haveStep (mapAt s.smsgSets (decodeI64 vchData)).setTokens)
        (vchData.take 8) (haveEntries vchData)).length > 8 := by
      rw [hfold, List.length_append, htake]; omega
    unfold handleSmsgHave
    simp only [if_neg h1, if_neg h2, if_neg h3, mapAt_mapTouch, if_neg hl2]
    unfold haveEntries at hgt hfold
    rw [if_pos hgt]
    simp only [mapAt_mapPut_self]
    rw [hfold]
    simp [haveEntries]
  · intro hl he
    have hl2 : ¬ (mapAt s.smsgSets (decodeI64 vchData)).nLockCount > 0 := by omega
    have hgt : ¬ (List.foldl (haveStep (mapAt s.smsgSets (decodeI64 vchData)).setTokens)
        (vchData.take 8) (haveEntries vchData)).length > 8 := by
      rw [hfold, he, List.flatten_nil, List.append_nil, htake]; omega
    unfold handleSmsgHave
    simp only [if_neg h1, if_neg h2, if_neg h3, mapAt_mapTouch, if_neg hl2]
    unfold haveEntries at hgt
    rw [if_neg hgt]
    simp only [mapAt_mapTouch]
    simp
  · intro hl
    unfold handleSmsgHave
    simp only [if_neg h1, if_neg h2, if_neg h3, mapAt_mapTouch, if_pos hl,
      mapTouch_of_locked _ _ hl]
    simp

/-- An `smsgHave` payload for bucket 997200 naming the token of the example envelope and
a token (timestamp 1000001) the example state lacks. -/
theorem exHave_absent :
    absentEntries (mapAt exState1.smsgSets 997200).setTokens
      (haveEntries (exWant ++ encodeI64 1000001 ++ [9, 9, 9, 9, 9, 9, 9, 9])) =
      [encodeI64 1000001 ++ [9, 9, 9, 9, 9, 9, 9, 9]] := by
  decide

set_option maxRecDepth 100000 in
/-- C11 witness: the example state (bucket 997200 unlocked, one token) receives an
`smsgHave` naming its own token and a second one; the handler asks for the second and
locks the bucket for peer 7. -/
theorem have_handler_spec_witness :
    (SecureMsgReceiveData exConsts hmacZero 1000000 (fun _ => IoOutcome.ok) exState1
      { nPeerId := 7 } SmsgCommand.smsgHave
      (exWant ++ encodeI64 1000001 ++ [9, 9, 9, 9, 9, 9, 9, 9])).sent =
      [(SmsgCommand.smsgWant, (exWant ++ encodeI64 1000001 ++ [9, 9, 9, 9, 9, 9, 9, 9]).take 8 ++
        (absentEntries (mapAt exState1.smsgSets
            (decodeI64 (exWant ++ encodeI64 1000001 ++ [9, 9, 9, 9, 9, 9, 9, 9]))).setTokens
          (haveEntries (exWant ++ encodeI64 1000001 ++ [9, 9, 9, 9, 9, 9, 9, 9]))).flatten)] ∧
    (mapAt (SecureMsgReceiveData exConsts hmacZero 1000000 (fun _ => IoOutcome.ok) exState1
      { nPeerId := 7 } SmsgCommand.smsgHave
      (exWant ++ encodeI64 1000001 ++ [9, 9, 9, 9, 9, 9, 9, 9])).state.smsgSets
        (decodeI64 (exWant ++ encodeI64 1000001 ++ [9, 9, 9, 9, 9, 9, 9, 9]))).nLockCount = 3 ∧
    (mapAt (SecureMsgReceiveData exConsts hmacZero 1000000 (fun _ => IoOutcome.ok) exState1
      { nPeerId := 7 } SmsgCommand.smsgHave
      (exWant ++ encodeI64 1000001 ++ [9, 9, 9, 9, 9, 9, 9, 9])).state.smsgSets
        (decodeI64 (exWant ++ encodeI64 1000001 ++ [9, 9, 9, 9, 9, 9, 9, 9]))).nLockPeerId =
      ({ nPeerId := 7 } : SmsgPeer).nPeerId :=
  (have_handler_spec exConsts hmacZero 1000000 (fun _ => IoOutcome.ok) exState1
    { nPeerId := 7 } (exWant ++ encodeI64 1000001 ++ [9, 9, 9, 9, 9, 9, 9, 9])
    (by decide) (by decide) (by decide)).1 (by decide) (by decide)

/-! ## C12: the `smsgInv` handler -/

theorem invStep_spec (C : SmsgConsts) (now : Int) (sets : List (Int × SecMsgBucket))
    (acc : InvAcc) (p : List Nat)
    (hm : ∀ k, mapAt acc.smsgSets k = mapAt sets k) :
    (∀ k, mapAt (invStep C now acc p).smsgSets k = mapAt sets k) ∧
    (invStep C now acc p).vchDataOut = acc.vchDataOut ++
      (if invListed C now sets p then encodeI64 (decodeI64 p) else []) ∧
    (invStep C now acc p).nShowBuckets = acc.nShowBuckets +
      (if invListed C now sets p then 1 else 0) ∧
    (invStep C now acc p).nLocked = acc.nLocked +
      (if invSkippedLocked C now sets p then 1 else 0) := by
  unfold invStep invListed invSkippedLocked invEligible
  simp only [mapAt_mapTouch, hm]
  by_cases h1 : decodeI64 p < now - (C.SMSG_RETENTION : Int)
  · have h1n : ¬ now - (C.SMSG_RETENTION : Int) ≤ decodeI64 p := by omega
    simp only [if_pos h1, h1n, decide_False, Bool.false_and, Bool.false_eq_true, if_false,
      List.append_nil, Nat.add_zero]
    split <;> refine ⟨hm, ?_, ?_, ?_⟩ <;> trivial
  · have h1p : now - (C.SMSG_RETENTION : Int) ≤ decodeI64 p := by omega
    simp only [if_neg h1, h1p, decide_True, Bool.true_and]
    by_cases h2 : decodeI64 p > now + (C.SMSG_TIME_LEEWAY : Int)
    · have h2n : ¬ decodeI64 p ≤ now + (C.SMSG_TIME_LEEWAY : Int) := by omega
      simp only [if_pos h2, h2n, decide_False, Bool.false_and, Bool.false_eq_true, if_false,
        List.append_nil, Nat.add_zero]
      refine ⟨hm, ?_, ?_, ?_⟩ <;> trivial
    · have h2p : decodeI64 p ≤ now + (C.SMSG_TIME_LEEWAY : Int) := by omega
      simp only [if_neg h2, h2p, decide_True, Bool.true_and]
      by_cases h3 : decodeU32 (p.drop 8) < 1
      · have h3n : ¬ 0 < decodeU32 (p.drop 8) := by omega
        simp only [if_pos h3, h3n, decide_False, Bool.false_and, Bool.false_eq_true, if_false,
          List.append_nil, Nat.add_zero]
        refine ⟨hm, ?_, ?_, ?_⟩ <;> trivial
      · have h3p : 0 < decodeU32 (p.drop 8) := by omega
        simp only [if_neg h3, h3p, decide_True, Bool.true_and]
        have hm2 : ∀ k, mapAt (mapTouch acc.smsgSets (decodeI64 p)) k = mapAt sets k := by
          intro k
          rw [mapAt_mapTouch_any, hm]
        by_cases h4 : (mapAt sets (decodeI64 p)).nLockCount > 0
        · have h4n : ¬ (mapAt sets (decodeI64 p)).nLockCount = 0 := by omega
          have h4q : 0 < (mapAt sets (decodeI64 p)).nLockCount := h4
          simp only [if_pos h4, h4n, h4q, decide_False, Bool.false_and, Bool.false_eq_true, if_false,
            List.append_nil, Nat.add_zero, decide_True, if_true]
          refine ⟨hm2, ?_, ?_, ?_⟩ <;> trivial
        · have h4p : (mapAt sets (decodeI64 p)).nLockCount = 0 := by omega
          simp only [if_neg h4, h4p, decide_True, Bool.true_and, decide_False,
            Bool.false_eq_true, if_false, Nat.add_zero, Nat.lt_irrefl]
          by_cases h5 : (mapAt sets (decodeI64 p)).setTokens.length < decodeU32 (p.drop 8) ∨
              ((mapAt sets (decodeI64 p)).setTokens.length = decodeU32 (p.drop 8) ∧
                (mapAt sets (decodeI64 p)).hash ≠ decodeU32 (p.drop 12))
          · have h5b : (decide ((mapAt sets (decodeI64 p)).setTokens.length <
                  decodeU32 (p.drop 8)) ||
                (decide ((mapAt sets (decodeI64 p)).setTokens.length = decodeU32 (p.drop 8)) &&
                  decide ((mapAt sets (decodeI64 p)).hash ≠ decodeU32 (p.drop 12)))) = true := by
              simpa using h5
            rw [if_pos h5]
            simp only [h5b, if_true]
            refine ⟨hm2, ?_, ?_, ?_⟩ <;> trivial
          · have h5b : (decide ((mapAt sets (decodeI64 p)).setTokens.length <
                  decodeU32 (p.drop 8)) ||
                (decide ((mapAt sets (decodeI64 p)).setTokens.length = decodeU32 (p.drop 8)) &&
                  decide ((mapAt sets (decodeI64 p)).hash ≠ decodeU32 (p.drop 12)))) = false := by
              rw [Bool.eq_false_iff]
              simpa using h5
            rw [if_neg h5]
            simp only [h5b, Bool.false_eq_true, if_false, List.append_nil, Nat.add_zero]
            refine ⟨hm2, ?_, ?_, ?_⟩ <;> trivial

theorem invStep_foldl (C : SmsgConsts) (now : Int) (sets : List (Int × SecMsgBucket))
    (entries : List (List Nat)) (acc : InvAcc)
    (hm : ∀ k, mapAt acc.smsgSets k = mapAt sets k) :
    (entries.foldl (invStep C now) acc).vchDataOut = acc.vchDataOut ++
      ((entries.filter (invListed C now sets)).map (fun p => encodeI64 (decodeI64 p))).flatten ∧
    (entries.foldl (invStep C now) acc).nShowBuckets = acc.nShowBuckets +
      (entries.filter (invListed C now sets)).length ∧
    (entries.foldl (invStep C now) acc).nLocked = acc.nLocked +
      (entries.filter (invSkippedLocked C now sets)).length := by
  induction entries generalizing acc with
  | nil => simp
  | cons p ps ih =>
    obtain ⟨hm1, hv, hn, hl⟩ := invStep_spec C now sets acc p hm
    obtain ⟨iv, inn, il⟩ := ih (invStep C now acc p) hm1
    rw [List.foldl_cons, iv, inn, il, hv, hn, hl]
    refine ⟨?_, ?_, ?_⟩
    · cases h : invListed C now sets p <;> simp [List.filter_cons, h]
    · cases h : invListed C now sets p <;> simp [List.filter_cons, h]; omega
    · cases h : invSkippedLocked C now sets p <;> simp [List.filter_cons, h]; omega

theorem flatten_encodeI64_length (L : List (List Nat)) :
    ((L.map (fun p => encodeI64 (decodeI64 p))).flatten).length = 8 * L.length := by
  induction L with
  | nil => rfl
  | cons x xs ih =>
    simp only [List.map_cons, List.flatten_cons, List.length_append, encodeI64_length, ih,
      List.length_cons]
    omega

/-- C12: a well-formed `smsgInv` (at least 4 bytes, a count within the limit, 16 bytes for
every counted bucket) from a peer that is not being ignored.  The handler replies with one
`smsgShow` whose leading u32 is the number of buckets listed and which lists, in advertised
order, exactly the advertised buckets inside [now - SMSG_RETENTION, now + SMSG_TIME_LEEWAY]
with a non-zero count that are unlocked here and hold fewer tokens here, or as many with
another hash; when none is listed it sends `smsgMatch` carrying `now` iff no advertised
bucket was skipped as locked, and otherwise nothing. -/
theorem inv_handler_spec (C : SmsgConsts) (hmac : List Nat → List Nat → Option (List Nat))
    (now : Int) (io : Nat → IoOutcome) (s : SmsgState) (pfrom : SmsgPeer) (vchData : List Nat)
    (hlen : 4 ≤ vchData.length)
    (hign : pfrom.ignoreUntil ≤ now)
    (hcount : decodeU32 vchData ≤ u32 (C.SMSG_RETENTION / C.SMSG_BUCKET_LEN + 1))
    (hsize : 4 + decodeU32 vchData * 16 ≤ vchData.length) :
    (SecureMsgReceiveData C hmac now io s pfrom SmsgCommand.smsgInv vchData).sent =
      if (wireEntries vchData 4 16 (decodeU32 vchData)).filter (invListed C now s.smsgSets) ≠ []
      then
        [(SmsgCommand.smsgShow,
          encodeU32 ((wireEntries vchData 4 16 (decodeU32 vchData)).filter
            (invListed C now s.smsgSets)).length ++
          (((wireEntries vchData 4 16 (decodeU32 vchData)).filter
            (invListed C now s.smsgSets)).map (fun p => encodeI64 (decodeI64 p))).flatten)]
      else if (wireEntries vchData 4 16 (decodeU32 vchData)).filter
          (invSkippedLocked C now s.smsgSets) = []
      then [(SmsgCommand.smsgMatch, encodeI64 now)]
      else [] := by
  have hrd : SecureMsgReceiveData C hmac now io s pfrom SmsgCommand.smsgInv vchData =
      handleSmsgInv C now s pfrom vchData := rfl
  rw [hrd]
  have h1 : ¬ vchData.length < 4 := by omega
  have h2 : ¬ now < pfrom.ignoreUntil := by omega
  have h3 : ¬ decodeU32 vchData > u32 (C.SMSG_RETENTION / C.SMSG_BUCKET_LEN + 1) := by omega
  have h4 : ¬ vchData.length < u32 (4 + decodeU32 vchData * 16) := by
    have : u32 (4 + decodeU32 vchData * 16) ≤ 4 + decodeU32 vchData * 16 := Nat.mod_le _ _
    omega
  have h5 : ¬ vchData.length < 4 + decodeU32 vchData * 16 := by omega
  obtain ⟨hv, hn, hl⟩ := invStep_foldl C now s.smsgSets
    (wireEntries vchData 4 16 (decodeU32 vchData)) ⟨s.smsgSets, [0, 0, 0, 0], 0, 0, 0⟩
    (fun _ => rfl)
  unfold handleSmsgInv
  simp only [if_neg h1, if_neg h2, if_neg h3, if_neg h4, if_neg h5]
  have hdrop : ∀ X : List Nat, List.drop 4 ([0, 0, 0, 0] ++ X) = X := fun _ => rfl
  dsimp only at hv hn hl
  rw [hv, hn, hl]
  simp only [Nat.zero_add, hdrop, List.length_append, encodeU32_length,
    flatten_encodeI64_length]
  by_cases hne : (wireEntries vchData 4 16 (decodeU32 vchData)).filter
      (invListed C now s.smsgSets) = []
  · rw [hne]
    simp only [List.length_nil, Nat.mul_zero, Nat.add_zero, Nat.lt_irrefl, if_false, ne_eq,
      not_true_eq_false, gt_iff_lt]
    by_cases hlk : (wireEntries vchData 4 16 (decodeU32 vchData)).filter
        (invSkippedLocked C now s.smsgSets) = []
    · rw [hlk]; simp
    · have : ¬ ((wireEntries vchData 4 16 (decodeU32 vchData)).filter
          (invSkippedLocked C now s.smsgSets)).length < 1 := by
        have := List.length_pos.mpr hlk
        omega
      rw [if_neg this, if_neg hlk]
  · have hpos := List.length_pos.mpr hne
    have hgt : 4 + 8 * ((wireEntries vchData 4 16 (decodeU32 vchData)).filter
        (invListed C now s.smsgSets)).length > 4 := by omega
    rw [if_pos hgt, if_pos hne]

set_option maxRecDepth 100000 in
/-- C12 witness: the example state (one token in bucket 997200) is sent `exInv` at time
1001000; it asks to see the buckets 997200 and 1000800, in that order, and not the expired
one. -/
theorem inv_handler_spec_witness :
    (SecureMsgReceiveData exConsts hmacZero 1001000 (fun _ => IoOutcome.ok) exState1 {}
      SmsgCommand.smsgInv exInv).sent =
      [(SmsgCommand.smsgShow, encodeU32 2 ++ (encodeI64 997200 ++ encodeI64 1000800))] :=
  (inv_handler_spec exConsts hmacZero 1001000 (fun _ => IoOutcome.ok) exState1 {} exInv
    (by decide) (by decide) (by decide) (by decide)).trans (by decide)

/-! ## C13: the size of an `smsgMsg` bunch -/

/-- What the token loop of the `smsgWant` handler leaves, entered with fewer than 500
envelopes and fewer than 96000 bytes: some retrieved envelopes appended, at most 500
counted, and fewer than 96000 bytes before the last one was appended. -/
theorem wantLoop_shape (C : SmsgConsts) (files : List (Int × List Nat))
    (tokenSet : List SecMsgToken) (entries : List (List Nat)) (nBunch : Nat)
    (vchBunch : List Nat) (hn : nBunch < 500) (hv : vchBunch.length < 96000) :
    ∃ envs : List (List Nat),
      wantLoop C files tokenSet entries nBunch vchBunch =
        (nBunch + envs.length, vchBunch ++ envs.flatten) ∧
      nBunch + envs.length ≤ 500 ∧
      (vchBunch ++ envs.dropLast.flatten).length < 96000 ∧
      (∀ e ∈ envs, ∃ t, SecureMsgRetrieve C files t = some e) := by
  induction entries generalizing nBunch vchBunch with
  | nil => exact ⟨[], by simp [wantLoop], by simp; omega, by simpa using hv, by simp⟩
  | cons p rest ih =>
    rw [wantLoop]
    cases hf : setFind tokenSet (wireToken p) with
    | none => exact ih nBunch vchBunch hn hv
    | some it =>
      simp only
      cases hr : SecureMsgRetrieve C files { wireToken p with offset := it.offset } with
      | none =>
        simp only
        have hc : ¬ (nBunch ≥ 500 ∨ vchBunch.length ≥ 96000) := by omega
        rw [if_neg hc]
        exact ih nBunch vchBunch hn hv
      | some vchOne =>
        simp only
        by_cases hc : nBunch + 1 ≥ 500 ∨ (vchBunch ++ vchOne).length ≥ 96000
        · rw [if_pos hc]
          refine ⟨[vchOne], by simp, by simp; omega, by simpa using hv, ?_⟩
          intro e he
          rw [List.mem_singleton] at he
          subst he
          exact ⟨_, hr⟩
        · rw [if_neg hc]
          obtain ⟨envs, h1, h2, h3, h4⟩ := ih (nBunch + 1) (vchBunch ++ vchOne) (by omega) (by omega)
          refine ⟨vchOne :: envs, ?_, ?_, ?_, ?_⟩
          · rw [h1]
            simp only [List.length_cons, List.flatten_cons, List.append_assoc, Prod.mk.injEq,
              and_true]
            omega
          · simp only [List.length_cons]; omega
          · cases envs with
            | nil => simpa using hv
            | cons x xs =>
              simpa [List.dropLast_cons₂, List.append_assoc] using h3
          · intro e he
            rw [List.mem_cons] at he
            rcases he with rfl | he
            · exact ⟨_, hr⟩
            · exact h4 e he

/-- What a `SecureMsgStore` call that passes the time test with a new token leaves in the
token set and the file of its bucket. -/
theorem store_next (C : SmsgConsts) (now : Int) (s : SmsgState) (h p : List Nat) (n : Nat)
    (u : Bool) (hrej : storeTimeRejected C now (hdrTimestamp h) = false)
    (hnone : setFind (mapAt s.smsgSets (bucketOf C (hdrTimestamp h))).setTokens
      ⟨hdrTimestamp h, tokenSample p n, 0⟩ = none) :
    (mapAt (SecureMsgStore C now IoOutcome.ok s h p n u).2.smsgSets
        (bucketOf C (hdrTimestamp h))).setTokens =
      setInsert (mapAt s.smsgSets (bucketOf C (hdrTimestamp h))).setTokens
        ⟨hdrTimestamp h, tokenSample p n,
          ((mapFind s.files (bucketOf C (hdrTimestamp h))).getD []).length⟩ ∧
    mapFind (SecureMsgStore C now IoOutcome.ok s h p n u).2.files
        (bucketOf C (hdrTimestamp h)) =
      some ((mapFind s.files (bucketOf C (hdrTimestamp h))).getD [] ++
        (h.take SMSG_HDR_LEN ++ p.take n)) := by
  have h0 := store_ok_of C now s h p n u hrej hnone
  obtain ⟨_, _, _, hfiles, bkt2, hsets, htok, _⟩ :=
    store_ok_state C now IoOutcome.ok s (SecureMsgStore C now IoOutcome.ok s h p n u).2 h p n u
      (Prod.ext h0 rfl)
  rw [hsets, hfiles, mapAt_mapPut_self, mapFind_mapPut_self]
  exact ⟨htok, rfl⟩

theorem mapFind_of_tokens (m : List (Int × SecMsgBucket)) (k : Int)
    (h : (mapAt m k).setTokens ≠ []) : mapFind m k = some (mapAt m k) := by
  unfold mapAt at h ⊢
  cases hf : mapFind m k with
  | none => rw [hf] at h; exact absurd rfl h
  | some bkt => rfl

theorem runStores_nil (C : SmsgConsts) (s : SmsgState) : runStores C s [] = s := rfl

theorem runStores_cons_mk (C : SmsgConsts) (s : SmsgState) (now : Int) (io : IoOutcome)
    (h p : List Nat) (n : Nat) (u : Bool) (cs : List StoreCall) :
    runStores C s (⟨now, io, h, p, n, u⟩ :: cs) =
      runStores C (SecureMsgStore C now io s h p n u).2 cs := rfl

set_option maxRecDepth 100000 in
/-- The token set and the file of bucket 997200 after the four stores of `bigCalls P`. -/
theorem bigState_spec (P : List Nat) (hl : P.length = 24000)
    (h8 : P.take 8 = List.replicate 8 0) :
    (mapAt (bigState P).smsgSets 997200).setTokens =
      [⟨1000000, List.replicate 8 0, 0⟩, ⟨1000001, List.replicate 8 0, 24122⟩,
       ⟨1000002, List.replicate 8 0, 48244⟩, ⟨1000003, List.replicate 8 0, 72366⟩] ∧
    mapFind (bigState P).files 997200 =
      some ((exBigHdr 0 ++ P) ++ (exBigHdr 1 ++ P) ++ (exBigHdr 2 ++ P) ++ (exBigHdr 3 ++ P)) := by
  have ts : tokenSample P 24000 = List.replicate 8 0 := by
    unfold tokenSample; rw [if_neg (by decide)]; exact h8
  have tp : P.take 24000 = P := by rw [← hl]; exact List.take_length P
  have hk : ∀ k, k < 4 → hdrTimestamp (exBigHdr k) = 1000000 + (k : Int) ∧
      bucketOf exConsts (hdrTimestamp (exBigHdr k)) = 997200 ∧
      storeTimeRejected exConsts 1000010 (hdrTimestamp (exBigHdr k)) = false ∧
      (exBigHdr k).take SMSG_HDR_LEN = exBigHdr k ∧ (exBigHdr k).length = 122 := by
    decide
  obtain ⟨e0, b0, r0, t0, l0⟩ := hk 0 (by decide)
  obtain ⟨e1, b1, r1, t1, l1⟩ := hk 1 (by decide)
  obtain ⟨e2, b2, r2, t2, l2⟩ := hk 2 (by decide)
  obtain ⟨e3, b3, r3, t3, l3⟩ := hk 3 (by decide)
  -- first store
  have s1 := store_next exConsts 1000010 {} (exBigHdr 0) P 24000 true r0
    (by rw [b0]; rfl)
  rw [b0, e0, ts, tp, t0] at s1
  have s1t : (mapAt (SecureMsgStore exConsts 1000010 IoOutcome.ok {} (exBigHdr 0) P 24000
      true).2.smsgSets 997200).setTokens = [⟨1000000, List.replicate 8 0, 0⟩] := by
    rw [s1.1]; rfl
  have s1f : mapFind (SecureMsgStore exConsts 1000010 IoOutcome.ok {} (exBigHdr 0) P 24000
      true).2.files 997200 = some (exBigHdr 0 ++ P) := by
    rw [s1.2]; rfl
  -- second store
  have s2 := store_next exConsts 1000010
    (SecureMsgStore exConsts 1000010 IoOutcome.ok {} (exBigHdr 0) P 24000 true).2
    (exBigHdr 1) P 24000 true r1 (by rw [b1, e1, ts, s1t]; decide)
  rw [b1, e1, ts, tp, t1, s1t, s1f] at s2
  simp only [Option.getD_some, List.length_append, l0, hl] at s2
  have s2t := s2.1.trans (by decide :
    setInsert [⟨1000000, List.replicate 8 0, 0⟩] ⟨1000000 + ((1 : Nat) : Int), List.replicate 8 0, 122 + 24000⟩ =
      [⟨1000000, List.replicate 8 0, 0⟩, ⟨1000001, List.replicate 8 0, 24122⟩])
  have s2f := s2.2
  -- third store
  have s3 := store_next exConsts 1000010
    (SecureMsgStore exConsts 1000010 IoOutcome.ok
      (SecureMsgStore exConsts 1000010 IoOutcome.ok {} (exBigHdr 0) P 24000 true).2
      (exBigHdr 1) P 24000 true).2
    (exBigHdr 2) P 24000 true r2 (by rw [b2, e2, ts, s2t]; decide)
  rw [b2, e2, ts, tp, t2, s2t, s2f] at s3
  simp only [Option.getD_some, List.length_append, l0, l1, hl] at s3
  have s3t := s3.1.trans (by decide :
    setInsert [⟨1000000, List.replicate 8 0, 0⟩, ⟨1000001, List.replicate 8 0, 24122⟩]
        ⟨1000000 + ((2 : Nat) : Int), List.replicate 8 0, 122 + 24000 + (122 + 24000)⟩ =
      [⟨1000000, List.replicate 8 0, 0⟩, ⟨1000001, List.replicate 8 0, 24122⟩,
       ⟨1000002, List.replicate 8 0, 48244⟩])
  have s3f := s3.2
  -- fourth store
  have s4 := store_next exConsts 1000010
    (SecureMsgStore exConsts 1000010 IoOutcome.ok
      (SecureMsgStore exConsts 1000010 IoOutcome.ok
        (SecureMsgStore exConsts 1000010 IoOutcome.ok {} (exBigHdr 0) P 24000 true).2
        (exBigHdr 1) P 24000 true).2
      (exBigHdr 2) P 24000 true).2
    (exBigHdr 3) P 24000 true r3 (by rw [b3, e3, ts, s3t]; decide)
  rw [b3, e3, ts, tp, t3, s3t, s3f] at s4
  simp only [Option.getD_some, List.length_append, l0, l1, l2, hl] at s4
  have s4t := s4.1.trans (by decide :
    setInsert [⟨1000000, List.replicate 8 0, 0⟩, ⟨1000001, List.replicate 8 0, 24122⟩,
          ⟨1000002, List.replicate 8 0, 48244⟩]
        ⟨1000000 + ((3 : Nat) : Int), List.replicate 8 0,
          122 + 24000 + (122 + 24000) + (122 + 24000)⟩ =
      [⟨1000000, List.replicate 8 0, 0⟩, ⟨1000001, List.replicate 8 0, 24122⟩,
       ⟨1000002, List.replicate 8 0, 48244⟩, ⟨1000003, List.replicate 8 0, 72366⟩])
  rw [bigState, bigCalls, runStores_cons_mk, runStores_cons_mk, runStores_cons_mk,
    runStores_cons_mk, runStores_nil]
  exact ⟨s4t, s4.2⟩

/-- The token loop of the `smsgWant` handler over wanted tokens that are all held and
retrievable, at most 500 of them, whose envelopes without the last one stay below 96000
bytes: every envelope is appended, the last one included. -/
theorem wantLoop_fill (C : SmsgConsts) (files : List (Int × List Nat)) (TA : List SecMsgToken)
    (hs : TA.Pairwise (fun a b => tokenLt a b = true))
    (M : List SecMsgToken) (nBunch : Nat) (vchBunch : List Nat)
    (hM : ∀ t ∈ M, t ∈ TA ∧ t.sample.length = 8 ∧ isI64 t.timestamp = true ∧
      (SecureMsgRetrieve C files t).isSome = true)
    (hn : nBunch + M.length ≤ 500)
    (hsz : vchBunch.length + ((M.dropLast.map (retrieved C files)).flatten).length < 96000) :
    wantLoop C files TA (M.map tokenWire) nBunch vchBunch =
      (nBunch + M.length, vchBunch ++ (M.map (retrieved C files)).flatten) := by
  induction M generalizing nBunch vchBunch with
  | nil => simp [wantLoop]
  | cons t rest ih =>
    obtain ⟨hmem, h8, hi, hsome⟩ := hM t (List.mem_cons_self _ _)
    obtain ⟨hret, hrl⟩ := retrieved_length C files t hsome
    have hfind : setFind TA (wireToken (tokenWire t)) = some t := by
      rw [wireToken_tokenWire t h8 hi, setFind_key TA ⟨t.timestamp, t.sample, 0⟩ t rfl rfl]
      exact setFind_mem_sorted TA t hs hmem
    have htok : ({ wireToken (tokenWire t) with offset := t.offset } : SecMsgToken) = t := by
      rw [wireToken_tokenWire t h8 hi]
    simp only [List.map_cons, List.flatten_cons, List.length_cons] at hn ⊢
    rw [wantLoop]
    simp only [hfind, htok, hret]
    cases rest with
    | nil =>
      simp only [List.map_nil, List.flatten_nil, List.append_nil, List.length_nil, wantLoop]
      split <;> rfl
    | cons u us =>
      simp only [List.dropLast_cons₂, List.map_cons, List.flatten_cons, List.length_append,
        List.length_cons] at hsz hn
      have hc : ¬ (nBunch + 1 ≥ 500 ∨ (vchBunch ++ retrieved C files t).length ≥ 96000) := by
        rw [List.length_append]; omega
      rw [if_neg hc]
      rw [ih (nBunch + 1) (vchBunch ++ retrieved C files t)
        (fun x hx => hM x (List.mem_cons_of_mem _ hx))
        (by simp only [List.length_cons]; omega)
        (by simp only [List.length_append]; omega)]
      simp only [List.append_assoc, Prod.mk.injEq, and_true, List.length_cons, List.map_cons,
        List.flatten_cons]
      omega

/-- The answer of the `smsgWant` handler in terms of what its token loop leaves. -/
theorem handleSmsgWant_sent (C : SmsgConsts) (s : SmsgState) (pfrom : SmsgPeer)
    (vchData : List Nat) (bkt : SecMsgBucket) (n : Nat) (v : List Nat)
    (hlen : ¬ vchData.length < 8)
    (hfind : mapFind s.smsgSets (decodeI64 vchData) = some bkt)
    (hloop : wantLoop C s.files bkt.setTokens (haveEntries vchData) 0 (List.replicate 12 0) =
      (n, v)) :
    (handleSmsgWant C s pfrom vchData).sent =
      if n > 0 then [(SmsgCommand.smsgMsg, encodeU32 n ++ encodeI64 (decodeI64 vchData) ++
        v.drop 12)] else [] := by
  unfold handleSmsgWant
  unfold haveEntries at hloop
  rw [if_neg hlen]
  simp only [hfind, hloop]
  split <;> rfl


set_option maxRecDepth 100000 in
/-- The answer to `exBigWant` of a node in the state `bigState P`, for any 24000-byte
payload `P` that starts with eight zero bytes: one frame with all four envelopes. -/
theorem bigState_want (P : List Nat) (hl : P.length = 24000)
    (h8 : P.take 8 = List.replicate 8 0) :
    (SecureMsgReceiveData exConsts hmacZero 1000010 (fun _ => IoOutcome.ok) (bigState P) {}
      SmsgCommand.smsgWant exBigWant).sent = [(SmsgCommand.smsgMsg, bigFrame P)] ∧
    (bigFrame P).length = 96500 := by
  obtain ⟨htok, hfile⟩ := bigState_spec P hl h8
  have hk : ∀ k, k < 4 → (exBigHdr k).length = SMSG_HDR_LEN ∧
      hdrNPayload (exBigHdr k) = 24000 := by decide
  have l0 := (hk 0 (by decide)).1
  have l1 := (hk 1 (by decide)).1
  have l2 := (hk 2 (by decide)).1
  have l3 := (hk 3 (by decide)).1
  have hb : ∀ k : Nat, k < 4 → bucketOf exConsts (1000000 + (k : Int)) = 997200 := by decide
  have hfind : mapFind (bigState P).smsgSets 997200 = some (mapAt (bigState P).smsgSets 997200) :=
    mapFind_of_tokens _ _ (by rw [htok]; simp)
  have r0 : SecureMsgRetrieve exConsts (bigState P).files ⟨1000000, List.replicate 8 0, 0⟩ =
      some (exBigHdr 0 ++ P) :=
    retrieve_at exConsts _ _ [] (exBigHdr 0) P
      ((exBigHdr 1 ++ P) ++ (exBigHdr 2 ++ P) ++ (exBigHdr 3 ++ P))
      (by rw [show bucketOf exConsts 1000000 = 997200 from by decide, hfile]
          simp only [List.nil_append, List.append_assoc])
      rfl l0 (by rw [(hk 0 (by decide)).2, hl])
  have r1 : SecureMsgRetrieve exConsts (bigState P).files ⟨1000001, List.replicate 8 0, 24122⟩ =
      some (exBigHdr 1 ++ P) :=
    retrieve_at exConsts _ _ (exBigHdr 0 ++ P) (exBigHdr 1) P
      ((exBigHdr 2 ++ P) ++ (exBigHdr 3 ++ P))
      (by rw [show bucketOf exConsts 1000001 = 997200 from by decide, hfile]
          simp only [List.append_assoc])
      (by simp only [List.length_append, l0, hl, SMSG_HDR_LEN]) l1
      (by rw [(hk 1 (by decide)).2, hl])
  have r2 : SecureMsgRetrieve exConsts (bigState P).files ⟨1000002, List.replicate 8 0, 48244⟩ =
      some (exBigHdr 2 ++ P) :=
    retrieve_at exConsts _ _ ((exBigHdr 0 ++ P) ++ (exBigHdr 1 ++ P)) (exBigHdr 2) P
      (exBigHdr 3 ++ P)
      (by rw [show bucketOf exConsts 1000002 = 997200 from by decide, hfile])
      (by simp only [List.length_append, l0, l1, hl, SMSG_HDR_LEN]) l2
      (by rw [(hk 2 (by decide)).2, hl])
  have r3 : SecureMsgRetrieve exConsts (bigState P).files ⟨1000003, List.replicate 8 0, 72366⟩ =
      some (exBigHdr 3 ++ P) :=
    retrieve_at exConsts _ _ ((exBigHdr 0 ++ P) ++ (exBigHdr 1 ++ P) ++ (exBigHdr 2 ++ P))
      (exBigHdr 3) P []
      (by rw [show bucketOf exConsts 1000003 = 997200 from by decide, hfile]
          simp only [List.append_nil])
      (by simp only [List.length_append, l0, l1, l2, hl, SMSG_HDR_LEN]) l3
      (by rw [(hk 3 (by decide)).2, hl])
  have hentries : haveEntries exBigWant =
      ([⟨1000000, List.replicate 8 0, 0⟩, ⟨1000001, List.replicate 8 0, 24122⟩,
        ⟨1000002, List.replicate 8 0, 48244⟩,
        ⟨1000003, List.replicate 8 0, 72366⟩] : List SecMsgToken).map tokenWire := by
    decide
  have hloop := wantLoop_fill exConsts (bigState P).files
    (mapAt (bigState P).smsgSets 997200).setTokens (by rw [htok]; decide)
    [⟨1000000, List.replicate 8 0, 0⟩, ⟨1000001, List.replicate 8 0, 24122⟩,
      ⟨1000002, List.replicate 8 0, 48244⟩, ⟨1000003, List.replicate 8 0, 72366⟩]
    0 (List.replicate 12 0)
    (by
      intro t ht
      rw [htok]
      simp only [List.mem_cons, List.mem_singleton, List.not_mem_nil, or_false] at ht
      rcases ht with rfl | rfl | rfl | rfl
      · exact ⟨by decide, by decide, by decide, by rw [r0]; rfl⟩
      · exact ⟨by decide, by decide, by decide, by rw [r1]; rfl⟩
      · exact ⟨by decide, by decide, by decide, by rw [r2]; rfl⟩
      · exact ⟨by decide, by decide, by decide, by rw [r3]; rfl⟩)
    (by decide)
    (by
      simp only [List.dropLast, List.map_cons, List.map_nil, retrieved, r0, r1, r2,
        Option.getD_some, List.flatten_cons, List.flatten_nil, List.length_append,
        List.length_replicate, List.append_nil, l0, l1, l2, hl, SMSG_HDR_LEN]
      omega)
  have hflat : (([⟨1000000, List.replicate 8 0, 0⟩, ⟨1000001, List.replicate 8 0, 24122⟩,
        ⟨1000002, List.replicate 8 0, 48244⟩,
        ⟨1000003, List.replicate 8 0, 72366⟩] : List SecMsgToken).map
          (retrieved exConsts (bigState P).files)).flatten =
      (exBigHdr 0 ++ P) ++ ((exBigHdr 1 ++ P) ++ ((exBigHdr 2 ++ P) ++ (exBigHdr 3 ++ P))) := by
    simp only [List.map_cons, List.map_nil, retrieved, r0, r1, r2, r3, Option.getD_some,
      List.flatten_cons, List.flatten_nil, List.append_nil]
  rw [hflat, ← hentries] at hloop
  have htime : decodeI64 exBigWant = 997200 := by decide
  have hsent := handleSmsgWant_sent exConsts (bigState P) {} exBigWant
    (mapAt (bigState P).smsgSets 997200) _ _ (by decide) (by rw [htime]; exact hfind) hloop
  rw [htime, List.drop_left' (List.length_replicate 12 0)] at hsent
  constructor
  · exact hsent
  · simp only [bigFrame, List.length_append, encodeU32_length, encodeI64_length, l0, l1, l2, l3,
      hl, SMSG_HDR_LEN]

/-- C13, counterexample: a node holding four envelopes with 24000-byte payloads in bucket
997200 answers an `smsgWant` for the four with one `smsgMsg` frame of 96500 bytes (the size
test follows the append: before the fourth envelope the frame has 72378 bytes). -/
theorem want_frame_exceeds_96000 :
    (SecureMsgReceiveData exConsts hmacZero 1000010 (fun _ => IoOutcome.ok) exBigState {}
      SmsgCommand.smsgWant exBigWant).sent = [(SmsgCommand.smsgMsg, bigFrame exBigPayload)] ∧
    (bigFrame exBigPayload).length = 96500 :=
  bigState_want exBigPayload (List.length_replicate 24000 0)
    (by rw [exBigPayload, List.take_replicate]; rfl)

/-- C13 (amended): every `smsgMsg` frame sent in answer to an `smsgWant` carries at least
one and at most 500 envelopes (each one a header with the payload it announces, as
`SecureMsgRetrieve` read it), its nBunch field is the number of envelopes it carries, and
the frame without its last envelope is shorter than 96000 bytes. -/
theorem want_frame_bounds (C : SmsgConsts) (hmac : List Nat → List Nat → Option (List Nat))
    (now : Int) (io : Nat → IoOutcome) (s : SmsgState) (pfrom : SmsgPeer) (vchData : List Nat)
    (m : SmsgCommand × List Nat)
    (hm : m ∈ (SecureMsgReceiveData C hmac now io s pfrom SmsgCommand.smsgWant vchData).sent) :
    ∃ envs : List (List Nat),
      m = (SmsgCommand.smsgMsg,
        encodeU32 envs.length ++ encodeI64 (decodeI64 vchData) ++ envs.flatten) ∧
      1 ≤ envs.length ∧ envs.length ≤ 500 ∧
      decodeU32 m.2 = envs.length ∧
      (encodeU32 envs.length ++ encodeI64 (decodeI64 vchData) ++
        envs.dropLast.flatten).length < 96000 ∧
      ∀ e ∈ envs, (∃ t, SecureMsgRetrieve C s.files t = some e) ∧
        e.length = SMSG_HDR_LEN + hdrNPayload (e.take SMSG_HDR_LEN) := by
  have hrd : SecureMsgReceiveData C hmac now io s pfrom SmsgCommand.smsgWant vchData =
      handleSmsgWant C s pfrom vchData := rfl
  rw [hrd] at hm
  by_cases hlen : vchData.length < 8
  · unfold handleSmsgWant at hm
    rw [if_pos hlen] at hm
    simp at hm
  · cases hfind : mapFind s.smsgSets (decodeI64 vchData) with
    | none =>
      unfold handleSmsgWant at hm
      rw [if_neg hlen] at hm
      simp only [hfind] at hm
      simp at hm
    | some bkt =>
      obtain ⟨envs, h1, h2, h3, h4⟩ := wantLoop_shape C s.files bkt.setTokens
        (haveEntries vchData) 0 (List.replicate 12 0) (by decide) (by simp)
      rw [handleSmsgWant_sent C s pfrom vchData bkt _ _ hlen hfind h1] at hm
      by_cases hpos : 0 + envs.length > 0
      · rw [if_pos hpos, List.mem_singleton] at hm
        rw [Nat.zero_add] at hm h2 hpos
        rw [List.drop_left' (List.length_replicate 12 0)] at hm
        refine ⟨envs, hm, hpos, h2, ?_, ?_, ?_⟩
        · rw [hm]
          simp only [List.append_assoc]
          exact decodeU32_encodeU32 _ _ (by omega)
        · simp only [List.length_append, encodeU32_length, encodeI64_length,
            List.length_replicate] at h3 ⊢
          omega
        · intro e he
          obtain ⟨t, ht⟩ := h4 e he
          obtain ⟨hs1, hs2⟩ := retrieve_shape C s.files t e ht
          refine ⟨⟨t, ht⟩, ?_⟩
          have := List.take_append_drop SMSG_HDR_LEN e
          have hl : e.length = (e.take SMSG_HDR_LEN).length + (e.drop SMSG_HDR_LEN).length := by
            rw [← List.length_append, this]
          rw [hl, hs1, hs2]
      · rw [if_neg hpos] at hm
        simp at hm

set_option maxRecDepth 100000 in
/-- C13 witness: the frame the example node sends for the example envelope. -/
theorem want_frame_bounds_witness :
    ∃ envs : List (List Nat),
      (SmsgCommand.smsgMsg, encodeU32 1 ++ encodeI64 997200 ++ (exHdr ++ exPayload)) =
        (SmsgCommand.smsgMsg,
          encodeU32 envs.length ++ encodeI64 (decodeI64 exWant) ++ envs.flatten) ∧
      1 ≤ envs.length ∧ envs.length ≤ 500 ∧
      decodeU32 (SmsgCommand.smsgMsg,
        encodeU32 1 ++ encodeI64 997200 ++ (exHdr ++ exPayload)).2 = envs.length ∧
      (encodeU32 envs.length ++ encodeI64 (decodeI64 exWant) ++
        envs.dropLast.flatten).length < 96000 ∧
      ∀ e ∈ envs, (∃ t, SecureMsgRetrieve exConsts exState1.files t = some e) ∧
        e.length = SMSG_HDR_LEN + hdrNPayload (e.take SMSG_HDR_LEN) :=
  want_frame_bounds exConsts hmacZero 1000000 (fun _ => IoOutcome.ok) exState1 {} exWant
    (SmsgCommand.smsgMsg, encodeU32 1 ++ encodeI64 997200 ++ (exHdr ++ exPayload))
    (by decide)

/-! ## C14: the misbehaviour score of a bunch -/

/-- The envelope loop of `SecureMsgReceive` at an envelope that fails validation: the read
position is not advanced, so every remaining iteration validates the same envelope again
and adds its score again. -/
theorem receiveLoop_stuck (C : SmsgConsts) (hmac : List Nat → List Nat → Option (List Nat))
    (now : Int) (io : Nat → IoOutcome) (vchData : List Nat) (count i n : Nat) (s : SmsgState)
    (score : Nat)
    (hfit : n + SMSG_HDR_LEN + hdrNPayload ((vchData.drop n).take SMSG_HDR_LEN) ≤ vchData.length)
    (hlen : vchData.length < 18446744073709551616)
    (hrv : SecureMsgValidate C hmac ((vchData.drop n).take SMSG_HDR_LEN)
      (vchData.drop (n + SMSG_HDR_LEN)) (hdrNPayload ((vchData.drop n).take SMSG_HDR_LEN)) ≠ 0) :
    receiveLoop C hmac now io vchData count i n s score =
      (s, score + count *
        (if SecureMsgValidate C hmac ((vchData.drop n).take SMSG_HDR_LEN)
          (vchData.drop (n + SMSG_HDR_LEN))
          (hdrNPayload ((vchData.drop n).take SMSG_HDR_LEN)) = 2 then 10 else 1), false) := by
  induction count generalizing i score with
  | zero => simp [receiveLoop]
  | succ c ih =>
    rw [receiveLoop]
    have h1 : ¬ sizeMinus vchData.length n < SMSG_HDR_LEN := by
      unfold sizeMinus
      have : (vchData.length + 18446744073709551616 - n) % 18446744073709551616 =
          vchData.length - n := by
        have h2 : vchData.length + 18446744073709551616 - n =
            (vchData.length - n) + 18446744073709551616 := by omega
        rw [h2, Nat.add_mod_right]
        exact Nat.mod_eq_of_lt (by omega)
      rw [this]
      omega
    have h2 : ¬ vchData.length < n + SMSG_HDR_LEN := by omega
    have h3 : ¬ (hdrVersion ((vchData.drop n).take SMSG_HDR_LEN) = 1 ∧
        hdrNPayload ((vchData.drop n).take SMSG_HDR_LEN) ≤ C.SMSG_MAX_MSG_WORST ∧
        (vchData.drop (n + SMSG_HDR_LEN)).length <
          hdrNPayload ((vchData.drop n).take SMSG_HDR_LEN)) := by
      rw [List.length_drop]
      omega
    simp only [if_neg h1, if_neg h2, if_neg h3]
    rw [if_pos hrv, ih]
    simp only [Prod.mk.injEq, true_and, and_true]
    rw [Nat.succ_mul]
    omega

set_option maxRecDepth 100000 in
/-- C14, at the failing input: the bunch `exBunchBadFirst` holds one envelope that fails
validation with an invalid proof of work (result 2) and one valid envelope.  The peer is
charged 20, not 10, and the valid envelope is not stored: after the failed validation the
loop does not advance its read position, so its second iteration validates the first
envelope again. -/
theorem receive_rescores_failed_envelope :
    SecureMsgValidate exConsts hmacByTime exBadPowHdr exPayload 8 = 2 ∧
    SecureMsgValidate exConsts hmacByTime exHdr exPayload 8 = 0 ∧
    (SecureMsgReceiveData exConsts hmacByTime 1000000 (fun _ => IoOutcome.ok) {} {}
      SmsgCommand.smsgMsg exBunchBadFirst).misbehaving = 20 ∧
    (SecureMsgReceiveData exConsts hmacByTime 1000000 (fun _ => IoOutcome.ok) {} {}
      SmsgCommand.smsgMsg exBunchBadFirst).state = {} := by
  decide

/-! ## C15: what ends a bunch -/

theorem sizeMinus_of_le (size n : Nat) (h : n ≤ size) (hs : size < 18446744073709551616) :
    sizeMinus size n = size - n := by
  unfold sizeMinus
  have h2 : size + 18446744073709551616 - n = (size - n) + 18446744073709551616 := by omega
  rw [h2, Nat.add_mod_right]
  exact Nat.mod_eq_of_lt (by omega)

/-- A `SecureMsgStore` call that fails leaves every token set as it was. -/
theorem store_fail_tokens (C : SmsgConsts) (now : Int) (io : IoOutcome) (s : SmsgState)
    (h p : List Nat) (n : Nat) (u : Bool)
    (hf : (SecureMsgStore C now io s h p n u).1 ≠ 0) (b : Int) :
    (mapAt (SecureMsgStore C now io s h p n u).2.smsgSets b).setTokens =
      (mapAt s.smsgSets b).setTokens := by
  unfold SecureMsgStore at hf ⊢
  simp only at hf ⊢
  split
  · rfl
  · split
    · simp only [mapAt_mapTouch_any]
    · split
      · simp only [mapAt_mapTouch_any]
      · simp only [mapAt_mapTouch_any]
      · rename_i h1 _ h2 _
        simp [h1, h2] at hf

/-- One iteration of the envelope loop of `SecureMsgReceive` at a whole envelope
`h ++ p` that validates: the envelope goes to `SecureMsgStore`; when that fails the loop
ends, otherwise it goes on behind the envelope. -/
theorem receiveLoop_step (C : SmsgConsts) (hmac : List Nat → List Nat → Option (List Nat))
    (now : Int) (io : Nat → IoOutcome) (pre h p tail : List Nat) (count i : Nat)
    (s : SmsgState) (score : Nat)
    (hh : h.length = SMSG_HDR_LEN) (hp : hdrNPayload h = p.length)
    (hval : SecureMsgValidate C hmac h p p.length = 0)
    (hsz : pre.length + (h ++ p).length + tail.length < 4294967296) :
    receiveLoop C hmac now io (pre ++ (h ++ p) ++ tail) (count + 1) i pre.length s score =
      if (SecureMsgStore C now (io i) s h p p.length false).1 ≠ 0 then
        ((SecureMsgStore C now (io i) s h p p.length false).2, score, false)
      else
        receiveLoop C hmac now io (pre ++ (h ++ p) ++ tail) count (i + 1)
          (pre.length + (h ++ p).length) (SecureMsgStore C now (io i) s h p p.length false).2
          score := by
  rw [receiveLoop]
  simp only [List.length_append] at hsz
  have hlen : (pre ++ (h ++ p) ++ tail).length =
      pre.length + (h.length + p.length) + tail.length := by
    simp only [List.length_append]
  have hd1 : (pre ++ (h ++ p) ++ tail).drop pre.length = h ++ (p ++ tail) := by
    rw [List.append_assoc, List.drop_left, List.append_assoc]
  have hd2 : (pre ++ (h ++ p) ++ tail).drop (pre.length + SMSG_HDR_LEN) = p ++ tail := by
    rw [← List.drop_drop, hd1, ← hh, List.drop_left]
  have ht : (h ++ (p ++ tail)).take SMSG_HDR_LEN = h := by
    rw [← hh, List.take_left]
  have h1 : ¬ sizeMinus (pre ++ (h ++ p) ++ tail).length pre.length < SMSG_HDR_LEN := by
    rw [sizeMinus_of_le _ _ (by rw [hlen]; omega) (by rw [hlen]; omega), hlen]
    omega
  have h2 : ¬ (pre ++ (h ++ p) ++ tail).length < pre.length + SMSG_HDR_LEN := by
    rw [hlen]; omega
  rw [if_neg h1]
  simp only [hd1, hd2, ht, hp]
  rw [if_neg h2]
  have h3 : ¬ (hdrVersion h = 1 ∧ p.length ≤ C.SMSG_MAX_MSG_WORST ∧
      (p ++ tail).length < p.length) := by
    rw [List.length_append]; omega
  rw [if_neg h3, validate_take, hval, store_take]
  simp only [ne_eq, not_true_eq_false, if_false]
  have hu : u32 (pre.length + SMSG_HDR_LEN + p.length) = pre.length + (h ++ p).length := by
    unfold u32
    rw [List.length_append, hh]
    rw [Nat.mod_eq_of_lt (by rw [hh] at hsz; omega)]
    omega
  rw [hu]

theorem runStores_cons (C : SmsgConsts) (s : SmsgState) (c : StoreCall) (cs : List StoreCall) :
    runStores C s (c :: cs) =
      runStores C (SecureMsgStore C c.now c.io s c.pHeader c.pPayload c.nPayload
        c.fUpdateBucket).2 cs := rfl

theorem recordsBytes_cons_assoc (pre : List Nat) (e : List Nat × List Nat)
    (es : List (List Nat × List Nat)) (tail : List Nat) :
    pre ++ recordsBytes (e :: es) ++ tail =
      pre ++ (e.1 ++ e.2) ++ (recordsBytes es ++ tail) := by
  rw [recordsBytes_cons]
  simp only [List.append_assoc]

/-- The envelope loop of `SecureMsgReceive` over a run of whole envelopes that all
validate and that `SecureMsgStore` all accepts: it stores them in order and goes on
behind them with the iterations that remain. -/
theorem receiveLoop_accepted (C : SmsgConsts) (hmac : List Nat → List Nat → Option (List Nat))
    (now : Int) (io : Nat → IoOutcome) (good : List (List Nat × List Nat))
    (pre tail : List Nat) (k i : Nat) (s : SmsgState) (score : Nat)
    (hform : ∀ e ∈ good, envFormed e = true)
    (hval : ∀ e ∈ good, SecureMsgValidate C hmac e.1 e.2 e.2.length = 0)
    (hst : storesSucceed C s (bunchCalls now io i good) = true)
    (hsz : pre.length + (recordsBytes good).length + tail.length < 4294967296) :
    receiveLoop C hmac now io (pre ++ recordsBytes good ++ tail) (good.length + k) i
        pre.length s score =
      receiveLoop C hmac now io (pre ++ recordsBytes good ++ tail) k (i + good.length)
        (pre.length + (recordsBytes good).length)
        (runStores C s (bunchCalls now io i good)) score := by
  induction good generalizing pre i s with
  | nil => simp [recordsBytes, bunchCalls, runStores]
  | cons e es ih =>
    have hf := hform e (List.mem_cons_self _ _)
    unfold envFormed at hf
    simp only [Bool.and_eq_true, beq_iff_eq] at hf
    have hv := hval e (List.mem_cons_self _ _)
    simp only [bunchCalls, storesSucceed, Bool.and_eq_true, beq_iff_eq] at hst
    rw [recordsBytes_cons, List.length_append] at hsz
    rw [recordsBytes_cons_assoc, List.length_cons, Nat.add_right_comm es.length 1 k,
      receiveLoop_step C hmac now io pre e.1 e.2 (recordsBytes es ++ tail) (es.length + k) i
        s score hf.1 hf.2 hv (by simp only [List.length_append] at hsz ⊢; omega)]
    rw [if_neg (by rw [hst.1]; simp)]
    have hre : pre ++ (e.1 ++ e.2) ++ (recordsBytes es ++ tail) =
        (pre ++ (e.1 ++ e.2)) ++ recordsBytes es ++ tail := by
      simp only [List.append_assoc]
    have hpl : pre.length + (e.1 ++ e.2).length = (pre ++ (e.1 ++ e.2)).length := by
      simp only [List.length_append]
    rw [hre, hpl, ih (pre ++ (e.1 ++ e.2)) (i + 1) _
        (fun x hx => hform x (List.mem_cons_of_mem _ hx))
        (fun x hx => hval x (List.mem_cons_of_mem _ hx)) hst.2
        (by simp only [List.length_append] at hsz ⊢; omega)]
    rw [bunchCalls, runStores_cons, recordsBytes_cons]
    simp only [List.length_append, List.length_cons]
    congr 1
    · omega
    · omega

/-- After a run of successful `SecureMsgStore` calls for a list of envelopes, the token of
every one of them is in the token set of its bucket. -/
theorem bunchCalls_stored (C : SmsgConsts) (now : Int) (io : Nat → IoOutcome)
    (good : List (List Nat × List Nat)) (i : Nat) (s : SmsgState)
    (hst : storesSucceed C s (bunchCalls now io i good) = true) :
    ∀ e ∈ good, (setFind (mapAt (runStores C s (bunchCalls now io i good)).smsgSets
      (bucketOf C (hdrTimestamp e.1))).setTokens
        ⟨hdrTimestamp e.1, tokenSample e.2 e.2.length, 0⟩).isSome = true := by
  induction good generalizing i s with
  | nil => intro e he; simp at he
  | cons x xs ih =>
    simp only [bunchCalls, storesSucceed, Bool.and_eq_true, beq_iff_eq] at hst
    intro e he
    rw [bunchCalls, runStores_cons]
    rw [List.mem_cons] at he
    rcases he with rfl | he
    · obtain ⟨_, _, _, _, bkt2, hsets, htok, _⟩ :=
        store_ok_state C now (io i) s (SecureMsgStore C now (io i) s e.1 e.2 e.2.length false).2
          e.1 e.2 e.2.length false (Prod.ext hst.1 rfl)
      have hfound : (setFind (mapAt (SecureMsgStore C now (io i) s e.1 e.2 e.2.length
          false).2.smsgSets (bucketOf C (hdrTimestamp e.1))).setTokens
          ⟨hdrTimestamp e.1, tokenSample e.2 e.2.length, 0⟩).isSome = true := by
        rw [hsets, mapAt_mapPut_self, htok,
          setFind_offset _ _ _ 0 ((mapFind s.files (bucketOf C (hdrTimestamp e.1))).getD []).length]
        exact setFind_setInsert_self _ _
      obtain ⟨tok, htk⟩ := Option.isSome_iff_exists.mp hfound
      rw [runStores_keeps_token C _ _ _ _ tok htk]
      rfl
    · exact ih (i + 1) _ hst.2 e he

/-- The envelope loop of `SecureMsgReceive` over accepted envelopes followed by one that
validates and that `SecureMsgStore` rejects: the loop ends at the rejection. -/
theorem receiveLoop_reject (C : SmsgConsts) (hmac : List Nat → List Nat → Option (List Nat))
    (now : Int) (io : Nat → IoOutcome) (good : List (List Nat × List Nat))
    (bad : List Nat × List Nat) (pre rest : List Nat) (k : Nat) (s : SmsgState)
    (hform : ∀ e ∈ bad :: good, envFormed e = true)
    (hval : ∀ e ∈ bad :: good, SecureMsgValidate C hmac e.1 e.2 e.2.length = 0)
    (hst : storesSucceed C s (bunchCalls now io 0 good) = true)
    (hrej : (SecureMsgStore C now (io good.length) (runStores C s (bunchCalls now io 0 good))
      bad.1 bad.2 bad.2.length false).1 ≠ 0)
    (hsz : pre.length + (recordsBytes good).length + (bad.1 ++ bad.2).length + rest.length <
      4294967296) :
    receiveLoop C hmac now io (pre ++ recordsBytes good ++ ((bad.1 ++ bad.2) ++ rest))
        (good.length + (k + 1)) 0 pre.length s 0 =
      ((SecureMsgStore C now (io good.length) (runStores C s (bunchCalls now io 0 good))
        bad.1 bad.2 bad.2.length false).2, 0, false) := by
  have hfb := hform bad (List.mem_cons_self _ _)
  unfold envFormed at hfb
  simp only [Bool.and_eq_true, beq_iff_eq] at hfb
  rw [receiveLoop_accepted C hmac now io good pre _ (k + 1) 0 s 0
    (fun e he => hform e (List.mem_cons_of_mem _ he))
    (fun e he => hval e (List.mem_cons_of_mem _ he)) hst
    (by simp only [List.length_append] at hsz ⊢; omega)]
  have hdata2 : pre ++ recordsBytes good ++ ((bad.1 ++ bad.2) ++ rest) =
      (pre ++ recordsBytes good) ++ (bad.1 ++ bad.2) ++ rest := by
    simp only [List.append_assoc]
  have hpl : pre.length + (recordsBytes good).length = (pre ++ recordsBytes good).length := by
    simp only [List.length_append]
  rw [hdata2, hpl, receiveLoop_step C hmac now io _ bad.1 bad.2 rest _ _ _ 0 hfb.1 hfb.2
    (hval bad (List.mem_cons_self _ _))
    (by simp only [List.length_append] at hsz ⊢; omega)]
  rw [Nat.zero_add, if_pos hrej]

/-- C15 (amended): a rejection by `SecureMsgStore` ends an `smsgMsg` bunch.  When the
envelopes `good` at the head of a bunch all validate and are accepted by the store, and
the next envelope `bad` validates but is rejected by the store (a duplicate, a timestamp
outside the window, or a file failure), then every envelope of `good` is stored, and the
token sets after the frame are those after storing `good`: whatever follows `bad` in the
bunch (`rest`) is not stored. -/
theorem receive_stops_at_store_rejection (C : SmsgConsts)
    (hmac : List Nat → List Nat → Option (List Nat)) (now : Int) (io : Nat → IoOutcome)
    (s : SmsgState) (pfrom : SmsgPeer) (nBunch : Nat) (bktTime : Int)
    (good : List (List Nat × List Nat)) (bad : List Nat × List Nat) (rest : List Nat)
    (hb : isI64 bktTime = true)
    (hw1 : now - (C.SMSG_RETENTION : Int) ≤ bktTime)
    (hw2 : bktTime ≤ now + (C.SMSG_TIME_LEEWAY : Int))
    (hn : good.length < nBunch) (h500 : nBunch ≤ 500)
    (hform : ∀ e ∈ bad :: good, envFormed e = true)
    (hval : ∀ e ∈ bad :: good, SecureMsgValidate C hmac e.1 e.2 e.2.length = 0)
    (hst : storesSucceed C s (bunchCalls now io 0 good) = true)
    (hrej : (SecureMsgStore C now (io good.length) (runStores C s (bunchCalls now io 0 good))
      bad.1 bad.2 bad.2.length false).1 ≠ 0)
    (hsz : 12 + (recordsBytes good).length + (bad.1 ++ bad.2).length + rest.length <
      4294967296) :
    (∀ e ∈ good,
      (setFind (mapAt (SecureMsgReceiveData C hmac now io s pfrom SmsgCommand.smsgMsg
          (encodeU32 nBunch ++ encodeI64 bktTime ++ recordsBytes good ++ (bad.1 ++ bad.2) ++
            rest)).state.smsgSets (bucketOf C (hdrTimestamp e.1))).setTokens
        ⟨hdrTimestamp e.1, tokenSample e.2 e.2.length, 0⟩).isSome = true) ∧
    (∀ b,
      (mapAt (SecureMsgReceiveData C hmac now io s pfrom SmsgCommand.smsgMsg
          (encodeU32 nBunch ++ encodeI64 bktTime ++ recordsBytes good ++ (bad.1 ++ bad.2) ++
            rest)).state.smsgSets b).setTokens =
        (mapAt (runStores C s (bunchCalls now io 0 good)).smsgSets b).setTokens) := by
  have hi := isI64_bounds bktTime hb
  have hpre : (encodeU32 nBunch ++ encodeI64 bktTime).length = 12 := by
    rw [List.length_append, encodeU32_length, encodeI64_length]
  have hdata : encodeU32 nBunch ++ encodeI64 bktTime ++ recordsBytes good ++ (bad.1 ++ bad.2) ++
      rest = (encodeU32 nBunch ++ encodeI64 bktTime) ++ recordsBytes good ++
        ((bad.1 ++ bad.2) ++ rest) := by
    simp only [List.append_assoc]
  -- the loop
  have hloop : receiveLoop C hmac now io
      ((encodeU32 nBunch ++ encodeI64 bktTime) ++ recordsBytes good ++
        ((bad.1 ++ bad.2) ++ rest)) nBunch 0 12 s 0 =
      ((SecureMsgStore C now (io good.length) (runStores C s (bunchCalls now io 0 good))
        bad.1 bad.2 bad.2.length false).2, 0, false) := by
    have h := receiveLoop_reject C hmac now io good bad (encodeU32 nBunch ++ encodeI64 bktTime)
      rest (nBunch - good.length - 1) s hform hval hst hrej (by rw [hpre]; exact hsz)
    have hnb : good.length + (nBunch - good.length - 1 + 1) = nBunch := by omega
    rw [hnb, hpre] at h
    exact h
  -- the frame
  have hstate : ∀ b,
      (mapAt (SecureMsgReceive C hmac now io s
          ((encodeU32 nBunch ++ encodeI64 bktTime) ++ recordsBytes good ++
            ((bad.1 ++ bad.2) ++ rest))).state.smsgSets b).setTokens =
        (mapAt (runStores C s (bunchCalls now io 0 good)).smsgSets b).setTokens := by
    intro b
    have h12 : ¬ ((encodeU32 nBunch ++ encodeI64 bktTime) ++ recordsBytes good ++
        ((bad.1 ++ bad.2) ++ rest)).length < 12 := by
      simp only [List.length_append, encodeU32_length, encodeI64_length]; omega
    have hdn : decodeU32 ((encodeU32 nBunch ++ encodeI64 bktTime) ++ recordsBytes good ++
        ((bad.1 ++ bad.2) ++ rest)) = nBunch := by
      simp only [List.append_assoc]
      exact decodeU32_encodeU32 _ _ (by omega)
    have hdt : decodeI64 (((encodeU32 nBunch ++ encodeI64 bktTime) ++ recordsBytes good ++
        ((bad.1 ++ bad.2) ++ rest)).drop 4) = bktTime := by
      simp only [List.append_assoc]
      rw [List.drop_left' (encodeU32_length _)]
      exact decodeI64_encodeI64 _ _ hi.1 hi.2
    unfold SecureMsgReceive
    rw [if_neg h12]
    simp only [hdn, hdt]
    rw [if_neg (by omega), if_neg (by omega), if_neg (by omega)]
    simp only [hloop, Bool.false_eq_true, if_false]
    split
    · exact store_fail_tokens C now _ _ _ _ _ _ hrej b
    · rename_i bkt hbk
      simp only [mapAt_mapPut]
      split
      · rename_i hbb
        subst hbb
        rw [hashBucket_setTokens]
        have : (mapAt (SecureMsgStore C now (io good.length)
            (runStores C s (bunchCalls now io 0 good)) bad.1 bad.2 bad.2.length
            false).2.smsgSets bktTime) = bkt := by
          unfold mapAt; rw [hbk]; rfl
        rw [← store_fail_tokens C now _ _ _ _ _ _ hrej bktTime, this]
      · exact store_fail_tokens C now _ _ _ _ _ _ hrej b
  have hrd : ∀ v, (SecureMsgReceiveData C hmac now io s pfrom SmsgCommand.smsgMsg v).state =
      (SecureMsgReceive C hmac now io s v).state := fun _ => rfl
  rw [hrd, hdata]
  refine ⟨?_, hstate⟩
  intro e he
  rw [hstate]
  exact bunchCalls_stored C now io good 0 s hst e he

set_option maxRecDepth 100000 in
/-- C15, counterexample: the example node (it holds the example envelope) receives the
bunch `exBunchDupFirst`: the example envelope again, then a second envelope that is valid,
inside the time window and not yet stored (a store of it alone succeeds).  The store
rejects the first as a duplicate, the loop ends, and the second envelope is not stored. -/
theorem bunch_aborted_by_duplicate :
    SecureMsgValidate exConsts hmacZero exHdr2 [9, 9, 9, 9, 9, 9, 9, 9] 8 = 0 ∧
    storeTimeRejected exConsts 1000000 (hdrTimestamp exHdr2) = false ∧
    setFind (mapAt exState1.smsgSets 997200).setTokens ⟨1000002, [9, 9, 9, 9, 9, 9, 9, 9], 0⟩ =
      none ∧
    (SecureMsgStore exConsts 1000000 IoOutcome.ok exState1 exHdr2 [9, 9, 9, 9, 9, 9, 9, 9] 8
      false).1 = 0 ∧
    setFind (mapAt (SecureMsgReceiveData exConsts hmacZero 1000000 (fun _ => IoOutcome.ok)
      exState1 {} SmsgCommand.smsgMsg exBunchDupFirst).state.smsgSets 997200).setTokens
        ⟨1000002, [9, 9, 9, 9, 9, 9, 9, 9], 0⟩ = none := by
  decide

set_option maxRecDepth 100000 in
/-- C15 witness: the example node receives a bunch of three: a new envelope (timestamp
1000002), the example envelope it already holds, and a third new envelope (timestamp
1000004).  The token sets after the frame are those after storing the first envelope
alone. -/
theorem receive_stops_at_store_rejection_witness :
    (mapAt (SecureMsgReceiveData exConsts hmacZero 1000000 (fun _ => IoOutcome.ok) exState1 {}
        SmsgCommand.smsgMsg
        (encodeU32 3 ++ encodeI64 997200 ++ recordsBytes [(exHdr2, [9, 9, 9, 9, 9, 9, 9, 9])] ++
          ((exHdr, exPayload).1 ++ (exHdr, exPayload).2) ++
          (exHeader [0, 0, 0, 0] 1 1000004 8 ++ [7, 7, 7, 7, 7, 7, 7, 7]))).state.smsgSets
        997200).setTokens =
      (mapAt (runStores exConsts exState1
        (bunchCalls 1000000 (fun _ => IoOutcome.ok) 0
          [(exHdr2, [9, 9, 9, 9, 9, 9, 9, 9])])).smsgSets 997200).setTokens :=
  (receive_stops_at_store_rejection exConsts hmacZero 1000000 (fun _ => IoOutcome.ok) exState1
    {} 3 997200 [(exHdr2, [9, 9, 9, 9, 9, 9, 9, 9])] (exHdr, exPayload)
    (exHeader [0, 0, 0, 0] 1 1000004 8 ++ [7, 7, 7, 7, 7, 7, 7, 7])
    (by decide) (by decide) (by decide) (by decide) (by decide) (by decide) (by decide)
    (by decide) (by decide) (by decide)).2 997200

/-! ## C16 and C17: the bucket management pass -/

/-- The buckets after a pass: those not older than the cutoff, each ticked. -/
theorem gcBuckets_sets (C : SmsgConsts) (TI : Nat) (now : Int) (rmOk : Int → Bool)
    (L : List (Int × SecMsgBucket)) (files : List (Int × List Nat)) (v : List SmsgPeer) :
    (gcBuckets C TI now rmOk L files v).state.smsgSets =
      (L.filter (fun e => decide (now - (C.SMSG_RETENTION : Int) ≤ e.1))).map
        (fun e => (e.1, gcTick e.2)) := by
  induction L generalizing files v with
  | nil => rfl
  | cons e rest ih =>
    obtain ⟨key, bkt⟩ := e
    rw [gcBuckets]
    by_cases h1 : key < now - (C.SMSG_RETENTION : Int)
    · have hf : List.filter (fun e : Int × SecMsgBucket =>
          decide (now - (C.SMSG_RETENTION : Int) ≤ e.1)) ((key, bkt) :: rest) =
          List.filter (fun e : Int × SecMsgBucket =>
            decide (now - (C.SMSG_RETENTION : Int) ≤ e.1)) rest :=
        List.filter_cons_of_neg (by simp only [decide_eq_true_eq]; omega)
      rw [if_pos h1, ih, hf]
    · have hf : List.filter (fun e : Int × SecMsgBucket =>
          decide (now - (C.SMSG_RETENTION : Int) ≤ e.1)) ((key, bkt) :: rest) =
          (key, bkt) :: List.filter (fun e : Int × SecMsgBucket =>
            decide (now - (C.SMSG_RETENTION : Int) ≤ e.1)) rest :=
        List.filter_cons_of_pos (by simp only [decide_eq_true_eq]; omega)
      rw [if_neg h1, hf, List.map_cons]
      by_cases h2 : bkt.nLockCount > 0
      · rw [if_pos h2]
        by_cases h3 : bkt.nLockCount - 1 = 0
        · rw [if_pos h3]
          simp only [ih]
          rw [gcTick, if_pos h2, if_pos h3]
        · rw [if_neg h3]
          simp only [ih]
          rw [gcTick, if_pos h2, if_neg h3]
      · rw [if_neg h2]
        simp only [ih]
        rw [gcTick, if_neg h2]

/-- Lookup in the buckets a pass leaves. -/
theorem mapFind_gcSets (cutoff : Int) (L : List (Int × SecMsgBucket)) (k : Int) :
    mapFind ((L.filter (fun e => decide (cutoff ≤ e.1))).map (fun e => (e.1, gcTick e.2))) k =
      if cutoff ≤ k then (mapFind L k).map gcTick else none := by
  induction L with
  | nil => simp [mapFind]
  | cons e rest ih =>
    obtain ⟨key, bkt⟩ := e
    by_cases h1 : cutoff ≤ key
    · simp only [List.filter_cons, h1, decide_True, if_true, List.map_cons, mapFind]
      by_cases h2 : key = k
      · subst h2; simp [h1]
      · simp only [if_neg h2]; exact ih
    · simp only [List.filter_cons, h1, decide_False, Bool.false_eq_true, if_false, mapFind]
      by_cases h2 : key = k
      · subst h2; simp [h1, ih]
      · simp only [if_neg h2]; exact ih

/-- A pass over buckets that are all unlocked pushes nothing and leaves the nodes. -/
theorem gcBuckets_unlocked (C : SmsgConsts) (TI : Nat) (now : Int) (rmOk : Int → Bool)
    (L : List (Int × SecMsgBucket)) (files : List (Int × List Nat)) (v : List SmsgPeer)
    (hL : ∀ e ∈ L, e.2.nLockCount = 0) :
    (gcBuckets C TI now rmOk L files v).sent = [] ∧
      (gcBuckets C TI now rmOk L files v).vNodes = v := by
  induction L generalizing files v with
  | nil => exact ⟨rfl, rfl⟩
  | cons e rest ih =>
    obtain ⟨key, bkt⟩ := e
    have h0 : bkt.nLockCount = 0 := hL (key, bkt) (List.mem_cons_self _ _)
    have h2 : ¬ bkt.nLockCount > 0 := by omega
    have hr := fun f => ih f v (fun x hx => hL x (List.mem_cons_of_mem _ hx))
    rw [gcBuckets]
    by_cases h1 : key < now - (C.SMSG_RETENTION : Int)
    · rw [if_pos h1]
      exact hr _
    · rw [if_neg h1, if_neg h2]
      exact hr files

/-- The search for the peer that held a lock, when that peer is connected and no node
before it in `vNodes` has its id. -/
theorem ignorePeer_found (N1 N2 : List SmsgPeer) (P : SmsgPeer) (t : Int)
    (hN1 : ∀ q ∈ N1, q.nPeerId ≠ P.nPeerId) :
    ignorePeer P.nPeerId t (N1 ++ P :: N2) =
      (N1 ++ { P with ignoreUntil := t } :: N2, some N1.length) := by
  induction N1 with
  | nil => simp [ignorePeer]
  | cons q qs ih =>
    have hq := hN1 q (List.mem_cons_self _ _)
    have := ih (fun x hx => hN1 x (List.mem_cons_of_mem _ hx))
    show ignorePeer P.nPeerId t (q :: (qs ++ P :: N2)) = _
    rw [ignorePeer, if_pos hq, this]
    rfl

/-- A pass over buckets of which only `b` may be locked: what it pushes and what it does
to the nodes is decided by the lock of `b`. -/
theorem gcBuckets_single (C : SmsgConsts) (TI : Nat) (now : Int) (rmOk : Int → Bool) (b : Int)
    (L : List (Int × SecMsgBucket)) (files : List (Int × List Nat)) (v : List SmsgPeer)
    (hasc : KeysAscending L)
    (hL : ∀ e ∈ L, e.1 ≠ b → e.2.nLockCount = 0)
    (hb : now - (C.SMSG_RETENTION : Int) ≤ b) :
    (gcBuckets C TI now rmOk L files v).sent =
      (if (mapAt L b).nLockCount = 1 then
        (match (ignorePeer (mapAt L b).nLockPeerId (now + (TI : Int)) v).2 with
          | some i => [(i, SmsgCommand.smsgIgnore, encodeI64 (now + (TI : Int)))]
          | none => [])
       else []) ∧
    (gcBuckets C TI now rmOk L files v).vNodes =
      (if (mapAt L b).nLockCount = 1 then
        (ignorePeer (mapAt L b).nLockPeerId (now + (TI : Int)) v).1
       else v) := by
  induction L generalizing files v with
  | nil => exact ⟨rfl, rfl⟩
  | cons e rest ih =>
    obtain ⟨key, bkt⟩ := e
    have hasc2 : KeysAscending rest := by
      unfold KeysAscending at hasc ⊢
      exact (List.pairwise_cons.mp hasc).2
    by_cases hk : key = b
    · subst hk
      have hrest : ∀ x ∈ rest, x.2.nLockCount = 0 := by
        intro x hx
        apply hL x (List.mem_cons_of_mem _ hx)
        unfold KeysAscending at hasc
        have := (List.pairwise_cons.mp hasc).1 x.1 (List.mem_map_of_mem _ hx)
        simp only at this
        omega
      have hat : mapAt ((key, bkt) :: rest) key = bkt := by simp [mapAt, mapFind]
      rw [hat, gcBuckets, if_neg (by omega)]
      by_cases h2 : bkt.nLockCount > 0
      · rw [if_pos h2]
        by_cases h3 : bkt.nLockCount - 1 = 0
        · have h1 : bkt.nLockCount = 1 := by omega
          rw [if_pos h3, if_pos h1, if_pos h1]
          obtain ⟨hs, hv⟩ := gcBuckets_unlocked C TI now rmOk rest files
            (ignorePeer bkt.nLockPeerId (now + (TI : Int)) v).1 hrest
          simp only [hs, hv, List.append_nil, and_self]
        · have h1 : ¬ bkt.nLockCount = 1 := by omega
          rw [if_neg h3, if_neg h1, if_neg h1]
          exact gcBuckets_unlocked C TI now rmOk rest files v hrest
      · have h1 : ¬ bkt.nLockCount = 1 := by omega
        rw [if_neg h2, if_neg h1, if_neg h1]
        exact gcBuckets_unlocked C TI now rmOk rest files v hrest
    · have h0 : bkt.nLockCount = 0 := hL (key, bkt) (List.mem_cons_self _ _) hk
      have h2 : ¬ bkt.nLockCount > 0 := by omega
      have hat : mapAt ((key, bkt) :: rest) b = mapAt rest b := by simp [mapAt, mapFind, hk]
      have hr := fun f => ih f v hasc2 (fun x hx => hL x (List.mem_cons_of_mem _ hx))
      rw [hat, gcBuckets]
      by_cases h1 : key < now - (C.SMSG_RETENTION : Int)
      · rw [if_pos h1]
        exact hr _
      · rw [if_neg h1, if_neg h2]
        exact hr files

theorem gcTick_unlocked (bkt : SecMsgBucket) (h : bkt.nLockCount = 0) : gcTick bkt = bkt := by
  unfold gcTick
  rw [if_neg (by omega)]

theorem gcTick_lockCount (bkt : SecMsgBucket) : (gcTick bkt).nLockCount = bkt.nLockCount - 1 := by
  unfold gcTick
  by_cases h2 : bkt.nLockCount > 0
  · rw [if_pos h2]
    by_cases h3 : bkt.nLockCount - 1 = 0
    · rw [if_pos h3]; exact h3.symm
    · rw [if_neg h3]
  · rw [if_neg h2]; omega

/-- A pass keeps the token set, the hash and the change time of every bucket it keeps. -/
theorem gcTick_content (bkt : SecMsgBucket) :
    (gcTick bkt).setTokens = bkt.setTokens ∧ (gcTick bkt).hash = bkt.hash ∧
      (gcTick bkt).timeChanged = bkt.timeChanged := by
  unfold gcTick
  split
  · split <;> exact ⟨rfl, rfl, rfl⟩
  · exact ⟨rfl, rfl, rfl⟩

theorem gcSets_keysAscending (cutoff : Int) (L : List (Int × SecMsgBucket))
    (h : KeysAscending L) :
    KeysAscending ((L.filter (fun e => decide (cutoff ≤ e.1))).map
      (fun e => (e.1, gcTick e.2))) := by
  unfold KeysAscending at h ⊢
  rw [List.map_map]
  have hsub : List.Sublist ((L.filter (fun e => decide (cutoff ≤ e.1))).map
      ((Prod.fst : Int × SecMsgBucket → Int) ∘ fun e => (e.1, gcTick e.2))) (L.map Prod.fst) := by
    have : ((Prod.fst : Int × SecMsgBucket → Int) ∘ fun e : Int × SecMsgBucket =>
        (e.1, gcTick e.2)) = Prod.fst := rfl
    rw [this]
    exact List.Sublist.map _ (List.filter_sublist _)
  exact List.Pairwise.sublist hsub h

theorem gcSets_others (cutoff : Int) (b : Int) (L : List (Int × SecMsgBucket))
    (h : ∀ e ∈ L, e.1 ≠ b → e.2.nLockCount = 0) :
    ∀ e ∈ (L.filter (fun e => decide (cutoff ≤ e.1))).map (fun e => (e.1, gcTick e.2)),
      e.1 ≠ b → e.2.nLockCount = 0 := by
  intro e he hne
  rw [List.mem_map] at he
  obtain ⟨x, hx, rfl⟩ := he
  have hx0 := h x (List.mem_of_mem_filter hx) hne
  simp only [gcTick_unlocked x.2 hx0, hx0]

/-- One pass over a state in which only bucket `b` may be locked, `b` not older than the
cutoff: what the pass leaves. -/
theorem gcPass_single (C : SmsgConsts) (TI : Nat) (now : Int) (rmOk : Int → Bool) (b : Int)
    (s : SmsgState) (v : List SmsgPeer) (bkt : SecMsgBucket)
    (hasc : KeysAscending s.smsgSets)
    (hfind : mapFind s.smsgSets b = some bkt)
    (hL : ∀ e ∈ s.smsgSets, e.1 ≠ b → e.2.nLockCount = 0)
    (hb : now - (C.SMSG_RETENTION : Int) ≤ b) :
    KeysAscending (gcPass C TI now rmOk s v).state.smsgSets ∧
    mapFind (gcPass C TI now rmOk s v).state.smsgSets b = some (gcTick bkt) ∧
    (∀ e ∈ (gcPass C TI now rmOk s v).state.smsgSets, e.1 ≠ b → e.2.nLockCount = 0) ∧
    (gcPass C TI now rmOk s v).sent =
      (if bkt.nLockCount = 1 then
        (match (ignorePeer bkt.nLockPeerId (now + (TI : Int)) v).2 with
          | some i => [(i, SmsgCommand.smsgIgnore, encodeI64 (now + (TI : Int)))]
          | none => [])
       else []) ∧
    (gcPass C TI now rmOk s v).vNodes =
      (if bkt.nLockCount = 1 then (ignorePeer bkt.nLockPeerId (now + (TI : Int)) v).1
       else v) := by
  have hat : mapAt s.smsgSets b = bkt := by unfold mapAt; rw [hfind]; rfl
  obtain ⟨h1, h2⟩ := gcBuckets_single C TI now rmOk b s.smsgSets s.files v hasc hL hb
  rw [hat] at h1 h2
  unfold gcPass
  rw [gcBuckets_sets]
  refine ⟨gcSets_keysAscending _ _ hasc, ?_, gcSets_others _ _ _ hL, h1, h2⟩
  rw [mapFind_gcSets, if_pos hb, hfind]
  rfl

/-- One pass over a state whose buckets are all unlocked pushes nothing, leaves the nodes,
and leaves all buckets unlocked. -/
theorem gcPass_unlocked (C : SmsgConsts) (TI : Nat) (now : Int) (rmOk : Int → Bool)
    (s : SmsgState) (v : List SmsgPeer) (hL : ∀ e ∈ s.smsgSets, e.2.nLockCount = 0) :
    (gcPass C TI now rmOk s v).sent = [] ∧ (gcPass C TI now rmOk s v).vNodes = v ∧
    ∀ e ∈ (gcPass C TI now rmOk s v).state.smsgSets, e.2.nLockCount = 0 := by
  obtain ⟨h1, h2⟩ := gcBuckets_unlocked C TI now rmOk s.smsgSets s.files v hL
  refine ⟨h1, h2, ?_⟩
  unfold gcPass
  rw [gcBuckets_sets]
  intro e he
  rw [List.mem_map] at he
  obtain ⟨x, hx, rfl⟩ := he
  have hx0 := hL x (List.mem_of_mem_filter hx)
  simp only [gcTick_unlocked x.2 hx0, hx0]

/-- Passes over a state whose buckets are all unlocked leave them unlocked. -/
theorem gcFold_unlocked (C : SmsgConsts) (TI : Nat) (rmOk : Int → Bool) (ticks : List Int)
    (r : GcResult) (hL : ∀ e ∈ r.state.smsgSets, e.2.nLockCount = 0) :
    ∀ e ∈ (ticks.foldl (fun r now => gcPass C TI now rmOk r.state r.vNodes) r).state.smsgSets,
      e.2.nLockCount = 0 := by
  induction ticks generalizing r with
  | nil => exact hL
  | cons t ts ih =>
    rw [List.foldl_cons]
    exact ih _ (gcPass_unlocked C TI t rmOk r.state r.vNodes hL).2.2

/-- In a map (keys ascending) the entry of a key is the one `mapFind` gives. -/
theorem mapFind_unique {β : Type} (m : List (Int × β)) (k : Int) (v : β)
    (hasc : KeysAscending m) (h : mapFind m k = some v) :
    ∀ e ∈ m, e.1 = k → e.2 = v := by
  induction m with
  | nil => intro e he; simp at he
  | cons x rest ih =>
    obtain ⟨k1, w⟩ := x
    unfold KeysAscending at hasc
    rw [List.map_cons, List.pairwise_cons] at hasc
    intro e he hk
    rw [List.mem_cons] at he
    unfold mapFind at h
    by_cases h1 : k1 = k
    · rw [if_pos h1] at h
      simp only [Option.some.injEq] at h
      rcases he with rfl | he
      · exact h
      · exfalso
        have := hasc.1 e.1 (List.mem_map_of_mem _ he)
        simp only at this
        omega
    · rw [if_neg h1] at h
      rcases he with rfl | he
      · exact absurd hk h1
      · exact ih hasc.2 h e he hk

/-- C16: bucket `b` is locked with lockCount = 3 for the connected peer `P` (the first
node of `vNodes` with its id), no other bucket is locked, and `b` is not older than the
cutoff at the three passes at `now1`, `now2`, `now3`, between which nothing else happens.
The first two passes push nothing and leave lockCount 2, then 1; the third pushes exactly
one `smsgIgnore`, to `P`, carrying `now3 + SMSG_TIME_IGNORE`, sets `P`'s `ignoreUntil` to
that value, and leaves lockCount = 0 and lockPeerId = 0; no later pass pushes anything. -/
theorem lock_times_out_after_three_ticks (C : SmsgConsts) (SMSG_TIME_IGNORE : Nat)
    (rmOk : Int → Bool) (now1 now2 now3 : Int) (s : SmsgState) (N1 N2 : List SmsgPeer)
    (P : SmsgPeer) (b : Int) (bkt : SecMsgBucket)
    (hasc : KeysAscending s.smsgSets)
    (hfind : mapFind s.smsgSets b = some bkt)
    (hlock : bkt.nLockCount = 3) (hpeer : bkt.nLockPeerId = P.nPeerId)
    (hothers : ∀ e ∈ s.smsgSets, e.1 ≠ b → e.2.nLockCount = 0)
    (hN1 : ∀ q ∈ N1, q.nPeerId ≠ P.nPeerId)
    (hb1 : now1 - (C.SMSG_RETENTION : Int) ≤ b) (hb2 : now2 - (C.SMSG_RETENTION : Int) ≤ b)
    (hb3 : now3 - (C.SMSG_RETENTION : Int) ≤ b) :
    (gcAfter C SMSG_TIME_IGNORE rmOk [now1] s (N1 ++ P :: N2)).sent = [] ∧
    (mapAt (gcAfter C SMSG_TIME_IGNORE rmOk [now1] s (N1 ++ P :: N2)).state.smsgSets
      b).nLockCount = 2 ∧
    (gcAfter C SMSG_TIME_IGNORE rmOk [now1, now2] s (N1 ++ P :: N2)).sent = [] ∧
    (mapAt (gcAfter C SMSG_TIME_IGNORE rmOk [now1, now2] s (N1 ++ P :: N2)).state.smsgSets
      b).nLockCount = 1 ∧
    (gcAfter C SMSG_TIME_IGNORE rmOk [now1, now2, now3] s (N1 ++ P :: N2)).sent =
      [(N1.length, SmsgCommand.smsgIgnore, encodeI64 (now3 + (SMSG_TIME_IGNORE : Int)))] ∧
    (gcAfter C SMSG_TIME_IGNORE rmOk [now1, now2, now3] s (N1 ++ P :: N2)).vNodes =
      N1 ++ { P with ignoreUntil := now3 + (SMSG_TIME_IGNORE : Int) } :: N2 ∧
    (mapAt (gcAfter C SMSG_TIME_IGNORE rmOk [now1, now2, now3] s
      (N1 ++ P :: N2)).state.smsgSets b).nLockCount = 0 ∧
    (mapAt (gcAfter C SMSG_TIME_IGNORE rmOk [now1, now2, now3] s
      (N1 ++ P :: N2)).state.smsgSets b).nLockPeerId = 0 ∧
    ∀ (later : List Int) (t : Int),
      (gcAfter C SMSG_TIME_IGNORE rmOk ([now1, now2, now3] ++ later ++ [t]) s
        (N1 ++ P :: N2)).sent = [] := by
  -- first pass
  obtain ⟨a1, f1, o1, s1, v1⟩ := gcPass_single C SMSG_TIME_IGNORE now1 rmOk b s (N1 ++ P :: N2)
    bkt hasc hfind hothers hb1
  have hl1 : (gcTick bkt).nLockCount = 2 := by rw [gcTick_lockCount, hlock]
  have hp1 : (gcTick bkt).nLockPeerId = P.nPeerId := by
    unfold gcTick
    rw [if_pos (by omega), if_neg (by omega)]
    exact hpeer
  rw [if_neg (by omega)] at s1 v1
  -- second pass
  obtain ⟨a2, f2, o2, s2, v2⟩ := gcPass_single C SMSG_TIME_IGNORE now2 rmOk b
    (gcPass C SMSG_TIME_IGNORE now1 rmOk s (N1 ++ P :: N2)).state
    (gcPass C SMSG_TIME_IGNORE now1 rmOk s (N1 ++ P :: N2)).vNodes (gcTick bkt) a1 f1 o1 hb2
  have hl2 : (gcTick (gcTick bkt)).nLockCount = 1 := by rw [gcTick_lockCount, hl1]
  have hp2 : (gcTick (gcTick bkt)).nLockPeerId = P.nPeerId := by
    rw [gcTick, if_pos (by omega), if_neg (by omega)]
    exact hp1
  rw [if_neg (by omega)] at s2 v2
  -- third pass
  obtain ⟨a3, f3, o3, s3, v3⟩ := gcPass_single C SMSG_TIME_IGNORE now3 rmOk b
    (gcPass C SMSG_TIME_IGNORE now2 rmOk
      (gcPass C SMSG_TIME_IGNORE now1 rmOk s (N1 ++ P :: N2)).state
      (gcPass C SMSG_TIME_IGNORE now1 rmOk s (N1 ++ P :: N2)).vNodes).state
    (gcPass C SMSG_TIME_IGNORE now2 rmOk
      (gcPass C SMSG_TIME_IGNORE now1 rmOk s (N1 ++ P :: N2)).state
      (gcPass C SMSG_TIME_IGNORE now1 rmOk s (N1 ++ P :: N2)).vNodes).vNodes
    (gcTick (gcTick bkt)) a2 f2 o2 hb3
  rw [if_pos hl2, v2, v1, hp2, ignorePeer_found N1 N2 P _ hN1] at s3 v3
  have hl3 : (gcTick (gcTick (gcTick bkt))).nLockCount = 0 := by rw [gcTick_lockCount, hl2]
  have hp3 : (gcTick (gcTick (gcTick bkt))).nLockPeerId = 0 := by
    rw [gcTick, if_pos (by omega), if_pos (by omega)]
  have hat : ∀ (m : List (Int × SecMsgBucket)) (x : SecMsgBucket),
      mapFind m b = some x → mapAt m b = x := by
    intro m x hx; unfold mapAt; rw [hx]; rfl
  have e1 : gcAfter C SMSG_TIME_IGNORE rmOk [now1] s (N1 ++ P :: N2) =
      gcPass C SMSG_TIME_IGNORE now1 rmOk s (N1 ++ P :: N2) := rfl
  have e2 : gcAfter C SMSG_TIME_IGNORE rmOk [now1, now2] s (N1 ++ P :: N2) =
      gcPass C SMSG_TIME_IGNORE now2 rmOk
        (gcPass C SMSG_TIME_IGNORE now1 rmOk s (N1 ++ P :: N2)).state
        (gcPass C SMSG_TIME_IGNORE now1 rmOk s (N1 ++ P :: N2)).vNodes := rfl
  have e3 : gcAfter C SMSG_TIME_IGNORE rmOk [now1, now2, now3] s (N1 ++ P :: N2) =
      gcPass C SMSG_TIME_IGNORE now3 rmOk
        (gcPass C SMSG_TIME_IGNORE now2 rmOk
          (gcPass C SMSG_TIME_IGNORE now1 rmOk s (N1 ++ P :: N2)).state
          (gcPass C SMSG_TIME_IGNORE now1 rmOk s (N1 ++ P :: N2)).vNodes).state
        (gcPass C SMSG_TIME_IGNORE now2 rmOk
          (gcPass C SMSG_TIME_IGNORE now1 rmOk s (N1 ++ P :: N2)).state
          (gcPass C SMSG_TIME_IGNORE now1 rmOk s (N1 ++ P :: N2)).vNodes).vNodes := rfl
  refine ⟨by rw [e1]; exact s1, by rw [e1, hat _ _ f1]; exact hl1, by rw [e2]; exact s2,
    by rw [e2, hat _ _ f2]; exact hl2, by rw [e3, v2, v1]; exact s3, by rw [e3, v2, v1]; exact v3,
    by rw [e3, hat _ _ f3]; exact hl3, by rw [e3, hat _ _ f3]; exact hp3, ?_⟩
  intro later t
  have hall : ∀ e ∈ (gcAfter C SMSG_TIME_IGNORE rmOk [now1, now2, now3] s
      (N1 ++ P :: N2)).state.smsgSets, e.2.nLockCount = 0 := by
    rw [e3]
    intro e he
    by_cases hk : e.1 = b
    · rw [mapFind_unique _ _ _ a3 f3 e he hk]
      exact hl3
    · exact o3 e he hk
  unfold gcAfter at hall ⊢
  rw [List.foldl_append, List.foldl_append, List.foldl_cons, List.foldl_nil]
  have hfold := gcFold_unlocked C SMSG_TIME_IGNORE rmOk later _ hall
  exact (gcPass_unlocked C SMSG_TIME_IGNORE t rmOk _ _ hfold).1

set_option maxRecDepth 100000 in
/-- C16 witness: the example bucket 997200, locked with lockCount 3 for peer 1, and two
connected nodes (peer 2, then peer 1); with 5400 seconds of ignore time, the third of the
passes at 1000000, 1000030 and 1000060 tells the second node that it is ignored until
1005460. -/
theorem lock_times_out_after_three_ticks_witness :
    (gcAfter exConsts 5400 (fun _ => true) [1000000, 1000030, 1000060] exLocked
      ([{ nPeerId := 2 }] ++ ({ nPeerId := 1 } : SmsgPeer) :: [])).sent =
      [(1, SmsgCommand.smsgIgnore, encodeI64 1005460)] :=
  (lock_times_out_after_three_ticks exConsts 5400 (fun _ => true) 1000000 1000030 1000060
    exLocked [{ nPeerId := 2 }] [] { nPeerId := 1 } 997200
    (mapAt exLocked.smsgSets 997200)
    (by unfold KeysAscending; decide) (by decide) (by decide) (by decide) (by decide)
    (by decide) (by decide) (by decide) (by decide)).2.2.2.2.1

theorem mapFind_filter_ne {β : Type} (m : List (Int × β)) (key k : Int) :
    mapFind (m.filter (fun f => f.1 ≠ key)) k = if key = k then none else mapFind m k := by
  induction m with
  | nil => simp [mapFind]
  | cons e rest ih =>
    obtain ⟨k1, w⟩ := e
    by_cases h1 : k1 = key
    · have hf : List.filter (fun f : Int × β => decide (f.1 ≠ key)) ((k1, w) :: rest) =
          List.filter (fun f : Int × β => decide (f.1 ≠ key)) rest :=
        List.filter_cons_of_neg (by simp [h1])
      rw [hf, ih]
      by_cases h2 : key = k
      · rw [if_pos h2, if_pos h2]
      · rw [if_neg h2, if_neg h2, mapFind, if_neg (by omega)]
    · have hf : List.filter (fun f : Int × β => decide (f.1 ≠ key)) ((k1, w) :: rest) =
          (k1, w) :: List.filter (fun f : Int × β => decide (f.1 ≠ key)) rest :=
        List.filter_cons_of_pos (by simp [h1])
      rw [hf, mapFind, mapFind, ih]
      by_cases h2 : k1 = k
      · rw [if_pos h2, if_pos h2, if_neg (by omega)]
      · rw [if_neg h2, if_neg h2]

/-- A pass creates no bucket file. -/
theorem gcBuckets_files_none (C : SmsgConsts) (TI : Nat) (now : Int) (rmOk : Int → Bool)
    (L : List (Int × SecMsgBucket)) (files : List (Int × List Nat)) (v : List SmsgPeer) (k : Int)
    (h : mapFind files k = none) :
    mapFind (gcBuckets C TI now rmOk L files v).state.files k = none := by
  induction L generalizing files v with
  | nil => exact h
  | cons e rest ih =>
    obtain ⟨key, bkt⟩ := e
    rw [gcBuckets]
    by_cases h1 : key < now - (C.SMSG_RETENTION : Int)
    · rw [if_pos h1]
      apply ih
      by_cases hr : rmOk key = true
      · rw [if_pos hr, mapFind_filter_ne]
        split
        · rfl
        · exact h
      · rw [if_neg hr]; exact h
    · rw [if_neg h1]
      by_cases h2 : bkt.nLockCount > 0
      · rw [if_pos h2]
        by_cases h3 : bkt.nLockCount - 1 = 0
        · rw [if_pos h3]; exact ih files _ h
        · rw [if_neg h3]; exact ih files _ h
      · rw [if_neg h2]; exact ih files _ h

/-- A pass removes the file of every bucket older than the cutoff that it visits, unless
the removal fails. -/
theorem gcBuckets_files_removed (C : SmsgConsts) (TI : Nat) (now : Int) (rmOk : Int → Bool)
    (L : List (Int × SecMsgBucket)) (files : List (Int × List Nat)) (v : List SmsgPeer) (k : Int)
    (hk : k < now - (C.SMSG_RETENTION : Int)) (hrm : rmOk k = true)
    (hmem : ∃ bkt, (k, bkt) ∈ L) :
    mapFind (gcBuckets C TI now rmOk L files v).state.files k = none := by
  induction L generalizing files v with
  | nil => obtain ⟨_, h⟩ := hmem; simp at h
  | cons e rest ih =>
    obtain ⟨key, bkt⟩ := e
    obtain ⟨x, hx⟩ := hmem
    rw [List.mem_cons] at hx
    rw [gcBuckets]
    by_cases hkey : key = k
    · subst hkey
      rw [if_pos hk, if_pos hrm]
      apply gcBuckets_files_none
      rw [mapFind_filter_ne, if_pos rfl]
    · have hx2 : ∃ bkt, (k, bkt) ∈ rest := by
        rcases hx with hx | hx
        · simp only [Prod.mk.injEq] at hx; exact absurd hx.1.symm hkey
        · exact ⟨x, hx⟩
      by_cases h1 : key < now - (C.SMSG_RETENTION : Int)
      · rw [if_pos h1]
        exact ih _ _ hx2
      · rw [if_neg h1]
        by_cases h2 : bkt.nLockCount > 0
        · rw [if_pos h2]
          by_cases h3 : bkt.nLockCount - 1 = 0
          · rw [if_pos h3]; exact ih files _ hx2
          · rw [if_neg h3]; exact ih files _ hx2
        · rw [if_neg h2]; exact ih files _ hx2

/-- A pass leaves the file of a bucket start alone when `fs::remove` fails on it. -/
theorem gcBuckets_files_kept (C : SmsgConsts) (TI : Nat) (now : Int) (rmOk : Int → Bool)
    (L : List (Int × SecMsgBucket)) (files : List (Int × List Nat)) (v : List SmsgPeer) (k : Int)
    (hrm : rmOk k = false) :
    mapFind (gcBuckets C TI now rmOk L files v).state.files k = mapFind files k := by
  induction L generalizing files v with
  | nil => rfl
  | cons e rest ih =>
    obtain ⟨key, bkt⟩ := e
    rw [gcBuckets]
    by_cases h1 : key < now - (C.SMSG_RETENTION : Int)
    · rw [if_pos h1, ih]
      by_cases hr : rmOk key = true
      · rw [if_pos hr, mapFind_filter_ne]
        have hne : key ≠ k := by
          intro e
          rw [e, hrm] at hr
          exact Bool.false_ne_true hr
        rw [if_neg hne]
      · rw [if_neg hr]
    · rw [if_neg h1]
      by_cases h2 : bkt.nLockCount > 0
      · rw [if_pos h2]
        by_cases h3 : bkt.nLockCount - 1 = 0
        · rw [if_pos h3]; exact ih files _
        · rw [if_neg h3]; exact ih files _
      · rw [if_neg h2]; exact ih files _

set_option maxRecDepth 100000 in
/-- C17 (as stated, refuted): a pass at 1000000 over the example state extended by the
expired bucket 3600 and its file, with `fs::remove` failing: the bucket is erased from
the map and its file is still there. -/
theorem gc_keeps_file_when_remove_fails :
    (3600 : Int) < 1000000 - (exConsts.SMSG_RETENTION : Int) ∧
    mapFind (mapPut exLocked.smsgSets 3600 {}) 3600 = some {} ∧
    mapFind (mapPut exLocked.files 3600 [1, 2, 3]) 3600 = some [1, 2, 3] ∧
    mapFind (gcPass exConsts 5400 1000000 (fun _ => false)
      ⟨mapPut exLocked.smsgSets 3600 {}, mapPut exLocked.files 3600 [1, 2, 3]⟩
      []).state.smsgSets 3600 = none ∧
    mapFind (gcPass exConsts 5400 1000000 (fun _ => false)
      ⟨mapPut exLocked.smsgSets 3600 {}, mapPut exLocked.files 3600 [1, 2, 3]⟩
      []).state.files 3600 = some [1, 2, 3] := by
  decide

/-- C17 (amended): after one pass of the bucket management thread at time `now`, the
bucket map holds no bucket older than `now - SMSG_RETENTION`; every such bucket of the map
is erased, its file is gone when `fs::remove` did not fail on it and is left as it was
when `fs::remove` failed; and every bucket of the map that is not older than the cutoff is
still there with its token set and hash unchanged. -/
theorem gc_enforces_retention (C : SmsgConsts) (SMSG_TIME_IGNORE : Nat) (now : Int)
    (rmOk : Int → Bool) (s : SmsgState) (vNodes : List SmsgPeer) :
    (∀ e ∈ (gcPass C SMSG_TIME_IGNORE now rmOk s vNodes).state.smsgSets,
      now - (C.SMSG_RETENTION : Int) ≤ e.1) ∧
    (∀ k bkt, k < now - (C.SMSG_RETENTION : Int) → mapFind s.smsgSets k = some bkt →
      mapFind (gcPass C SMSG_TIME_IGNORE now rmOk s vNodes).state.smsgSets k = none ∧
      (rmOk k = true →
        mapFind (gcPass C SMSG_TIME_IGNORE now rmOk s vNodes).state.files k = none) ∧
      (rmOk k = false →
        mapFind (gcPass C SMSG_TIME_IGNORE now rmOk s vNodes).state.files k =
          mapFind s.files k)) ∧
    (∀ k bkt, now - (C.SMSG_RETENTION : Int) ≤ k → mapFind s.smsgSets k = some bkt →
      ∃ bkt1, mapFind (gcPass C SMSG_TIME_IGNORE now rmOk s vNodes).state.smsgSets k =
          some bkt1 ∧
        bkt1.setTokens = bkt.setTokens ∧ bkt1.hash = bkt.hash) := by
  have hsets := gcBuckets_sets C SMSG_TIME_IGNORE now rmOk s.smsgSets s.files vNodes
  refine ⟨?_, ?_, ?_⟩
  · intro e he
    unfold gcPass at he
    rw [hsets, List.mem_map] at he
    obtain ⟨x, hx, rfl⟩ := he
    have := (List.mem_filter.mp hx).2
    simpa using this
  · intro k bkt hk hf
    refine ⟨?_, ?_, ?_⟩
    · unfold gcPass
      rw [hsets, mapFind_gcSets, if_neg (by omega)]
    · intro hrm
      exact gcBuckets_files_removed C SMSG_TIME_IGNORE now rmOk s.smsgSets s.files vNodes k hk
        hrm ⟨bkt, mapFind_mem _ _ _ hf⟩
    · intro hrm
      exact gcBuckets_files_kept C SMSG_TIME_IGNORE now rmOk s.smsgSets s.files vNodes k hrm
  · intro k bkt hk hf
    refine ⟨gcTick bkt, ?_, (gcTick_content bkt).1, (gcTick_content bkt).2.1⟩
    unfold gcPass
    rw [hsets, mapFind_gcSets, if_pos hk, hf]
    rfl

set_option maxRecDepth 100000 in
/-- C17 witness: a pass at 1000000 over the example state extended by the expired bucket
3600 and its file, with `fs::remove` succeeding: the bucket and the file are gone. -/
theorem gc_enforces_retention_witness :
    mapFind (gcPass exConsts 5400 1000000 (fun _ => true)
      ⟨mapPut exLocked.smsgSets 3600 {}, mapPut exLocked.files 3600 [1, 2, 3]⟩
      []).state.smsgSets 3600 = none ∧
    mapFind (gcPass exConsts 5400 1000000 (fun _ => true)
      ⟨mapPut exLocked.smsgSets 3600 {}, mapPut exLocked.files 3600 [1, 2, 3]⟩
      []).state.files 3600 = none :=
  ⟨((gc_enforces_retention exConsts 5400 1000000 (fun _ => true)
      ⟨mapPut exLocked.smsgSets 3600 {}, mapPut exLocked.files 3600 [1, 2, 3]⟩ []).2.1
      3600 {} (by decide) (by decide)).1,
   ((gc_enforces_retention exConsts 5400 1000000 (fun _ => true)
      ⟨mapPut exLocked.smsgSets 3600 {}, mapPut exLocked.files 3600 [1, 2, 3]⟩ []).2.1
      3600 {} (by decide) (by decide)).2.1 rfl⟩

/-! ## C18: encrypt, then decrypt -/

theorem drop_take_mid (pre x post : List Nat) (n k : Nat) (hpre : pre.length = n)
    (hx : x.length = k) : ((pre ++ x ++ post).drop n).take k = x := by
  rw [List.append_assoc, List.drop_left' hpre, List.take_left' hx]

/-- The fields of a header laid out as `SecureMsgEncrypt` fills it. -/
theorem encHeader_fields (a t i c d mc n p : List Nat) (ha : a.length = 4) (ht : t.length = 8)
    (hi : i.length = 16) (hc : c.length = 33) (hd : d.length = 20) (hm : mc.length = 32)
    (hn : n.length = 4) :
    hdrNPayload (a ++ [1] ++ t ++ i ++ c ++ d ++ mc ++ n ++ p) = decodeU32 p ∧
    hdrVersion (a ++ [1] ++ t ++ i ++ c ++ d ++ mc ++ n ++ p) = 1 ∧
    ((a ++ [1] ++ t ++ i ++ c ++ d ++ mc ++ n ++ p).drop 5).take 8 = t ∧
    hdrIv (a ++ [1] ++ t ++ i ++ c ++ d ++ mc ++ n ++ p) = i ∧
    hdrCpkR (a ++ [1] ++ t ++ i ++ c ++ d ++ mc ++ n ++ p) = c ∧
    hdrDestHash (a ++ [1] ++ t ++ i ++ c ++ d ++ mc ++ n ++ p) = d ∧
    hdrMac (a ++ [1] ++ t ++ i ++ c ++ d ++ mc ++ n ++ p) = mc := by
  refine ⟨?_, ?_, ?_, ?_, ?_, ?_, ?_⟩
  · unfold hdrNPayload
    rw [List.drop_left' (by simp [ha, ht, hi, hc, hd, hm, hn])]
  · unfold hdrVersion
    have : a ++ [1] ++ t ++ i ++ c ++ d ++ mc ++ n ++ p =
        a ++ (1 :: (t ++ i ++ c ++ d ++ mc ++ n ++ p)) := by simp only [List.append_assoc]; rfl
    rw [this, List.getD_eq_getElem?_getD, List.getElem?_append_right (by omega), ha]
    simp
  · have : a ++ [1] ++ t ++ i ++ c ++ d ++ mc ++ n ++ p =
        (a ++ [1]) ++ t ++ (i ++ c ++ d ++ mc ++ n ++ p) := by simp only [List.append_assoc]
    rw [this]
    exact drop_take_mid _ _ _ 5 8 (by simp [ha]) ht
  · unfold hdrIv
    have : a ++ [1] ++ t ++ i ++ c ++ d ++ mc ++ n ++ p =
        (a ++ [1] ++ t) ++ i ++ (c ++ d ++ mc ++ n ++ p) := by simp only [List.append_assoc]
    rw [this]
    exact drop_take_mid _ _ _ 13 16 (by simp [ha, ht]) hi
  · unfold hdrCpkR
    have : a ++ [1] ++ t ++ i ++ c ++ d ++ mc ++ n ++ p =
        (a ++ [1] ++ t ++ i) ++ c ++ (d ++ mc ++ n ++ p) := by simp only [List.append_assoc]
    rw [this]
    exact drop_take_mid _ _ _ 29 33 (by simp [ha, ht, hi]) hc
  · unfold hdrDestHash
    have : a ++ [1] ++ t ++ i ++ c ++ d ++ mc ++ n ++ p =
        (a ++ [1] ++ t ++ i ++ c) ++ d ++ (mc ++ n ++ p) := by simp only [List.append_assoc]
    rw [this]
    exact drop_take_mid _ _ _ 62 20 (by simp [ha, ht, hi, hc]) hd
  · unfold hdrMac
    have : a ++ [1] ++ t ++ i ++ c ++ d ++ mc ++ n ++ p =
        (a ++ [1] ++ t ++ i ++ c ++ d) ++ mc ++ (n ++ p) := by simp only [List.append_assoc]
    rw [this]
    exact drop_take_mid _ _ _ 82 32 (by simp [ha, ht, hi, hc, hd]) hm

/-- Taking an anonymous inner payload apart. -/
theorem decryptPayload_anon (X : SmsgCrypto) (lenMsg : Nat) (data plain : List Nat)
    (msg : MessageData) (hl : lenMsg < 4294967296)
    (hfill : (128 < lenMsg ∧ X.lz4Decompress data lenMsg = some plain ∧ plain.length = lenMsg) ∨
      (lenMsg ≤ 128 ∧ data = plain ∧ plain.length = lenMsg)) :
    decryptPayload X (anonPayload lenMsg data) msg =
      ⟨0, { msg with vchMessage := plain ++ [0], sFromAddress := anonAddress }, false⟩ := by
  have hlen : (anonPayload lenMsg data).length = 9 + data.length := by
    simp [anonPayload, encodeU32_length]; omega
  have h0 : (anonPayload lenMsg data).getD 0 0 = 250 := rfl
  have hd5 : decodeU32 ((anonPayload lenMsg data).drop (9 - 4)) = lenMsg := by
    have : (anonPayload lenMsg data).drop (9 - 4) = encodeU32 lenMsg ++ data := by
      simp [anonPayload]
    rw [this]
    exact decodeU32_encodeU32 _ _ hl
  have hd9 : (anonPayload lenMsg data).drop 9 = data := by
    unfold anonPayload
    rw [List.drop_left' (by simp [encodeU32_length])]
  unfold decryptPayload
  rw [if_neg (by rw [hlen]; omega)]
  simp only [h0, decide_True, if_true]
  rw [if_neg (by rw [hlen]; omega)]
  simp only [hd5, hd9, hlen, Nat.add_sub_cancel_left, List.take_length]
  rcases hfill with ⟨hgt, hlz, hpl⟩ | ⟨hle, hdata, hpl⟩
  · rw [if_pos hgt, hlz]
    simp only [hpl, ne_eq, not_true_eq_false, if_false]
  · rw [if_neg (by omega)]
    subst hdata
    rw [if_neg (by omega), ← hpl, List.take_length]

/-- Taking a signed inner payload apart. -/
theorem decryptPayload_signed (X : SmsgCrypto) (ver : Nat) (kid sig : List Nat) (lenMsg : Nat)
    (data plain : List Nat) (msg : MessageData) (addr pk : List Nat)
    (hv : ver % 256 ≠ 250) (hk : kid.length = 20) (hs : sig.length = 65)
    (hl : lenMsg < 4294967296)
    (hfill : (128 < lenMsg ∧ X.lz4Decompress data lenMsg = some plain ∧ plain.length = lenMsg) ∨
      (lenMsg ≤ 128 ∧ data = plain ∧ plain.length = lenMsg))
    (haddr : X.addrOfKeyId kid = some addr)
    (hrec : X.recoverCompact (X.hash256 plain) sig = some pk)
    (hid : X.pubKeyId pk = kid) :
    decryptPayload X (signedPayload ver kid sig lenMsg data) msg =
      ⟨0, { msg with vchMessage := plain ++ [0], sFromAddress := addr }, false⟩ := by
  have hlen : (signedPayload ver kid sig lenMsg data).length = 90 + data.length := by
    simp [signedPayload, encodeU32_length, hk, hs]; omega
  have h0 : (signedPayload ver kid sig lenMsg data).getD 0 0 = ver % 256 := rfl
  have hd86 : decodeU32 ((signedPayload ver kid sig lenMsg data).drop (SMSG_PL_HDR_LEN - 4)) =
      lenMsg := by
    have : (signedPayload ver kid sig lenMsg data).drop (SMSG_PL_HDR_LEN - 4) =
        encodeU32 lenMsg ++ data := by
      unfold signedPayload
      rw [List.append_assoc]
      exact List.drop_left' (by simp [hk, hs, SMSG_PL_HDR_LEN])
    rw [this]
    exact decodeU32_encodeU32 _ _ hl
  have hd90 : (signedPayload ver kid sig lenMsg data).drop SMSG_PL_HDR_LEN = data := by
    unfold signedPayload
    exact List.drop_left' (by simp [hk, hs, encodeU32_length, SMSG_PL_HDR_LEN])
  have hkid : ((signedPayload ver kid sig lenMsg data).drop 1).take 20 = kid := by
    unfold signedPayload
    have : [ver % 256] ++ kid ++ sig ++ encodeU32 lenMsg ++ data =
        [ver % 256] ++ kid ++ (sig ++ encodeU32 lenMsg ++ data) := by
      simp only [List.append_assoc]
    rw [this]
    exact drop_take_mid _ _ _ 1 20 rfl hk
  have hsig : ((signedPayload ver kid sig lenMsg data).drop 21).take 65 = sig := by
    unfold signedPayload
    have : [ver % 256] ++ kid ++ sig ++ encodeU32 lenMsg ++ data =
        ([ver % 256] ++ kid) ++ sig ++ (encodeU32 lenMsg ++ data) := by
      simp only [List.append_assoc]
    rw [this]
    exact drop_take_mid _ _ _ 21 65 (by simp [hk]) hs
  unfold decryptPayload
  rw [if_neg (by rw [hlen]; omega)]
  simp only [h0, hv, decide_False, Bool.false_eq_true, if_false]
  rw [if_neg (by rw [hlen, SMSG_PL_HDR_LEN]; omega)]
  simp only [hd86, hd90, hkid, hsig, hlen]
  have hld : 90 + data.length - SMSG_PL_HDR_LEN = data.length := by
    rw [SMSG_PL_HDR_LEN]; omega
  rw [hld, List.take_length]
  rcases hfill with ⟨hgt, hlz, hpl⟩ | ⟨hle, hdata, hpl⟩
  · rw [if_pos hgt, hlz]
    simp only [hpl, ne_eq, not_true_eq_false, if_false, haddr, hrec, hid]
  · rw [if_neg (by omega)]
    subst hdata
    rw [if_neg (by omega), ← hpl, List.take_length]
    simp only [haddr, hrec, hid, ne_eq, not_true_eq_false, if_false]

/-- C18: the envelope a successful `SecureMsgEncrypt(from, to, m)` produces (its header,
its payload, and the payload length the header announces) is decrypted by
`SecureMsgDecrypt` with `to` (testOnly = false) to return 0 with the message bytes `m`
(followed by the terminating zero byte the code appends) and sFromAddress = `from`.  The
library is any that behaves as specified: the recipient's wallet holds the private key `k`
of `to`, whose ECDH secret with the envelope's public key is the one the sender computed;
AES decryption undoes AES encryption; LZ4 decompression undoes compression; for a wallet
sender, the compact signature has 65 bytes and recovers a public key with the sender's
key id, whose address string is `from` and whose version byte is not the anonymous marker
250. -/
theorem encrypt_decrypt_roundtrip (SMSG_MAX_MSG_BYTES : Nat) (X : SmsgCrypto)
    (KS KR : SmsgKeys) (now : Int) (iv keyR smsg addressFrom addressTo m hdr payload : List Nat)
    (msg0 : MessageData) (dest : Nat × List Nat) (cpkDestK k : List Nat)
    (henc : SecureMsgEncrypt SMSG_MAX_MSG_BYTES X KS now iv keyR smsg addressFrom addressTo m =
      Except.ok (hdr, payload))
    (hmax : SMSG_MAX_MSG_BYTES < 4294967296) (hplen : payload.length < 4294967296)
    (hnow : isI64 now = true) (hsmsg : smsg.length = SMSG_HDR_LEN) (hiv : iv.length = 16)
    (hto : X.addrKeyId addressTo = some dest)
    (hK : (match KS.storedKey dest.2 with
        | some key => some key
        | none => KS.localKey dest.2) = some cpkDestK)
    (hk : KR.walletKey dest.2 = some k)
    (hR33 : (X.pubOf keyR).length = 33) (hRset : X.setPubKey (X.pubOf keyR) = true)
    (hecdh : X.ecdh k (X.pubOf keyR) = X.ecdh keyR cpkDestK)
    (haes : ∀ key v p c, X.aesEncrypt key v p = some c → X.aesDecrypt key v c = some p)
    (hlz : 128 < m.length → X.lz4Decompress (X.lz4Compress m) m.length = some m)
    (hfrom : addressFrom ≠ anonAddress →
      ∃ sender keyFrom pk, X.addrKeyId addressFrom = some sender ∧ sender.1 % 256 ≠ 250 ∧
        sender.2.length = 20 ∧ KS.walletKey sender.2 = some keyFrom ∧
        (X.signCompact keyFrom (X.hash256 m)).length = 65 ∧
        X.recoverCompact (X.hash256 m) (X.signCompact keyFrom (X.hash256 m)) = some pk ∧
        X.pubKeyId pk = sender.2 ∧ X.addrOfKeyId sender.2 = some addressFrom) :
    SecureMsgDecrypt X KR false addressTo hdr payload (hdrNPayload hdr) msg0 =
      ⟨0, { timestamp := now, sFromAddress := addressFrom, vchMessage := m ++ [0] }, false⟩ := by
  have hi := isI64_bounds now hnow
  unfold SecureMsgEncrypt at henc
  by_cases h2 : m.length > SMSG_MAX_MSG_BYTES
  · rw [if_pos h2] at henc; exact absurd henc (by simp)
  rw [if_neg h2] at henc
  have hu : u32 m.length = m.length := Nat.mod_eq_of_lt (by omega)
  simp only [hto, hK, hu] at henc
  -- the sender
  cases hs : (if addressFrom = anonAddress then some ((0 : Nat), ([] : List Nat))
      else X.addrKeyId addressFrom) with
  | none => rw [hs] at henc; exact absurd henc (by simp)
  | some sender =>
  rw [hs] at henc
  simp only at henc
  by_cases h4 : X.setPubKey cpkDestK = false
  · rw [if_pos h4] at henc; exact absurd henc (by simp)
  rw [if_neg h4] at henc
  cases hP : X.ecdh keyR cpkDestK with
  | none => rw [hP] at henc; exact absurd henc (by simp)
  | some vchP =>
  rw [hP] at henc
  simp only at henc
  by_cases h1 : X.pubIsValid (X.pubOf keyR) = false ∨ X.pubIsCompressed (X.pubOf keyR) = false
  · rw [if_pos h1] at henc; exact absurd henc (by simp)
  rw [if_neg h1] at henc
  cases hdata : (if m.length > 128 then
      (if (X.lz4Compress m).length < 1 then none else some (X.lz4Compress m))
      else some m) with
  | none => rw [hdata] at henc; exact absurd henc (by simp)
  | some msgData =>
  rw [hdata] at henc
  simp only at henc
  cases hpl : (if addressFrom = anonAddress then some (anonPayload m.length msgData)
      else
        match KS.walletKey sender.2 with
        | none => none
        | some keyFrom =>
          some (signedPayload sender.1 sender.2 (X.signCompact keyFrom (X.hash256 m)) m.length
            msgData)) with
  | none => rw [hpl] at henc; exact absurd henc (by simp)
  | some vchPayload =>
  rw [hpl] at henc
  simp only at henc
  cases hct : crypterEncrypt X ((X.sha512 vchP).take 32) iv vchPayload with
  | none => rw [hct] at henc; exact absurd henc (by simp)
  | some vchCiphertext =>
  rw [hct] at henc
  simp only at henc
  cases hmac : X.hmac (((X.sha512 vchP).drop 32).take 32)
      (encodeI64 now ++ List.replicate 20 0 ++ vchCiphertext) with
  | none => rw [hmac] at henc; exact absurd henc (by simp)
  | some mac =>
  rw [hmac] at henc
  simp only at henc
  by_cases hm32 : mac.length ≠ 32
  · rw [if_pos hm32] at henc; exact absurd henc (by simp)
  rw [if_neg hm32] at henc
  simp only [Except.ok.injEq, Prod.mk.injEq] at henc
  obtain ⟨hhdr, hpay⟩ := henc
  subst hpay
  have hm32' : mac.length = 32 := by omega
  -- the fields of the header
  have hcp : (X.pubOf keyR).take 33 = X.pubOf keyR := by rw [← hR33, List.take_length]
  have hivt : iv.take 16 = iv := by rw [← hiv, List.take_length]
  obtain ⟨fn, fv, ft, fi, fc, fd, fm⟩ := encHeader_fields (smsg.take 4) (encodeI64 now) iv
    (X.pubOf keyR) (List.replicate 20 0) mac ((smsg.drop 114).take 4)
    (encodeU32 (u32 vchCiphertext.length))
    (by rw [List.length_take, hsmsg]; rfl) (encodeI64_length _) hiv hR33
    (List.length_replicate 20 0) hm32'
    (by rw [List.length_take, List.length_drop, hsmsg]; rfl)
  rw [hcp, hivt] at hhdr
  rw [hhdr] at fn fv ft fi fc fd fm
  have fnp : hdrNPayload hdr = vchCiphertext.length := by
    rw [fn]
    have hu2 : u32 vchCiphertext.length = vchCiphertext.length := Nat.mod_eq_of_lt hplen
    rw [hu2]
    have := decodeU32_encodeU32 vchCiphertext.length [] hplen
    rw [List.append_nil] at this
    exact this
  rw [fnp]
  have fts : hdrTimestamp hdr = now := by
    unfold hdrTimestamp decodeI64
    have : (hdr.drop 5).take 8 = encodeI64 now := ft
    rw [this]
    have := decodeI64_encodeI64 now [] hi.1 hi.2
    unfold decodeI64 at this
    rw [List.append_nil, List.take_of_length_le (by rw [encodeI64_length])] at this
    exact this
  have hv1 : X.pubIsValid (X.pubOf keyR) = true := by
    cases h : X.pubIsValid (X.pubOf keyR)
    · exact absurd (Or.inl h) h1
    · rfl
  cases hdec : crypterDecrypt X ((X.sha512 vchP).take 32) iv vchCiphertext with
  | none =>
    unfold crypterEncrypt at hct
    unfold crypterDecrypt at hdec
    rw [haes _ _ _ _ hct] at hdec
    exact absurd hdec (by simp)
  | some plainPayload =>
  have hpp : plainPayload = vchPayload := by
    unfold crypterEncrypt at hct
    unfold crypterDecrypt at hdec
    rw [haes _ _ _ _ hct] at hdec
    exact (Option.some.inj hdec).symm
  subst hpp
  have hc1 : X.pubIsCompressed (X.pubOf keyR) = true := by
    cases h : X.pubIsCompressed (X.pubOf keyR)
    · exact absurd (Or.inr h) h1
    · rfl
  unfold SecureMsgDecrypt
  simp only [fv, hto, hk, fc, hv1, hc1, hRset, hecdh, hP, ft, fd, fm, fi, List.take_length,
    hmac, hm32', hdec, fts, ne_eq, not_true_eq_false, if_false, Bool.true_eq_false, or_self,
    Bool.false_eq_true]
  -- the message data
  have hfill : (128 < m.length ∧ X.lz4Decompress msgData m.length = some m ∧
      m.length = m.length) ∨ (m.length ≤ 128 ∧ msgData = m ∧ m.length = m.length) := by
    by_cases hgt : m.length > 128
    · rw [if_pos hgt] at hdata
      by_cases hc1 : (X.lz4Compress m).length < 1
      · rw [if_pos hc1] at hdata; exact absurd hdata (by simp)
      · rw [if_neg hc1] at hdata
        have := Option.some.inj hdata
        subst this
        exact Or.inl ⟨hgt, hlz hgt, rfl⟩
    · rw [if_neg hgt] at hdata
      exact Or.inr ⟨by omega, (Option.some.inj hdata).symm, rfl⟩
  by_cases hanon : addressFrom = anonAddress
  · rw [if_pos hanon] at hpl
    have := Option.some.inj hpl
    subst this
    rw [decryptPayload_anon X m.length msgData m _ (by omega) hfill, hanon]
  · obtain ⟨sender2, keyFrom, pk, hs2, hver, hkid, hwk, hsl, hrec, hid, haddr⟩ := hfrom hanon
    rw [if_neg hanon, hs2] at hs
    have := Option.some.inj hs
    subst this
    rw [if_neg hanon, hwk] at hpl
    have := Option.some.inj hpl
    subst this
    rw [decryptPayload_signed X sender2.1 sender2.2 _ m.length msgData m _ addressFrom pk hver
      hkid hsl (by omega) hfill haddr hrec hid]

set_option maxRecDepth 100000 in
/-- The example envelope is what `SecureMsgEncrypt` returns. -/
theorem exEnvelope_spec :
    SecureMsgEncrypt 24576 toyCrypto exKeysA 1000000 (List.replicate 16 9)
      (List.replicate 32 5) (List.replicate 122 0) exAddrA exAddrB [104, 105, 33] =
      Except.ok (exEnvelope.1, exEnvelope.2) := by
  rfl

set_option maxRecDepth 100000 in
/-- C18 witness: with the library stand-in `toyCrypto`, the envelope node A makes from
"hi!" for B's address, signed with A's key, is decrypted by node B to "hi!" from A's
address. -/
theorem encrypt_decrypt_roundtrip_witness :
    SecureMsgDecrypt toyCrypto exKeysB false exAddrB exEnvelope.1 exEnvelope.2
      (hdrNPayload exEnvelope.1) {} =
      ⟨0, { timestamp := 1000000, sFromAddress := exAddrA, vchMessage := [104, 105, 33] ++ [0] },
        false⟩ :=
  encrypt_decrypt_roundtrip 24576 toyCrypto exKeysA exKeysB 1000000 (List.replicate 16 9)
    (List.replicate 32 5) (List.replicate 122 0) exAddrA exAddrB [104, 105, 33] exEnvelope.1
    exEnvelope.2 {} (28, exKidB) (2 :: fitBytes 32 exKidB) (fitBytes 32 exKidB)
    exEnvelope_spec (by decide) (by decide) (by decide) (by decide) (by decide) (by decide)
    (by decide) (by decide) (by decide) (by decide) (by decide)
    (fun _ _ p c h => by
      have hc : c = p.reverse := (Option.some.inj h).symm
      subst hc
      show some p.reverse.reverse = some p
      rw [List.reverse_reverse])
    (by decide)
    (fun _ => ⟨(28, exKidA), fitBytes 32 exKidA, 2 :: fitBytes 32 exKidA, by decide, by decide,
      by decide, by decide, by decide, by decide, by decide, by decide⟩)

/-! ## C19: what the MAC covers -/

/-- An envelope is accepted by `SecureMsgDecrypt` only if the tag computed from its own
fields equals its `mac` field. -/
theorem decrypt_accept_tag (X : SmsgCrypto) (K : SmsgKeys) (fTestOnly : Bool)
    (address pHeader pPayload : List Nat) (nPayload : Nat) (msg : MessageData)
    (h0 : (SecureMsgDecrypt X K fTestOnly address pHeader pPayload nPayload msg).rv = 0) :
    ∃ dest keyDest vchP,
      X.addrKeyId address = some dest ∧ K.walletKey dest.2 = some keyDest ∧
      X.ecdh keyDest (hdrCpkR pHeader) = some vchP ∧
      X.hmac (((X.sha512 vchP).drop 32).take 32)
        ((pHeader.drop 5).take 8 ++ hdrDestHash pHeader ++ pPayload.take nPayload) =
        some (hdrMac pHeader) := by
  unfold SecureMsgDecrypt at h0
  split at h0
  · simp at h0
  · split at h0
    · simp at h0
    · rename_i dest hdest
      split at h0
      · simp at h0
      · rename_i keyDest hkey
        simp only at h0
        split at h0
        · simp at h0
        · split at h0
          · simp at h0
          · split at h0
            · simp at h0
            · split at h0
              · simp at h0
              · rename_i vchP hP
                split at h0
                · simp at h0
                · rename_i MAC hmac
                  split at h0
                  · simp at h0
                  · split at h0
                    · simp at h0
                    · rename_i hne
                      have hM : MAC = hdrMac pHeader := by
                        by_contra hc
                        exact hne hc
                      exact ⟨dest, keyDest, vchP, hdest, hkey, hP, by rw [hmac, hM]⟩

/-- The result of `SecureMsgDecrypt` with testOnly = true depends on the header only
through its version, cpkR, timestamp, destHash and mac. -/
theorem decrypt_test_fields (X : SmsgCrypto) (K : SmsgKeys) (address h1 h2 pPayload : List Nat)
    (nPayload : Nat) (msg : MessageData)
    (hv : hdrVersion h2 = hdrVersion h1) (hc : hdrCpkR h2 = hdrCpkR h1)
    (ht : (h2.drop 5).take 8 = (h1.drop 5).take 8) (hd : hdrDestHash h2 = hdrDestHash h1)
    (hm : hdrMac h2 = hdrMac h1) :
    SecureMsgDecrypt X K true address h2 pPayload nPayload msg =
      SecureMsgDecrypt X K true address h1 pPayload nPayload msg := by
  unfold SecureMsgDecrypt
  simp only [hv, hc, ht, hd, hm, if_true]

theorem setNonse_setNonse (h : List Nat) (a b : Nat) (hl : 118 ≤ h.length) :
    setNonse (setNonse h a) b = setNonse h b := by
  unfold setNonse
  have h1 : (h.take 114).length = 114 := by simp; omega
  have h2 : (h.take 114 ++ encodeU32 a).length = 118 := by
    simp [encodeU32_length]; omega
  rw [List.drop_left' h2, List.append_assoc (h.take 114), List.take_left' h1]

theorem noncePasses_setNonse (hmac : List Nat → List Nat → Option (List Nat))
    (h p : List Nat) (np a n : Nat) (hl : 118 ≤ h.length) :
    noncePasses hmac (setNonse h a) p np n = noncePasses hmac h p np n := by
  unfold noncePasses
  rw [setNonse_setNonse h a n hl]

/-- The loop of `SecureMsgSetHash` when no counter value from `nonse` on passes: it ends
at the counter value 4294967295 without a digest. -/
theorem setHashLoop_none (hmac : List Nat → List Nat → Option (List Nat))
    (hok : ∀ k d, ∃ h, hmac k d = some h ∧ h.length = 32)
    (pPayload : List Nat) (nPayload : Nat) (pHeader : List Nat) (nonse : Nat)
    (hl : 118 ≤ pHeader.length) (hn : nonse ≤ 4294967295)
    (hno : ∀ m, nonse ≤ m → m < 4294967296 →
      noncePasses hmac pHeader pPayload nPayload m = false) :
    setHashLoop hmac pPayload nPayload pHeader nonse = (none, setNonse pHeader 4294967295) := by
  induction pHeader, nonse using setHashLoop.induct hmac pPayload nPayload with
  | case1 pHeader nonse hnone =>
    exfalso
    unfold powDigest at hnone
    obtain ⟨h, h1, h2⟩ := hok (powKey nonse) (powData (setNonse pHeader nonse) pPayload nPayload)
    rw [h1] at hnone
    simp [h2] at hnone
  | case2 pHeader nonse sha hsome hacc =>
    exfalso
    have := hno nonse (le_refl _) (by omega)
    unfold noncePasses at this
    rw [hsome] at this
    simp [hacc] at this
  | case3 pHeader nonse sha hsome hacc hge =>
    rw [setHashLoop, hsome]
    have : nonse = 4294967295 := by omega
    subst this
    simp [hacc]
  | case4 pHeader nonse sha hsome hacc hge ih =>
    rw [setHashLoop, hsome]
    simp only [hacc, hge, if_false]
    have hl2 : 118 ≤ (setNonse pHeader nonse).length := by
      rw [setNonse_length _ _ hl]; exact hl
    rw [ih hl2 (by omega) (fun m h1 h2 => by
      rw [noncePasses_setNonse _ _ _ _ _ _ hl]; exact hno m (by omega) h2)]
    rw [setNonse_setNonse _ _ _ hl]
    simp

/-- The loop of `SecureMsgSetHash` when `n` is the first counter value from `nonse` on that
passes: it ends at `n` with the digest of `n`. -/
theorem setHashLoop_first (hmac : List Nat → List Nat → Option (List Nat))
    (hok : ∀ k d, ∃ h, hmac k d = some h ∧ h.length = 32)
    (pPayload : List Nat) (nPayload : Nat) (pHeader : List Nat) (nonse : Nat)
    (hl : 118 ≤ pHeader.length) (n : Nat) (hle : nonse ≤ n) (hn : n < 4294967296)
    (hpass : noncePasses hmac pHeader pPayload nPayload n = true)
    (hno : ∀ m, nonse ≤ m → m < n → noncePasses hmac pHeader pPayload nPayload m = false) :
    ∃ H, powDigest hmac n (setNonse pHeader n) pPayload nPayload = some H ∧
      setHashLoop hmac pPayload nPayload pHeader nonse = (some H, setNonse pHeader n) := by
  induction pHeader, nonse using setHashLoop.induct hmac pPayload nPayload with
  | case1 pHeader nonse hnone =>
    exfalso
    unfold powDigest at hnone
    obtain ⟨h, h1, h2⟩ := hok (powKey nonse) (powData (setNonse pHeader nonse) pPayload nPayload)
    rw [h1] at hnone
    simp [h2] at hnone
  | case2 pHeader nonse sha hsome hacc =>
    have hnn : nonse = n := by
      by_contra hne
      have := hno nonse (le_refl _) (by omega)
      unfold noncePasses at this
      rw [hsome] at this
      simp [hacc] at this
    subst hnn
    exact ⟨sha, hsome, setHashLoop_accept hmac pPayload nPayload pHeader nonse sha hsome hacc⟩
  | case3 pHeader nonse sha hsome hacc hge =>
    exfalso
    have hnn : nonse = n := by omega
    subst hnn
    unfold noncePasses at hpass
    rw [hsome] at hpass
    exact hacc hpass
  | case4 pHeader nonse sha hsome hacc hge ih =>
    have hne : nonse ≠ n := by
      intro hnn
      subst hnn
      unfold noncePasses at hpass
      rw [hsome] at hpass
      exact hacc hpass
    have hl2 : 118 ≤ (setNonse pHeader nonse).length := by
      rw [setNonse_length _ _ hl]; exact hl
    obtain ⟨H, hH, hloop⟩ := ih hl2 (by omega)
      (by rw [noncePasses_setNonse _ _ _ _ _ _ hl]; exact hpass)
      (fun m h1 h2 => by
        rw [noncePasses_setNonse _ _ _ _ _ _ hl]; exact hno m (by omega) h2)
    rw [setNonse_setNonse _ _ _ hl] at hH hloop
    refine ⟨H, hH, ?_⟩
    rw [setHashLoop, hsome]
    simp only [hacc, hge, if_false]
    exact hloop

/-- C21: with the shutdown flag clear and an HMAC that always gives a 32-byte digest,
`SecureMsgSetHash` (a total function: its loop runs over the counter values 0, 1, 2, ...
and ends at 4294967295 at the latest) returns 1 exactly when no counter value below 2^32
passes the acceptance test, and then leaves the last value, 4294967295, in `nonse`;
otherwise it returns 0, and the header it leaves is the one passed in with `nonse` set to the
smallest passing value `n` and `hash` set to the first four bytes of the digest of `n`, all
other bytes as they were.  The payload is an input only. -/
theorem setHash_finds_smallest_nonce (hmac : List Nat → List Nat → Option (List Nat))
    (pHeader pPayload : List Nat) (nPayload : Nat)
    (hlen : pHeader.length = SMSG_HDR_LEN)
    (hok : ∀ k d, ∃ h, hmac k d = some h ∧ h.length = 32) :
    ((SecureMsgSetHash hmac false pHeader pPayload nPayload).1 = 1 ↔
      ∀ n, n < 4294967296 → noncePasses hmac pHeader pPayload nPayload n = false) ∧
    ((∀ n, n < 4294967296 → noncePasses hmac pHeader pPayload nPayload n = false) →
      SecureMsgSetHash hmac false pHeader pPayload nPayload =
        (1, pHeader.take 114 ++ encodeU32 4294967295 ++ pHeader.drop 118)) ∧
    ((∃ n, n < 4294967296 ∧ noncePasses hmac pHeader pPayload nPayload n = true) →
      ∃ n H, n < 4294967296 ∧ noncePasses hmac pHeader pPayload nPayload n = true ∧
        (∀ m, m < n → noncePasses hmac pHeader pPayload nPayload m = false) ∧
        powDigest hmac n (setNonse pHeader n) pPayload nPayload = some H ∧
        SecureMsgSetHash hmac false pHeader pPayload nPayload =
          (0, H.take 4 ++ (pHeader.drop 4).take 110 ++ encodeU32 n ++ pHeader.drop 118)) := by
  have hl : 118 ≤ pHeader.length := by rw [hlen]; decide
  have hnone : (∀ n, n < 4294967296 → noncePasses hmac pHeader pPayload nPayload n = false) →
      SecureMsgSetHash hmac false pHeader pPayload nPayload =
        (1, pHeader.take 114 ++ encodeU32 4294967295 ++ pHeader.drop 118) := by
    intro hno
    unfold SecureMsgSetHash
    rw [setHashLoop_none hmac hok pPayload nPayload pHeader 0 hl (by omega)
      (fun m _ h2 => hno m h2)]
    rfl
  have hsome : (∃ n, n < 4294967296 ∧ noncePasses hmac pHeader pPayload nPayload n = true) →
      ∃ n H, n < 4294967296 ∧ noncePasses hmac pHeader pPayload nPayload n = true ∧
        (∀ m, m < n → noncePasses hmac pHeader pPayload nPayload m = false) ∧
        powDigest hmac n (setNonse pHeader n) pPayload nPayload = some H ∧
        SecureMsgSetHash hmac false pHeader pPayload nPayload =
          (0, H.take 4 ++ (pHeader.drop 4).take 110 ++ encodeU32 n ++ pHeader.drop 118) := by
    intro hex
    classical
    have hex2 : ∃ n, n < 4294967296 ∧ noncePasses hmac pHeader pPayload nPayload n = true := hex
    have hspec := Nat.find_spec hex2
    have hmin : ∀ m, m < Nat.find hex2 →
        noncePasses hmac pHeader pPayload nPayload m = false := by
      intro m hm
      have := Nat.find_min hex2 hm
      have hm2 : m < 4294967296 := lt_trans hm hspec.1
      simp only [not_and, Bool.not_eq_true] at this
      exact this hm2
    obtain ⟨H, hH, hloop⟩ := setHashLoop_first hmac hok pPayload nPayload pHeader 0 hl
      (Nat.find hex2) (Nat.zero_le _) hspec.1 hspec.2 (fun m _ h2 => hmin m h2)
    refine ⟨Nat.find hex2, H, hspec.1, hspec.2, hmin, hH, ?_⟩
    unfold SecureMsgSetHash
    rw [hloop]
    have hH32 := powDigest_length _ _ _ _ _ _ hH
    simp only [Bool.false_eq_true, if_false, setHdrHash, setNonse]
    have h1 : (pHeader.take 114).length = 114 := by simp; omega
    congr 1
    rw [List.append_assoc (pHeader.take 114), List.drop_append_of_le_length (by omega),
      List.drop_take]
    simp [List.append_assoc]
  refine ⟨⟨?_, fun h => by rw [hnone h]⟩, hnone, hsome⟩
  intro h1 n hn
  by_contra hp
  have hp2 : noncePasses hmac pHeader pPayload nPayload n = true := by
    simpa using hp
  obtain ⟨n2, H, _, _, _, _, h0⟩ := hsome ⟨n, hn, hp2⟩
  rw [h0] at h1
  simp at h1

/-- C21 witness: under an HMAC stand-in that accepts the counter value 3 alone, the call on
the example header (122 bytes) returns 0 with `nonse` = 3. -/
theorem setHash_finds_smallest_nonce_witness :
    exHdr.length = SMSG_HDR_LEN ∧
    (∃ n, n < 4294967296 ∧ noncePasses hmacThird exHdr exPayload 8 n = true) ∧
    ∃ n H, n < 4294967296 ∧ noncePasses hmacThird exHdr exPayload 8 n = true ∧
        (∀ m, m < n → noncePasses hmacThird exHdr exPayload 8 m = false) ∧
        powDigest hmacThird n (setNonse exHdr n) exPayload 8 = some H ∧
        SecureMsgSetHash hmacThird false exHdr exPayload 8 =
          (0, H.take 4 ++ (exHdr.drop 4).take 110 ++ encodeU32 n ++ exHdr.drop 118) :=
  ⟨by decide, ⟨3, by decide, by decide⟩,
    (setHash_finds_smallest_nonce hmacThird exHdr exPayload 8 (by decide)
      (fun k _ => ⟨_, rfl, by simp⟩)).2.2 ⟨3, by decide, by decide⟩⟩

/-! ## C22: `timeChanged` after a successful `SecureMsgStore` -/

/-- C22 (as stated, refuted): a node whose bucket 997200 was last changed at time 1000000
stores a second envelope into it at time 1000005 with `fUpdateBucket` false: the call
returns 0, the bucket gains the token, and `timeChanged` is still 1000000. -/
theorem store_without_rehash_keeps_timeChanged :
    bucketOf exConsts (hdrTimestamp exHdr2) = 997200 ∧
    (mapAt exState1.smsgSets 997200).timeChanged = 1000000 ∧
    (SecureMsgStore exConsts 1000005 IoOutcome.ok exState1 exHdr2
      [9, 9, 9, 9, 9, 9, 9, 9] 8 false).1 = 0 ∧
    (mapAt (SecureMsgStore exConsts 1000005 IoOutcome.ok exState1 exHdr2
      [9, 9, 9, 9, 9, 9, 9, 9] 8 false).2.smsgSets 997200).setTokens.length = 2 ∧
    (mapAt (SecureMsgStore exConsts 1000005 IoOutcome.ok exState1 exHdr2
      [9, 9, 9, 9, 9, 9, 9, 9] 8 false).2.smsgSets 997200).timeChanged = 1000000 ∧
    (mapAt (SecureMsgStore exConsts 1000005 IoOutcome.ok exState1 exHdr2
      [9, 9, 9, 9, 9, 9, 9, 9] 8 false).2.smsgSets 997200).timeChanged ≠ 1000005 := by
  decide

/-- C22 (amended): a successful `SecureMsgStore` called with `fUpdateBucket` true sets the
target bucket's `timeChanged` to the current time; a successful call with `fUpdateBucket`
false leaves the target bucket's `timeChanged` as it was. -/
theorem store_timeChanged (C : SmsgConsts) (now : Int) (io : IoOutcome) (s : SmsgState)
    (pHeader pPayload : List Nat) (nPayload : Nat) (fUpdateBucket : Bool)
    (h : (SecureMsgStore C now io s pHeader pPayload nPayload fUpdateBucket).1 = 0) :
    (mapAt (SecureMsgStore C now io s pHeader pPayload nPayload fUpdateBucket).2.smsgSets
        (bucketOf C (hdrTimestamp pHeader))).timeChanged =
      if fUpdateBucket then now
      else (mapAt s.smsgSets (bucketOf C (hdrTimestamp pHeader))).timeChanged := by
  have he : SecureMsgStore C now io s pHeader pPayload nPayload fUpdateBucket =
      (0, (SecureMsgStore C now io s pHeader pPayload nPayload fUpdateBucket).2) := by
    rw [← h]
  obtain ⟨_, _, _, _, bkt2, hs, _, _, _, _, ht⟩ := store_ok_state C now io s _ pHeader
    pPayload nPayload fUpdateBucket he
  rw [hs, mapAt_mapPut_self, ht]

/-- C22 witness: the example envelope stored with `fUpdateBucket` true at time 1000000. -/
theorem store_timeChanged_witness :
    (SecureMsgStore exConsts 1000000 IoOutcome.ok {} exHdr exPayload 8 true).1 = 0 ∧
    (mapAt (SecureMsgStore exConsts 1000000 IoOutcome.ok {} exHdr exPayload 8 true).2.smsgSets
        (bucketOf exConsts (hdrTimestamp exHdr))).timeChanged =
      if true then 1000000
      else (mapAt ({} : SmsgState).smsgSets (bucketOf exConsts (hdrTimestamp exHdr))).timeChanged :=
  ⟨by decide, store_timeChanged exConsts 1000000 IoOutcome.ok {} exHdr exPayload 8 true
    (by decide)⟩

/-! ## C23: the `smsgMatch` handler -/

/-- C23 (as stated, refuted): an `smsgMatch` carrying 1000030 is handled at time 1000000
(leeway 60 seconds): `lastMatched` becomes 1000030, which is not min(1000030, 1000000). -/
theorem match_keeps_time_within_leeway :
    (encodeI64 1000030).length = 8 ∧ decodeI64 (encodeI64 1000030) = 1000030 ∧
    (SecureMsgReceiveData exConsts hmacZero 1000000 (fun _ => IoOutcome.ok) exState1 {}
      SmsgCommand.smsgMatch (encodeI64 1000030)).peer.lastMatched = 1000030 ∧
    (SecureMsgReceiveData exConsts hmacZero 1000000 (fun _ => IoOutcome.ok) exState1 {}
      SmsgCommand.smsgMatch (encodeI64 1000030)).peer.lastMatched ≠ min 1000030 1000000 := by
  decide

/-- C23 (amended): for every `smsgMatch` payload of at least 8 bytes carrying the time
`t`, the handler sets `lastMatched` to `t` when `t <= now + SMSG_TIME_LEEWAY` and to `now`
otherwise; the other fields of the peer record and the state stay as they were, nothing
is sent and no score is raised. -/
theorem match_handler_spec (C : SmsgConsts) (hmac : List Nat → List Nat → Option (List Nat))
    (now : Int) (io : Nat → IoOutcome) (s : SmsgState) (pfrom : SmsgPeer) (vchData : List Nat)
    (hlen : 8 ≤ vchData.length) :
    SecureMsgReceiveData C hmac now io s pfrom SmsgCommand.smsgMatch vchData =
      ⟨true, s,
        { pfrom with
          lastMatched :=
            if decodeI64 vchData ≤ now + (C.SMSG_TIME_LEEWAY : Int) then decodeI64 vchData
            else now },
        [], 0, false⟩ := by
  unfold SecureMsgReceiveData
  simp only
  rw [if_neg (by omega)]
  by_cases h : decodeI64 vchData ≤ now + (C.SMSG_TIME_LEEWAY : Int)
  · rw [if_pos h, if_neg (by omega)]
  · rw [if_neg h, if_pos (by omega)]

/-- C23 witness: the time 999000 handled at time 1000000 is kept as it is. -/
theorem match_handler_spec_witness :
    SecureMsgReceiveData exConsts hmacZero 1000000 (fun _ => IoOutcome.ok) exState1 {}
        SmsgCommand.smsgMatch (encodeI64 999000) =
      ⟨true, exState1,
        { ({} : SmsgPeer) with
          lastMatched :=
            if decodeI64 (encodeI64 999000) ≤ 1000000 + (exConsts.SMSG_TIME_LEEWAY : Int) then
              decodeI64 (encodeI64 999000)
            else 1000000 },
        [], 0, false⟩ :=
  match_handler_spec exConsts hmacZero 1000000 (fun _ => IoOutcome.ok) exState1 {}
    (encodeI64 999000) (by decide)

/-! ## C24: payloads that are too short -/

/-- C24 (as stated, refuted): an empty payload under `smsgShow`, `smsgHave`, `smsgWant` or
`smsgMsg`, an `smsgShow` that announces one bucket and carries none, and an `smsgInv` from
a peer that is being ignored that announces one bucket and carries none, are all dropped
without raising the score. -/
theorem short_payload_without_score :
    (SecureMsgReceiveData exConsts hmacZero 1000000 (fun _ => IoOutcome.ok) exState1 {}
      SmsgCommand.smsgShow []).misbehaving = 0 ∧
    (SecureMsgReceiveData exConsts hmacZero 1000000 (fun _ => IoOutcome.ok) exState1 {}
      SmsgCommand.smsgHave []).misbehaving = 0 ∧
    (SecureMsgReceiveData exConsts hmacZero 1000000 (fun _ => IoOutcome.ok) exState1 {}
      SmsgCommand.smsgWant []).misbehaving = 0 ∧
    (SecureMsgReceiveData exConsts hmacZero 1000000 (fun _ => IoOutcome.ok) exState1 {}
      SmsgCommand.smsgMsg []).misbehaving = 0 ∧
    (encodeU32 1).length < 4 + 8 * decodeU32 (encodeU32 1) ∧
    (SecureMsgReceiveData exConsts hmacZero 1000000 (fun _ => IoOutcome.ok) exState1 {}
      SmsgCommand.smsgShow (encodeU32 1)).misbehaving = 0 ∧
    (encodeU32 1).length < 4 + 16 * decodeU32 (encodeU32 1) ∧
    (SecureMsgReceiveData exConsts hmacZero 1000000 (fun _ => IoOutcome.ok) exState1
      { ignoreUntil := 2000000 } SmsgCommand.smsgInv (encodeU32 1)).misbehaving = 0 := by
  decide

/-- C24 (amended): a payload shorter than the minimum of `smsgInv` (4 bytes), `smsgMatch`
(8) or `smsgIgnore` (8) raises the score by exactly 1, and so does an `smsgInv` shorter
than its declared length 4 + 16 * nInvBuckets (below 2^32) from a peer that is not being
ignored; a payload shorter than the minimum of `smsgShow` (4), `smsgHave` (8), `smsgWant`
(8) or `smsgMsg` (12), and an `smsgShow` shorter than its declared length
4 + 8 * nBuckets (below 2^32), raise nothing.  In every one of these cases the state and the
peer record stay as they were and nothing is sent. -/
theorem short_payload_dropped (C : SmsgConsts) (hmac : List Nat → List Nat → Option (List Nat))
    (now : Int) (io : Nat → IoOutcome) (s : SmsgState) (pfrom : SmsgPeer) (vchData : List Nat) :
    (vchData.length < 4 →
      SecureMsgReceiveData C hmac now io s pfrom SmsgCommand.smsgInv vchData =
        ⟨false, s, pfrom, [], 1, false⟩) ∧
    (vchData.length < 8 →
      SecureMsgReceiveData C hmac now io s pfrom SmsgCommand.smsgMatch vchData =
        ⟨false, s, pfrom, [], 1, false⟩) ∧
    (vchData.length < 8 →
      SecureMsgReceiveData C hmac now io s pfrom SmsgCommand.smsgIgnore vchData =
        ⟨false, s, pfrom, [], 1, false⟩) ∧
    (4 ≤ vchData.length → pfrom.ignoreUntil ≤ now →
      4 + 16 * decodeU32 vchData < 4294967296 →
      vchData.length < 4 + 16 * decodeU32 vchData →
      SecureMsgReceiveData C hmac now io s pfrom SmsgCommand.smsgInv vchData =
        ⟨false, s, pfrom, [], 1, false⟩) ∧
    (vchData.length < 4 →
      SecureMsgReceiveData C hmac now io s pfrom SmsgCommand.smsgShow vchData =
        ⟨false, s, pfrom, [], 0, false⟩) ∧
    (4 ≤ vchData.length → 4 + 8 * decodeU32 vchData < 4294967296 →
      vchData.length < 4 + 8 * decodeU32 vchData →
      SecureMsgReceiveData C hmac now io s pfrom SmsgCommand.smsgShow vchData =
        ⟨false, s, pfrom, [], 0, false⟩) ∧
    (vchData.length < 8 →
      SecureMsgReceiveData C hmac now io s pfrom SmsgCommand.smsgHave vchData =
        ⟨false, s, pfrom, [], 0, false⟩) ∧
    (vchData.length < 8 →
      SecureMsgReceiveData C hmac now io s pfrom SmsgCommand.smsgWant vchData =
        ⟨false, s, pfrom, [], 0, false⟩) ∧
    (vchData.length < 12 →
      SecureMsgReceiveData C hmac now io s pfrom SmsgCommand.smsgMsg vchData =
        ⟨true, s, pfrom, [], 0, false⟩) := by
  refine ⟨?_, ?_, ?_, ?_, ?_, ?_, ?_, ?_, ?_⟩
  · intro h
    show handleSmsgInv C now s pfrom vchData = _
    unfold handleSmsgInv
    rw [if_pos h]
  · intro h
    unfold SecureMsgReceiveData
    simp only
    rw [if_pos h]
  · intro h
    unfold SecureMsgReceiveData
    simp only
    rw [if_pos h]
  · intro h1 h2 h3 h4
    show handleSmsgInv C now s pfrom vchData = _
    unfold handleSmsgInv
    rw [if_neg (by omega), if_neg (by omega)]
    simp only
    by_cases hb : decodeU32 vchData > u32 (C.SMSG_RETENTION / C.SMSG_BUCKET_LEN + 1)
    · rw [if_pos hb]
    · rw [if_neg hb]
      have hu : u32 (4 + decodeU32 vchData * 16) = 4 + 16 * decodeU32 vchData := by
        unfold u32
        rw [Nat.mod_eq_of_lt (by omega)]
        omega
      rw [hu, if_pos h4]
  · intro h
    show handleSmsgShow s pfrom vchData = _
    unfold handleSmsgShow
    rw [if_pos h]
  · intro h1 h3 h4
    show handleSmsgShow s pfrom vchData = _
    unfold handleSmsgShow
    rw [if_neg (by omega)]
    simp only
    have hu : u32 (4 + decodeU32 vchData * 8) = 4 + 8 * decodeU32 vchData := by
      unfold u32
      rw [Nat.mod_eq_of_lt (by omega)]
      omega
    rw [hu, if_pos h4]
  · intro h
    show handleSmsgHave C now s pfrom vchData = _
    unfold handleSmsgHave
    rw [if_pos h]
  · intro h
    show handleSmsgWant C s pfrom vchData = _
    unfold handleSmsgWant
    rw [if_pos h]
  · intro h
    unfold SecureMsgReceiveData SecureMsgReceive
    simp only
    rw [if_pos h]

/-- C24 witness: the 3-byte payload 1, 2, 3 is too short for `smsgInv`, and the 4-byte
payload announcing one bucket is shorter than the 20 bytes it declares. -/
theorem short_payload_dropped_witness :
    SecureMsgReceiveData exConsts hmacZero 1000000 (fun _ => IoOutcome.ok) exState1 {}
        SmsgCommand.smsgInv [1, 2, 3] = ⟨false, exState1, {}, [], 1, false⟩ ∧
    SecureMsgReceiveData exConsts hmacZero 1000000 (fun _ => IoOutcome.ok) exState1 {}
        SmsgCommand.smsgInv (encodeU32 1) = ⟨false, exState1, {}, [], 1, false⟩ :=
  ⟨(short_payload_dropped exConsts hmacZero 1000000 (fun _ => IoOutcome.ok) exState1 {}
      [1, 2, 3]).1 (by decide),
   (short_payload_dropped exConsts hmacZero 1000000 (fun _ => IoOutcome.ok) exState1 {}
      (encodeU32 1)).2.2.2.1 (by decide) (by decide) (by decide) (by decide)⟩

/-! ## C25: which calls create buckets -/

theorem keysGrowBy_refl (A : Int → Prop) (m : List (Int × SecMsgBucket)) :
    KeysGrowBy A m m :=
  ⟨fun _ h => h, fun _ h => Or.inl h, fun _ => rfl⟩

theorem keysGrowBy_put (A : Int → Prop) (old m : List (Int × SecMsgBucket)) (key : Int)
    (v : SecMsgBucket) (h : KeysGrowBy A old m) (ha : A key)
    (hv : v.setTokens = (mapAt m key).setTokens) :
    KeysGrowBy A old (mapPut m key v) := by
  obtain ⟨h1, h2, h3⟩ := h
  refine ⟨?_, ?_, ?_⟩
  · intro k hk
    unfold hasBucket
    rw [mapFind_mapPut]
    by_cases e : key = k
    · simp [e]
    · rw [if_neg e]; exact h1 k hk
  · intro k hk
    unfold hasBucket at hk
    rw [mapFind_mapPut] at hk
    by_cases e : key = k
    · exact Or.inr (e ▸ ha)
    · rw [if_neg e] at hk; exact h2 k hk
  · intro k
    rw [mapAt_mapPut]
    by_cases e : key = k
    · rw [if_pos e, hv, e]; exact h3 k
    · rw [if_neg e]; exact h3 k

theorem keysGrowBy_touch (A : Int → Prop) (old m : List (Int × SecMsgBucket)) (key : Int)
    (h : KeysGrowBy A old m) (ha : A key) : KeysGrowBy A old (mapTouch m key) := by
  unfold mapTouch
  cases hf : mapFind m key with
  | some b => exact h
  | none =>
    refine keysGrowBy_put A old m key {} h ha ?_
    unfold mapAt
    rw [hf]
    rfl

theorem invStep_keys (C : SmsgConsts) (now : Int) (A : Int → Prop)
    (old : List (Int × SecMsgBucket)) (acc : InvAcc) (p : List Nat)
    (ha : invEligible C now p = true → A (decodeI64 p))
    (h : KeysGrowBy A old acc.smsgSets) :
    KeysGrowBy A old (invStep C now acc p).smsgSets := by
  unfold invStep
  simp only
  by_cases h1 : decodeI64 p < now - (C.SMSG_RETENTION : Int)
  · rw [if_pos h1]
    split <;> exact h
  · rw [if_neg h1]
    by_cases h2 : decodeI64 p > now + (C.SMSG_TIME_LEEWAY : Int)
    · rw [if_pos h2]; exact h
    · rw [if_neg h2]
      by_cases h3 : decodeU32 (p.drop 8) < 1
      · rw [if_pos h3]; exact h
      · rw [if_neg h3]
        have he : invEligible C now p = true := by
          unfold invEligible
          simp only [Bool.and_eq_true, decide_eq_true_eq]
          omega
        have ht := keysGrowBy_touch A old acc.smsgSets (decodeI64 p) h (ha he)
        split
        · exact ht
        · split <;> exact ht

theorem invFold_keys (C : SmsgConsts) (now : Int) (A : Int → Prop)
    (old : List (Int × SecMsgBucket)) (ps : List (List Nat)) (acc : InvAcc)
    (ha : ∀ p ∈ ps, invEligible C now p = true → A (decodeI64 p))
    (h : KeysGrowBy A old acc.smsgSets) :
    KeysGrowBy A old (ps.foldl (invStep C now) acc).smsgSets := by
  induction ps generalizing acc with
  | nil => exact h
  | cons p rest ih =>
    rw [List.foldl_cons]
    exact ih _ (fun q hq => ha q (List.mem_cons_of_mem _ hq))
      (invStep_keys C now A old acc p (ha p (List.mem_cons_self _ _)) h)

/-- C25 (as stated, refuted): a node that has the bucket 997200 alone handles, at time
1001000, an `smsgHave` naming the bucket 1000800, an `smsgInv` advertising it, and a
`SecureMsgStore` call for it whose `fopen` fails (the call returns 1): each leaves the
bucket keys 997200 and 1000800. -/
theorem lookup_creates_bucket :
    exState1.smsgSets.map Prod.fst = [997200] ∧
    (SecureMsgReceiveData exConsts hmacZero 1001000 (fun _ => IoOutcome.ok) exState1 {}
      SmsgCommand.smsgHave (encodeI64 1000800)).state.smsgSets.map Prod.fst =
        [997200, 1000800] ∧
    (SecureMsgReceiveData exConsts hmacZero 1001000 (fun _ => IoOutcome.ok) exState1 {}
      SmsgCommand.smsgInv exInv).state.smsgSets.map Prod.fst = [997200, 1000800] ∧
    (SecureMsgStore exConsts 1001000 IoOutcome.openFails exState1
      (exHeader [0, 0, 0, 0] 1 1001000 8) exPayload 8 true).1 = 1 ∧
    (SecureMsgStore exConsts 1001000 IoOutcome.openFails exState1
      (exHeader [0, 0, 0, 0] 1 1001000 8) exPayload 8 true).2.smsgSets.map Prod.fst =
        [997200, 1000800] := by
  decide

/-- C25 (amended): handling `smsgShow` or `smsgWant` leaves the state as it was.  Handling
`smsgHave` or `smsgInv`, and a `SecureMsgStore` call that returns a failure, remove no
bucket and insert no token, and the only buckets they can add (empty) are the ones they
look up: the bucket the `smsgHave` names, the advertised buckets of the `smsgInv` inside
[now - SMSG_RETENTION, now + SMSG_TIME_LEEWAY] with a non-zero count, the bucket of the
timestamp of the envelope passed to `SecureMsgStore`. -/
theorem lookups_add_only_empty_buckets (C : SmsgConsts)
    (hmac : List Nat → List Nat → Option (List Nat)) (now : Int) (io : Nat → IoOutcome)
    (s : SmsgState) (pfrom : SmsgPeer) (vchData : List Nat) (io1 : IoOutcome)
    (pHeader pPayload : List Nat) (nPayload : Nat) (fUpdateBucket : Bool) :
    (SecureMsgReceiveData C hmac now io s pfrom SmsgCommand.smsgShow vchData).state = s ∧
    (SecureMsgReceiveData C hmac now io s pfrom SmsgCommand.smsgWant vchData).state = s ∧
    KeysGrowBy (fun k => k = decodeI64 vchData) s.smsgSets
      (SecureMsgReceiveData C hmac now io s pfrom SmsgCommand.smsgHave vchData).state.smsgSets ∧
    KeysGrowBy
      (fun k => ∃ p ∈ wireEntries vchData 4 16 (decodeU32 vchData),
        invEligible C now p = true ∧ decodeI64 p = k) s.smsgSets
      (SecureMsgReceiveData C hmac now io s pfrom SmsgCommand.smsgInv vchData).state.smsgSets ∧
    ((SecureMsgStore C now io1 s pHeader pPayload nPayload fUpdateBucket).1 ≠ 0 →
      KeysGrowBy (fun k => k = bucketOf C (hdrTimestamp pHeader)) s.smsgSets
        (SecureMsgStore C now io1 s pHeader pPayload nPayload fUpdateBucket).2.smsgSets) := by
  refine ⟨?_, ?_, ?_, ?_, ?_⟩
  · show (handleSmsgShow s pfrom vchData).state = s
    unfold handleSmsgShow
    split
    · rfl
    · simp only
      split <;> rfl
  · show (handleSmsgWant C s pfrom vchData).state = s
    unfold handleSmsgWant
    split
    · rfl
    · simp only
      split
      · rfl
      · split <;> rfl
  · show KeysGrowBy _ _ (handleSmsgHave C now s pfrom vchData).state.smsgSets
    have h0 := keysGrowBy_refl (fun k => k = decodeI64 vchData) s.smsgSets
    have h1 := keysGrowBy_touch _ _ _ (decodeI64 vchData) h0 rfl
    unfold handleSmsgHave
    split
    · exact h0
    · simp only
      split
      · exact h0
      · split
        · exact h0
        · split
          · exact h1
          · split
            · exact keysGrowBy_put _ _ _ (decodeI64 vchData) _ h1 rfl rfl
            · exact h1
  · show KeysGrowBy _ _ (handleSmsgInv C now s pfrom vchData).state.smsgSets
    have h0 := keysGrowBy_refl (fun k => ∃ p ∈ wireEntries vchData 4 16 (decodeU32 vchData),
        invEligible C now p = true ∧ decodeI64 p = k) s.smsgSets
    have hf := invFold_keys C now _ s.smsgSets (wireEntries vchData 4 16 (decodeU32 vchData))
      ⟨s.smsgSets, [0, 0, 0, 0], 0, 0, 0⟩ (fun p hp he => ⟨p, hp, he, rfl⟩) h0
    unfold handleSmsgInv
    split
    · exact h0
    · split
      · exact h0
      · simp only
        split
        · exact h0
        · split
          · exact h0
          · split
            · exact h0
            · split
              · exact hf
              · split <;> exact hf
  · intro hfail
    have h0 := keysGrowBy_refl (fun k => k = bucketOf C (hdrTimestamp pHeader)) s.smsgSets
    have h1 := keysGrowBy_touch _ _ _ (bucketOf C (hdrTimestamp pHeader)) h0 rfl
    unfold SecureMsgStore at hfail ⊢
    simp only at hfail ⊢
    split
    · exact h0
    · rename_i hrej
      split
      · exact h1
      · rename_i hfind
        cases io1 with
        | ok =>
          exfalso
          rw [if_neg hrej, hfind] at hfail
          exact hfail rfl
        | openFails => exact h1
        | writeFails w => exact h1

/-- C25 witness: a `SecureMsgStore` call rejected as a duplicate (the example envelope
stored a second time) leaves the bucket keys as they were. -/
theorem lookups_add_only_empty_buckets_witness :
    (SecureMsgStore exConsts 1000000 IoOutcome.ok exState1 exHdr exPayload 8 true).1 ≠ 0 ∧
    KeysGrowBy (fun k => k = bucketOf exConsts (hdrTimestamp exHdr)) exState1.smsgSets
      (SecureMsgStore exConsts 1000000 IoOutcome.ok exState1 exHdr exPayload 8 true).2.smsgSets :=
  ⟨by decide,
    (lookups_add_only_empty_buckets exConsts hmacZero 1000000 (fun _ => IoOutcome.ok) exState1
      {} [] IoOutcome.ok exHdr exPayload 8 true).2.2.2.2 (by decide)⟩

/-! ## C26: `SecureMsgAddAddress` and a public key of another address -/

/-- For an address that is valid, has a key id and prints as it was given, and a public key
that `SetPubKey` accepts, `SecureMsgAddAddress` is the database insert: the key id the
public key hashes to takes no part. -/
theorem addAddress_reaches_insert (L : AddrLib) (writeOk : Bool)
    (addrpkdb : List (List Nat × List Nat)) (address publicKey hashKey : List Nat)
    (hv : L.addrIsValid address = true) (hk : L.addrGetKeyId address = some hashKey)
    (hs : L.addrToString address = address)
    (hp : L.setPubKey (L.decodeBase58 publicKey) = true) :
    SecureMsgAddAddress L writeOk addrpkdb address publicKey =
      SecureMsgInsertAddress writeOk addrpkdb hashKey (L.decodeBase58 publicKey) := by
  unfold SecureMsgAddAddress
  simp [hv, hk, hs, hp]

/-- C26 (refuted, a defect of the code): the address of A with the public key of B.  The
address is valid and has the key id of A, the public key is accepted by `SetPubKey` and
hashes to the key id of B, not of A; `SecureMsgAddAddress` returns 0, not 3, and writes the
pair (key id of A, public key of B) into the empty database. -/
theorem addAddress_accepts_key_of_other_address :
    toyAddrLib.addrIsValid exAddrA = true ∧
    toyAddrLib.addrGetKeyId exAddrA = some exKidA ∧
    toyAddrLib.setPubKey (toyAddrLib.decodeBase58 exPubB) = true ∧
    toyAddrLib.pubKeyId (toyAddrLib.decodeBase58 exPubB) = exKidB ∧
    exKidB ≠ exKidA ∧
    SecureMsgAddAddress toyAddrLib true [] exAddrA exPubB = (0, [(exKidA, exPubB)]) := by
  decide

/-! ## C27: the length check of the `smsgShow` handler -/

/-- The first iteration of the bucket loop of the `smsgShow` handler reads 8 bytes at
`pIn`: with fewer than `pIn + 8` bytes received it reads past the end. -/
theorem showLoop_past_end (smsgSets : List (Int × SecMsgBucket)) (vchData : List Nat)
    (count pIn : Nat) (sent : List (SmsgCommand × List Nat))
    (h : vchData.length < pIn + 8) :
    showLoop smsgSets vchData (count + 1) pIn sent = (sent, true) := by
  rw [showLoop, if_pos h]

/-- C27 (refuted, a defect of the code): the 4-byte `smsgShow` payload 0, 0, 0, 32
announces nBuckets = 2^29.  The length check compares the 4 received bytes with
4 + 8 * nBuckets computed in 32 bits, which is 4, and lets the payload through; the first
iteration of the loop then reads the 8 bytes at offset 4, past the end of the payload. -/
theorem show_length_check_wraps :
    decodeU32 [0, 0, 0, 32] = 536870912 ∧
    ([0, 0, 0, 32] : List Nat).length < 4 + 8 * decodeU32 [0, 0, 0, 32] ∧
    u32 (4 + decodeU32 [0, 0, 0, 32] * 8) = 4 ∧
    (SecureMsgReceiveData exConsts hmacZero 1000000 (fun _ => IoOutcome.ok) exState1 {}
      SmsgCommand.smsgShow [0, 0, 0, 32]).overread = true := by
  refine ⟨by decide, by decide, by decide, ?_⟩
  show (handleSmsgShow exState1 {} [0, 0, 0, 32]).overread = true
  unfold handleSmsgShow
  rw [if_neg (by decide)]
  simp only
  rw [if_neg (by decide)]
  have hn : decodeU32 [0, 0, 0, 32] = 536870911 + 1 := by decide
  rw [hn, showLoop_past_end _ _ _ _ _ (by decide)]

/-! ## C28: the envelope loop of `SecureMsgReceive` and the end of the data -/

set_option maxRecDepth 100000 in
/-- C28 (refuted, a defect of the code): a frame of 134 bytes carrying one whole header
that declares 8 payload bytes, and no payload.  The loop checks that a header is left
(`vchData.size() - n < SMSG_HDR_LEN` is false at n = 12) and then hands the 8 declared
bytes at offset 134, the end of the data, to `SecureMsgValidate`, which reads them. -/
theorem receive_reads_past_declared_payload :
    exBunchNoPayload.length = 12 + SMSG_HDR_LEN ∧
    hdrVersion ((exBunchNoPayload.drop 12).take SMSG_HDR_LEN) = 1 ∧
    hdrNPayload ((exBunchNoPayload.drop 12).take SMSG_HDR_LEN) = 8 ∧
    (exBunchNoPayload.drop (12 + SMSG_HDR_LEN)).length = 0 ∧
    (SecureMsgReceive exConsts hmacZero 1000000 (fun _ => IoOutcome.ok) {}
      exBunchNoPayload).overread = true := by
  decide

/-! ## C29: which bucket `SecureMsgReceive` hashes -/

set_option maxRecDepth 100000 in
/-- C29 (as stated, refuted): a node holding bucket 997200 receives, at time 1001000, a
frame that names bucket 997200 and carries one valid envelope with timestamp 1001000.  The
call returns 0; the envelope is filed under its own bucket 1000800, which gains a token,
and only bucket 997200 is hashed: the hash of bucket 1000800 stays 0, which is not the
digest of its token set. -/
theorem receive_leaves_other_bucket_unhashed :
    bucketOf exConsts (hdrTimestamp exHdrLate) = 1000800 ∧
    (SecureMsgReceive exConsts hmacZero 1001000 (fun _ => IoOutcome.ok) exState1
      exBunchOtherBucket).rv = 0 ∧
    (SecureMsgReceive exConsts hmacZero 1001000 (fun _ => IoOutcome.ok) exState1
      exBunchOtherBucket).overread = false ∧
    (mapAt exState1.smsgSets 1000800).setTokens = [] ∧
    (mapAt (SecureMsgReceive exConsts hmacZero 1001000 (fun _ => IoOutcome.ok) exState1
      exBunchOtherBucket).state.smsgSets 1000800).setTokens = [⟨1001000, exPayload, 0⟩] ∧
    (mapAt (SecureMsgReceive exConsts hmacZero 1001000 (fun _ => IoOutcome.ok) exState1
      exBunchOtherBucket).state.smsgSets 1000800).hash = 0 ∧
    XXH32 1 (bucketSamples (mapAt (SecureMsgReceive exConsts hmacZero 1001000
      (fun _ => IoOutcome.ok) exState1 exBunchOtherBucket).state.smsgSets 1000800).setTokens) ≠
      0 := by
  decide

/-- C29 (amended): after `SecureMsgReceive` has processed a frame without reading past its
end, the bucket the frame names, if it holds a token it did not hold before, has `hash`
equal to the XXH32 (seed 1) digest of the samples of its token set in set order, whatever
timestamps the envelopes carry. -/
theorem receive_hashes_named_bucket (C : SmsgConsts)
    (hmac : List Nat → List Nat → Option (List Nat)) (now : Int) (io : Nat → IoOutcome)
    (s : SmsgState) (vchData : List Nat)
    (hover : (SecureMsgReceive C hmac now io s vchData).overread = false)
    (hgain : ∃ t, t ∈ (mapAt (SecureMsgReceive C hmac now io s vchData).state.smsgSets
        (decodeI64 (vchData.drop 4))).setTokens ∧
      t ∉ (mapAt s.smsgSets (decodeI64 (vchData.drop 4))).setTokens) :
    (mapAt (SecureMsgReceive C hmac now io s vchData).state.smsgSets
        (decodeI64 (vchData.drop 4))).hash =
      XXH32 1 (bucketSamples (mapAt (SecureMsgReceive C hmac now io s vchData).state.smsgSets
        (decodeI64 (vchData.drop 4))).setTokens) := by
  obtain ⟨t, ht1, ht2⟩ := hgain
  unfold SecureMsgReceive at hover ht1 ⊢
  simp only at hover ht1 ⊢
  by_cases h1 : vchData.length < 12
  · rw [if_pos h1] at ht1
    exact absurd ht1 ht2
  rw [if_neg h1] at hover ht1 ⊢
  by_cases h2 : decodeI64 (vchData.drop 4) > now + (C.SMSG_TIME_LEEWAY : Int)
  · rw [if_pos h2] at ht1
    exact absurd ht1 ht2
  rw [if_neg h2] at hover ht1 ⊢
  by_cases h3 : decodeI64 (vchData.drop 4) < now - (C.SMSG_RETENTION : Int)
  · rw [if_pos h3] at ht1
    exact absurd ht1 ht2
  rw [if_neg h3] at hover ht1 ⊢
  by_cases h4 : decodeU32 vchData = 0 ∨ decodeU32 vchData > 500
  · rw [if_pos h4] at ht1
    exfalso
    cases hf : mapFind s.smsgSets (decodeI64 (vchData.drop 4)) with
    | none =>
      rw [hf] at ht1
      exact ht2 ht1
    | some bkt =>
      rw [hf] at ht1
      simp only [mapAt_mapPut_self] at ht1
      have : mapAt s.smsgSets (decodeI64 (vchData.drop 4)) = bkt := by
        unfold mapAt; rw [hf]; rfl
      rw [this] at ht2
      exact ht2 ht1
  rw [if_neg h4] at hover ht1 ⊢
  generalize receiveLoop C hmac now io vchData (decodeU32 vchData) 0 12 s 0 = r
    at hover ht1 ⊢
  obtain ⟨st, sc, ov⟩ := r
  cases ov with
  | true => simp at hover
  | false =>
    simp only [Bool.false_eq_true, if_false] at ht1 ⊢
    cases hf : mapFind st.smsgSets (decodeI64 (vchData.drop 4)) with
    | none =>
      exfalso
      rw [hf] at ht1
      simp only [mapAt, hf, Option.getD_none] at ht1
      simp at ht1
    | some bkt =>
      simp only [mapAt_mapPut_self]
      rfl

set_option maxRecDepth 100000 in
/-- C29 witness: the example bunch of two envelopes of bucket 997200, received by a node
with an empty store. -/
theorem receive_hashes_named_bucket_witness :
    (SecureMsgReceive exConsts hmacZero 1000000 (fun _ => IoOutcome.ok) {}
      exBunchDupFirst).overread = false ∧
    (mapAt (SecureMsgReceive exConsts hmacZero 1000000 (fun _ => IoOutcome.ok) {}
        exBunchDupFirst).state.smsgSets (decodeI64 (exBunchDupFirst.drop 4))).hash =
      XXH32 1 (bucketSamples (mapAt (SecureMsgReceive exConsts hmacZero 1000000
        (fun _ => IoOutcome.ok) {} exBunchDupFirst).state.smsgSets
        (decodeI64 (exBunchDupFirst.drop 4))).setTokens) :=
  ⟨by decide,
    receive_hashes_named_bucket exConsts hmacZero 1000000 (fun _ => IoOutcome.ok) {}
      exBunchDupFirst (by decide) ⟨⟨1000000, exPayload, 0⟩, by decide, by decide⟩⟩

/-! ## C30: `SecureMsgDecrypt` and the end of the decrypted payload -/

set_option maxRecDepth 100000 in
/-- C30 (refuted, a defect of the code): four envelopes for B that pass the MAC check (the
call with testOnly = true returns 0) and whose decrypted inner payload is empty, is shorter
than the header of the anonymous form, is shorter than the header of the signed form, or
declares 100 bytes of plain text while carrying 2.  In each case the call with
testOnly = false reads past the end of the decrypted payload: the first byte of an empty
vector, the length field behind the end, or the declared bytes behind the end. -/
theorem decrypt_reads_past_inner_payload :
    (SecureMsgDecrypt cbcCrypto exKeysB true exAddrB exEnvEmptyInner.1 exEnvEmptyInner.2
      (hdrNPayload exEnvEmptyInner.1) {}).rv = 0 ∧
    (SecureMsgDecrypt cbcCrypto exKeysB false exAddrB exEnvEmptyInner.1 exEnvEmptyInner.2
      (hdrNPayload exEnvEmptyInner.1) {}).overread = true ∧
    (SecureMsgDecrypt cbcCrypto exKeysB true exAddrB exEnvShortAnon.1 exEnvShortAnon.2
      (hdrNPayload exEnvShortAnon.1) {}).rv = 0 ∧
    (SecureMsgDecrypt cbcCrypto exKeysB false exAddrB exEnvShortAnon.1 exEnvShortAnon.2
      (hdrNPayload exEnvShortAnon.1) {}).overread = true ∧
    (SecureMsgDecrypt cbcCrypto exKeysB true exAddrB exEnvShortSigned.1 exEnvShortSigned.2
      (hdrNPayload exEnvShortSigned.1) {}).rv = 0 ∧
    (SecureMsgDecrypt cbcCrypto exKeysB false exAddrB exEnvShortSigned.1 exEnvShortSigned.2
      (hdrNPayload exEnvShortSigned.1) {}).overread = true ∧
    (SecureMsgDecrypt cbcCrypto exKeysB true exAddrB exEnvLongClaim.1 exEnvLongClaim.2
      (hdrNPayload exEnvLongClaim.1) {}).rv = 0 ∧
    (SecureMsgDecrypt cbcCrypto exKeysB false exAddrB exEnvLongClaim.1 exEnvLongClaim.2
      (hdrNPayload exEnvLongClaim.1) {}).overread = true := by
  refine ⟨by decide, by decide, by decide, by decide, by decide, by decide, by decide,
    by decide⟩

end CinniCoin
